import Mathlib

/-!
# Shallow embedding of `SharedPtr/shared_ptr.h`

The control blocks live in an explicit heap (`Heap.blocks`, a block's address is its
index, storage is never handed out twice).  Every member function of the header is a
function on that heap.  A block that was deallocated keeps its last contents and is
marked `freed`; touching it afterwards is recorded in the trace as `use_after_free`.
The trace also records the calls that the specification speaks about
(`destroy_field`, `destroy_control_block`, allocation and deallocation, deleter calls).
-/

namespace shared_ptr

/-- Address of a managed object: an independently allocated object, or the inline
`storage_` of the co-located control block `cb`. -/
inductive Addr where
  | obj (a : Nat)
  | storage (cb : Nat)
deriving DecidableEq

/-- A raw `T*`: `none` is `nullptr`. -/
abbrev RawPtr := Option Addr

/-- Fields of `WeakPtr<T>`: `control_block_` and `ptr_`, both `nullptr` by default. -/
structure WeakPtr where
  control_block_ : Option Nat := none
  ptr_ : RawPtr := none
deriving DecidableEq

/-- Fields of `SharedPtr<T>`: `control_block_` and `ptr_`, both `nullptr` by default. -/
structure SharedPtr where
  control_block_ : Option Nat := none
  ptr_ : RawPtr := none
deriving DecidableEq

/-- Exceptions that leave the functions of the header: `details::bad_weak_ptr`, or an
exception thrown by user code (a constructor of `T`, a copy of a deleter or allocator). -/
inductive Exception where
  | bad_weak_ptr
  | thrown (tag : Nat)
deriving DecidableEq

namespace details

/-- Number of values of `std::size_t`; the counters wrap around modulo this. -/
def SIZE_T_RANGE : Nat := 2 ^ 64

/-- The two concrete control blocks of the header. -/
inductive BlockKind where
  | ControlBlockConstructor
  | ControlBlockAllocateShared
deriving DecidableEq

/-- A control block: the two counters of `ControlBlockBase`, the `ptr_` member of the
concrete block, and the state of the managed object that matters to the header: the
`wptr_` member of its `EnableSharedFromThis` base (`none` when `T` has no such base). -/
structure ControlBlockBase where
  shared_counter_ : Nat
  weak_counter_ : Nat
  kind : BlockKind
  ptr_ : RawPtr
  obj_wptr_ : Option WeakPtr
  freed : Bool
deriving DecidableEq

/-- Calls recorded while the code runs.  `destroy_field` and `destroy_control_block`
carry the two counters of the block as they are when the call is made. -/
inductive Event where
  | allocate (cb : Nat)
  | deallocate (cb : Nat)
  | deleter (p : RawPtr)
  | destroy (p : RawPtr)
  | destroy_field (cb shared weak : Nat)
  | destroy_control_block (cb shared weak : Nat)
  | use_after_free (cb : Nat)
deriving DecidableEq

end details

open details

/-- The control blocks allocated so far and the calls recorded so far (oldest first). -/
structure Heap where
  blocks : List ControlBlockBase := []
  trace : List Event := []
deriving DecidableEq

/-- What a pointer that addresses no allocated block reads. -/
def Heap.wild : ControlBlockBase :=
  ⟨0, 0, BlockKind.ControlBlockConstructor, none, none, true⟩

/-- The block at address `cb`. -/
def Heap.block (h : Heap) (cb : Nat) : ControlBlockBase :=
  (h.blocks[cb]?).getD Heap.wild

/-- Append a call to the trace. -/
def Heap.log (h : Heap) (e : Event) : Heap :=
  { h with trace := h.trace ++ [e] }

/-- Access to the members of block `cb` through a pointer: recorded when the block has
already been deallocated. -/
def Heap.deref (h : Heap) (cb : Nat) : Heap :=
  if (h.block cb).freed then h.log (Event.use_after_free cb) else h

/-- Overwrite the members of block `cb`. -/
def Heap.update (h : Heap) (cb : Nat) (f : ControlBlockBase → ControlBlockBase) : Heap :=
  { h with blocks := h.blocks.set cb (f (h.block cb)) }

/-- Storage for one more block, holding `b`; the address is the old number of blocks. -/
def Heap.alloc (h : Heap) (b : ControlBlockBase) : Heap :=
  { blocks := h.blocks ++ [b], trace := h.trace ++ [Event.allocate h.blocks.length] }

namespace details

/-- Source `ControlBlockBase::increment_shared_counter`: `++shared_counter_`. -/
def increment_shared_counter (h : Heap) (cb : Nat) : Heap :=
  (h.deref cb).update cb fun b =>
    { b with shared_counter_ := (b.shared_counter_ + 1) % SIZE_T_RANGE }

/-- Source `ControlBlockBase::increment_weak_counter`: `++weak_counter_`. -/
def increment_weak_counter (h : Heap) (cb : Nat) : Heap :=
  (h.deref cb).update cb fun b =>
    { b with weak_counter_ := (b.weak_counter_ + 1) % SIZE_T_RANGE }

/-- Source `ControlBlockBase::decrement_shared_counter`: `--shared_counter_` on a `size_t`. -/
def decrement_shared_counter (h : Heap) (cb : Nat) : Heap :=
  (h.deref cb).update cb fun b =>
    { b with shared_counter_ := (b.shared_counter_ + SIZE_T_RANGE - 1) % SIZE_T_RANGE }

/-- Source `ControlBlockBase::decrement_weak_counter`: `--weak_counter_` on a `size_t`. -/
def decrement_weak_counter (h : Heap) (cb : Nat) : Heap :=
  (h.deref cb).update cb fun b =>
    { b with weak_counter_ := (b.weak_counter_ + SIZE_T_RANGE - 1) % SIZE_T_RANGE }

/-- Source `ControlBlockBase::get_shared_counter`. -/
def get_shared_counter (h : Heap) (cb : Nat) : Heap × Nat :=
  (h.deref cb, (h.block cb).shared_counter_)

/-- Source `ControlBlockBase::get_weak_counter`. -/
def get_weak_counter (h : Heap) (cb : Nat) : Heap × Nat :=
  (h.deref cb, (h.block cb).weak_counter_)

/-- Source `destroy_control_block` of both concrete blocks: move the allocator out, run the
destructor of the block, hand the storage back with `deallocate`. -/
def destroy_control_block (h : Heap) (cb : Nat) : Heap :=
  let h1 := h.deref cb
  let h2 := h1.log
    (Event.destroy_control_block cb (h1.block cb).shared_counter_ (h1.block cb).weak_counter_)
  (h2.update cb fun b => { b with freed := true }).log (Event.deallocate cb)

end details

/-- Source `WeakPtr<T>::~WeakPtr`. -/
def WeakPtr.dtor (h : Heap) (self : WeakPtr) : Heap :=
  match self.control_block_ with
  | none => h
  | some cb =>
    let h1 := decrement_weak_counter h cb
    let r := get_shared_counter h1 cb
    if r.2 = 0 then
      let r2 := get_weak_counter r.1 cb
      if r2.2 = 0 then destroy_control_block r2.1 cb else r2.1
    else r.1

namespace details

/-- The destructor of the managed object `T`: the only part of it that reaches back into
this header is the destructor of the `wptr_` member of an `EnableSharedFromThis` base. -/
def object_destructor (h : Heap) (cb : Nat) : Heap :=
  match (h.block cb).obj_wptr_ with
  | none => h
  | some w => WeakPtr.dtor h w

/-- Source `destroy_field` of both concrete blocks.  `ControlBlockConstructor`:
`deleter_(ptr_); ptr_ = nullptr;` where deleting a null pointer destroys nothing.
`ControlBlockAllocateShared`: `allocator_traits::destroy(alloc_, ptr_)`. -/
def destroy_field (h : Heap) (cb : Nat) : Heap :=
  let h1 := h.deref cb
  let b := h1.block cb
  let h2 := h1.log (Event.destroy_field cb b.shared_counter_ b.weak_counter_)
  match b.kind with
  | BlockKind.ControlBlockConstructor =>
    let h3 := h2.log (Event.deleter b.ptr_)
    let h4 := if b.ptr_ = none then h3 else object_destructor h3 cb
    (h4.deref cb).update cb fun b => { b with ptr_ := none }
  | BlockKind.ControlBlockAllocateShared =>
    object_destructor (h2.log (Event.destroy b.ptr_)) cb

end details

/-- The private `SharedPtr(ControlBlockBase* control_block, T* ptr)`. -/
def SharedPtr.ctor_block (h : Heap) (control_block : Option Nat) (ptr : RawPtr) :
    Heap × SharedPtr :=
  match control_block with
  | none => (h, ⟨none, ptr⟩)
  | some cb => (increment_shared_counter h cb, ⟨some cb, ptr⟩)

/-- Source `SharedPtr<T>::SharedPtr()`. -/
def SharedPtr.ctor_default : SharedPtr := ⟨none, none⟩

/-- Source `SharedPtr<T>::SharedPtr(U* ptr)`: a `ControlBlockConstructor<U>` from `new`, then
the count goes up.  `mixin` says whether `U` derives from `EnableSharedFromThis`; the
object was built by the caller, so its `wptr_` is empty. -/
def SharedPtr.ctor_raw (h : Heap) (ptr : RawPtr) (mixin : Bool) : Heap × SharedPtr :=
  let cb := h.blocks.length
  let h1 := h.alloc ⟨0, 0, BlockKind.ControlBlockConstructor, ptr,
    if mixin then some ⟨none, none⟩ else none, false⟩
  (increment_shared_counter h1 cb, ⟨some cb, ptr⟩)

/-- Source `SharedPtr<T>::SharedPtr(const SharedPtr&)` and its converting variant. -/
def SharedPtr.ctor_copy (h : Heap) (rhs : SharedPtr) : Heap × SharedPtr :=
  match rhs.control_block_ with
  | none => (h, ⟨none, rhs.ptr_⟩)
  | some cb => (increment_shared_counter h cb, ⟨some cb, rhs.ptr_⟩)

/-- Source `SharedPtr<T>::SharedPtr(SharedPtr&&)` and its converting variant: the new pointer
and what is left in `rhs`. -/
def SharedPtr.ctor_move (rhs : SharedPtr) : SharedPtr × SharedPtr :=
  (⟨rhs.control_block_, rhs.ptr_⟩, ⟨none, none⟩)

/-- Source `SharedPtr<T>::~SharedPtr`. -/
def SharedPtr.dtor (h : Heap) (self : SharedPtr) : Heap :=
  match self.control_block_ with
  | none => h
  | some cb =>
    let h1 := decrement_shared_counter h cb
    let r := get_shared_counter h1 cb
    let h2 := if r.2 = 0 then destroy_field r.1 cb else r.1
    let r2 := get_shared_counter h2 cb
    if r2.2 = 0 then
      let r3 := get_weak_counter r2.1 cb
      if r3.2 = 0 then destroy_control_block r3.1 cb else r3.1
    else r2.1

/-- Source `SharedPtr<T>::SharedPtr(const WeakPtr<U>& rhs)`: delegates to the private
constructor, then throws when `control_block_` is null.  The delegated-to constructor
has finished by then, so the destructor of the new pointer runs during unwinding. -/
def SharedPtr.ctor_weak (h : Heap) (rhs : WeakPtr) : Heap × Except Exception SharedPtr :=
  let r := SharedPtr.ctor_block h rhs.control_block_ rhs.ptr_
  if r.2.control_block_ = none then
    (SharedPtr.dtor r.1 r.2, Except.error Exception.bad_weak_ptr)
  else (r.1, Except.ok r.2)

/-- Source `SharedPtr<T>::get`. -/
def SharedPtr.get (self : SharedPtr) : RawPtr := self.ptr_

/-- Source `SharedPtr<T>::use_count`. -/
def SharedPtr.use_count (h : Heap) (self : SharedPtr) : Nat :=
  match self.control_block_ with
  | none => 0
  | some cb => (get_shared_counter h cb).2

/-- Source `SharedPtr<T>::operator bool`. -/
def SharedPtr.toBool (self : SharedPtr) : Bool := self.ptr_ != none

/-- Source `SharedPtr<T>::swap`: the new `*this` and the new `rhs`. -/
def SharedPtr.swap (self rhs : SharedPtr) : SharedPtr × SharedPtr :=
  (⟨rhs.control_block_, rhs.ptr_⟩, ⟨self.control_block_, self.ptr_⟩)

/-- Source `WeakPtr<T>::WeakPtr()`. -/
def WeakPtr.ctor_default : WeakPtr := ⟨none, none⟩

/-- Source `WeakPtr<T>::WeakPtr(const WeakPtr&)` and its converting variant. -/
def WeakPtr.ctor_copy (h : Heap) (rhs : WeakPtr) : Heap × WeakPtr :=
  match rhs.control_block_ with
  | none => (h, ⟨none, rhs.ptr_⟩)
  | some cb => (increment_weak_counter h cb, ⟨some cb, rhs.ptr_⟩)

/-- Source `WeakPtr<T>::WeakPtr(const SharedPtr<U>&)`. -/
def WeakPtr.ctor_shared (h : Heap) (rhs : SharedPtr) : Heap × WeakPtr :=
  match rhs.control_block_ with
  | none => (h, ⟨none, rhs.ptr_⟩)
  | some cb => (increment_weak_counter h cb, ⟨some cb, rhs.ptr_⟩)

/-- Source `WeakPtr<T>::WeakPtr(WeakPtr&&)` and its converting variant: the new pointer and
what is left in `rhs`. -/
def WeakPtr.ctor_move (rhs : WeakPtr) : WeakPtr × WeakPtr :=
  (⟨rhs.control_block_, rhs.ptr_⟩, ⟨none, none⟩)

/-- Source `WeakPtr<T>::use_count`: the shared counter of the block, 0 without a block. -/
def WeakPtr.use_count (h : Heap) (self : WeakPtr) : Nat :=
  match self.control_block_ with
  | none => 0
  | some cb => (get_shared_counter h cb).2

/-- Source `WeakPtr<T>::expired`. -/
def WeakPtr.expired (h : Heap) (self : WeakPtr) : Bool :=
  WeakPtr.use_count h self == 0

/-- Source `WeakPtr<T>::swap`: the new `*this` and the new `rhs`. -/
def WeakPtr.swap (self rhs : WeakPtr) : WeakPtr × WeakPtr :=
  (⟨rhs.control_block_, rhs.ptr_⟩, ⟨self.control_block_, self.ptr_⟩)

/-- Source `WeakPtr<T>::lock`: `return SharedPtr<T>(*this);`. -/
def WeakPtr.lock (h : Heap) (self : WeakPtr) : Heap × Except Exception SharedPtr :=
  SharedPtr.ctor_weak h self

/-- Source `WeakPtr<T>::operator=(const SharedPtr<U>&)`: `WeakPtr(rhs).swap(*this)`, then the
temporary dies.  Returns the heap and the new `*this`. -/
def WeakPtr.assign_shared (h : Heap) (self : WeakPtr) (rhs : SharedPtr) : Heap × WeakPtr :=
  let t := WeakPtr.ctor_shared h rhs
  let s := WeakPtr.swap t.2 self
  (WeakPtr.dtor t.1 s.1, s.2)

/-- Source `allocateShared<T>(alloc, args...)`.  `mixin`: `T` derives from
`EnableSharedFromThis<T>`.  `ctor_throws`: the constructor of `T` run by
`allocator_traits::construct` throws; there is no handler around the placement-new, so
the exception leaves with the storage still allocated. -/
def allocateShared (h : Heap) (mixin : Bool) (ctor_throws : Option Nat) :
    Heap × Except Exception SharedPtr :=
  let cb := h.blocks.length
  let h1 := h.alloc ⟨0, 0, BlockKind.ControlBlockAllocateShared, some (Addr.storage cb),
    if mixin then some ⟨none, none⟩ else none, false⟩
  match ctor_throws with
  | some tag => (h1, Except.error (Exception.thrown tag))
  | none =>
    let ans := SharedPtr.ctor_block h1 (some cb) (h1.block cb).ptr_
    match (ans.1.block cb).obj_wptr_ with
    | none => (ans.1, Except.ok ans.2)
    | some w =>
      let r := WeakPtr.assign_shared ans.1 w ans.2
      (r.1.update cb fun b => { b with obj_wptr_ := some r.2 }, Except.ok ans.2)

/-- Source `makeShared<T>(args...)`: `allocateShared` with `std::allocator<T>`. -/
def makeShared (h : Heap) (mixin : Bool) (ctor_throws : Option Nat) :
    Heap × Except Exception SharedPtr :=
  allocateShared h mixin ctor_throws

/-- Where the construction `ControlBlockType(ptr, deleter, alloc)` inside the
placement-new of `SharedPtr(U*, Deleter, Allocator)` throws: while `deleter` or `alloc` is
copied into the by-value parameter of the block constructor (nothing of the block is
initialised yet), or while the member `deleter_` or `alloc_` is initialised from it (the
counters and `ptr_` are already initialised). -/
inductive ThrowPoint where
  | arg_deleter
  | arg_alloc
  | member_deleter
  | member_alloc
deriving DecidableEq

/-- Source `SharedPtr<T>::SharedPtr(U* ptr, Deleter deleter, Allocator alloc)`.  `raw` is what
the storage returned by `allocate` happens to hold (its counters and `ptr_`).  When the
construction of the block throws, the handler calls `destroy_field` and
`destroy_control_block` on the storage as it is, then `deleter(ptr)`, then rethrows. -/
def SharedPtr.ctor_deleter_alloc (h : Heap) (ptr : RawPtr) (mixin : Bool)
    (raw : ControlBlockBase) (throws : Option (ThrowPoint × Nat)) :
    Heap × Except Exception SharedPtr :=
  let cb := h.blocks.length
  let obj : Option WeakPtr := if mixin then some ⟨none, none⟩ else none
  let h1 := h.alloc ⟨raw.shared_counter_, raw.weak_counter_,
    BlockKind.ControlBlockConstructor, raw.ptr_, obj, false⟩
  match throws with
  | none =>
    let h2 := h1.update cb fun b => { b with shared_counter_ := 0, weak_counter_ := 0, ptr_ := ptr }
    (increment_shared_counter h2 cb, Except.ok ⟨some cb, ptr⟩)
  | some (at_, tag) =>
    let h2 := match at_ with
      | ThrowPoint.arg_deleter => h1
      | ThrowPoint.arg_alloc => h1
      | ThrowPoint.member_deleter =>
        h1.update cb fun b => { b with shared_counter_ := 0, weak_counter_ := 0, ptr_ := ptr }
      | ThrowPoint.member_alloc =>
        h1.update cb fun b => { b with shared_counter_ := 0, weak_counter_ := 0, ptr_ := ptr }
    let h3 := destroy_field h2 cb
    let h4 := destroy_control_block h3 cb
    (h4.log (Event.deleter ptr), Except.error (Exception.thrown tag))

/-- Source `SharedPtr<T>::SharedPtr(T* ptr, Deleter deleter)`: delegates with `std::allocator<T>()`. -/
def SharedPtr.ctor_deleter (h : Heap) (ptr : RawPtr) (mixin : Bool)
    (raw : ControlBlockBase) (throws : Option (ThrowPoint × Nat)) :
    Heap × Except Exception SharedPtr :=
  SharedPtr.ctor_deleter_alloc h ptr mixin raw throws

/-! ## Programs: pointer variables and sequences of operations on them -/

/-- A program state: the heap and the pointer variables declared so far.  A variable
whose lifetime has ended is `none`; temporaries of an expression are variables too. -/
structure World where
  heap : Heap := {}
  strong : List (Option SharedPtr) := []
  weak : List (Option WeakPtr) := []
deriving DecidableEq

/-- Statement `SharedPtr<T> s;` -/
def World.sp_default (w : World) : World :=
  { w with strong := w.strong ++ [some SharedPtr.ctor_default] }

/-- Statement `SharedPtr<T> s(ptr);` -/
def World.sp_raw (w : World) (ptr : RawPtr) (mixin : Bool) : World :=
  let r := SharedPtr.ctor_raw w.heap ptr mixin
  { w with heap := r.1, strong := w.strong ++ [some r.2] }

/-- Statement `SharedPtr<T> s(strong[src]);` -/
def World.sp_copy (w : World) (src : Nat) : World :=
  match w.strong[src]? with
  | some (some rhs) =>
    let r := SharedPtr.ctor_copy w.heap rhs
    { w with heap := r.1, strong := w.strong ++ [some r.2] }
  | _ => w

/-- Statement `SharedPtr<T> s(std::move(strong[src]));` -/
def World.sp_move (w : World) (src : Nat) : World :=
  match w.strong[src]? with
  | some (some rhs) =>
    let r := SharedPtr.ctor_move rhs
    { w with strong := w.strong.set src (some r.2) ++ [some r.1] }
  | _ => w

/-- Statement `SharedPtr<T> s(weak[src]);` a new variable only when nothing is thrown. -/
def World.sp_weak (w : World) (src : Nat) : World :=
  match w.weak[src]? with
  | some (some rhs) =>
    let r := SharedPtr.ctor_weak w.heap rhs
    match r.2 with
    | Except.ok s => { w with heap := r.1, strong := w.strong ++ [some s] }
    | Except.error _ => { w with heap := r.1 }
  | _ => w

/-- Statement `auto s = weak[src].lock();` a new variable only when nothing is thrown. -/
def World.wp_lock (w : World) (src : Nat) : World :=
  match w.weak[src]? with
  | some (some self) =>
    let r := WeakPtr.lock w.heap self
    match r.2 with
    | Except.ok s => { w with heap := r.1, strong := w.strong ++ [some s] }
    | Except.error _ => { w with heap := r.1 }
  | _ => w

/-- Statement `auto s = allocateShared<T>(alloc, args...);` -/
def World.sp_allocate (w : World) (mixin : Bool) (ctor_throws : Option Nat) : World :=
  let r := allocateShared w.heap mixin ctor_throws
  match r.2 with
  | Except.ok s => { w with heap := r.1, strong := w.strong ++ [some s] }
  | Except.error _ => { w with heap := r.1 }

/-- Statement `SharedPtr<T> s(ptr, deleter, alloc);` or `SharedPtr<T> s(ptr, deleter);` a new
variable only when nothing is thrown. -/
def World.sp_deleter (w : World) (ptr : RawPtr) (mixin : Bool) (raw : ControlBlockBase)
    (throws : Option (ThrowPoint × Nat)) : World :=
  let r := SharedPtr.ctor_deleter_alloc w.heap ptr mixin raw throws
  match r.2 with
  | Except.ok s => { w with heap := r.1, strong := w.strong ++ [some s] }
  | Except.error _ => { w with heap := r.1 }

/-- Statement `strong[i].swap(strong[j]);` -/
def World.sp_swap (w : World) (i j : Nat) : World :=
  match w.strong[i]?, w.strong[j]? with
  | some (some a), some (some b) =>
    let r := SharedPtr.swap a b
    { w with strong := (w.strong.set i (some r.1)).set j (some r.2) }
  | _, _ => w

/-- The lifetime of `strong[i]` ends: its destructor runs. -/
def World.sp_dtor (w : World) (i : Nat) : World :=
  match w.strong[i]? with
  | some (some self) =>
    { w with heap := SharedPtr.dtor w.heap self, strong := w.strong.set i none }
  | _ => w

/-- Statement `strong[dst] = strong[src];` which is `SharedPtr(rhs).swap(*this)`. -/
def World.sp_assign (w : World) (dst src : Nat) : World :=
  (((w.sp_copy src).sp_swap w.strong.length dst).sp_dtor w.strong.length)

/-- Statement `strong[dst] = std::move(strong[src]);` which is `SharedPtr(std::move(rhs)).swap(*this)`. -/
def World.sp_move_assign (w : World) (dst src : Nat) : World :=
  (((w.sp_move src).sp_swap w.strong.length dst).sp_dtor w.strong.length)

/-- Statement `strong[i].reset();` which is `SharedPtr<T>().swap(*this)`. -/
def World.sp_reset (w : World) (i : Nat) : World :=
  ((w.sp_default.sp_swap w.strong.length i).sp_dtor w.strong.length)

/-- Statement `strong[i].reset(ptr);` which is `SharedPtr<T>(ptr).swap(*this)`. -/
def World.sp_reset_raw (w : World) (i : Nat) (ptr : RawPtr) (mixin : Bool) : World :=
  (((w.sp_raw ptr mixin).sp_swap w.strong.length i).sp_dtor w.strong.length)

/-- Statement `strong[i].reset(ptr, deleter, alloc);` or `strong[i].reset(ptr, deleter);`
which is `SharedPtr<T>(ptr, deleter, alloc).swap(*this)`; when the constructor throws
nothing is swapped. -/
def World.sp_reset_deleter (w : World) (i : Nat) (ptr : RawPtr) (mixin : Bool)
    (raw : ControlBlockBase) (throws : Option (ThrowPoint × Nat)) : World :=
  (((w.sp_deleter ptr mixin raw throws).sp_swap w.strong.length i).sp_dtor w.strong.length)

/-- Statement `WeakPtr<T> x;` -/
def World.wp_default (w : World) : World :=
  { w with weak := w.weak ++ [some WeakPtr.ctor_default] }

/-- Statement `WeakPtr<T> x(weak[src]);` -/
def World.wp_copy (w : World) (src : Nat) : World :=
  match w.weak[src]? with
  | some (some rhs) =>
    let r := WeakPtr.ctor_copy w.heap rhs
    { w with heap := r.1, weak := w.weak ++ [some r.2] }
  | _ => w

/-- Statement `WeakPtr<T> x(strong[src]);` -/
def World.wp_shared (w : World) (src : Nat) : World :=
  match w.strong[src]? with
  | some (some rhs) =>
    let r := WeakPtr.ctor_shared w.heap rhs
    { w with heap := r.1, weak := w.weak ++ [some r.2] }
  | _ => w

/-- Statement `WeakPtr<T> x(std::move(weak[src]));` -/
def World.wp_move (w : World) (src : Nat) : World :=
  match w.weak[src]? with
  | some (some rhs) =>
    let r := WeakPtr.ctor_move rhs
    { w with weak := w.weak.set src (some r.2) ++ [some r.1] }
  | _ => w

/-- Statement `weak[i].swap(weak[j]);` -/
def World.wp_swap (w : World) (i j : Nat) : World :=
  match w.weak[i]?, w.weak[j]? with
  | some (some a), some (some b) =>
    let r := WeakPtr.swap a b
    { w with weak := (w.weak.set i (some r.1)).set j (some r.2) }
  | _, _ => w

/-- The lifetime of `weak[i]` ends: its destructor runs. -/
def World.wp_dtor (w : World) (i : Nat) : World :=
  match w.weak[i]? with
  | some (some self) =>
    { w with heap := WeakPtr.dtor w.heap self, weak := w.weak.set i none }
  | _ => w

/-- Statement `weak[dst] = weak[src];` which is `WeakPtr(rhs).swap(*this)`. -/
def World.wp_assign (w : World) (dst src : Nat) : World :=
  (((w.wp_copy src).wp_swap w.weak.length dst).wp_dtor w.weak.length)

/-- Statement `weak[dst] = strong[src];` which is `WeakPtr(rhs).swap(*this)`. -/
def World.wp_assign_shared (w : World) (dst src : Nat) : World :=
  (((w.wp_shared src).wp_swap w.weak.length dst).wp_dtor w.weak.length)

/-- Statement `weak[dst] = std::move(weak[src]);` which is `WeakPtr(std::move(rhs)).swap(*this)`. -/
def World.wp_move_assign (w : World) (dst src : Nat) : World :=
  (((w.wp_move src).wp_swap w.weak.length dst).wp_dtor w.weak.length)

/-- Statement `weak[i].reset();` which is `WeakPtr().swap(*this)`. -/
def World.wp_reset (w : World) (i : Nat) : World :=
  ((w.wp_default.wp_swap w.weak.length i).wp_dtor w.weak.length)

/-- One statement of a program over the pointer variables. -/
inductive Op where
  | sp_default
  | sp_raw (ptr : RawPtr) (mixin : Bool)
  | sp_copy (src : Nat)
  | sp_move (src : Nat)
  | sp_weak (src : Nat)
  | sp_allocate (mixin : Bool) (ctor_throws : Option Nat)
  | sp_swap (i j : Nat)
  | sp_dtor (i : Nat)
  | sp_assign (dst src : Nat)
  | sp_move_assign (dst src : Nat)
  | sp_reset (i : Nat)
  | sp_reset_raw (i : Nat) (ptr : RawPtr) (mixin : Bool)
  | sp_deleter (ptr : RawPtr) (mixin : Bool) (raw : ControlBlockBase)
      (throws : Option (ThrowPoint × Nat))
  | sp_reset_deleter (i : Nat) (ptr : RawPtr) (mixin : Bool) (raw : ControlBlockBase)
      (throws : Option (ThrowPoint × Nat))
  | wp_default
  | wp_copy (src : Nat)
  | wp_shared (src : Nat)
  | wp_move (src : Nat)
  | wp_lock (src : Nat)
  | wp_swap (i j : Nat)
  | wp_dtor (i : Nat)
  | wp_assign (dst src : Nat)
  | wp_assign_shared (dst src : Nat)
  | wp_move_assign (dst src : Nat)
  | wp_reset (i : Nat)
deriving DecidableEq

/-- Run one statement. -/
def World.step (w : World) : Op → World
  | Op.sp_default => w.sp_default
  | Op.sp_raw ptr m => w.sp_raw ptr m
  | Op.sp_copy src => w.sp_copy src
  | Op.sp_move src => w.sp_move src
  | Op.sp_weak src => w.sp_weak src
  | Op.sp_allocate m t => w.sp_allocate m t
  | Op.sp_swap i j => w.sp_swap i j
  | Op.sp_dtor i => w.sp_dtor i
  | Op.sp_assign dst src => w.sp_assign dst src
  | Op.sp_move_assign dst src => w.sp_move_assign dst src
  | Op.sp_reset i => w.sp_reset i
  | Op.sp_reset_raw i ptr m => w.sp_reset_raw i ptr m
  | Op.sp_deleter ptr m raw t => w.sp_deleter ptr m raw t
  | Op.sp_reset_deleter i ptr m raw t => w.sp_reset_deleter i ptr m raw t
  | Op.wp_default => w.wp_default
  | Op.wp_copy src => w.wp_copy src
  | Op.wp_shared src => w.wp_shared src
  | Op.wp_move src => w.wp_move src
  | Op.wp_lock src => w.wp_lock src
  | Op.wp_swap i j => w.wp_swap i j
  | Op.wp_dtor i => w.wp_dtor i
  | Op.wp_assign dst src => w.wp_assign dst src
  | Op.wp_assign_shared dst src => w.wp_assign_shared dst src
  | Op.wp_move_assign dst src => w.wp_move_assign dst src
  | Op.wp_reset i => w.wp_reset i

/-- Run a program, first statement first. -/
def World.run (w : World) (ops : List Op) : World :=
  ops.foldl World.step w

/-! ## Summaries used to state what the destructors do to a live block -/

/-- Replace block `cb` by `blk` and append `evs` to the trace. -/
def Heap.put (h : Heap) (cb : Nat) (blk : ControlBlockBase) (evs : List Event) : Heap :=
  { blocks := h.blocks.set cb blk, trace := h.trace ++ evs }

/-- The managed object holds no seeded `wptr_`: its destructor touches no control block. -/
def details.ControlBlockBase.inert (b : ControlBlockBase) : Prop :=
  ∀ w, b.obj_wptr_ = some w → w.control_block_ = none

/-- The event recorded by `destroy_field` for the destruction of the object. -/
def details.ControlBlockBase.field_event (b : ControlBlockBase) : Event :=
  match b.kind with
  | BlockKind.ControlBlockConstructor => Event.deleter b.ptr_
  | BlockKind.ControlBlockAllocateShared => Event.destroy b.ptr_

/-- The `ptr_` member after `destroy_field`. -/
def details.ControlBlockBase.field_ptr (b : ControlBlockBase) : RawPtr :=
  match b.kind with
  | BlockKind.ControlBlockConstructor => none
  | BlockKind.ControlBlockAllocateShared => b.ptr_

/-- Block `b` after `~SharedPtr` of a pointer that references it. -/
def SharedPtr.dtor_block (b : ControlBlockBase) : ControlBlockBase :=
  if b.shared_counter_ = 1 then
    { b with shared_counter_ := 0, ptr_ := b.field_ptr, freed := decide (b.weak_counter_ = 0) }
  else { b with shared_counter_ := b.shared_counter_ - 1 }

/-- Calls made by `~SharedPtr` of a pointer that references block `cb` holding `b`. -/
def SharedPtr.dtor_events (cb : Nat) (b : ControlBlockBase) : List Event :=
  if b.shared_counter_ = 1 then
    [Event.destroy_field cb 0 b.weak_counter_, b.field_event] ++
      (if b.weak_counter_ = 0 then
        [Event.destroy_control_block cb 0 0, Event.deallocate cb] else [])
  else []

/-- Block `b` after `~WeakPtr` of a pointer that references it. -/
def WeakPtr.dtor_block (b : ControlBlockBase) : ControlBlockBase :=
  { b with weak_counter_ := b.weak_counter_ - 1,
           freed := decide (b.shared_counter_ = 0 ∧ b.weak_counter_ = 1) }

/-- Calls made by `~WeakPtr` of a pointer that references block `cb` holding `b`. -/
def WeakPtr.dtor_events (cb : Nat) (b : ControlBlockBase) : List Event :=
  if b.shared_counter_ = 0 ∧ b.weak_counter_ = 1 then
    [Event.destroy_control_block cb 0 0, Event.deallocate cb]
  else []

/-! ## What is counted: references and recorded calls -/

/-- The variable is alive and references block `b`. -/
def SharedPtr.owns (b : Nat) : Option SharedPtr → Bool
  | some s => s.control_block_ == some b
  | none => false

/-- The variable is alive and references block `b`. -/
def WeakPtr.observes (b : Nat) : Option WeakPtr → Bool
  | some s => s.control_block_ == some b
  | none => false

/-- Number of live `SharedPtr` variables that reference block `b`. -/
def World.strong_refs (w : World) (b : Nat) : Nat := w.strong.countP (SharedPtr.owns b)

/-- Number of live `WeakPtr` variables that reference block `b`. -/
def World.weak_refs (w : World) (b : Nat) : Nat := w.weak.countP (WeakPtr.observes b)

/-- The call is `destroy_field` on block `b`. -/
def details.Event.is_destroy_field (b : Nat) : Event → Bool
  | Event.destroy_field c _ _ => c == b
  | _ => false

/-- The call is `destroy_control_block` on block `b`. -/
def details.Event.is_destroy_control_block (b : Nat) : Event → Bool
  | Event.destroy_control_block c _ _ => c == b
  | _ => false

/-- The record of an access to a deallocated block. -/
def details.Event.is_use_after_free : Event → Bool
  | Event.use_after_free _ => true
  | _ => false

/-- Number of `destroy_field` calls made on block `b` so far. -/
def Heap.destroy_field_calls (h : Heap) (b : Nat) : Nat :=
  h.trace.countP (Event.is_destroy_field b)

/-- Number of `destroy_control_block` calls made on block `b` so far. -/
def Heap.destroy_control_block_calls (h : Heap) (b : Nat) : Nat :=
  h.trace.countP (Event.is_destroy_control_block b)

/-- The invariant of programs that neither promote a `WeakPtr` nor seed a `wptr_`: the
counters are the numbers of live references, a block is deallocated exactly when nothing
references it, and the destroy calls made so far match that. -/
structure World.Inv (w : World) : Prop where
  len_strong : w.strong.length < SIZE_T_RANGE
  len_weak : w.weak.length < SIZE_T_RANGE
  shared : ∀ b, (w.heap.block b).shared_counter_ = w.strong_refs b
  weak : ∀ b, (w.heap.block b).weak_counter_ = w.weak_refs b
  freed : ∀ b, (w.heap.block b).freed = true ↔ (w.strong_refs b = 0 ∧ w.weak_refs b = 0)
  inert : ∀ b, (w.heap.block b).inert
  no_uaf : ∀ e ∈ w.heap.trace, Event.is_use_after_free e = false
  dcb_zero : ∀ b s k, Event.destroy_control_block b s k ∈ w.heap.trace → s = 0 ∧ k = 0
  df_zero : ∀ b s k, Event.destroy_field b s k ∈ w.heap.trace → s = 0
  dcb_calls : ∀ b, w.heap.destroy_control_block_calls b =
    if b < w.heap.blocks.length then (if (w.heap.block b).freed then 1 else 0) else 0
  df_calls : ∀ b, w.heap.destroy_field_calls b =
    if b < w.heap.blocks.length then (if (w.heap.block b).shared_counter_ = 0 then 1 else 0)
    else 0

/-- Statements that construct from a raw pointer (without an exception), copy, move,
assign, swap, reset or destroy `SharedPtr` variables, and nothing else. -/
def Op.strong_only : Op → Bool
  | Op.sp_default => true
  | Op.sp_raw _ _ => true
  | Op.sp_copy _ => true
  | Op.sp_move _ => true
  | Op.sp_swap _ _ => true
  | Op.sp_dtor _ => true
  | Op.sp_assign _ _ => true
  | Op.sp_move_assign _ _ => true
  | Op.sp_reset _ => true
  | Op.sp_reset_raw _ _ _ => true
  | Op.sp_deleter _ _ _ none => true
  | Op.sp_reset_deleter _ _ _ _ none => true
  | _ => false

/-- Statements other than: a promotion of a `WeakPtr` (`SharedPtr(const WeakPtr&)`,
`lock()`), a co-located construction of a type with the `EnableSharedFromThis` base, a
construction that throws. -/
def Op.plain : Op → Bool
  | Op.sp_weak _ => false
  | Op.wp_lock _ => false
  | Op.sp_allocate false none => true
  | Op.sp_allocate _ _ => false
  | Op.sp_deleter _ _ _ (some _) => false
  | Op.sp_reset_deleter _ _ _ _ (some _) => false
  | _ => true

/-- The raw pointer a statement wraps, if it wraps one. -/
def Op.raw_arg : Op → Option RawPtr
  | Op.sp_raw ptr _ => some ptr
  | Op.sp_reset_raw _ ptr _ => some ptr
  | Op.sp_deleter ptr _ _ _ => some ptr
  | Op.sp_reset_deleter _ ptr _ _ _ => some ptr
  | _ => none

/-- Every live pointer variable, strong or weak, has a `(control_block_, ptr_)` pair that
satisfies `P`. -/
def World.All (P : Option Nat → RawPtr → Prop) (w : World) : Prop :=
  (∀ s : SharedPtr, some s ∈ w.strong → P s.control_block_ s.ptr_) ∧
  (∀ s : WeakPtr, some s ∈ w.weak → P s.control_block_ s.ptr_)

/-! ## Concrete programs -/

/-- A `SharedPtr` made from a raw pointer, a `WeakPtr` taken from it, then the
`SharedPtr` is destroyed: the object is gone, the block lives on for the `WeakPtr`. -/
def expired_program : List Op :=
  [Op.sp_raw (some (Addr.obj 5)) false, Op.wp_shared 0, Op.sp_dtor 0]

/-- The `WeakPtr` variable left by `expired_program`. -/
def expired_weak : WeakPtr := ⟨some 0, some (Addr.obj 5)⟩

/-- After `expired_program`: `lock()` the `WeakPtr`, then destroy the pointer it returned. -/
def relock_program : List Op := expired_program ++ [Op.wp_lock 0, Op.sp_dtor 1]

/-- An object with the `EnableSharedFromThis` base made by `allocateShared`, then its only
`SharedPtr` is destroyed. -/
def self_observing_program : List Op := [Op.sp_allocate true none, Op.sp_dtor 0]

/-- Number of calls of the caller's deleter on `p` recorded in the trace. -/
def Heap.deleter_calls (h : Heap) (p : RawPtr) : Nat := h.trace.count (Event.deleter p)

/-- What freshly allocated storage holds in the example for the throwing deleter. -/
def raw_storage : ControlBlockBase :=
  ⟨7, 7, BlockKind.ControlBlockConstructor, some (Addr.obj 9), none, false⟩

/-- Number of `allocate` calls recorded in the trace. -/
def Heap.allocations (h : Heap) : Nat :=
  h.trace.countP fun e => match e with
    | Event.allocate _ => true
    | _ => false

/-- Number of `deallocate` calls recorded in the trace. -/
def Heap.deallocations (h : Heap) : Nat :=
  h.trace.countP fun e => match e with
    | Event.deallocate _ => true
    | _ => false

/-! ## The base class `EnableSharedFromThis` -/

/-- The `EnableSharedFromThis<T>` base subobject of an object: its only member `wptr_`,
empty by its default member initialiser. -/
structure EnableSharedFromThis where
  wptr_ : WeakPtr := ⟨none, none⟩
deriving DecidableEq

/-- Source `EnableSharedFromThis<T>::EnableSharedFromThis()`. -/
def EnableSharedFromThis.ctor_default : EnableSharedFromThis := ⟨WeakPtr.ctor_default⟩

/-- Source `EnableSharedFromThis<T>::EnableSharedFromThis(const EnableSharedFromThis& rhs)`:
the body is empty and `rhs` is not read, `wptr_` gets its default member initialiser. -/
def EnableSharedFromThis.ctor_copy (h : Heap) (_rhs : EnableSharedFromThis) :
    Heap × EnableSharedFromThis :=
  (h, ⟨WeakPtr.ctor_default⟩)

/-- Source `EnableSharedFromThis<T>::operator=(const EnableSharedFromThis& rhs)`:
`return *this;`.  The value is the heap and the new `*this`. -/
def EnableSharedFromThis.assign (h : Heap) (self _rhs : EnableSharedFromThis) :
    Heap × EnableSharedFromThis :=
  (h, self)

/-- Source `EnableSharedFromThis<T>::~EnableSharedFromThis`: the body is empty, then the
member `wptr_` is destroyed. -/
def EnableSharedFromThis.dtor (h : Heap) (self : EnableSharedFromThis) : Heap :=
  WeakPtr.dtor h self.wptr_

/-- Source `EnableSharedFromThis<T>::shared_from_this`: `return wptr_.lock();`. -/
def EnableSharedFromThis.shared_from_this (h : Heap) (self : EnableSharedFromThis) :
    Heap × Except Exception SharedPtr :=
  WeakPtr.lock h self.wptr_

/-- Source `EnableSharedFromThis<T>::weak_from_this`: `return wptr_;` which copy-constructs
the returned `WeakPtr`. -/
def EnableSharedFromThis.weak_from_this (h : Heap) (self : EnableSharedFromThis) :
    Heap × WeakPtr :=
  WeakPtr.ctor_copy h self.wptr_

/-- The `EnableSharedFromThis` base of the object managed by block `cb`; `none` when the
type of the object has no such base. -/
def Heap.object (h : Heap) (cb : Nat) : Option EnableSharedFromThis :=
  ((h.block cb).obj_wptr_).map EnableSharedFromThis.mk

/-- Statements that construct a `WeakPtr` from a `SharedPtr` or a `WeakPtr`, or copy,
move, assign, swap, reset or destroy `WeakPtr` variables. -/
def Op.weak_only : Op → Bool
  | Op.wp_default => true
  | Op.wp_copy _ => true
  | Op.wp_shared _ => true
  | Op.wp_move _ => true
  | Op.wp_swap _ _ => true
  | Op.wp_dtor _ => true
  | Op.wp_assign _ _ => true
  | Op.wp_assign_shared _ _ => true
  | Op.wp_move_assign _ _ => true
  | Op.wp_reset _ => true
  | _ => false

/-! ## Relations between the heap before and after a call -/

/-- From `h` to `h2` no block was added and the part `g` of every block is unchanged. -/
def Heap.keeps {α : Type} (g : ControlBlockBase → α) (h h2 : Heap) : Prop :=
  h2.blocks.length = h.blocks.length ∧ ∀ b, g (h2.block b) = g (h.block b)

/-- From `h` to `h2` no call of `destroy_field` was made. -/
def Heap.same_destroy_field (h h2 : Heap) : Prop :=
  ∀ b, h2.destroy_field_calls b = h.destroy_field_calls b

/-- From `w` to `w2` the `SharedPtr` variables, the shared counter of every block and the
number of `destroy_field` calls on every block are unchanged, and no block was added. -/
def World.weak_frame (w w2 : World) : Prop :=
  w2.strong = w.strong ∧ w.heap.keeps (fun b => b.shared_counter_) w2.heap ∧
    w.heap.same_destroy_field w2.heap

/-! ## More concrete programs -/

/-- A `SharedPtr`, two `WeakPtr`s taken from it, and a copy of the `SharedPtr`. -/
def observed_program : List Op :=
  [Op.sp_raw (some (Addr.obj 5)) false, Op.wp_shared 0, Op.wp_copy 0, Op.sp_copy 0]

/-- The heap after `allocateShared` of a type with the `EnableSharedFromThis` base. -/
def seeded_heap : Heap := (allocateShared {} true none).1

/-- A pointer made from a raw pointer, a `WeakPtr` made from it and a copy of that
`WeakPtr`. -/
def derived_program : List Op :=
  [Op.sp_raw (some (Addr.obj 5)) false, Op.wp_shared 0, Op.wp_copy 0]

/-- Two pointers made from two raw pointers: two control blocks. -/
def two_blocks_program : List Op :=
  [Op.sp_raw (some (Addr.obj 5)) false, Op.sp_raw (some (Addr.obj 6)) false]

/-! ## What is fixed when a block is created -/

/-- The kind of the block and the `wptr_` member of the managed object. -/
def details.ControlBlockBase.frozen (b : ControlBlockBase) : BlockKind × Option WeakPtr :=
  (b.kind, b.obj_wptr_)

/-- The `wptr_` of the object managed by block `b`, when there is one, is empty or, in a
co-located block only, observes block `b` itself with the address of its `storage_`. -/
def details.ControlBlockBase.seeded_at (blk : ControlBlockBase) (b : Nat) : Prop :=
  ∀ x, blk.obj_wptr_ = some x →
    x = ⟨none, none⟩ ∨
      (blk.kind = BlockKind.ControlBlockAllocateShared ∧ x = ⟨some b, some (Addr.storage b)⟩)

/-- Every block satisfies `seeded_at`. -/
def Heap.shaped (h : Heap) : Prop := ∀ b, (h.block b).seeded_at b

/-- A pair `(control_block_, ptr_)` that fits the heap: the block is allocated, and when
it is co-located the raw pointer is the address of its `storage_` and the `wptr_` of its
object, if it has one, has been seeded. -/
def Heap.handle (h : Heap) (cb : Option Nat) (ptr : RawPtr) : Prop :=
  ∀ b, cb = some b → b < h.blocks.length ∧
    ((h.block b).kind = BlockKind.ControlBlockAllocateShared →
      ptr = some (Addr.storage b) ∧ (h.block b).obj_wptr_ ≠ some ⟨none, none⟩)

/-- Heap `h2` has the blocks of `h`, with the same `frozen` part, and maybe more. -/
def Heap.grows (h h2 : Heap) : Prop :=
  h.blocks.length ≤ h2.blocks.length ∧
    ∀ b, b < h.blocks.length → (h2.block b).frozen = (h.block b).frozen

/-- The shape invariant of every program: blocks are shaped and every live pointer
variable fits the heap. -/
structure World.Shaped (w : World) : Prop where
  blocks : w.heap.shaped
  handles : w.All w.heap.handle

/-! ## The weak counter and the hidden reference of a self-observing object -/

/-- The hidden reference to block `b`: 1 when the `wptr_` member of the managed object
references the block itself, else 0. -/
def Heap.hidden (h : Heap) (b : Nat) : Nat :=
  match (h.block b).obj_wptr_ with
  | some x => if x.control_block_ = some b then 1 else 0
  | none => 0

/-- The weak counter of every allocated block is the number of live `WeakPtr` variables
that reference it plus its hidden reference. -/
def World.Tally (w : World) : Prop :=
  ∀ b, b < w.heap.blocks.length →
    (w.heap.block b).weak_counter_ = w.weak_refs b + w.heap.hidden b

/-- A statement that ends the ownership of no `SharedPtr` and promotes no `WeakPtr`:
every `WeakPtr` statement, and the constructions, copies, moves and swaps of `SharedPtr`
that throw nothing. -/
def Op.keeps_owners : Op → Bool
  | Op.sp_default => true
  | Op.sp_raw _ _ => true
  | Op.sp_copy _ => true
  | Op.sp_move _ => true
  | Op.sp_swap _ _ => true
  | Op.sp_allocate _ none => true
  | Op.sp_deleter _ _ _ none => true
  | op => Op.weak_only op

/-- A self-observing object made by `allocateShared`, a `WeakPtr` taken from its owner, a
copy of that `WeakPtr`, an assignment, a reset and a destruction. -/
def tally_program : List Op :=
  [Op.sp_allocate true none, Op.wp_shared 0, Op.wp_copy 0, Op.wp_default,
    Op.wp_assign 2 1, Op.wp_reset 0, Op.wp_dtor 1]

/-! ## What the destructor of a `SharedPtr` leaves alone -/

/-- A self-observing object made by `allocateShared`, a copy of its owner and a `WeakPtr`
to it. -/
def seeded_program : List Op :=
  [Op.sp_allocate true none, Op.sp_copy 0, Op.wp_shared 0]

end shared_ptr

/-! # Variant (`src/Variant/variant.h`) -/

namespace variant

/-- Name of a C++ type. -/
abbrev Ty := Nat

/-- Abstract value of an object of an alternative type. -/
abbrev Val := Nat

/-- What is read through a reference to a member of the union: the object that was
constructed in that member, or `none` when no object of that member is alive (the value
is then indeterminate). -/
abbrev Slot := Option Val

/-- Exceptions that leave the functions of the header: `details::bad_variant_access`, or
an exception thrown by a constructor or an assignment operator of an alternative. -/
inductive Exception where
  | bad_variant_access
  | thrown (tag : Nat)
deriving DecidableEq

namespace details

/-- Number of values of `std::size_t`. -/
def SIZE_T_RANGE : Nat := 2 ^ 64

/-- Source `variant_npos`: `static_cast<std::size_t>(-1)`. -/
def variant_npos : Nat := SIZE_T_RANGE - 1

/-- Source `index_by_type<Index, T, Head, Tail...>` with its specialisation for a single
`Last`.  The primary template has no instantiation for an empty pack. -/
def index_by_type (Index : Nat) (T : Ty) : List Ty → Nat
  | [] => variant_npos
  | [Last] => if T = Last then Index else variant_npos
  | Head :: Next :: Tail =>
    if T = Head then Index else index_by_type ((Index + 1) % SIZE_T_RANGE) T (Next :: Tail)

/-- Source `index_by_type_v<T, Types...>`. -/
def index_by_type_v (T : Ty) (Types : List Ty) : Nat := index_by_type 0 T Types

/-- Source `check_is_contain_v<T, Types...>`: `(std::is_same_v<T, Types> || ...)`, false
for the empty pack. -/
def check_is_contain_v (T : Ty) (Types : List Ty) : Bool := Types.any fun U => decide (T = U)

/-- State of a `VariadicUnion<Types...>`: the member in which an object is alive, counted
from the outermost `head_`, with the value of that object; `none` when no member holds an
object. -/
abbrev VariadicUnion := Option (Nat × Val)

/-- Source `VariadicUnion::put<Index>(args...)`.  `base` is the number of unions around
this one; `made` is what `Head(std::forward<Args>(args)...)` gives when it is run: the new
object or the exception it throws.  The primary template (empty pack) does nothing. -/
def VariadicUnion.put : List Ty → Nat → Nat → Except Nat Slot → VariadicUnion →
    Except Nat VariadicUnion
  | [], _, _, _, u => Except.ok u
  | _ :: _, base, 0, made, _ =>
    match made with
    | Except.ok x => Except.ok (x.map fun v => (base, v))
    | Except.error e => Except.error e
  | _ :: Tail, base, Index + 1, made, u => VariadicUnion.put Tail (base + 1) Index made u

/-- Source `storage_.template put<details::variant_npos>()` in the two handlers. -/
def VariadicUnion.put_npos (Types : List Ty) (u : VariadicUnion) : VariadicUnion :=
  match VariadicUnion.put Types 0 variant_npos (Except.ok none) u with
  | Except.ok u2 => u2
  | Except.error _ => u

/-- Source `VariadicUnion::get_lvalue_ref<Index>` and `get_const_lvalue_ref<Index>`, read. -/
def VariadicUnion.get_lvalue_ref : List Ty → Nat → Nat → VariadicUnion → Slot
  | [], _, _, _ => none
  | _ :: _, base, 0, u =>
    match u with
    | some (i, v) => if i = base then some v else none
    | none => none
  | _ :: Tail, base, Index + 1, u => VariadicUnion.get_lvalue_ref Tail (base + 1) Index u

/-- The member `Index` after an assignment through the reference returned by
`get_lvalue_ref<Index>` has left the value `x` there. -/
def VariadicUnion.write (Index : Nat) (x : Slot) : VariadicUnion := x.map fun v => (Index, v)

/-- Source `VariadicUnion<Head, Tail...>::destroy<T>`: runs `head_.~Head()` when `T` is
`Head`, and nothing otherwise. -/
def VariadicUnion.destroy (Types : List Ty) (T : Ty) (u : VariadicUnion) : VariadicUnion :=
  match Types with
  | [] => u
  | Head :: _ => if T = Head then none else u

end details

open details

/-- The copy constructor and the copy assignment operator of the alternative types, by
position in the pack.  `copy i x`: the object made by `T(x)`, or the exception thrown.
`assign i lhs rhs`: what `lhs = rhs` leaves in `lhs`, and the exception if it throws. -/
structure Alternatives where
  copy : Nat → Slot → Except Nat Slot
  assign : Nat → Slot → Slot → Slot × Option Nat

/-- Alternatives whose copy constructor copies and whose assignment assigns, without
exception. -/
def Alternatives.regular : Alternatives :=
  { copy := fun _ x => Except.ok x, assign := fun _ _ rhs => (rhs, none) }

/-- Alternatives like `BarWithException` of the unit test at position `k`: its copy
assignment operator throws, the others are regular. -/
def Alternatives.throwing_assign (k tag : Nat) : Alternatives :=
  { copy := fun _ x => Except.ok x,
    assign := fun i lhs rhs => if i = k then (lhs, some tag) else (rhs, none) }

/-- Fields of `VariantStorage<Types...>`, default-initialised. -/
structure Variant where
  storage_ : VariadicUnion := none
  current_index_ : Nat := 0
deriving DecidableEq

/-- Source `VariantAlternative<T, Types...>::destroy`. -/
def VariantAlternative.destroy (Types : List Ty) (self : Variant) (T : Ty) : Variant :=
  if self.current_index_ = index_by_type_v T Types then
    { self with storage_ := VariadicUnion.destroy Types T self.storage_ }
  else self

/-- Source `Variant::destroy_all`: `(VariantAlternative<Types, Types...>::destroy(), ...)`. -/
def Variant.destroy_all (Types : List Ty) (self : Variant) : Variant :=
  Types.foldl (VariantAlternative.destroy Types) self

/-- Source `Variant::safe_put<Index>(args...)`: the variant afterwards and the exception
rethrown by the handler. -/
def Variant.safe_put (Types : List Ty) (self : Variant) (Index : Nat) (made : Except Nat Slot) :
    Variant × Option Exception :=
  match VariadicUnion.put Types 0 Index made self.storage_ with
  | Except.ok u => ({ storage_ := u, current_index_ := Index }, none)
  | Except.error e =>
    ({ storage_ := VariadicUnion.put_npos Types self.storage_, current_index_ := variant_npos },
      some (Exception.thrown e))

/-- Source `Variant::valueless_by_exception`. -/
def Variant.valueless_by_exception (self : Variant) : Bool :=
  self.current_index_ == variant_npos

/-- Source `Variant::index`. -/
def Variant.index (self : Variant) : Nat :=
  if self.valueless_by_exception then variant_npos else self.current_index_

/-- Source `holds_alternative<T>(variant)`. -/
def holds_alternative (Types : List Ty) (variant : Variant) (T : Ty) : Bool :=
  index_by_type_v T Types == variant.current_index_

/-- Source `get<Index>(variant)`, the four overloads: the value read through the reference
that is returned.  Instantiated only for `Index < sizeof...(Types)`. -/
def get (Types : List Ty) (variant : Variant) (Index : Nat) : Except Exception Slot :=
  if variant.current_index_ ≠ Index then Except.error Exception.bad_variant_access
  else Except.ok (VariadicUnion.get_lvalue_ref Types 0 Index variant.storage_)

/-- Source `get<T>(variant)`, the four overloads. -/
def get_by_type (Types : List Ty) (variant : Variant) (T : Ty) : Except Exception Slot :=
  if !holds_alternative Types variant T then Except.error Exception.bad_variant_access
  else get Types variant (index_by_type_v T Types)

/-- Source `Variant::safe_assign<Index>(value)`: `get<Index>(*this) = value` inside a `try`
whose handler makes the variant valueless and rethrows. -/
def Variant.safe_assign (Types : List Ty) (A : Alternatives) (self : Variant) (Index : Nat)
    (value : Slot) : Variant × Option Exception :=
  match get Types self Index with
  | Except.error e =>
    ({ storage_ := VariadicUnion.put_npos Types self.storage_, current_index_ := variant_npos },
      some e)
  | Except.ok lhs =>
    match (A.assign Index lhs value).2 with
    | none => ({ self with storage_ := VariadicUnion.write Index (A.assign Index lhs value).1 }, none)
    | some e =>
      ({ storage_ := VariadicUnion.put_npos Types
            (VariadicUnion.write Index (A.assign Index lhs value).1),
         current_index_ := variant_npos }, some (Exception.thrown e))

/-- Source `VariantAlternative<T, Types...>::VariantAlternative(const T&)` and `(T&&)`, which
both pass `value` as an lvalue: `safe_put<kIndex>(value)`. -/
def VariantAlternative.ctor_value (Types : List Ty) (A : Alternatives) (self : Variant)
    (T : Ty) (value : Slot) : Variant × Option Exception :=
  self.safe_put Types (index_by_type_v T Types) (A.copy (index_by_type_v T Types) value)

/-- Source `VariantAlternative<T, Types...>::operator=(const T&)` and `(T&&)`. -/
def VariantAlternative.assign_value (Types : List Ty) (A : Alternatives) (self : Variant)
    (T : Ty) (value : Slot) : Variant × Option Exception :=
  if self.current_index_ = index_by_type_v T Types then
    self.safe_assign Types A (index_by_type_v T Types) value
  else
    (self.destroy_all Types).safe_put Types (index_by_type_v T Types)
      (A.copy (index_by_type_v T Types) value)

/-- Source `VariantAlternative<T, Types...>::VariantAlternative(const Derived& rhs)`. -/
def VariantAlternative.ctor_copy (Types : List Ty) (A : Alternatives) (rhs : Variant)
    (self : Variant) (T : Ty) : Variant × Option Exception :=
  if rhs.current_index_ ≠ index_by_type_v T Types then (self, none)
  else
    match get Types rhs (index_by_type_v T Types) with
    | Except.error e => (self, some e)
    | Except.ok x =>
      self.safe_put Types (index_by_type_v T Types) (A.copy (index_by_type_v T Types) x)

/-- Source `VariantAlternative<T, Types...>::assign(const Derived& rhs)`. -/
def VariantAlternative.assign (Types : List Ty) (A : Alternatives) (rhs : Variant)
    (self : Variant) (T : Ty) : Variant × Option Exception :=
  if index_by_type_v T Types ≠ rhs.current_index_ then (self, none)
  else if self.current_index_ = index_by_type_v T Types then
    match get Types rhs (index_by_type_v T Types) with
    | Except.error e => (self, some e)
    | Except.ok x => self.safe_assign Types A (index_by_type_v T Types) x
  else
    match get Types rhs (index_by_type_v T Types) with
    | Except.error e => (self.destroy_all Types, some e)
    | Except.ok x =>
      (self.destroy_all Types).safe_put Types (index_by_type_v T Types)
        (A.copy (index_by_type_v T Types) x)

/-- A pack expansion over the bases, `VariantAlternative<Types, Types...>(rhs)...` or
`(VariantAlternative<Types, Types...>::assign(rhs), ...)`: one base after the other, in
the order of the pack, until one throws. -/
def Variant.each_base (f : Variant → Ty → Variant × Option Exception) :
    List Ty → Variant → Variant × Option Exception
  | [], self => (self, none)
  | T :: rest, self =>
    match (f self T).2 with
    | some e => ((f self T).1, some e)
    | none => Variant.each_base f rest (f self T).1

/-- Source `Variant::Variant()`: `storage_.template put<0>(); current_index_ = 0;` with
`made` what the default constructor of the first alternative gives. -/
def Variant.ctor_default (Types : List Ty) (made : Except Nat Slot) : Except Exception Variant :=
  match VariadicUnion.put Types 0 0 made none with
  | Except.ok u => Except.ok { storage_ := u, current_index_ := 0 }
  | Except.error e => Except.error (Exception.thrown e)

/-- Construction of a `Variant` from a value of type `T` with the inherited constructor of
`VariantAlternative<T, Types...>`: `VariantStorage` and the other bases are
default-initialised first. -/
def Variant.ctor_value (Types : List Ty) (A : Alternatives) (T : Ty) (value : Slot) :
    Except Exception Variant :=
  match (VariantAlternative.ctor_value Types A {} T value).2 with
  | none => Except.ok (VariantAlternative.ctor_value Types A {} T value).1
  | some e => Except.error e

/-- Source `Variant::Variant(const Variant& rhs)`: `VariantStorage` is default-initialised,
then every base is constructed from `rhs`. -/
def Variant.ctor_copy (Types : List Ty) (A : Alternatives) (rhs : Variant) :
    Except Exception Variant :=
  match (Variant.each_base (VariantAlternative.ctor_copy Types A rhs) Types {}).2 with
  | none => Except.ok (Variant.each_base (VariantAlternative.ctor_copy Types A rhs) Types {}).1
  | some e => Except.error e

/-- Source `Variant::operator=(const Variant& rhs)` for two different objects: `*this`
afterwards and the exception that leaves the operator. -/
def Variant.assign (Types : List Ty) (A : Alternatives) (self rhs : Variant) :
    Variant × Option Exception :=
  Variant.each_base (VariantAlternative.assign Types A rhs) Types self

/-- Source `Variant::emplace<Index>(args...)`: the variant afterwards, and the value read
through the returned reference or the exception.  Instantiated only for
`Index < sizeof...(Types)`. -/
def Variant.emplace (Types : List Ty) (self : Variant) (Index : Nat) (made : Except Nat Slot) :
    Variant × Except Exception Slot :=
  match ((self.destroy_all Types).safe_put Types Index made).2 with
  | some e => (((self.destroy_all Types).safe_put Types Index made).1, Except.error e)
  | none =>
    (((self.destroy_all Types).safe_put Types Index made).1,
      get Types ((self.destroy_all Types).safe_put Types Index made).1 Index)

/-- Source `Variant::emplace<T>(args...)`.  Instantiated only when `T` is in the pack. -/
def Variant.emplace_by_type (Types : List Ty) (self : Variant) (T : Ty)
    (made : Except Nat Slot) : Variant × Except Exception Slot :=
  self.emplace Types (index_by_type_v T Types) made

/-- A variant that holds an object of alternative `i` with value `x`. -/
def Variant.holding (i : Nat) (x : Val) : Variant := { storage_ := some (i, x), current_index_ := i }

end variant

/-! # Any (`src/Any/any.h`) -/

namespace any

/-- A type as a template argument: the object type called `name`, or the lvalue reference
type to it. -/
structure Ty where
  name : Nat
  reference : Bool := false
deriving DecidableEq

/-- The `std::type_info` named by `typeid(T)` or by `typeid` of an expression of type `T`:
for a reference type it is that of the referenced type. -/
def typeid (T : Ty) : Nat := T.name

/-- How a call ends without returning: `details::bad_any_cast`, an exception thrown by a
constructor of the held type, or a member access through a null `storage_`, which is
undefined behaviour. -/
inductive Exception where
  | bad_any_cast
  | thrown (tag : Nat)
  | null_dereference
deriving DecidableEq

/-- An argument bound to a forwarding reference `T&&`: an lvalue that names an object of
type `name` at address `addr` with value `v`, or an rvalue of type `name` with value `v`. -/
inductive Arg where
  | lvalue (name addr v : Nat)
  | rvalue (name v : Nat)
deriving DecidableEq

/-- The template argument deduced for `T` in `T&& data`: `name&` for an lvalue, `name` for
an rvalue. -/
def Arg.deduced : Arg → Ty
  | Arg.lvalue name _ _ => ⟨name, true⟩
  | Arg.rvalue name _ => ⟨name, false⟩

namespace details

/-- An object of class `AnyImpl<T>`: the template argument and the member `T data_`, which
is the held object for an object type and, for a reference type, the address of the
object the reference is bound to. -/
structure AnyImpl where
  T : Ty
  data_ : Nat
deriving DecidableEq

/-- Source `AnyImpl<T>::AnyImpl(Args&&... args)` with one argument, as called by
`Any(T&& data)` with `std::forward<T>(data)`: `data_{std::forward<Args>(args)...}` binds the
reference or constructs the object; `throws` is the exception of that constructor. -/
def AnyImpl.ctor (T : Ty) (arg : Arg) (throws : Option Nat) : Except Exception AnyImpl :=
  match arg with
  | Arg.lvalue _ addr v =>
    if T.reference then Except.ok ⟨T, addr⟩
    else match throws with
      | some tag => Except.error (Exception.thrown tag)
      | none => Except.ok ⟨T, v⟩
  | Arg.rvalue _ v =>
    match throws with
    | some tag => Except.error (Exception.thrown tag)
    | none => Except.ok ⟨T, v⟩

/-- Source `AnyImpl<T>::clone`: `std::make_unique<AnyImpl<T>>(data_)`, which copies the
object, or binds a new reference to the same object. -/
def AnyImpl.clone (self : AnyImpl) (throws : Option Nat) : Except Exception AnyImpl :=
  if self.T.reference then Except.ok ⟨self.T, self.data_⟩
  else match throws with
    | some tag => Except.error (Exception.thrown tag)
    | none => Except.ok ⟨self.T, self.data_⟩

/-- Source `AnyImpl<T>::type`: `typeid(data_)`. -/
def AnyImpl.type (self : AnyImpl) : Nat := typeid self.T

end details

open details

/-- The member of class `Any`: `std::unique_ptr<details::IAnyBase> storage_{nullptr}` with
the object it owns. -/
structure Any where
  storage_ : Option AnyImpl := none
deriving DecidableEq

/-- Source `Any::Any()`. -/
def Any.ctor_default : Any := {}

/-- Source `Any::Any(const Any& rhs)`: `storage_{rhs.storage_->clone()}`. -/
def Any.ctor_copy (rhs : Any) (throws : Option Nat) : Except Exception Any :=
  match rhs.storage_ with
  | none => Except.error Exception.null_dereference
  | some impl =>
    match impl.clone throws with
    | Except.ok c => Except.ok ⟨some c⟩
    | Except.error e => Except.error e

/-- Source `Any::Any(Any&& rhs)`: the new object and what is left in `rhs`. -/
def Any.ctor_move (rhs : Any) : Any × Any := (⟨rhs.storage_⟩, ⟨none⟩)

/-- Source `Any::Any(T&& data)`: `std::make_unique<details::AnyImpl<T>>(std::forward<T>(data))`
with the deduced `T`. -/
def Any.ctor_value (data : Arg) (throws : Option Nat) : Except Exception Any :=
  match AnyImpl.ctor data.deduced data throws with
  | Except.ok impl => Except.ok ⟨some impl⟩
  | Except.error e => Except.error e

/-- Source `Any::swap`: the new `*this` and the new `rhs`. -/
def Any.swap (self rhs : Any) : Any × Any := (⟨rhs.storage_⟩, ⟨self.storage_⟩)

/-- Source `swap(Any& lhs, Any& rhs)`. -/
def swap (lhs rhs : Any) : Any × Any := lhs.swap rhs

/-- Source `Any::operator=(const Any& rhs)`: `Any(rhs).swap(*this)`; `*this` afterwards and
the exception that leaves the operator. -/
def Any.assign (self rhs : Any) (throws : Option Nat) : Any × Option Exception :=
  match Any.ctor_copy rhs throws with
  | Except.ok tmp => ((tmp.swap self).2, none)
  | Except.error e => (self, some e)

/-- Source `Any::operator=(Any&& rhs)`: `Any(std::move(rhs)).swap(*this)`; `*this` and `rhs`
afterwards, for two different objects. -/
def Any.move_assign (self rhs : Any) : Any × Any :=
  (((Any.ctor_move rhs).1.swap self).2, (Any.ctor_move rhs).2)

/-- Source `Any::operator=(T&& data)`: `Any(std::forward<T>(data)).swap(*this)`. -/
def Any.assign_value (self : Any) (data : Arg) (throws : Option Nat) : Any × Option Exception :=
  match Any.ctor_value data throws with
  | Except.ok tmp => ((tmp.swap self).2, none)
  | Except.error e => (self, some e)

/-- Source `Any::emplace<T>(args...)`: `made` is the object `T(args...)` or the exception its
constructor throws; `*this` afterwards, and the object the returned reference names. -/
def Any.emplace (self : Any) (T : Ty) (made : Except Nat Nat) : Any × Except Exception Nat :=
  match made with
  | Except.ok v => (⟨some ⟨T, v⟩⟩, Except.ok v)
  | Except.error tag => (self, Except.error (Exception.thrown tag))

/-- Source `Any::reset`. -/
def Any.reset (_self : Any) : Any := ⟨none⟩

/-- Source `Any::has_value`. -/
def Any.has_value (self : Any) : Bool := self.storage_ != none

/-- Source `Any::type`: `storage_->type()`. -/
def Any.type (self : Any) : Except Exception Nat :=
  match self.storage_ with
  | none => Except.error Exception.null_dereference
  | some impl => Except.ok impl.type

/-- What `reinterpret_cast<details::AnyImpl<U>*>(object.storage_.get())->data_` reads: the
held object; the object a held reference is bound to, by its address; or, when the object
behind `storage_` is an `AnyImpl` of another template argument, bytes that are not a `U`
(undefined behaviour). -/
inductive Read where
  | object (v : Nat)
  | referent (addr : Nat)
  | misread
deriving DecidableEq

/-- Source `any_cast<U>(Any& object)`. -/
def any_cast (U : Ty) (object : Any) : Except Exception Read :=
  match object.storage_ with
  | none => Except.error Exception.null_dereference
  | some impl =>
    if impl.type = typeid U then
      if impl.T = U then
        Except.ok (if U.reference then Read.referent impl.data_ else Read.object impl.data_)
      else Except.ok Read.misread
    else Except.error Exception.bad_any_cast

end any

/-! # Function (`src/Function/Function_Ptr/function.h`) -/

namespace function

/-- A callable object of a class `Functor` (a pointer to function, a closure, an object
with `operator()`): the class, `sizeof(Functor)`, and what `std::invoke(*functor, x)`
returns.  Its copy constructor copies it. -/
structure Functor (α β : Type) where
  type : Nat
  size : Nat
  call : α → β

/-- Undefined behaviour met by a member function: a call through a null pointer to
function, an access to the object behind a null `storage_`, or to an object of another
class than the one the pointer to function was instantiated for. -/
inductive Undefined where
  | null_function_pointer
  | null_object
  | wrong_type
deriving DecidableEq

/-- Members of `Function<RetType(Args...)>`.  A pointer to the instantiation
`invoke<Functor>`, `construct<Functor>` or `destroy<Functor>` is the class `Functor`;
`storage_` is the buffer with the object that was constructed in it. -/
structure Function (α β : Type) where
  invoke_ptr : Option Nat := none
  construct_ptr : Option Nat := none
  destroy_ptr : Option Nat := none
  storage_size_ : Nat := 0
  storage_ : Option (Functor α β) := none

/-- Source `Function::Function()`. -/
def Function.ctor_default {α β : Type} : Function α β := {}

/-- Source `Function::construct<Functor>(destination, source)` called through
`construct_ptr`: the object placed in `destination`. -/
def Function.construct {α β : Type} (construct_ptr : Option Nat) (source : Option (Functor α β)) :
    Except Undefined (Functor α β) :=
  match construct_ptr with
  | none => Except.error Undefined.null_function_pointer
  | some t =>
    match source with
    | none => Except.error Undefined.null_object
    | some obj => if obj.type = t then Except.ok obj else Except.error Undefined.wrong_type

/-- Source `Function::Function(Functor functor)`. -/
def Function.ctor_functor {α β : Type} (functor : Functor α β) : Except Undefined (Function α β) :=
  match Function.construct (some functor.type) (some functor) with
  | Except.ok obj =>
    Except.ok { invoke_ptr := some functor.type, construct_ptr := some functor.type,
                destroy_ptr := some functor.type, storage_size_ := functor.size,
                storage_ := some obj }
  | Except.error e => Except.error e

/-- Source `Function::Function(const Function& rhs)`. -/
def Function.ctor_copy {α β : Type} (rhs : Function α β) : Except Undefined (Function α β) :=
  if rhs.invoke_ptr.isSome then
    match Function.construct rhs.construct_ptr rhs.storage_ with
    | Except.ok obj =>
      Except.ok { invoke_ptr := rhs.invoke_ptr, construct_ptr := rhs.construct_ptr,
                  destroy_ptr := rhs.destroy_ptr, storage_size_ := rhs.storage_size_,
                  storage_ := some obj }
    | Except.error e => Except.error e
  else
    Except.ok { invoke_ptr := rhs.invoke_ptr, construct_ptr := rhs.construct_ptr,
                destroy_ptr := rhs.destroy_ptr, storage_size_ := rhs.storage_size_,
                storage_ := none }

/-- Source `Function::destroy<Functor>(functor)` called through `destroy_ptr`. -/
def Function.destroy {α β : Type} (destroy_ptr : Option Nat) (functor : Functor α β) :
    Except Undefined Unit :=
  match destroy_ptr with
  | none => Except.error Undefined.null_function_pointer
  | some t => if functor.type = t then Except.ok () else Except.error Undefined.wrong_type

/-- Source `Function::operator=(const Function& rhs)` when `rhs` is another object than
`*this`: `*this` afterwards. -/
def Function.assign {α β : Type} (self rhs : Function α β) : Except Undefined (Function α β) :=
  let released : Except Undefined (Function α β) :=
    match self.storage_ with
    | some obj =>
      match Function.destroy self.destroy_ptr obj with
      | Except.ok _ => Except.ok { self with storage_ := none }
      | Except.error e => Except.error e
    | none => Except.ok self
  match released with
  | Except.error e => Except.error e
  | Except.ok s =>
    if rhs.storage_.isSome then
      match Function.construct rhs.construct_ptr rhs.storage_ with
      | Except.ok obj =>
        Except.ok { invoke_ptr := rhs.invoke_ptr, construct_ptr := rhs.construct_ptr,
                    destroy_ptr := rhs.destroy_ptr, storage_size_ := rhs.storage_size_,
                    storage_ := some obj }
      | Except.error e => Except.error e
    else Except.ok s

/-- Source `Function::operator()`: `invoke_ptr(storage_.get(), args...)`, which is
`std::invoke(*functor, args...)` on the object in the buffer. -/
def Function.call {α β : Type} (self : Function α β) (x : α) : Except Undefined β :=
  match self.invoke_ptr with
  | none => Except.error Undefined.null_function_pointer
  | some t =>
    match self.storage_ with
    | none => Except.error Undefined.null_object
    | some obj => if obj.type = t then Except.ok (obj.call x) else Except.error Undefined.wrong_type

/-- Source `Function::operator bool`. -/
def Function.toBool {α β : Type} (self : Function α β) : Bool := self.storage_.isSome

/-- A `Function` whose buffer holds a copy of `f` and whose three pointers are the
instantiations for the class of `f`. -/
def Function.holding {α β : Type} (f : Functor α β) : Function α β :=
  { invoke_ptr := some f.type, construct_ptr := some f.type, destroy_ptr := some f.type,
    storage_size_ := f.size, storage_ := some f }

/-- The function `int foo(int x) { return x * 10; }` of the unit test, as a pointer to
function. -/
def foo : Functor Int Int := { type := 0, size := 8, call := fun x => x * 10 }

/-- Source `Function::operator=(const Function& rhs)` when `rhs` is `*this`: the second test
reads `storage_` of the same object, after the first block has reset it. -/
def Function.assign_self {α β : Type} (self : Function α β) : Except Undefined (Function α β) :=
  let released : Except Undefined (Function α β) :=
    match self.storage_ with
    | some obj =>
      match Function.destroy self.destroy_ptr obj with
      | Except.ok _ => Except.ok { self with storage_ := none }
      | Except.error e => Except.error e
    | none => Except.ok self
  match released with
  | Except.error e => Except.error e
  | Except.ok s =>
    if s.storage_.isSome then
      match Function.construct s.construct_ptr s.storage_ with
      | Except.ok obj => Except.ok { s with storage_ := some obj }
      | Except.error e => Except.error e
    else Except.ok s

/-- A `Function` with the three pointers and the size for the class of `f`, and a null
`storage_`. -/
def Function.hollow {α β : Type} (f : Functor α β) : Function α β :=
  { invoke_ptr := some f.type, construct_ptr := some f.type, destroy_ptr := some f.type,
    storage_size_ := f.size, storage_ := none }

end function

/-! # BigInteger (`src/LongArithmetic/lib/src/bigInteger.cpp`) -/

namespace big_integer

/-- Members of class `BigInteger`: `sign_` and the decimal digits `number_`, least
significant first. -/
structure BigInteger where
  sign_ : Int := 1
  number_ : List Int := []
deriving DecidableEq

namespace details

/-- The loop `for (std::size_t i = rhs.size(); i--;)` of `absCompare`, with `i` iterations
left. -/
def absCompare_loop (lhs rhs : List Int) (pos : Nat) : Nat → Int
  | 0 => 0
  | i + 1 =>
    if lhs.getD (i + pos) 0 < rhs.getD i 0 then -1
    else if lhs.getD (i + pos) 0 > rhs.getD i 0 then 1
    else absCompare_loop lhs rhs pos i

/-- Source `details::absCompare(lhs, rhs, pos)`.  The sizes of two vectors and `pos`, which
is an index into one of them, add up to less than `2^64`. -/
def absCompare (lhs rhs : List Int) (pos : Nat) : Int :=
  if lhs.length < rhs.length + pos then -1
  else if lhs.length > rhs.length + pos then 1
  else absCompare_loop lhs rhs pos rhs.length

/-- Source `details::removeZeros`: drops zeros from the back of the vector. -/
def removeZeros (number : List Int) : List Int :=
  (number.reverse.dropWhile fun d => d == 0).reverse

/-- The loop `while (number) { number_.push_back(number % 10); number /= 10; }` of the
constructor from `int`, with `fuel` iterations allowed. -/
def push_digits : Nat → Int → List Int → List Int
  | 0, _, acc => acc
  | fuel + 1, number, acc =>
    if number = 0 then acc
    else push_digits fuel (Int.tdiv number 10) (acc ++ [Int.tmod number 10])

/-- Arithmetic of `int` as two's complement on 32 bits. -/
def wrap_int (x : Int) : Int := (x + 2 ^ 31) % 2 ^ 32 - 2 ^ 31

end details

open details

/-- Source `BigInteger::BigInteger(int number)`.  An `int` has at most ten decimal digits,
so ten iterations of the loop reach `number == 0`. -/
def BigInteger.ctor_int (number : Int) : BigInteger :=
  let sign : Int := if number < 0 then -1 else 1
  let n : Int := if number < 0 then wrap_int (number * -1) else number
  let digits := removeZeros (push_digits 10 n [])
  { sign_ := if digits.isEmpty then 1 else sign, number_ := digits }

/-- Source `BigInteger::compare`. -/
def BigInteger.compare (self rhs : BigInteger) : Bool :=
  if self.number_.isEmpty then rhs.number_.isEmpty
  else if self.sign_ = rhs.sign_ then self.number_ == rhs.number_ else false

/-- Source `operator==(const BigInteger&, const BigInteger&)`. -/
def operator_eq (lhs rhs : BigInteger) : Bool := lhs.compare rhs

/-- Source `BigInteger::less`. -/
def BigInteger.less (self rhs : BigInteger) : Bool :=
  if operator_eq self rhs then false
  else if self.sign_ < rhs.sign_ then true
  else if rhs.sign_ < self.sign_ then false
  else decide (wrap_int (absCompare self.number_ self.number_ 0 * self.sign_) < 0)

/-- Source `operator<(const BigInteger&, const BigInteger&)`. -/
def operator_lt (lhs rhs : BigInteger) : Bool := lhs.less rhs

/-- Source `operator>(const BigInteger&, const BigInteger&)`. -/
def operator_gt (lhs rhs : BigInteger) : Bool := operator_lt rhs lhs

/-- Source `operator<=(const BigInteger&, const BigInteger&)`. -/
def operator_le (lhs rhs : BigInteger) : Bool := !operator_lt rhs lhs

/-- Source `operator>=(const BigInteger&, const BigInteger&)`. -/
def operator_ge (lhs rhs : BigInteger) : Bool := !operator_lt lhs rhs

/-- The integer written by the digits, least significant first. -/
def digits_value : List Int → Int
  | [] => 0
  | d :: rest => d + 10 * digits_value rest

/-- The integer denoted by a `BigInteger`. -/
def BigInteger.toInt (self : BigInteger) : Int := self.sign_ * digits_value self.number_

/-! # BigInteger: arithmetic, conversions, and Rational (`rational.cpp`) -/

/-- How a call ends without returning a value: `std::runtime_error` is thrown, a vector is
indexed past its end (undefined behaviour), or the call never returns. -/
inductive Failure where
  | runtime_error
  | out_of_bounds (index size : Nat)
  | no_return
deriving DecidableEq

namespace details

/-- The iterations of the loop of `toBase10` past the end of the vector: `push_back(0)`,
then the digit and the carry.  The accumulator is an `int`, so it is 0 after at most ten
of them. -/
def carry_tail : Nat → Int → List Int
  | 0, _ => []
  | fuel + 1, accumulator =>
    if accumulator = 0 then []
    else Int.tmod accumulator 10 :: carry_tail fuel (Int.tdiv accumulator 10)

/-- The loop of `toBase10` from index `i` on, over the digits from `i` on. -/
def carry : Int → List Int → List Int
  | accumulator, [] => carry_tail 10 accumulator
  | accumulator, d :: rest =>
    Int.tmod (wrap_int (accumulator + d)) 10
      :: carry (Int.tdiv (wrap_int (accumulator + d)) 10) rest

/-- Source `details::toBase10`. -/
def toBase10 (number : List Int) : List Int := carry 0 number

/-- The loop of `absSubstraction` with `n` iterations left, at index `i`.  A write past
the end of the vector is dropped. -/
def absSubstraction_loop (rhs : List Int) (pos : Nat) : Nat → Nat → List Int → List Int
  | 0, _, lhs => lhs
  | n + 1, i, lhs =>
    let l1 := if i < rhs.length then
        lhs.set (i + pos) (wrap_int (lhs.getD (i + pos) 0 - rhs.getD i 0))
      else lhs
    let l2 := if l1.getD (i + pos) 0 < 0 then
        (l1.set (i + pos) (wrap_int (l1.getD (i + pos) 0 + 10))).set (i + pos + 1)
          (wrap_int (l1.getD (i + pos + 1) 0 - 1))
      else l1
    absSubstraction_loop rhs pos n (i + 1) l2

/-- Source `details::absSubstraction(lhs, rhs, pos)`: the loop runs while
`i + pos != lhs.size()`; it is called with `pos` at most `lhs.size()`. -/
def absSubstraction (lhs rhs : List Int) (pos : Nat) : List Int :=
  absSubstraction_loop rhs pos (lhs.length - pos) 0 lhs

/-- The loop `for (std::size_t j = 0; j != 9; ++j)` of `devide` with `n` iterations left:
what is left of `lhs`, and `tmp[i]`. -/
def devide_digit (rhs : List Int) (i : Nat) : Nat → List Int → Int → List Int × Int
  | 0, lhs, count => (lhs, count)
  | n + 1, lhs, count =>
    if absCompare (removeZeros lhs) rhs i ≥ 0 then
      devide_digit rhs i n (absSubstraction (removeZeros lhs) rhs i) (wrap_int (count + 1))
    else (removeZeros lhs, count)

/-- The loop `for (std::size_t i = tmp.size(); i--;)` of `devide` with `i` iterations
left: `tmp`, and what is left of `lhs`. -/
def devide_loop (rhs : List Int) : Nat → List Int → List Int → List Int × List Int
  | 0, lhs, tmp => (tmp, lhs)
  | i + 1, lhs, tmp =>
    devide_loop rhs i (devide_digit rhs i 9 lhs 0).1 (tmp.set i (devide_digit rhs i 9 lhs 0).2)

/-- Source `details::devide(lhs, rhs)`: the returned vector, and `lhs` afterwards. -/
def devide (lhs rhs : List Int) : List Int × List Int :=
  devide_loop rhs lhs.length lhs (List.replicate lhs.length 0)

/-- The loop over `k` of `operator*=`: `accumulator[k + j] += number_[k] * rhs.number_[j]`. -/
def multiply_row (j : Nat) (d : Int) : List Int → Nat → List Int → Except Failure (List Int)
  | [], _, accumulator => Except.ok accumulator
  | x :: xs, k, accumulator =>
    if k + j < accumulator.length then
      multiply_row j d xs (k + 1)
        (accumulator.set (k + j) (wrap_int (accumulator.getD (k + j) 0 + wrap_int (x * d))))
    else Except.error (Failure.out_of_bounds (k + j) accumulator.length)

/-- The loop over `j` of `operator*=`. -/
def multiply_rows (number : List Int) : List Int → Nat → List Int → Except Failure (List Int)
  | [], _, accumulator => Except.ok accumulator
  | d :: ds, j, accumulator =>
    match multiply_row j d number 0 accumulator with
    | Except.ok a => multiply_rows number ds (j + 1) a
    | Except.error e => Except.error e

end details

open details

/-- Source `BigInteger::operator bool`. -/
def BigInteger.toBool (self : BigInteger) : Bool := !self.number_.isEmpty

/-- Source `BigInteger::operator-() const`. -/
def BigInteger.neg (self : BigInteger) : BigInteger :=
  if self.toBool then { self with sign_ := wrap_int (self.sign_ * -1) } else self

/-- The loop `for (std::size_t i = 0; i != tmp.number_.size(); ++i) number_[i] +=
tmp.number_[i];` of `operator+=`, on a `number` that is at least as long as `rhs`. -/
def details.add_columns (number rhs : List Int) : List Int :=
  (List.range number.length).map fun i =>
    if i < rhs.length then wrap_int (number.getD i 0 + rhs.getD i 0) else number.getD i 0

/-- The call `number_.resize(tmp.number_.size(), 0)` of `operator+=` when `number_` is the
shorter vector. -/
def details.resize_to (number rhs : List Int) : List Int :=
  if number.length < rhs.length then number ++ List.replicate (rhs.length - number.length) 0
  else number

/-- The branch `sign_ == tmp.sign_` of `operator+=`. -/
def BigInteger.add_digits (self tmp : BigInteger) : BigInteger :=
  { self with
    number_ := removeZeros (toBase10 (add_columns (resize_to self.number_ tmp.number_)
      tmp.number_)) }

/-- The branch `sign_ == tmp.sign_` of `operator-=`, before the final `removeZeros`. -/
def BigInteger.sub_digits (self tmp : BigInteger) : BigInteger :=
  if operator_lt { tmp with sign_ := 1 } { self with sign_ := 1 } then
    { sign_ := if self.sign_ > 0 then 1 else -1,
      number_ := absSubstraction self.number_ tmp.number_ 0 }
  else if operator_lt { self with sign_ := 1 } { tmp with sign_ := 1 } then
    { sign_ := if self.sign_ > 0 then -1 else 1,
      number_ := absSubstraction tmp.number_ self.number_ 0 }
  else { self with sign_ := 1 }

mutual

/-- Source `BigInteger::operator+=`, with `fuel` nested calls of the two operators allowed:
`none` when they are used up. -/
def BigInteger.add_assign : Nat → BigInteger → BigInteger → Option BigInteger
  | 0, _, _ => none
  | fuel + 1, self, rhs =>
    if self.sign_ = rhs.sign_ then some (self.add_digits rhs)
    else BigInteger.sub_assign fuel self { rhs with sign_ := wrap_int (rhs.sign_ * -1) }

/-- Source `BigInteger::operator-=`, with `fuel` nested calls of the two operators allowed. -/
def BigInteger.sub_assign : Nat → BigInteger → BigInteger → Option BigInteger
  | 0, _, _ => none
  | fuel + 1, self, rhs =>
    if operator_eq self rhs then some { sign_ := 1, number_ := [] }
    else if self.sign_ = rhs.sign_ then
      some { self.sub_digits rhs with number_ := removeZeros (self.sub_digits rhs).number_ }
    else
      match BigInteger.add_assign fuel self { rhs with sign_ := wrap_int (rhs.sign_ * -1) } with
      | some r => some { r with number_ := removeZeros r.number_ }
      | none => none

end

/-- Source `operator+(const BigInteger&, const BigInteger&)`; each operator calls the other
one at most once when both `sign_` are 1 or -1. -/
def operator_add (lhs rhs : BigInteger) : Option BigInteger := BigInteger.add_assign 3 lhs rhs

/-- Source `operator-(const BigInteger&, const BigInteger&)`. -/
def operator_sub (lhs rhs : BigInteger) : Option BigInteger := BigInteger.sub_assign 3 lhs rhs

/-- Source `BigInteger::operator++()`: `*this += 1`. -/
def BigInteger.pre_increment (self : BigInteger) : Option BigInteger :=
  BigInteger.add_assign 3 self (BigInteger.ctor_int 1)

/-- Source `BigInteger::operator--()`: `*this -= 1`. -/
def BigInteger.pre_decrement (self : BigInteger) : Option BigInteger :=
  BigInteger.sub_assign 3 self (BigInteger.ctor_int 1)

/-- Source `BigInteger::operator*=`. -/
def BigInteger.mul_assign (self rhs : BigInteger) : Except Failure BigInteger :=
  if operator_eq self (BigInteger.ctor_int 0) then Except.ok self
  else if operator_eq rhs (BigInteger.ctor_int 0) then Except.ok { sign_ := 1, number_ := [] }
  else
    match multiply_rows self.number_ rhs.number_ 0
        (List.replicate (max self.number_.length rhs.number_.length + 1) 0) with
    | Except.ok accumulator =>
      Except.ok { sign_ := wrap_int (self.sign_ * rhs.sign_),
                  number_ := removeZeros (toBase10 accumulator) }
    | Except.error e => Except.error e

/-- Source `operator*(const BigInteger&, const BigInteger&)`. -/
def operator_mul (lhs rhs : BigInteger) : Except Failure BigInteger := lhs.mul_assign rhs

/-- Source `BigInteger::operator/=`. -/
def BigInteger.div_assign (self rhs : BigInteger) : Except Failure BigInteger :=
  if !rhs.toBool then Except.error Failure.runtime_error
  else
    Except.ok
      { sign_ := if (removeZeros (devide self.number_ rhs.number_).1).isEmpty then 1
                 else wrap_int (self.sign_ * rhs.sign_),
        number_ := removeZeros (devide self.number_ rhs.number_).1 }

/-- Source `BigInteger::operator%=`. -/
def BigInteger.mod_assign (self rhs : BigInteger) : Except Failure BigInteger :=
  if !rhs.toBool then Except.error Failure.runtime_error
  else
    Except.ok
      { sign_ := if (devide self.number_ rhs.number_).2.isEmpty then 1
                 else wrap_int (self.sign_ * rhs.sign_),
        number_ := (devide self.number_ rhs.number_).2 }

/-- Source `operator/(const BigInteger&, const BigInteger&)`. -/
def operator_div (lhs rhs : BigInteger) : Except Failure BigInteger := lhs.div_assign rhs

/-- Source `operator%(const BigInteger&, const BigInteger&)`. -/
def operator_mod (lhs rhs : BigInteger) : Except Failure BigInteger := lhs.mod_assign rhs

/-- Source `abs(const BigInteger&)`. -/
def abs (number : BigInteger) : BigInteger :=
  if operator_lt number (BigInteger.ctor_int 0) then number.neg else number

/-- The loop `while (tmp_rhs) { tmp_lhs %= tmp_rhs; swap(tmp_lhs, tmp_rhs); }` of `gcd`
with `fuel` iterations allowed. -/
def gcd_loop : Nat → BigInteger → BigInteger → Except Failure BigInteger
  | 0, _, _ => Except.error Failure.no_return
  | fuel + 1, tmp_lhs, tmp_rhs =>
    if tmp_rhs.toBool then
      match tmp_lhs.mod_assign tmp_rhs with
      | Except.ok r => gcd_loop fuel tmp_rhs r
      | Except.error e => Except.error e
    else Except.ok tmp_lhs

/-- Source `gcd(const BigInteger&, const BigInteger&)`, with `fuel` iterations of its loop
allowed. -/
def gcd (fuel : Nat) (lhs rhs : BigInteger) : Except Failure BigInteger :=
  gcd_loop fuel (abs lhs) (abs rhs)

/-- A `BigInteger` in canonical form: digits from 0 to 9, no zero as most significant
digit, `sign_` 1 or -1, and 1 for zero. -/
def BigInteger.canonical (self : BigInteger) : Bool :=
  self.number_.all (fun d => decide (0 ≤ d ∧ d ≤ 9)) &&
  (self.number_.getLast? != some 0) &&
  (self.sign_ == 1 || (self.sign_ == -1 && !self.number_.isEmpty))

/-! # BigInteger: conversion from and to `std::string` -/

open details

/-- Source `BigInteger::BigInteger(std::string)`; a string is the list of its characters,
which are ASCII, and `item - '0'` is the distance of the character code from 48.  `back()` of
an empty string is undefined behaviour, recorded as an access past the end. -/
def BigInteger.ctor_string (number_str : List Char) : Except Failure BigInteger :=
  let reversed := number_str.reverse
  match reversed.getLast? with
  | none => Except.error (Failure.out_of_bounds 0 0)
  | some c =>
    let sign : Int := if c = '-' then -1 else 1
    let rest := if c = '-' then reversed.dropLast else reversed
    let digits := removeZeros (rest.map fun item => (item.toNat : Int) - 48)
    Except.ok { sign_ := if digits.isEmpty then 1 else sign, number_ := digits }

/-- The character pushed by `tmp.push_back(static_cast<char>(item) + '0')`: the sum is
converted back to `char`, which keeps its last 8 bits. -/
def details.digit_char (item : Int) : Char := Char.ofNat ((item + 48) % 256).toNat

/-- Source `BigInteger::toString`. -/
def BigInteger.toString (self : BigInteger) : List Char :=
  let tmp := self.number_.map digit_char
  let tmp2 := if self.number_.isEmpty then tmp ++ ['0']
    else if self.sign_ < 0 then tmp ++ ['-'] else tmp
  tmp2.reverse

/-- `BigInteger(s).toString()`. -/
def string_round_trip (s : List Char) : Except Failure (List Char) :=
  match BigInteger.ctor_string s with
  | Except.ok b => Except.ok b.toString
  | Except.error e => Except.error e

/-! ## Decimal strings, as the specification describes them -/

/-- One of the characters `0` to `9`. -/
def is_digit (c : Char) : Bool := decide (48 ≤ c.toNat ∧ c.toNat ≤ 57)

/-- A non-empty string of digits that does not start with `0`. -/
def unsigned_decimal (s : List Char) : Bool :=
  s.all is_digit && (s.head? != some '0') && !s.isEmpty

/-- A canonical decimal string: `0`, or an optional `-` followed by digits with no leading
zero. -/
def canonical_decimal (s : List Char) : Bool :=
  s == ['0'] || unsigned_decimal s || (s.head? == some '-' && unsigned_decimal s.tail)

/-- The natural number written by a string of digits, most significant first. -/
def decimal_digits_value (s : List Char) : Int :=
  s.foldl (fun acc c => 10 * acc + ((c.toNat : Int) - 48)) 0

/-- The integer written by a decimal string. -/
def decimal_value (s : List Char) : Int :=
  if s.head? = some '-' then -decimal_digits_value s.tail else decimal_digits_value s

open details

/-- Members of class `Rational`: `num_` and `demon_`. -/
structure Rational where
  num_ : BigInteger := BigInteger.ctor_int 0
  demon_ : BigInteger := BigInteger.ctor_int 1
deriving DecidableEq

/-- Source `details::reduction(num, denom)`, with `fuel` iterations of the loop of `gcd`
allowed: `num` and `denom` afterwards. -/
def details.reduction (fuel : Nat) (num denom : BigInteger) :
    Except Failure (BigInteger × BigInteger) :=
  match gcd fuel num denom with
  | Except.error e => Except.error e
  | Except.ok tmp_gcd =>
    match num.div_assign tmp_gcd with
    | Except.error e => Except.error e
    | Except.ok n =>
      match denom.div_assign tmp_gcd with
      | Except.error e => Except.error e
      | Except.ok d =>
        if operator_lt d (BigInteger.ctor_int 0) then
          match n.mul_assign (BigInteger.ctor_int (-1)) with
          | Except.error e => Except.error e
          | Except.ok n2 =>
            match d.mul_assign (BigInteger.ctor_int (-1)) with
            | Except.error e => Except.error e
            | Except.ok d2 => Except.ok (n2, d2)
        else Except.ok (n, d)

/-- Source `Rational::Rational(const BigInteger& num, const BigInteger& denom)`. -/
def Rational.ctor (fuel : Nat) (num denom : BigInteger) : Except Failure Rational :=
  match details.reduction fuel num denom with
  | Except.ok r => Except.ok { num_ := r.1, demon_ := r.2 }
  | Except.error e => Except.error e

/-! ## Notions used to state what the division does -/

/-- The value of the digits `f 0`, ..., `f (n - 1)`, least significant first. -/
def digits_window (f : Nat → Int) : Nat → Int
  | 0 => 0
  | n + 1 => digits_window f n + f n * 10 ^ n

/-- Every element is a decimal digit. -/
def Valid (l : List Int) : Prop := ∀ d ∈ l, 0 ≤ d ∧ d ≤ 9

/-- The digits have no zero in front, said with their value. -/
def Tight (l : List Int) : Prop := l = [] ∨ 10 ^ (l.length - 1) ≤ digits_value l

instance Valid.decidable (l : List Int) : Decidable (Valid l) :=
  inferInstanceAs (Decidable (∀ d ∈ l, 0 ≤ d ∧ d ≤ 9))

end big_integer

/-! # Theorems -/

namespace shared_ptr

open details

/-! ## Heap lemmas -/

@[simp]
theorem Heap.log_blocks (h : Heap) (e : Event) : (h.log e).blocks = h.blocks := rfl

@[simp]
theorem Heap.log_trace (h : Heap) (e : Event) : (h.log e).trace = h.trace ++ [e] := rfl

@[simp]
theorem Heap.log_block (h : Heap) (e : Event) (b : Nat) :
    (h.log e).block b = h.block b := rfl

@[simp]
theorem Heap.update_trace (h : Heap) (cb : Nat) (f : ControlBlockBase → ControlBlockBase) :
    (h.update cb f).trace = h.trace := rfl

@[simp]
theorem Heap.update_length (h : Heap) (cb : Nat) (f : ControlBlockBase → ControlBlockBase) :
    (h.update cb f).blocks.length = h.blocks.length := by
  simp [Heap.update]

theorem Heap.block_of_lt (h : Heap) (cb : Nat) (hlt : cb < h.blocks.length) :
    h.block cb = h.blocks[cb] := by
  simp [Heap.block, List.getElem?_eq_getElem hlt]

theorem Heap.block_of_ge (h : Heap) (cb : Nat) (hge : h.blocks.length ≤ cb) :
    h.block cb = Heap.wild := by
  simp [Heap.block, List.getElem?_eq_none hge]

theorem Heap.lt_of_not_freed (h : Heap) (cb : Nat) (hf : (h.block cb).freed = false) :
    cb < h.blocks.length := by
  by_contra hge
  rw [Heap.block_of_ge h cb (by omega)] at hf
  simp [Heap.wild] at hf

theorem Heap.deref_eq (h : Heap) (cb : Nat) (hf : (h.block cb).freed = false) :
    h.deref cb = h := by
  simp [Heap.deref, hf]

theorem Heap.update_block (h : Heap) (cb b : Nat) (f : ControlBlockBase → ControlBlockBase)
    (hlt : cb < h.blocks.length) :
    (h.update cb f).block b = if b = cb then f (h.block cb) else h.block b := by
  unfold Heap.update Heap.block
  by_cases hb : b = cb
  · subst hb
    simp [List.getElem?_set_self, hlt]
  · have hne : cb ≠ b := fun e => hb e.symm
    simp [List.getElem?_set_ne hne, hb]

theorem Heap.alloc_block (h : Heap) (blk : ControlBlockBase) (b : Nat) :
    (h.alloc blk).block b = if b = h.blocks.length then blk else h.block b := by
  unfold Heap.alloc Heap.block
  by_cases hb : b = h.blocks.length
  · subst hb
    simp
  · simp only [hb, if_false]
    by_cases hlt : b < h.blocks.length
    · simp [List.getElem?_append_left hlt]
    · have hge : h.blocks.length < b := by omega
      have h1 : (h.blocks ++ [blk])[b]? = none := by
        apply List.getElem?_eq_none
        simp
        omega
      have h2 : h.blocks[b]? = none := List.getElem?_eq_none (by omega)
      simp [h1, h2]

@[simp]
theorem Heap.put_trace (h : Heap) (cb : Nat) (blk : ControlBlockBase) (evs : List Event) :
    (h.put cb blk evs).trace = h.trace ++ evs := rfl

@[simp]
theorem Heap.put_length (h : Heap) (cb : Nat) (blk : ControlBlockBase)
    (evs : List Event) : (h.put cb blk evs).blocks.length = h.blocks.length := by
  simp [Heap.put]

theorem Heap.put_block (h : Heap) (cb b : Nat) (blk : ControlBlockBase) (evs : List Event)
    (hlt : cb < h.blocks.length) :
    (h.put cb blk evs).block b = if b = cb then blk else h.block b := by
  unfold Heap.put Heap.block
  by_cases hb : b = cb
  · subst hb
    simp [List.getElem?_set_self, hlt]
  · have hne : cb ≠ b := fun e => hb e.symm
    simp [List.getElem?_set_ne hne, hb]

theorem Heap.update_eq_put (h : Heap) (cb : Nat) (f : ControlBlockBase → ControlBlockBase) :
    h.update cb f = h.put cb (f (h.block cb)) [] := by
  simp [Heap.update, Heap.put]

theorem Heap.put_put (h : Heap) (cb : Nat) (b1 b2 : ControlBlockBase) (e1 e2 : List Event) :
    (h.put cb b1 e1).put cb b2 e2 = h.put cb b2 (e1 ++ e2) := by
  simp [Heap.put, List.set_set]

theorem Heap.put_log (h : Heap) (cb : Nat) (b1 : ControlBlockBase) (e1 : List Event)
    (e : Event) : (h.put cb b1 e1).log e = h.put cb b1 (e1 ++ [e]) := by
  simp [Heap.put, Heap.log]

theorem Heap.set_block_self (h : Heap) (cb : Nat) : h.blocks.set cb (h.block cb) = h.blocks := by
  by_cases hlt : cb < h.blocks.length
  · rw [Heap.block_of_lt h cb hlt]
    apply List.ext_getElem (by simp)
    intro n h1 h2
    by_cases hn : cb = n
    · subst hn
      simp
    · simp [List.getElem_set_ne hn]
  · exact List.set_eq_of_length_le (by omega)

theorem Heap.log_eq_put (h : Heap) (cb : Nat) (e : Event) :
    h.log e = h.put cb (h.block cb) [e] := by
  simp [Heap.put, Heap.log, Heap.set_block_self]

theorem increment_shared_counter_eq (h : Heap) (cb : Nat) (hf : (h.block cb).freed = false) :
    increment_shared_counter h cb = h.put cb
      { h.block cb with
        shared_counter_ := ((h.block cb).shared_counter_ + 1) % SIZE_T_RANGE } [] := by
  simp [increment_shared_counter, Heap.deref_eq h cb hf, Heap.update_eq_put]

theorem increment_weak_counter_eq (h : Heap) (cb : Nat) (hf : (h.block cb).freed = false) :
    increment_weak_counter h cb = h.put cb
      { h.block cb with
        weak_counter_ := ((h.block cb).weak_counter_ + 1) % SIZE_T_RANGE } [] := by
  simp [increment_weak_counter, Heap.deref_eq h cb hf, Heap.update_eq_put]

theorem WeakPtr.weak_dtor_null (h : Heap) (p : RawPtr) : WeakPtr.dtor h ⟨none, p⟩ = h := rfl

theorem details.object_destructor_inert (h : Heap) (cb : Nat) (hi : (h.block cb).inert) :
    object_destructor h cb = h := by
  unfold object_destructor
  cases hw : (h.block cb).obj_wptr_ with
  | none => rfl
  | some w =>
    have hn := hi w hw
    cases w with
    | mk c p =>
      simp at hn
      subst hn
      rfl

theorem WeakPtr.weak_dtor_eq (h : Heap) (cb : Nat) (p : RawPtr)
    (hf : (h.block cb).freed = false)
    (hw1 : 1 ≤ (h.block cb).weak_counter_) (hw2 : (h.block cb).weak_counter_ < SIZE_T_RANGE) :
    WeakPtr.dtor h ⟨some cb, p⟩ =
      h.put cb (WeakPtr.dtor_block (h.block cb)) (WeakPtr.dtor_events cb (h.block cb)) := by
  have hlt := Heap.lt_of_not_freed h cb hf
  have hdec : ((h.block cb).weak_counter_ + SIZE_T_RANGE - 1) % SIZE_T_RANGE
      = (h.block cb).weak_counter_ - 1 := by
    unfold SIZE_T_RANGE at *
    omega
  simp only [WeakPtr.dtor, decrement_weak_counter, get_shared_counter, get_weak_counter,
    destroy_control_block, Heap.deref_eq h cb hf, Heap.update_eq_put, hdec]
  have hb1 : ∀ (x : ControlBlockBase) (e : List Event), (h.put cb x e).block cb = x := by
    intro x e
    simp [Heap.put_block h cb cb x e hlt]
  simp only [hb1, Heap.deref, Bool.false_eq_true, if_false, hf]
  unfold WeakPtr.dtor_block WeakPtr.dtor_events
  by_cases hs : (h.block cb).shared_counter_ = 0
  · by_cases hw : (h.block cb).weak_counter_ = 1
    · simp [hs, hw, hb1, Heap.put_put, Heap.put_log, Heap.update_eq_put]
    · have : (h.block cb).weak_counter_ - 1 ≠ 0 := by omega
      simp [hs, hw, this]
  · simp [hs]

theorem details.destroy_field_eq (h : Heap) (cb : Nat) (hf : (h.block cb).freed = false)
    (hi : (h.block cb).inert) :
    destroy_field h cb = h.put cb { h.block cb with ptr_ := (h.block cb).field_ptr }
      [Event.destroy_field cb (h.block cb).shared_counter_ (h.block cb).weak_counter_,
        (h.block cb).field_event] := by
  have hset := Heap.set_block_self h cb
  have h3 : ∀ (e1 e2 : Event), object_destructor ((h.log e1).log e2) cb = (h.log e1).log e2 := by
    intro e1 e2
    exact object_destructor_inert _ cb (by simpa using hi)
  have hd : ∀ (e1 e2 : Event), ((h.log e1).log e2).deref cb = (h.log e1).log e2 := by
    intro e1 e2
    exact Heap.deref_eq _ cb (by simpa using hf)
  unfold destroy_field
  simp only [Heap.deref_eq h cb hf, Heap.log_block, ControlBlockBase.field_ptr,
    ControlBlockBase.field_event]
  generalize hb : h.block cb = b at *
  obtain ⟨s, w, k, p, o, f⟩ := b
  cases k with
  | ControlBlockConstructor =>
    simp only [h3, hd, ite_self, Heap.update_eq_put, Heap.log_block, hb]
    simp [Heap.put, Heap.log]
  | ControlBlockAllocateShared =>
    simp only [h3]
    simp [Heap.put, Heap.log, hset]

theorem SharedPtr.dtor_null (h : Heap) (p : RawPtr) : SharedPtr.dtor h ⟨none, p⟩ = h := rfl

theorem SharedPtr.dtor_eq (h : Heap) (cb : Nat) (p : RawPtr)
    (hf : (h.block cb).freed = false) (hi : (h.block cb).inert)
    (hs1 : 1 ≤ (h.block cb).shared_counter_)
    (hs2 : (h.block cb).shared_counter_ < SIZE_T_RANGE) :
    SharedPtr.dtor h ⟨some cb, p⟩ =
      h.put cb (SharedPtr.dtor_block (h.block cb)) (SharedPtr.dtor_events cb (h.block cb)) := by
  have hlt := Heap.lt_of_not_freed h cb hf
  have hdec : ((h.block cb).shared_counter_ + SIZE_T_RANGE - 1) % SIZE_T_RANGE
      = (h.block cb).shared_counter_ - 1 := by
    unfold SIZE_T_RANGE at *
    omega
  have hb1 : ∀ (x : ControlBlockBase) (e : List Event), (h.put cb x e).block cb = x := by
    intro x e
    simp [Heap.put_block h cb cb x e hlt]
  unfold SharedPtr.dtor
  simp only [decrement_shared_counter, get_shared_counter, get_weak_counter,
    Heap.deref_eq h cb hf, Heap.update_eq_put, hdec]
  have hf1 : ((h.put cb { h.block cb with shared_counter_ := (h.block cb).shared_counter_ - 1 }
      []).block cb).freed = false := by
    rw [hb1]
    exact hf
  rw [Heap.deref_eq _ cb hf1]
  simp only [hb1]
  unfold SharedPtr.dtor_block SharedPtr.dtor_events
  by_cases hs : (h.block cb).shared_counter_ = 1
  · have h0 : (h.block cb).shared_counter_ - 1 = 0 := by omega
    have hi1 : ((h.put cb { h.block cb with shared_counter_ := 0 } []).block cb).inert := by
      rw [hb1]
      exact hi
    have hf0 : ((h.put cb { h.block cb with shared_counter_ := 0 } []).block cb).freed
        = false := by
      rw [hb1]
      exact hf
    simp only [hs, h0, if_true, destroy_field_eq _ cb hf0 hi1, hb1, Heap.put_put]
    simp only [Heap.deref, hb1, hf, Bool.false_eq_true, if_false, ControlBlockBase.field_ptr,
      ControlBlockBase.field_event]
    by_cases hw : (h.block cb).weak_counter_ = 0
    · simp [hw, destroy_control_block, Heap.deref, hb1, hf, Heap.update_eq_put, Heap.put_put,
        Heap.put_log]
    · simp [hw]
  · have h0 : (h.block cb).shared_counter_ - 1 ≠ 0 := by omega
    simp [hs, h0, Heap.deref, hb1, hf]

/-! ## Counting lemmas -/

theorem countP_push {α : Type} (p : α → Bool) (l : List α) (x : α) :
    (l ++ [x]).countP p = l.countP p + (if p x then 1 else 0) := by
  simp [List.countP_append, List.countP_cons]

theorem countP_set_add {α : Type} (p : α → Bool) (l : List α) (i : Nat) (x y : α)
    (hi : l[i]? = some y) :
    (l.set i x).countP p + (if p y then 1 else 0) = l.countP p + (if p x then 1 else 0) := by
  have hlt : i < l.length := by
    by_contra hge
    rw [List.getElem?_eq_none (by omega)] at hi
    cases hi
  have hy : l[i] = y := by
    rw [List.getElem?_eq_getElem hlt] at hi
    exact Option.some.inj hi
  have hle := List.boole_getElem_le_countP p l i hlt
  rw [List.countP_set p l i x hlt, hy]
  rw [hy] at hle
  omega

theorem countP_pos_of_getElem? {α : Type} (p : α → Bool) (l : List α) (i : Nat) (y : α)
    (hi : l[i]? = some y) (hp : p y = true) : 1 ≤ l.countP p := by
  have hlt : i < l.length := by
    by_contra hge
    rw [List.getElem?_eq_none (by omega)] at hi
    cases hi
  have hy : l[i] = y := by
    rw [List.getElem?_eq_getElem hlt] at hi
    exact Option.some.inj hi
  have hle := List.boole_getElem_le_countP p l i hlt
  rw [hy, hp] at hle
  simpa using hle

theorem countP_swap {α : Type} (p : α → Bool) (l : List α) (i j : Nat) (a b : α)
    (hi : l[i]? = some a) (hj : l[j]? = some b) :
    ((l.set i b).set j a).countP p = l.countP p := by
  have h1 := countP_set_add p l i b a hi
  have hj1 : (l.set i b)[j]? = some b := by
    by_cases hij : i = j
    · subst hij
      have hlt : i < l.length := by
        by_contra hge
        rw [List.getElem?_eq_none (by omega)] at hi
        cases hi
      simp [List.getElem?_set_self, hlt]
    · rw [List.getElem?_set_ne hij]
      exact hj
  have h2 := countP_set_add p (l.set i b) j a b hj1
  omega

theorem getElem?_lt {α : Type} (l : List α) (i : Nat) (y : α) (hi : l[i]? = some y) :
    i < l.length := by
  by_contra hge
  rw [List.getElem?_eq_none (by omega)] at hi
  cases hi

/-! ## The invariant is kept -/

theorem World.Inv.init : ({} : World).Inv := by
  constructor <;> simp [World.strong_refs, World.weak_refs, Heap.block, Heap.wild,
    Heap.destroy_control_block_calls, Heap.destroy_field_calls, SIZE_T_RANGE,
    ControlBlockBase.inert]

theorem World.Inv.of_refs_eq (w w2 : World) (hinv : w.Inv) (hh : w2.heap = w.heap)
    (hls : w2.strong.length < SIZE_T_RANGE) (hlw : w2.weak.length < SIZE_T_RANGE)
    (hs : ∀ b, w2.strong_refs b = w.strong_refs b)
    (hw : ∀ b, w2.weak_refs b = w.weak_refs b) : w2.Inv := by
  obtain ⟨i1, i2, i3, i4, i5, i6, i7, i8, i9, i10, i11⟩ := hinv
  constructor
  · exact hls
  · exact hlw
  · intro b; rw [hh, hs]; exact i3 b
  · intro b; rw [hh, hw]; exact i4 b
  · intro b; rw [hh, hs, hw]; exact i5 b
  · intro b; rw [hh]; exact i6 b
  · rw [hh]; exact i7
  · rw [hh]; exact i8
  · rw [hh]; exact i9
  · rw [hh]; exact i10
  · rw [hh]; exact i11

theorem World.Inv.put (w w2 : World) (cb : Nat) (blk : ControlBlockBase) (evs : List Event)
    (hinv : w.Inv) (hlt : cb < w.heap.blocks.length)
    (hheap : w2.heap = w.heap.put cb blk evs)
    (hls : w2.strong.length < SIZE_T_RANGE) (hlw : w2.weak.length < SIZE_T_RANGE)
    (hso : ∀ b, b ≠ cb → w2.strong_refs b = w.strong_refs b)
    (hwo : ∀ b, b ≠ cb → w2.weak_refs b = w.weak_refs b)
    (hs : blk.shared_counter_ = w2.strong_refs cb)
    (hw : blk.weak_counter_ = w2.weak_refs cb)
    (hfr : blk.freed = true ↔ (w2.strong_refs cb = 0 ∧ w2.weak_refs cb = 0))
    (hin : blk.inert)
    (huaf : ∀ e ∈ evs, Event.is_use_after_free e = false)
    (hdz : ∀ b s k, Event.destroy_control_block b s k ∈ evs → s = 0 ∧ k = 0)
    (hfz : ∀ b s k, Event.destroy_field b s k ∈ evs → s = 0)
    (hdo : ∀ b, b ≠ cb → evs.countP (Event.is_destroy_control_block b) = 0)
    (hfo : ∀ b, b ≠ cb → evs.countP (Event.is_destroy_field b) = 0)
    (hdc : w.heap.destroy_control_block_calls cb
      + evs.countP (Event.is_destroy_control_block cb) = if blk.freed then 1 else 0)
    (hfc : w.heap.destroy_field_calls cb
      + evs.countP (Event.is_destroy_field cb) = if blk.shared_counter_ = 0 then 1 else 0) :
    w2.Inv := by
  obtain ⟨i1, i2, i3, i4, i5, i6, i7, i8, i9, i10, i11⟩ := hinv
  have hblk : ∀ b, w2.heap.block b = if b = cb then blk else w.heap.block b := by
    intro b
    rw [hheap]
    exact Heap.put_block _ cb b blk evs hlt
  have hlen : w2.heap.blocks.length = w.heap.blocks.length := by
    rw [hheap]
    simp
  have htr : w2.heap.trace = w.heap.trace ++ evs := by
    rw [hheap]
    rfl
  constructor
  · exact hls
  · exact hlw
  · intro b
    rw [hblk]
    by_cases hb : b = cb
    · subst hb; simpa using hs
    · simp only [hb, if_false]; rw [hso b hb]; exact i3 b
  · intro b
    rw [hblk]
    by_cases hb : b = cb
    · subst hb; simpa using hw
    · simp only [hb, if_false]; rw [hwo b hb]; exact i4 b
  · intro b
    rw [hblk]
    by_cases hb : b = cb
    · subst hb; simpa using hfr
    · simp only [hb, if_false]; rw [hso b hb, hwo b hb]; exact i5 b
  · intro b
    rw [hblk]
    by_cases hb : b = cb
    · subst hb; simpa using hin
    · simp only [hb, if_false]; exact i6 b
  · intro e he
    rw [htr, List.mem_append] at he
    rcases he with he | he
    · exact i7 e he
    · exact huaf e he
  · intro b s k he
    rw [htr, List.mem_append] at he
    rcases he with he | he
    · exact i8 b s k he
    · exact hdz b s k he
  · intro b s k he
    rw [htr, List.mem_append] at he
    rcases he with he | he
    · exact i9 b s k he
    · exact hfz b s k he
  · intro b
    unfold Heap.destroy_control_block_calls
    rw [htr, List.countP_append, hlen, hblk]
    by_cases hb : b = cb
    · subst hb
      simp only [if_true, hlt]
      exact hdc
    · simp only [hb, if_false, hdo b hb, Nat.add_zero]
      exact i10 b
  · intro b
    unfold Heap.destroy_field_calls
    rw [htr, List.countP_append, hlen, hblk]
    by_cases hb : b = cb
    · subst hb
      simp only [if_true, hlt]
      exact hfc
    · simp only [hb, if_false, hfo b hb, Nat.add_zero]
      exact i11 b

theorem World.strong_refs_le (w : World) (b : Nat) : w.strong_refs b ≤ w.strong.length :=
  List.countP_le_length _

theorem World.weak_refs_le (w : World) (b : Nat) : w.weak_refs b ≤ w.weak.length :=
  List.countP_le_length _

theorem World.Inv.strong_live (w : World) (hinv : w.Inv) (i : Nat) (s : SharedPtr) (cb : Nat)
    (hi : w.strong[i]? = some (some s)) (hcb : s.control_block_ = some cb) :
    1 ≤ (w.heap.block cb).shared_counter_ ∧ (w.heap.block cb).freed = false ∧
      cb < w.heap.blocks.length := by
  have h1 : 1 ≤ w.strong_refs cb :=
    countP_pos_of_getElem? _ w.strong i (some s) hi (by simp [SharedPtr.owns, hcb])
  have h2 : (w.heap.block cb).freed = false := by
    cases hf : (w.heap.block cb).freed with
    | false => rfl
    | true =>
      have := (hinv.freed cb).1 hf
      omega
  refine ⟨?_, h2, Heap.lt_of_not_freed _ cb h2⟩
  rw [hinv.shared cb]
  exact h1

theorem World.Inv.weak_live (w : World) (hinv : w.Inv) (i : Nat) (s : WeakPtr) (cb : Nat)
    (hi : w.weak[i]? = some (some s)) (hcb : s.control_block_ = some cb) :
    1 ≤ (w.heap.block cb).weak_counter_ ∧ (w.heap.block cb).freed = false ∧
      cb < w.heap.blocks.length := by
  have h1 : 1 ≤ w.weak_refs cb :=
    countP_pos_of_getElem? _ w.weak i (some s) hi (by simp [WeakPtr.observes, hcb])
  have h2 : (w.heap.block cb).freed = false := by
    cases hf : (w.heap.block cb).freed with
    | false => rfl
    | true =>
      have := (hinv.freed cb).1 hf
      omega
  refine ⟨?_, h2, Heap.lt_of_not_freed _ cb h2⟩
  rw [hinv.weak cb]
  exact h1

theorem World.Inv.sp_default (w : World) (hinv : w.Inv)
    (hls : w.strong.length + 1 < SIZE_T_RANGE) : w.sp_default.Inv := by
  apply World.Inv.of_refs_eq w _ hinv
  · rfl
  · simp [World.sp_default]; omega
  · exact hinv.len_weak
  · intro b
    simp [World.sp_default, World.strong_refs, countP_push, SharedPtr.owns,
      SharedPtr.ctor_default]
  · intro b; rfl

theorem World.Inv.wp_default (w : World) (hinv : w.Inv)
    (hlw : w.weak.length + 1 < SIZE_T_RANGE) : w.wp_default.Inv := by
  apply World.Inv.of_refs_eq w _ hinv
  · rfl
  · exact hinv.len_strong
  · simp [World.wp_default]; omega
  · intro b; rfl
  · intro b
    simp [World.wp_default, World.weak_refs, countP_push, WeakPtr.observes,
      WeakPtr.ctor_default]

theorem World.Inv.sp_move (w : World) (hinv : w.Inv) (src : Nat)
    (hls : w.strong.length + 1 < SIZE_T_RANGE) : (w.sp_move src).Inv := by
  unfold World.sp_move
  split
  · next rhs hsrc =>
    apply World.Inv.of_refs_eq w _ hinv
    · rfl
    · simp; omega
    · exact hinv.len_weak
    · intro b
      have h1 := countP_set_add (SharedPtr.owns b) w.strong src
        (some (SharedPtr.ctor_move rhs).2) (some rhs) hsrc
      simp only [World.strong_refs, countP_push]
      simp only [SharedPtr.ctor_move, SharedPtr.owns] at h1 ⊢
      simp at h1 ⊢
      omega
    · intro b; rfl
  · exact hinv

theorem World.Inv.wp_move (w : World) (hinv : w.Inv) (src : Nat)
    (hlw : w.weak.length + 1 < SIZE_T_RANGE) : (w.wp_move src).Inv := by
  unfold World.wp_move
  split
  · next rhs hsrc =>
    apply World.Inv.of_refs_eq w _ hinv
    · rfl
    · exact hinv.len_strong
    · simp; omega
    · intro b; rfl
    · intro b
      have h1 := countP_set_add (WeakPtr.observes b) w.weak src
        (some (WeakPtr.ctor_move rhs).2) (some rhs) hsrc
      simp only [World.weak_refs, countP_push]
      simp only [WeakPtr.ctor_move, WeakPtr.observes] at h1 ⊢
      simp at h1 ⊢
      omega
  · exact hinv

theorem World.Inv.sp_swap (w : World) (hinv : w.Inv) (i j : Nat) : (w.sp_swap i j).Inv := by
  unfold World.sp_swap
  split
  · next a b hi hj =>
    apply World.Inv.of_refs_eq w _ hinv
    · rfl
    · simpa using hinv.len_strong
    · exact hinv.len_weak
    · intro c
      exact countP_swap (SharedPtr.owns c) w.strong i j (some a) (some b) hi hj
    · intro c; rfl
  · exact hinv

theorem World.Inv.wp_swap (w : World) (hinv : w.Inv) (i j : Nat) : (w.wp_swap i j).Inv := by
  unfold World.wp_swap
  split
  · next a b hi hj =>
    apply World.Inv.of_refs_eq w _ hinv
    · rfl
    · exact hinv.len_strong
    · simpa using hinv.len_weak
    · intro c; rfl
    · intro c
      exact countP_swap (WeakPtr.observes c) w.weak i j (some a) (some b) hi hj
  · exact hinv

theorem owns_push (l : List (Option SharedPtr)) (s : SharedPtr) (b : Nat) :
    (l ++ [some s]).countP (SharedPtr.owns b)
      = l.countP (SharedPtr.owns b) + if s.control_block_ = some b then 1 else 0 := by
  rw [countP_push]
  simp [SharedPtr.owns]

theorem observes_push (l : List (Option WeakPtr)) (s : WeakPtr) (b : Nat) :
    (l ++ [some s]).countP (WeakPtr.observes b)
      = l.countP (WeakPtr.observes b) + if s.control_block_ = some b then 1 else 0 := by
  rw [countP_push]
  simp [WeakPtr.observes]

theorem World.Inv.sp_copy (w : World) (hinv : w.Inv) (src : Nat)
    (hls : w.strong.length + 1 < SIZE_T_RANGE) : (w.sp_copy src).Inv := by
  unfold World.sp_copy
  split
  · next rhs hsrc =>
    cases hcb : rhs.control_block_ with
    | none =>
      have hc : SharedPtr.ctor_copy w.heap rhs = (w.heap, ⟨none, rhs.ptr_⟩) := by
        simp [SharedPtr.ctor_copy, hcb]
      simp only [hc]
      apply World.Inv.of_refs_eq w _ hinv
      · rfl
      · simp; omega
      · exact hinv.len_weak
      · intro b
        simp only [World.strong_refs, owns_push]
        simp
      · intro b; rfl
    | some cb =>
      obtain ⟨hs1, hf, hlt⟩ := hinv.strong_live w src rhs cb hsrc hcb
      have hsh := hinv.shared cb
      have hle := w.strong_refs_le cb
      have hmod : ((w.heap.block cb).shared_counter_ + 1) % SIZE_T_RANGE
          = (w.heap.block cb).shared_counter_ + 1 := by
        unfold SIZE_T_RANGE at *
        omega
      have hc : SharedPtr.ctor_copy w.heap rhs = (w.heap.put cb
          { w.heap.block cb with shared_counter_ := (w.heap.block cb).shared_counter_ + 1 } [],
          ⟨some cb, rhs.ptr_⟩) := by
        simp [SharedPtr.ctor_copy, hcb, increment_shared_counter_eq _ _ hf, hmod]
      simp only [hc]
      have hdcb := hinv.dcb_calls cb
      have hdf := hinv.df_calls cb
      simp only [hlt, if_true, hf, Bool.false_eq_true, if_false] at hdcb hdf
      have hfr := hinv.freed cb
      have hwk := hinv.weak cb
      unfold World.strong_refs at hsh hfr hle
      refine World.Inv.put w _ cb _ [] hinv hlt rfl ?_ hinv.len_weak ?_ ?_ ?_ ?_ ?_ ?_ ?_ ?_ ?_
        ?_ ?_ ?_ ?_
      · simp; omega
      · intro b hb
        have : ¬ cb = b := fun e => hb e.symm
        simp only [World.strong_refs, owns_push]
        simp [this]
      · intro b hb; rfl
      · simp only [World.strong_refs, owns_push]
        simp
        omega
      · exact hwk
      · simp only [World.strong_refs, owns_push]
        simp [hf]
      · exact hinv.inert cb
      · simp
      · simp
      · simp
      · simp
      · simp
      · simp [hdcb, hf]
      · simp only [List.countP_nil, Nat.add_zero, hdf]
        have : (w.heap.block cb).shared_counter_ ≠ 0 := by omega
        simp [this]
  · exact hinv

theorem World.Inv.weak_push (w : World) (hinv : w.Inv) (cb : Nat) (p : RawPtr)
    (hf : (w.heap.block cb).freed = false)
    (hlw : w.weak.length + 1 < SIZE_T_RANGE) :
    World.Inv { w with heap := increment_weak_counter w.heap cb,
                       weak := w.weak ++ [some ⟨some cb, p⟩] } := by
  have hlt := Heap.lt_of_not_freed _ cb hf
  have hwk := hinv.weak cb
  have hle := w.weak_refs_le cb
  have hmod : ((w.heap.block cb).weak_counter_ + 1) % SIZE_T_RANGE
      = (w.heap.block cb).weak_counter_ + 1 := by
    unfold SIZE_T_RANGE at *
    omega
  rw [increment_weak_counter_eq _ _ hf, hmod]
  have hdcb := hinv.dcb_calls cb
  have hdf := hinv.df_calls cb
  simp only [hlt, if_true, hf, Bool.false_eq_true, if_false] at hdcb hdf
  have hsh := hinv.shared cb
  unfold World.weak_refs at hwk hle
  refine World.Inv.put w _ cb _ [] hinv hlt rfl hinv.len_strong ?_ ?_ ?_ ?_ ?_ ?_ ?_ ?_ ?_ ?_
    ?_ ?_ ?_ ?_
  · simp; omega
  · intro b hb; rfl
  · intro b hb
    have : ¬ cb = b := fun e => hb e.symm
    simp only [World.weak_refs, observes_push]
    simp [this]
  · exact hsh
  · simp only [World.weak_refs, observes_push]
    simp
    omega
  · simp only [World.weak_refs, observes_push]
    simp [hf]
  · exact hinv.inert cb
  · simp
  · simp
  · simp
  · simp
  · simp
  · simp [hdcb, hf]
  · simpa using hdf

theorem World.Inv.wp_copy (w : World) (hinv : w.Inv) (src : Nat)
    (hlw : w.weak.length + 1 < SIZE_T_RANGE) : (w.wp_copy src).Inv := by
  unfold World.wp_copy
  split
  · next rhs hsrc =>
    cases hcb : rhs.control_block_ with
    | none =>
      have hc : WeakPtr.ctor_copy w.heap rhs = (w.heap, ⟨none, rhs.ptr_⟩) := by
        simp [WeakPtr.ctor_copy, hcb]
      simp only [hc]
      apply World.Inv.of_refs_eq w _ hinv
      · rfl
      · exact hinv.len_strong
      · simp; omega
      · intro b; rfl
      · intro b
        simp only [World.weak_refs, observes_push]
        simp
    | some cb =>
      obtain ⟨hs1, hf, hlt⟩ := hinv.weak_live w src rhs cb hsrc hcb
      have hc : WeakPtr.ctor_copy w.heap rhs
          = (increment_weak_counter w.heap cb, ⟨some cb, rhs.ptr_⟩) := by
        simp [WeakPtr.ctor_copy, hcb]
      simp only [hc]
      exact World.Inv.weak_push w hinv cb rhs.ptr_ hf hlw
  · exact hinv

theorem World.Inv.wp_shared (w : World) (hinv : w.Inv) (src : Nat)
    (hlw : w.weak.length + 1 < SIZE_T_RANGE) : (w.wp_shared src).Inv := by
  unfold World.wp_shared
  split
  · next rhs hsrc =>
    cases hcb : rhs.control_block_ with
    | none =>
      have hc : WeakPtr.ctor_shared w.heap rhs = (w.heap, ⟨none, rhs.ptr_⟩) := by
        simp [WeakPtr.ctor_shared, hcb]
      simp only [hc]
      apply World.Inv.of_refs_eq w _ hinv
      · rfl
      · exact hinv.len_strong
      · simp; omega
      · intro b; rfl
      · intro b
        simp only [World.weak_refs, observes_push]
        simp
    | some cb =>
      obtain ⟨hs1, hf, hlt⟩ := hinv.strong_live w src rhs cb hsrc hcb
      have hc : WeakPtr.ctor_shared w.heap rhs
          = (increment_weak_counter w.heap cb, ⟨some cb, rhs.ptr_⟩) := by
        simp [WeakPtr.ctor_shared, hcb]
      simp only [hc]
      exact World.Inv.weak_push w hinv cb rhs.ptr_ hf hlw
  · exact hinv

theorem shared_dtor_events_spec (cb : Nat) (blk : ControlBlockBase) :
    (∀ e ∈ SharedPtr.dtor_events cb blk, Event.is_use_after_free e = false) ∧
    (∀ b s k, Event.destroy_control_block b s k ∈ SharedPtr.dtor_events cb blk → s = 0 ∧ k = 0) ∧
    (∀ b s k, Event.destroy_field b s k ∈ SharedPtr.dtor_events cb blk → s = 0) ∧
    (∀ b, b ≠ cb → (SharedPtr.dtor_events cb blk).countP (Event.is_destroy_control_block b) = 0) ∧
    (∀ b, b ≠ cb → (SharedPtr.dtor_events cb blk).countP (Event.is_destroy_field b) = 0) ∧
    ((SharedPtr.dtor_events cb blk).countP (Event.is_destroy_control_block cb)
      = if blk.shared_counter_ = 1 ∧ blk.weak_counter_ = 0 then 1 else 0) ∧
    ((SharedPtr.dtor_events cb blk).countP (Event.is_destroy_field cb)
      = if blk.shared_counter_ = 1 then 1 else 0) := by
  obtain ⟨s, k, kind, p, o, f⟩ := blk
  unfold SharedPtr.dtor_events ControlBlockBase.field_event
  by_cases hs : s = 1 <;> by_cases hk : k = 0 <;> cases kind <;>
    simp [hs, hk, Event.is_use_after_free, Event.is_destroy_control_block,
      Event.is_destroy_field, List.countP_cons] <;>
    (refine ⟨?_, ?_⟩ <;> intros <;> omega)

theorem SharedPtr.dtor_block_fields (b : ControlBlockBase) :
    (SharedPtr.dtor_block b).shared_counter_ = b.shared_counter_ - 1 ∧
    (SharedPtr.dtor_block b).weak_counter_ = b.weak_counter_ ∧
    (SharedPtr.dtor_block b).obj_wptr_ = b.obj_wptr_ ∧
    (SharedPtr.dtor_block b).freed
      = (if b.shared_counter_ = 1 then decide (b.weak_counter_ = 0) else b.freed) := by
  unfold SharedPtr.dtor_block
  by_cases h1 : b.shared_counter_ = 1
  · simp [h1]
  · simp [h1]

theorem WeakPtr.weak_dtor_events_spec (cb : Nat) (blk : ControlBlockBase) :
    (∀ e ∈ WeakPtr.dtor_events cb blk, Event.is_use_after_free e = false) ∧
    (∀ b s k, Event.destroy_control_block b s k ∈ WeakPtr.dtor_events cb blk → s = 0 ∧ k = 0) ∧
    (∀ b s k, Event.destroy_field b s k ∈ WeakPtr.dtor_events cb blk → s = 0) ∧
    (∀ b, b ≠ cb → (WeakPtr.dtor_events cb blk).countP (Event.is_destroy_control_block b) = 0) ∧
    (∀ b, b ≠ cb → (WeakPtr.dtor_events cb blk).countP (Event.is_destroy_field b) = 0) ∧
    ((WeakPtr.dtor_events cb blk).countP (Event.is_destroy_control_block cb)
      = if blk.shared_counter_ = 0 ∧ blk.weak_counter_ = 1 then 1 else 0) ∧
    ((WeakPtr.dtor_events cb blk).countP (Event.is_destroy_field cb) = 0) := by
  obtain ⟨s, k, kind, p, o, f⟩ := blk
  unfold WeakPtr.dtor_events
  by_cases hs : s = 0 ∧ k = 1
  · simp [hs, Event.is_use_after_free, Event.is_destroy_control_block,
      Event.is_destroy_field, List.countP_cons]
    intros
    omega
  · simp [hs, Event.is_use_after_free, Event.is_destroy_control_block,
      Event.is_destroy_field, List.countP_cons]

theorem World.Inv.sp_dtor (w : World) (hinv : w.Inv) (i : Nat) : (w.sp_dtor i).Inv := by
  unfold World.sp_dtor
  split
  · next self hi =>
    cases hcb : self.control_block_ with
    | none =>
      have hd : SharedPtr.dtor w.heap self = w.heap := by
        simp [SharedPtr.dtor, hcb]
      rw [hd]
      apply World.Inv.of_refs_eq w _ hinv
      · rfl
      · simpa using hinv.len_strong
      · exact hinv.len_weak
      · intro b
        have h1 := countP_set_add (SharedPtr.owns b) w.strong i none (some self) hi
        simpa [SharedPtr.owns, hcb] using h1
      · intro b; rfl
    | some cb =>
      obtain ⟨hs1, hf, hlt⟩ := hinv.strong_live w i self cb hi hcb
      have hsh := hinv.shared cb
      have hle := w.strong_refs_le cb
      have hls := hinv.len_strong
      have hs2 : (w.heap.block cb).shared_counter_ < SIZE_T_RANGE := by omega
      have hself : self = ⟨some cb, self.ptr_⟩ := by
        cases self
        simp_all
      have hd : SharedPtr.dtor w.heap self = w.heap.put cb
          (SharedPtr.dtor_block (w.heap.block cb))
          (SharedPtr.dtor_events cb (w.heap.block cb)) := by
        rw [hself]
        exact SharedPtr.dtor_eq w.heap cb _ hf (hinv.inert cb) hs1 hs2
      rw [hd]
      obtain ⟨e1, e2, e3, e4, e5, e6, e7⟩ := shared_dtor_events_spec cb (w.heap.block cb)
      obtain ⟨f1, f2, f3, f4⟩ := SharedPtr.dtor_block_fields (w.heap.block cb)
      have hdcb := hinv.dcb_calls cb
      have hdf := hinv.df_calls cb
      simp only [hlt, if_true, hf, Bool.false_eq_true, if_false] at hdcb hdf
      have hfr := hinv.freed cb
      have hwk := hinv.weak cb
      have hcnt : ∀ b, World.strong_refs { w with
          heap := w.heap.put cb (SharedPtr.dtor_block (w.heap.block cb))
            (SharedPtr.dtor_events cb (w.heap.block cb)),
          strong := w.strong.set i none } b + (if b = cb then 1 else 0) = w.strong_refs b := by
        intro b
        have h1 := countP_set_add (SharedPtr.owns b) w.strong i none (some self) hi
        simp only [SharedPtr.owns, hcb] at h1
        simp only [World.strong_refs]
        by_cases hb : b = cb
        · subst hb
          simpa using h1
        · have : ¬ cb = b := fun e => hb e.symm
          simpa [hb, this] using h1
      refine World.Inv.put w _ cb _ _ hinv hlt rfl ?_ hinv.len_weak ?_ ?_ ?_ ?_ ?_ ?_ e1 e2 e3
        e4 e5 ?_ ?_
      · simpa using hinv.len_strong
      · intro b hb
        have := hcnt b
        simpa [hb] using this
      · intro b hb; rfl
      · have := hcnt cb
        simp only [if_true] at this
        rw [f1]
        omega
      · rw [f2]; exact hwk
      · have := hcnt cb
        simp only [if_true] at this
        rw [f4]
        have hw2 : World.weak_refs { w with
          heap := w.heap.put cb (SharedPtr.dtor_block (w.heap.block cb))
            (SharedPtr.dtor_events cb (w.heap.block cb)),
          strong := w.strong.set i none } cb = w.weak_refs cb := rfl
        rw [hw2]
        by_cases h1 : (w.heap.block cb).shared_counter_ = 1
        · simp only [h1, if_true, decide_eq_true_eq]
          constructor
          · intro hk
            exact ⟨by omega, by omega⟩
          · intro hk
            omega
        · simp only [h1, if_false, hf]
          constructor
          · intro hk
            cases hk
          · intro hk
            omega
      · intro x hx
        exact hinv.inert cb x (by rw [← f3]; exact hx)
      · rw [hdcb, e6, f4]
        by_cases h1 : (w.heap.block cb).shared_counter_ = 1
        · by_cases h2 : (w.heap.block cb).weak_counter_ = 0 <;> simp [h1, h2]
        · simp [h1, hf]
      · rw [hdf, e7, f1]
        by_cases h1 : (w.heap.block cb).shared_counter_ = 1
        · simp [h1]
        · have h3 : (w.heap.block cb).shared_counter_ ≠ 0 := by omega
          have h4 : (w.heap.block cb).shared_counter_ - 1 ≠ 0 := by omega
          simp [h1, h3, h4]
  · exact hinv

theorem World.Inv.wp_dtor (w : World) (hinv : w.Inv) (i : Nat) : (w.wp_dtor i).Inv := by
  unfold World.wp_dtor
  split
  · next self hi =>
    cases hcb : self.control_block_ with
    | none =>
      have hd : WeakPtr.dtor w.heap self = w.heap := by
        simp [WeakPtr.dtor, hcb]
      rw [hd]
      apply World.Inv.of_refs_eq w _ hinv
      · rfl
      · exact hinv.len_strong
      · simpa using hinv.len_weak
      · intro b; rfl
      · intro b
        have h1 := countP_set_add (WeakPtr.observes b) w.weak i none (some self) hi
        simpa [WeakPtr.observes, hcb] using h1
    | some cb =>
      obtain ⟨hw1, hf, hlt⟩ := hinv.weak_live w i self cb hi hcb
      have hwk := hinv.weak cb
      have hle := w.weak_refs_le cb
      have hlw := hinv.len_weak
      have hw2 : (w.heap.block cb).weak_counter_ < SIZE_T_RANGE := by omega
      have hself : self = ⟨some cb, self.ptr_⟩ := by
        cases self
        simp_all
      have hd : WeakPtr.dtor w.heap self = w.heap.put cb
          (WeakPtr.dtor_block (w.heap.block cb))
          (WeakPtr.dtor_events cb (w.heap.block cb)) := by
        rw [hself]
        exact WeakPtr.weak_dtor_eq w.heap cb _ hf hw1 hw2
      rw [hd]
      obtain ⟨e1, e2, e3, e4, e5, e6, e7⟩ := WeakPtr.weak_dtor_events_spec cb (w.heap.block cb)
      have hdcb := hinv.dcb_calls cb
      have hdf := hinv.df_calls cb
      simp only [hlt, if_true, hf, Bool.false_eq_true, if_false] at hdcb hdf
      have hsh := hinv.shared cb
      have hcnt : ∀ b, World.weak_refs { w with
          heap := w.heap.put cb (WeakPtr.dtor_block (w.heap.block cb))
            (WeakPtr.dtor_events cb (w.heap.block cb)),
          weak := w.weak.set i none } b + (if b = cb then 1 else 0) = w.weak_refs b := by
        intro b
        have h1 := countP_set_add (WeakPtr.observes b) w.weak i none (some self) hi
        simp only [WeakPtr.observes, hcb] at h1
        simp only [World.weak_refs]
        by_cases hb : b = cb
        · subst hb
          simpa using h1
        · have : ¬ cb = b := fun e => hb e.symm
          simpa [hb, this] using h1
      have hs2 : World.strong_refs { w with
          heap := w.heap.put cb (WeakPtr.dtor_block (w.heap.block cb))
            (WeakPtr.dtor_events cb (w.heap.block cb)),
          weak := w.weak.set i none } cb = w.strong_refs cb := rfl
      refine World.Inv.put w _ cb _ _ hinv hlt rfl hinv.len_strong ?_ ?_ ?_ ?_ ?_ ?_ ?_ e1 e2 e3
        e4 e5 ?_ ?_
      · simpa using hinv.len_weak
      · intro b hb; rfl
      · intro b hb
        have := hcnt b
        simpa [hb] using this
      · exact hsh
      · have := hcnt cb
        simp only [if_true] at this
        have e : (WeakPtr.dtor_block (w.heap.block cb)).weak_counter_
            = (w.heap.block cb).weak_counter_ - 1 := rfl
        rw [e]
        omega
      · have := hcnt cb
        simp only [if_true] at this
        rw [hs2]
        have e : (WeakPtr.dtor_block (w.heap.block cb)).freed
            = decide ((w.heap.block cb).shared_counter_ = 0
              ∧ (w.heap.block cb).weak_counter_ = 1) := rfl
        rw [e, decide_eq_true_eq]
        constructor
        · intro hk
          exact ⟨by omega, by omega⟩
        · intro hk
          exact ⟨by omega, by omega⟩
      · exact hinv.inert cb
      · rw [hdcb, e6]
        simp [WeakPtr.dtor_block]
      · rw [hdf, e7]
        simp [WeakPtr.dtor_block]
  · exact hinv

theorem World.Inv.fresh (w : World) (hinv : w.Inv) (ptr p : RawPtr) (k : BlockKind)
    (o : Option WeakPtr) (ho : ∀ x, o = some x → x.control_block_ = none)
    (hls : w.strong.length + 1 < SIZE_T_RANGE) :
    World.Inv { w with
      heap := increment_shared_counter (w.heap.alloc ⟨0, 0, k, ptr, o, false⟩)
        w.heap.blocks.length,
      strong := w.strong ++ [some ⟨some w.heap.blocks.length, p⟩] } := by
  obtain ⟨i1, i2, i3, i4, i5, i6, i7, i8, i9, i10, i11⟩ := hinv
  have hnew : ((w.heap.alloc ⟨0, 0, k, ptr, o, false⟩).block w.heap.blocks.length).freed
      = false := by
    rw [Heap.alloc_block]
    simp
  have hw0 : w.heap.block w.heap.blocks.length = Heap.wild :=
    Heap.block_of_ge _ _ (Nat.le_refl _)
  have hs0 : w.strong_refs w.heap.blocks.length = 0 := by
    rw [← i3, hw0]; rfl
  have hk0 : w.weak_refs w.heap.blocks.length = 0 := by
    rw [← i4, hw0]; rfl
  have hlt : w.heap.blocks.length < (w.heap.alloc ⟨0, 0, k, ptr, o, false⟩).blocks.length := by
    simp [Heap.alloc]
  have hblk : ∀ b, (increment_shared_counter (w.heap.alloc ⟨0, 0, k, ptr, o, false⟩)
      w.heap.blocks.length).block b
      = if b = w.heap.blocks.length then ⟨1, 0, k, ptr, o, false⟩ else w.heap.block b := by
    intro b
    rw [increment_shared_counter_eq _ _ hnew, Heap.put_block _ _ _ _ _ hlt]
    by_cases hb : b = w.heap.blocks.length
    · simp [hb, Heap.alloc_block, SIZE_T_RANGE]
    · simp [hb, Heap.alloc_block]
  have htr : (increment_shared_counter (w.heap.alloc ⟨0, 0, k, ptr, o, false⟩)
      w.heap.blocks.length).trace = w.heap.trace ++ [Event.allocate w.heap.blocks.length] := by
    rw [increment_shared_counter_eq _ _ hnew]
    simp [Heap.alloc]
  have hlen : (increment_shared_counter (w.heap.alloc ⟨0, 0, k, ptr, o, false⟩)
      w.heap.blocks.length).blocks.length = w.heap.blocks.length + 1 := by
    rw [increment_shared_counter_eq _ _ hnew]
    simp [Heap.alloc]
  have hrefs : ∀ b, (w.strong ++ [some (⟨some w.heap.blocks.length, p⟩ : SharedPtr)]).countP
      (SharedPtr.owns b) = w.strong_refs b + if b = w.heap.blocks.length then 1 else 0 := by
    intro b
    rw [owns_push]
    by_cases hb : b = w.heap.blocks.length
    · simp [hb, World.strong_refs]
    · have : ¬ w.heap.blocks.length = b := fun e => hb e.symm
      simp [hb, this, World.strong_refs]
  constructor
  · simp; omega
  · exact i2
  · intro b
    simp only [World.strong_refs, hblk, hrefs]
    by_cases hb : b = w.heap.blocks.length
    · rw [if_pos hb, if_pos hb]
      subst hb
      unfold World.strong_refs at hs0
      rw [hs0]
    · rw [if_neg hb, if_neg hb]; exact i3 b
  · intro b
    simp only [World.weak_refs, hblk]
    by_cases hb : b = w.heap.blocks.length
    · rw [if_pos hb, hb]; exact hk0.symm
    · rw [if_neg hb]; exact i4 b
  · intro b
    simp only [World.strong_refs, World.weak_refs, hblk, hrefs]
    by_cases hb : b = w.heap.blocks.length
    · rw [if_pos hb, if_pos hb]; simp
    · rw [if_neg hb, if_neg hb]; exact i5 b
  · intro b
    simp only [hblk]
    by_cases hb : b = w.heap.blocks.length
    · subst hb
      simp only [if_true]
      exact ho
    · simp only [hb, if_false]; exact i6 b
  · intro e he
    simp only [htr, List.mem_append, List.mem_singleton] at he
    rcases he with he | he
    · exact i7 e he
    · subst he; rfl
  · intro b s k2 he
    simp only [htr, List.mem_append, List.mem_singleton] at he
    rcases he with he | he
    · exact i8 b s k2 he
    · cases he
  · intro b s k2 he
    simp only [htr, List.mem_append, List.mem_singleton] at he
    rcases he with he | he
    · exact i9 b s k2 he
    · cases he
  · intro b
    have := i10 b
    simp only [Heap.destroy_control_block_calls, htr, hlen, hblk, List.countP_append] at this ⊢
    by_cases hb : b = w.heap.blocks.length
    · subst hb
      simp [Event.is_destroy_control_block, List.countP_cons] at this ⊢
      exact this
    · by_cases hb2 : b < w.heap.blocks.length
      · have hb3 : b < w.heap.blocks.length + 1 := by omega
        simp [hb, hb2, hb3, Event.is_destroy_control_block, List.countP_cons] at this ⊢
        exact this
      · have hb3 : ¬ b < w.heap.blocks.length + 1 := by omega
        simp [hb, hb2, hb3, Event.is_destroy_control_block, List.countP_cons] at this ⊢
        exact this
  · intro b
    have := i11 b
    simp only [Heap.destroy_field_calls, htr, hlen, hblk, List.countP_append] at this ⊢
    by_cases hb : b = w.heap.blocks.length
    · subst hb
      simp [Event.is_destroy_field, List.countP_cons] at this ⊢
      exact this
    · by_cases hb2 : b < w.heap.blocks.length
      · have hb3 : b < w.heap.blocks.length + 1 := by omega
        simp [hb, hb2, hb3, Event.is_destroy_field, List.countP_cons] at this ⊢
        exact this
      · have hb3 : ¬ b < w.heap.blocks.length + 1 := by omega
        simp [hb, hb2, hb3, Event.is_destroy_field, List.countP_cons] at this ⊢
        exact this

theorem World.Inv.sp_raw (w : World) (hinv : w.Inv) (ptr : RawPtr) (m : Bool)
    (hls : w.strong.length + 1 < SIZE_T_RANGE) : (w.sp_raw ptr m).Inv := by
  unfold World.sp_raw SharedPtr.ctor_raw
  refine World.Inv.fresh w hinv ptr ptr BlockKind.ControlBlockConstructor _ ?_ hls
  intro x hx
  cases m with
  | false => simp at hx
  | true =>
    simp at hx
    subst hx
    rfl

theorem allocateShared_plain (h : Heap) :
    allocateShared h false none =
      (increment_shared_counter (h.alloc ⟨0, 0, BlockKind.ControlBlockAllocateShared,
        some (Addr.storage h.blocks.length), none, false⟩) h.blocks.length,
        Except.ok ⟨some h.blocks.length, some (Addr.storage h.blocks.length)⟩) := by
  have hnew : ((h.alloc ⟨0, 0, BlockKind.ControlBlockAllocateShared,
      some (Addr.storage h.blocks.length), none, false⟩).block h.blocks.length).freed
      = false := by
    rw [Heap.alloc_block]
    simp
  have hlt : h.blocks.length < (h.alloc ⟨0, 0, BlockKind.ControlBlockAllocateShared,
      some (Addr.storage h.blocks.length), none, false⟩).blocks.length := by
    simp [Heap.alloc]
  simp only [allocateShared, SharedPtr.ctor_block, Bool.false_eq_true, if_false]
  rw [increment_shared_counter_eq _ _ hnew, Heap.put_block _ _ _ _ _ hlt]
  simp [Heap.alloc_block]

theorem World.Inv.sp_allocate (w : World) (hinv : w.Inv)
    (hls : w.strong.length + 1 < SIZE_T_RANGE) : (w.sp_allocate false none).Inv := by
  unfold World.sp_allocate
  rw [allocateShared_plain]
  refine World.Inv.fresh w hinv _ _ BlockKind.ControlBlockAllocateShared none ?_ hls
  intro x hx
  cases hx

theorem Heap.alloc_update (h : Heap) (b0 : ControlBlockBase)
    (f : ControlBlockBase → ControlBlockBase) :
    (h.alloc b0).update h.blocks.length f = h.alloc (f b0) := by
  have hb : (h.alloc b0).block h.blocks.length = b0 := by
    rw [Heap.alloc_block]
    simp
  unfold Heap.update
  rw [hb]
  simp [Heap.alloc]

theorem SharedPtr.ctor_deleter_alloc_plain (h : Heap) (ptr : RawPtr) (m : Bool)
    (raw : ControlBlockBase) :
    SharedPtr.ctor_deleter_alloc h ptr m raw none =
      (increment_shared_counter (h.alloc ⟨0, 0, BlockKind.ControlBlockConstructor, ptr,
        if m then some ⟨none, none⟩ else none, false⟩) h.blocks.length,
        Except.ok ⟨some h.blocks.length, ptr⟩) := by
  simp only [SharedPtr.ctor_deleter_alloc, Heap.alloc_update]

theorem World.Inv.sp_deleter (w : World) (hinv : w.Inv) (ptr : RawPtr) (m : Bool)
    (raw : ControlBlockBase) (hls : w.strong.length + 1 < SIZE_T_RANGE) :
    (w.sp_deleter ptr m raw none).Inv := by
  unfold World.sp_deleter
  rw [SharedPtr.ctor_deleter_alloc_plain]
  refine World.Inv.fresh w hinv ptr ptr BlockKind.ControlBlockConstructor _ ?_ hls
  intro x hx
  cases m with
  | false => simp at hx
  | true =>
    simp at hx
    subst hx
    rfl

theorem World.Inv.sp_reset_deleter (w : World) (hinv : w.Inv) (i : Nat) (ptr : RawPtr)
    (m : Bool) (raw : ControlBlockBase) (hls : w.strong.length + 1 < SIZE_T_RANGE) :
    (w.sp_reset_deleter i ptr m raw none).Inv :=
  World.Inv.sp_dtor _ (World.Inv.sp_swap _ (World.Inv.sp_deleter w hinv ptr m raw hls) _ _) _

theorem World.Inv.sp_assign (w : World) (hinv : w.Inv) (dst src : Nat)
    (hls : w.strong.length + 1 < SIZE_T_RANGE) : (w.sp_assign dst src).Inv :=
  World.Inv.sp_dtor _ (World.Inv.sp_swap _ (World.Inv.sp_copy w hinv src hls) _ _) _

theorem World.Inv.sp_move_assign (w : World) (hinv : w.Inv) (dst src : Nat)
    (hls : w.strong.length + 1 < SIZE_T_RANGE) : (w.sp_move_assign dst src).Inv :=
  World.Inv.sp_dtor _ (World.Inv.sp_swap _ (World.Inv.sp_move w hinv src hls) _ _) _

theorem World.Inv.sp_reset (w : World) (hinv : w.Inv) (i : Nat)
    (hls : w.strong.length + 1 < SIZE_T_RANGE) : (w.sp_reset i).Inv :=
  World.Inv.sp_dtor _ (World.Inv.sp_swap _ (World.Inv.sp_default w hinv hls) _ _) _

theorem World.Inv.sp_reset_raw (w : World) (hinv : w.Inv) (i : Nat) (ptr : RawPtr) (m : Bool)
    (hls : w.strong.length + 1 < SIZE_T_RANGE) : (w.sp_reset_raw i ptr m).Inv :=
  World.Inv.sp_dtor _ (World.Inv.sp_swap _ (World.Inv.sp_raw w hinv ptr m hls) _ _) _

theorem World.Inv.wp_assign (w : World) (hinv : w.Inv) (dst src : Nat)
    (hlw : w.weak.length + 1 < SIZE_T_RANGE) : (w.wp_assign dst src).Inv :=
  World.Inv.wp_dtor _ (World.Inv.wp_swap _ (World.Inv.wp_copy w hinv src hlw) _ _) _

theorem World.Inv.wp_assign_shared (w : World) (hinv : w.Inv) (dst src : Nat)
    (hlw : w.weak.length + 1 < SIZE_T_RANGE) : (w.wp_assign_shared dst src).Inv :=
  World.Inv.wp_dtor _ (World.Inv.wp_swap _ (World.Inv.wp_shared w hinv src hlw) _ _) _

theorem World.Inv.wp_move_assign (w : World) (hinv : w.Inv) (dst src : Nat)
    (hlw : w.weak.length + 1 < SIZE_T_RANGE) : (w.wp_move_assign dst src).Inv :=
  World.Inv.wp_dtor _ (World.Inv.wp_swap _ (World.Inv.wp_move w hinv src hlw) _ _) _

theorem World.Inv.wp_reset (w : World) (hinv : w.Inv) (i : Nat)
    (hlw : w.weak.length + 1 < SIZE_T_RANGE) : (w.wp_reset i).Inv :=
  World.Inv.wp_dtor _ (World.Inv.wp_swap _ (World.Inv.wp_default w hinv hlw) _ _) _

theorem World.sp_swap_length (w : World) (i j : Nat) :
    (w.sp_swap i j).strong.length = w.strong.length ∧ (w.sp_swap i j).weak = w.weak := by
  unfold World.sp_swap
  split <;> simp

theorem World.sp_dtor_length (w : World) (i : Nat) :
    (w.sp_dtor i).strong.length = w.strong.length ∧ (w.sp_dtor i).weak = w.weak := by
  unfold World.sp_dtor
  split <;> simp

theorem World.wp_swap_length (w : World) (i j : Nat) :
    (w.wp_swap i j).weak.length = w.weak.length ∧ (w.wp_swap i j).strong = w.strong := by
  unfold World.wp_swap
  split <;> simp

theorem World.wp_dtor_length (w : World) (i : Nat) :
    (w.wp_dtor i).weak.length = w.weak.length ∧ (w.wp_dtor i).strong = w.strong := by
  unfold World.wp_dtor
  split <;> simp

theorem World.sp_tail_length (w : World) (i j k : Nat) :
    ((w.sp_swap i j).sp_dtor k).strong.length = w.strong.length ∧
      ((w.sp_swap i j).sp_dtor k).weak = w.weak := by
  rw [(World.sp_dtor_length _ k).1, (World.sp_dtor_length _ k).2,
    (World.sp_swap_length w i j).1, (World.sp_swap_length w i j).2]
  exact ⟨rfl, rfl⟩

theorem World.wp_tail_length (w : World) (i j k : Nat) :
    ((w.wp_swap i j).wp_dtor k).weak.length = w.weak.length ∧
      ((w.wp_swap i j).wp_dtor k).strong = w.strong := by
  rw [(World.wp_dtor_length _ k).1, (World.wp_dtor_length _ k).2,
    (World.wp_swap_length w i j).1, (World.wp_swap_length w i j).2]
  exact ⟨rfl, rfl⟩

theorem World.sp_copy_length (w : World) (src : Nat) :
    (w.sp_copy src).strong.length ≤ w.strong.length + 1 ∧ (w.sp_copy src).weak = w.weak := by
  unfold World.sp_copy
  split <;> simp

theorem World.sp_move_length (w : World) (src : Nat) :
    (w.sp_move src).strong.length ≤ w.strong.length + 1 ∧ (w.sp_move src).weak = w.weak := by
  unfold World.sp_move
  split <;> simp

theorem World.wp_copy_length (w : World) (src : Nat) :
    (w.wp_copy src).weak.length ≤ w.weak.length + 1 ∧ (w.wp_copy src).strong = w.strong := by
  unfold World.wp_copy
  split <;> simp

theorem World.wp_shared_length (w : World) (src : Nat) :
    (w.wp_shared src).weak.length ≤ w.weak.length + 1 ∧
      (w.wp_shared src).strong = w.strong := by
  unfold World.wp_shared
  split <;> simp

theorem World.wp_move_length (w : World) (src : Nat) :
    (w.wp_move src).weak.length ≤ w.weak.length + 1 ∧ (w.wp_move src).strong = w.strong := by
  unfold World.wp_move
  split <;> simp

theorem World.sp_ctor_weak_length (w : World) (src : Nat) :
    (w.sp_weak src).strong.length ≤ w.strong.length + 1 ∧ (w.sp_weak src).weak = w.weak := by
  unfold World.sp_weak
  split
  · dsimp only
    split <;> simp
  · simp

theorem World.wp_lock_length (w : World) (src : Nat) :
    (w.wp_lock src).strong.length ≤ w.strong.length + 1 ∧ (w.wp_lock src).weak = w.weak := by
  unfold World.wp_lock
  split
  · dsimp only
    split <;> simp
  · simp

theorem World.sp_allocate_length (w : World) (m : Bool) (t : Option Nat) :
    (w.sp_allocate m t).strong.length ≤ w.strong.length + 1 ∧
      (w.sp_allocate m t).weak = w.weak := by
  unfold World.sp_allocate
  dsimp only
  split <;> simp

theorem World.sp_deleter_length (w : World) (ptr : RawPtr) (m : Bool) (raw : ControlBlockBase)
    (t : Option (ThrowPoint × Nat)) :
    (w.sp_deleter ptr m raw t).strong.length ≤ w.strong.length + 1 ∧
      (w.sp_deleter ptr m raw t).weak = w.weak := by
  unfold World.sp_deleter
  dsimp only
  split <;> simp

theorem World.step_length (w : World) (op : Op) :
    (w.step op).strong.length ≤ w.strong.length + 1 ∧
      (w.step op).weak.length ≤ w.weak.length + 1 := by
  cases op with
  | sp_default => simp [World.step, World.sp_default]
  | sp_raw ptr m => simp [World.step, World.sp_raw]
  | sp_copy src =>
    have := World.sp_copy_length w src
    simp only [World.step]
    rw [this.2]
    exact ⟨this.1, by omega⟩
  | sp_move src =>
    have := World.sp_move_length w src
    simp only [World.step]
    rw [this.2]
    exact ⟨this.1, by omega⟩
  | sp_weak src =>
    have := World.sp_ctor_weak_length w src
    simp only [World.step]
    rw [this.2]
    exact ⟨this.1, by omega⟩
  | sp_allocate m t =>
    have := World.sp_allocate_length w m t
    simp only [World.step]
    rw [this.2]
    exact ⟨this.1, by omega⟩
  | sp_swap i j =>
    have := World.sp_swap_length w i j
    simp only [World.step]
    rw [this.1, this.2]
    exact ⟨by omega, by omega⟩
  | sp_dtor i =>
    have := World.sp_dtor_length w i
    simp only [World.step]
    rw [this.1, this.2]
    exact ⟨by omega, by omega⟩
  | sp_assign dst src =>
    have h1 := World.sp_copy_length w src
    have h2 := World.sp_tail_length (w.sp_copy src) w.strong.length dst w.strong.length
    simp only [World.step, World.sp_assign]
    rw [h2.1, h2.2, h1.2]
    exact ⟨h1.1, by omega⟩
  | sp_move_assign dst src =>
    have h1 := World.sp_move_length w src
    have h2 := World.sp_tail_length (w.sp_move src) w.strong.length dst w.strong.length
    simp only [World.step, World.sp_move_assign]
    rw [h2.1, h2.2, h1.2]
    exact ⟨h1.1, by omega⟩
  | sp_reset i =>
    have h2 := World.sp_tail_length w.sp_default w.strong.length i w.strong.length
    simp only [World.step, World.sp_reset]
    rw [h2.1, h2.2]
    simp [World.sp_default]
  | sp_reset_raw i ptr m =>
    have h2 := World.sp_tail_length (w.sp_raw ptr m) w.strong.length i w.strong.length
    simp only [World.step, World.sp_reset_raw]
    rw [h2.1, h2.2]
    simp [World.sp_raw]
  | sp_deleter ptr m raw t =>
    have := World.sp_deleter_length w ptr m raw t
    simp only [World.step]
    rw [this.2]
    exact ⟨this.1, by omega⟩
  | sp_reset_deleter i ptr m raw t =>
    have h1 := World.sp_deleter_length w ptr m raw t
    have h2 := World.sp_tail_length (w.sp_deleter ptr m raw t) w.strong.length i
      w.strong.length
    simp only [World.step, World.sp_reset_deleter]
    rw [h2.1, h2.2, h1.2]
    exact ⟨h1.1, by omega⟩
  | wp_default => simp [World.step, World.wp_default]
  | wp_copy src =>
    have := World.wp_copy_length w src
    simp only [World.step]
    rw [this.2]
    exact ⟨by omega, this.1⟩
  | wp_shared src =>
    have := World.wp_shared_length w src
    simp only [World.step]
    rw [this.2]
    exact ⟨by omega, this.1⟩
  | wp_move src =>
    have := World.wp_move_length w src
    simp only [World.step]
    rw [this.2]
    exact ⟨by omega, this.1⟩
  | wp_lock src =>
    have := World.wp_lock_length w src
    simp only [World.step]
    rw [this.2]
    exact ⟨this.1, by omega⟩
  | wp_swap i j =>
    have := World.wp_swap_length w i j
    simp only [World.step]
    rw [this.1, this.2]
    exact ⟨by omega, by omega⟩
  | wp_dtor i =>
    have := World.wp_dtor_length w i
    simp only [World.step]
    rw [this.1, this.2]
    exact ⟨by omega, by omega⟩
  | wp_assign dst src =>
    have h1 := World.wp_copy_length w src
    have h2 := World.wp_tail_length (w.wp_copy src) w.weak.length dst w.weak.length
    simp only [World.step, World.wp_assign]
    rw [h2.1, h2.2, h1.2]
    exact ⟨by omega, h1.1⟩
  | wp_assign_shared dst src =>
    have h1 := World.wp_shared_length w src
    have h2 := World.wp_tail_length (w.wp_shared src) w.weak.length dst w.weak.length
    simp only [World.step, World.wp_assign_shared]
    rw [h2.1, h2.2, h1.2]
    exact ⟨by omega, h1.1⟩
  | wp_move_assign dst src =>
    have h1 := World.wp_move_length w src
    have h2 := World.wp_tail_length (w.wp_move src) w.weak.length dst w.weak.length
    simp only [World.step, World.wp_move_assign]
    rw [h2.1, h2.2, h1.2]
    exact ⟨by omega, h1.1⟩
  | wp_reset i =>
    have h2 := World.wp_tail_length w.wp_default w.weak.length i w.weak.length
    simp only [World.step, World.wp_reset]
    rw [h2.1, h2.2]
    simp [World.wp_default]

theorem World.Inv.step (w : World) (hinv : w.Inv) (op : Op) (hop : op.plain = true)
    (hls : w.strong.length + 1 < SIZE_T_RANGE) (hlw : w.weak.length + 1 < SIZE_T_RANGE) :
    (w.step op).Inv := by
  cases op with
  | sp_default => exact World.Inv.sp_default w hinv hls
  | sp_raw ptr m => exact World.Inv.sp_raw w hinv ptr m hls
  | sp_copy src => exact World.Inv.sp_copy w hinv src hls
  | sp_move src => exact World.Inv.sp_move w hinv src hls
  | sp_weak src => simp [Op.plain] at hop
  | sp_allocate m t =>
    cases m with
    | true => simp [Op.plain] at hop
    | false =>
      cases t with
      | some tag => simp [Op.plain] at hop
      | none => exact World.Inv.sp_allocate w hinv hls
  | sp_swap i j => exact World.Inv.sp_swap w hinv i j
  | sp_dtor i => exact World.Inv.sp_dtor w hinv i
  | sp_assign dst src => exact World.Inv.sp_assign w hinv dst src hls
  | sp_move_assign dst src => exact World.Inv.sp_move_assign w hinv dst src hls
  | sp_reset i => exact World.Inv.sp_reset w hinv i hls
  | sp_reset_raw i ptr m => exact World.Inv.sp_reset_raw w hinv i ptr m hls
  | sp_deleter ptr m raw t =>
    cases t with
    | some x => simp [Op.plain] at hop
    | none => exact World.Inv.sp_deleter w hinv ptr m raw hls
  | sp_reset_deleter i ptr m raw t =>
    cases t with
    | some x => simp [Op.plain] at hop
    | none => exact World.Inv.sp_reset_deleter w hinv i ptr m raw hls
  | wp_default => exact World.Inv.wp_default w hinv hlw
  | wp_copy src => exact World.Inv.wp_copy w hinv src hlw
  | wp_shared src => exact World.Inv.wp_shared w hinv src hlw
  | wp_move src => exact World.Inv.wp_move w hinv src hlw
  | wp_lock src => simp [Op.plain] at hop
  | wp_swap i j => exact World.Inv.wp_swap w hinv i j
  | wp_dtor i => exact World.Inv.wp_dtor w hinv i
  | wp_assign dst src => exact World.Inv.wp_assign w hinv dst src hlw
  | wp_assign_shared dst src => exact World.Inv.wp_assign_shared w hinv dst src hlw
  | wp_move_assign dst src => exact World.Inv.wp_move_assign w hinv dst src hlw
  | wp_reset i => exact World.Inv.wp_reset w hinv i hlw

theorem World.Inv.run (ops : List Op) : ∀ (w : World), w.Inv →
    (∀ op ∈ ops, Op.plain op = true) →
    w.strong.length + ops.length < SIZE_T_RANGE →
    w.weak.length + ops.length < SIZE_T_RANGE → (w.run ops).Inv := by
  induction ops with
  | nil =>
    intro w hinv _ _ _
    exact hinv
  | cons op rest ih =>
    intro w hinv hops hls hlw
    have hl := World.step_length w op
    simp only [List.length_cons] at hls hlw
    have h1 : (w.step op).Inv :=
      World.Inv.step w hinv op (hops op (List.mem_cons_self _ _)) (by omega) (by omega)
    have h2 := ih (w.step op) h1 (fun o ho => hops o (List.mem_cons_of_mem _ ho))
      (by omega) (by omega)
    simpa [World.run] using h2

theorem World.Inv.run_init (ops : List Op) (hops : ∀ op ∈ ops, Op.plain op = true)
    (hlen : ops.length < SIZE_T_RANGE) : (World.run {} ops).Inv :=
  World.Inv.run ops {} World.Inv.init hops (by simpa using hlen) (by simpa using hlen)

theorem Op.plain_of_strong_only (op : Op) (h : op.strong_only = true) : op.plain = true := by
  cases op with
  | sp_deleter ptr m raw t =>
    cases t with
    | some x => simp [Op.strong_only] at h
    | none => simp [Op.plain]
  | sp_reset_deleter i ptr m raw t =>
    cases t with
    | some x => simp [Op.strong_only] at h
    | none => simp [Op.plain]
  | _ => first | (simp [Op.strong_only] at h; done) | simp [Op.plain]

/-! ## The shape of the pointers a program can produce -/

theorem World.All.strong_of (P : Option Nat → RawPtr → Prop) (w w2 : World)
    (hall : w.All P) (hw : w2.weak = w.weak)
    (hs : ∀ s : SharedPtr, some s ∈ w2.strong →
      some s ∈ w.strong ∨ P s.control_block_ s.ptr_) : w2.All P := by
  refine ⟨?_, ?_⟩
  · intro s hmem
    rcases hs s hmem with h | h
    · exact hall.1 s h
    · exact h
  · rw [hw]
    exact hall.2

theorem World.All.weak_of (P : Option Nat → RawPtr → Prop) (w w2 : World)
    (hall : w.All P) (hw : w2.strong = w.strong)
    (hs : ∀ s : WeakPtr, some s ∈ w2.weak →
      some s ∈ w.weak ∨ P s.control_block_ s.ptr_) : w2.All P := by
  refine ⟨?_, ?_⟩
  · rw [hw]
    exact hall.1
  · intro s hmem
    rcases hs s hmem with h | h
    · exact hall.2 s h
    · exact h

theorem World.All.all_sp_default (P : Option Nat → RawPtr → Prop) (h0 : P none none) (w : World)
    (hall : w.All P) : w.sp_default.All P := by
  apply World.All.strong_of P w _ hall
  · rfl
  · intro s hmem
    simp only [World.sp_default, List.mem_append, List.mem_singleton] at hmem
    rcases hmem with h | h
    · exact Or.inl h
    · right
      cases h
      exact h0

theorem World.All.all_wp_default (P : Option Nat → RawPtr → Prop) (h0 : P none none) (w : World)
    (hall : w.All P) : w.wp_default.All P := by
  apply World.All.weak_of P w _ hall
  · rfl
  · intro s hmem
    simp only [World.wp_default, List.mem_append, List.mem_singleton] at hmem
    rcases hmem with h | h
    · exact Or.inl h
    · right
      cases h
      exact h0

theorem World.All.all_sp_raw (P : Option Nat → RawPtr → Prop) (w : World) (ptr : RawPtr) (m : Bool)
    (hp : ∀ n, P (some n) ptr) (hall : w.All P) : (w.sp_raw ptr m).All P := by
  apply World.All.strong_of P w _ hall
  · rfl
  · intro s hmem
    simp only [World.sp_raw, SharedPtr.ctor_raw, List.mem_append, List.mem_singleton] at hmem
    rcases hmem with h | h
    · exact Or.inl h
    · right
      cases h
      exact hp _

theorem World.All.all_sp_copy (P : Option Nat → RawPtr → Prop) (w : World) (src : Nat)
    (hall : w.All P) : (w.sp_copy src).All P := by
  unfold World.sp_copy
  split
  · next rhs hsrc =>
    have hr := hall.1 rhs (List.getElem?_mem hsrc)
    apply World.All.strong_of P w _ hall
    · rfl
    · intro s hmem
      simp only [List.mem_append, List.mem_singleton] at hmem
      rcases hmem with h | h
      · exact Or.inl h
      · right
        cases hcb : rhs.control_block_ with
        | none =>
          simp only [SharedPtr.ctor_copy, hcb] at h
          cases h
          rw [hcb] at hr
          exact hr
        | some cb =>
          simp only [SharedPtr.ctor_copy, hcb] at h
          cases h
          rw [hcb] at hr
          exact hr
  · exact hall

theorem World.All.all_sp_move (P : Option Nat → RawPtr → Prop) (h0 : P none none) (w : World)
    (src : Nat) (hall : w.All P) : (w.sp_move src).All P := by
  unfold World.sp_move
  split
  · next rhs hsrc =>
    have hr := hall.1 rhs (List.getElem?_mem hsrc)
    apply World.All.strong_of P w _ hall
    · rfl
    · intro s hmem
      simp only [List.mem_append, List.mem_singleton, SharedPtr.ctor_move] at hmem
      rcases hmem with h | h
      · rcases List.mem_or_eq_of_mem_set h with h2 | h2
        · exact Or.inl h2
        · right
          cases h2
          exact h0
      · right
        cases h
        exact hr
  · exact hall

theorem World.All.all_sp_promote (P : Option Nat → RawPtr → Prop) (w : World) (rhs : WeakPtr)
    (hr : some rhs ∈ w.weak) (hall : w.All P) :
    World.All P (match (SharedPtr.ctor_weak w.heap rhs).2 with
      | Except.ok s => { w with heap := (SharedPtr.ctor_weak w.heap rhs).1,
                                strong := w.strong ++ [some s] }
      | Except.error _ => { w with heap := (SharedPtr.ctor_weak w.heap rhs).1 }) := by
  have hp := hall.2 rhs hr
  have hval : ∀ s, (SharedPtr.ctor_weak w.heap rhs).2 = Except.ok s →
      s = ⟨rhs.control_block_, rhs.ptr_⟩ := by
    intro s hs
    unfold SharedPtr.ctor_weak SharedPtr.ctor_block at hs
    cases hcb : rhs.control_block_ with
    | none => simp [hcb] at hs
    | some cb =>
      simp [hcb] at hs
      exact hs.symm
  split
  · next s hs =>
    apply World.All.strong_of P w _ hall
    · rfl
    · intro x hmem
      simp only [List.mem_append, List.mem_singleton] at hmem
      rcases hmem with h | h
      · exact Or.inl h
      · right
        cases h
        rw [hval s hs]
        exact hp
  · exact ⟨hall.1, hall.2⟩

theorem World.All.all_sp_weak (P : Option Nat → RawPtr → Prop) (w : World) (src : Nat)
    (hall : w.All P) : (w.sp_weak src).All P := by
  unfold World.sp_weak
  split
  · next rhs hsrc => exact World.All.all_sp_promote P w rhs (List.getElem?_mem hsrc) hall
  · exact hall

theorem World.All.all_wp_lock (P : Option Nat → RawPtr → Prop) (w : World) (src : Nat)
    (hall : w.All P) : (w.wp_lock src).All P := by
  unfold World.wp_lock WeakPtr.lock
  split
  · next rhs hsrc => exact World.All.all_sp_promote P w rhs (List.getElem?_mem hsrc) hall
  · exact hall

theorem allocateShared_value (h : Heap) (m : Bool) (t : Option Nat) (s : SharedPtr)
    (hs : (allocateShared h m t).2 = Except.ok s) :
    s = ⟨some h.blocks.length, some (Addr.storage h.blocks.length)⟩ := by
  unfold allocateShared at hs
  cases t with
  | some tag => simp at hs
  | none =>
    simp only [SharedPtr.ctor_block, Heap.alloc_block, if_true] at hs
    split at hs
    · simp at hs
      exact hs.symm
    · simp at hs
      exact hs.symm

theorem World.All.all_sp_allocate (P : Option Nat → RawPtr → Prop) (w : World) (m : Bool)
    (t : Option Nat) (hp : ∀ n, P (some n) (some (Addr.storage n))) (hall : w.All P) :
    (w.sp_allocate m t).All P := by
  unfold World.sp_allocate
  dsimp only
  split
  · next s hs =>
    apply World.All.strong_of P w _ hall
    · rfl
    · intro x hmem
      simp only [List.mem_append, List.mem_singleton] at hmem
      rcases hmem with h | h
      · exact Or.inl h
      · right
        cases h
        rw [allocateShared_value w.heap m t s hs]
        exact hp _
  · exact ⟨hall.1, hall.2⟩

theorem SharedPtr.ctor_deleter_alloc_value (h : Heap) (ptr : RawPtr) (m : Bool)
    (raw : ControlBlockBase) (t : Option (ThrowPoint × Nat)) (s : SharedPtr)
    (hs : (SharedPtr.ctor_deleter_alloc h ptr m raw t).2 = Except.ok s) :
    s = ⟨some h.blocks.length, ptr⟩ := by
  unfold SharedPtr.ctor_deleter_alloc at hs
  cases t with
  | some x => simp at hs
  | none =>
    simp at hs
    exact hs.symm

theorem World.All.all_sp_deleter (P : Option Nat → RawPtr → Prop) (w : World) (ptr : RawPtr)
    (m : Bool) (raw : ControlBlockBase) (t : Option (ThrowPoint × Nat))
    (hp : ∀ n, P (some n) ptr) (hall : w.All P) : (w.sp_deleter ptr m raw t).All P := by
  unfold World.sp_deleter
  dsimp only
  split
  · next s hs =>
    apply World.All.strong_of P w _ hall
    · rfl
    · intro x hmem
      simp only [List.mem_append, List.mem_singleton] at hmem
      rcases hmem with h | h
      · exact Or.inl h
      · right
        cases h
        rw [SharedPtr.ctor_deleter_alloc_value w.heap ptr m raw t s hs]
        exact hp _
  · exact ⟨hall.1, hall.2⟩

theorem World.All.all_sp_swap (P : Option Nat → RawPtr → Prop) (w : World) (i j : Nat)
    (hall : w.All P) : (w.sp_swap i j).All P := by
  unfold World.sp_swap
  split
  · next a b hi hj =>
    have ha := hall.1 a (List.getElem?_mem hi)
    have hb := hall.1 b (List.getElem?_mem hj)
    apply World.All.strong_of P w _ hall
    · rfl
    · intro s hmem
      simp only [SharedPtr.swap] at hmem
      rcases List.mem_or_eq_of_mem_set hmem with h | h
      · rcases List.mem_or_eq_of_mem_set h with h2 | h2
        · exact Or.inl h2
        · right
          cases h2
          exact hb
      · right
        cases h
        exact ha
  · exact hall

theorem World.All.all_sp_dtor (P : Option Nat → RawPtr → Prop) (w : World) (i : Nat)
    (hall : w.All P) : (w.sp_dtor i).All P := by
  unfold World.sp_dtor
  split
  · next self hi =>
    apply World.All.strong_of P w _ hall
    · rfl
    · intro s hmem
      rcases List.mem_or_eq_of_mem_set hmem with h | h
      · exact Or.inl h
      · cases h
  · exact hall

theorem World.All.all_wp_copy (P : Option Nat → RawPtr → Prop) (w : World) (src : Nat)
    (hall : w.All P) : (w.wp_copy src).All P := by
  unfold World.wp_copy
  split
  · next rhs hsrc =>
    have hr := hall.2 rhs (List.getElem?_mem hsrc)
    apply World.All.weak_of P w _ hall
    · rfl
    · intro s hmem
      simp only [List.mem_append, List.mem_singleton] at hmem
      rcases hmem with h | h
      · exact Or.inl h
      · right
        cases hcb : rhs.control_block_ with
        | none =>
          simp only [WeakPtr.ctor_copy, hcb] at h
          cases h
          rw [hcb] at hr
          exact hr
        | some cb =>
          simp only [WeakPtr.ctor_copy, hcb] at h
          cases h
          rw [hcb] at hr
          exact hr
  · exact hall

theorem World.All.all_wp_shared (P : Option Nat → RawPtr → Prop) (w : World) (src : Nat)
    (hall : w.All P) : (w.wp_shared src).All P := by
  unfold World.wp_shared
  split
  · next rhs hsrc =>
    have hr := hall.1 rhs (List.getElem?_mem hsrc)
    apply World.All.weak_of P w _ hall
    · rfl
    · intro s hmem
      simp only [List.mem_append, List.mem_singleton] at hmem
      rcases hmem with h | h
      · exact Or.inl h
      · right
        cases hcb : rhs.control_block_ with
        | none =>
          simp only [WeakPtr.ctor_shared, hcb] at h
          cases h
          rw [hcb] at hr
          exact hr
        | some cb =>
          simp only [WeakPtr.ctor_shared, hcb] at h
          cases h
          rw [hcb] at hr
          exact hr
  · exact hall

theorem World.All.all_wp_move (P : Option Nat → RawPtr → Prop) (h0 : P none none) (w : World)
    (src : Nat) (hall : w.All P) : (w.wp_move src).All P := by
  unfold World.wp_move
  split
  · next rhs hsrc =>
    have hr := hall.2 rhs (List.getElem?_mem hsrc)
    apply World.All.weak_of P w _ hall
    · rfl
    · intro s hmem
      simp only [List.mem_append, List.mem_singleton, WeakPtr.ctor_move] at hmem
      rcases hmem with h | h
      · rcases List.mem_or_eq_of_mem_set h with h2 | h2
        · exact Or.inl h2
        · right
          cases h2
          exact h0
      · right
        cases h
        exact hr
  · exact hall

theorem World.All.all_wp_swap (P : Option Nat → RawPtr → Prop) (w : World) (i j : Nat)
    (hall : w.All P) : (w.wp_swap i j).All P := by
  unfold World.wp_swap
  split
  · next a b hi hj =>
    have ha := hall.2 a (List.getElem?_mem hi)
    have hb := hall.2 b (List.getElem?_mem hj)
    apply World.All.weak_of P w _ hall
    · rfl
    · intro s hmem
      simp only [WeakPtr.swap] at hmem
      rcases List.mem_or_eq_of_mem_set hmem with h | h
      · rcases List.mem_or_eq_of_mem_set h with h2 | h2
        · exact Or.inl h2
        · right
          cases h2
          exact hb
      · right
        cases h
        exact ha
  · exact hall

theorem World.All.all_wp_dtor (P : Option Nat → RawPtr → Prop) (w : World) (i : Nat)
    (hall : w.All P) : (w.wp_dtor i).All P := by
  unfold World.wp_dtor
  split
  · next self hi =>
    apply World.All.weak_of P w _ hall
    · rfl
    · intro s hmem
      rcases List.mem_or_eq_of_mem_set hmem with h | h
      · exact Or.inl h
      · cases h
  · exact hall

theorem World.All.all_step (P : Option Nat → RawPtr → Prop) (h0 : P none none)
    (ha : ∀ n, P (some n) (some (Addr.storage n))) (w : World) (op : Op)
    (hraw : ∀ ptr, op.raw_arg = some ptr → ∀ n, P (some n) ptr) (hall : w.All P) :
    (w.step op).All P := by
  cases op with
  | sp_default => exact World.All.all_sp_default P h0 w hall
  | sp_raw ptr m => exact World.All.all_sp_raw P w ptr m (hraw ptr rfl) hall
  | sp_copy src => exact World.All.all_sp_copy P w src hall
  | sp_move src => exact World.All.all_sp_move P h0 w src hall
  | sp_weak src => exact World.All.all_sp_weak P w src hall
  | sp_allocate m t => exact World.All.all_sp_allocate P w m t ha hall
  | sp_swap i j => exact World.All.all_sp_swap P w i j hall
  | sp_dtor i => exact World.All.all_sp_dtor P w i hall
  | sp_assign dst src =>
    exact World.All.all_sp_dtor P _ _ (World.All.all_sp_swap P _ _ _ (World.All.all_sp_copy P w src hall))
  | sp_move_assign dst src =>
    exact World.All.all_sp_dtor P _ _ (World.All.all_sp_swap P _ _ _ (World.All.all_sp_move P h0 w src hall))
  | sp_reset i =>
    exact World.All.all_sp_dtor P _ _ (World.All.all_sp_swap P _ _ _ (World.All.all_sp_default P h0 w hall))
  | sp_reset_raw i ptr m =>
    exact World.All.all_sp_dtor P _ _
      (World.All.all_sp_swap P _ _ _ (World.All.all_sp_raw P w ptr m (hraw ptr rfl) hall))
  | sp_deleter ptr m raw t => exact World.All.all_sp_deleter P w ptr m raw t (hraw ptr rfl) hall
  | sp_reset_deleter i ptr m raw t =>
    exact World.All.all_sp_dtor P _ _
      (World.All.all_sp_swap P _ _ _
        (World.All.all_sp_deleter P w ptr m raw t (hraw ptr rfl) hall))
  | wp_default => exact World.All.all_wp_default P h0 w hall
  | wp_copy src => exact World.All.all_wp_copy P w src hall
  | wp_shared src => exact World.All.all_wp_shared P w src hall
  | wp_move src => exact World.All.all_wp_move P h0 w src hall
  | wp_lock src => exact World.All.all_wp_lock P w src hall
  | wp_swap i j => exact World.All.all_wp_swap P w i j hall
  | wp_dtor i => exact World.All.all_wp_dtor P w i hall
  | wp_assign dst src =>
    exact World.All.all_wp_dtor P _ _ (World.All.all_wp_swap P _ _ _ (World.All.all_wp_copy P w src hall))
  | wp_assign_shared dst src =>
    exact World.All.all_wp_dtor P _ _ (World.All.all_wp_swap P _ _ _ (World.All.all_wp_shared P w src hall))
  | wp_move_assign dst src =>
    exact World.All.all_wp_dtor P _ _ (World.All.all_wp_swap P _ _ _ (World.All.all_wp_move P h0 w src hall))
  | wp_reset i =>
    exact World.All.all_wp_dtor P _ _ (World.All.all_wp_swap P _ _ _ (World.All.all_wp_default P h0 w hall))

theorem World.All.all_run (P : Option Nat → RawPtr → Prop) (h0 : P none none)
    (ha : ∀ n, P (some n) (some (Addr.storage n))) (ops : List Op) :
    ∀ (w : World), w.All P →
      (∀ op ∈ ops, ∀ ptr, Op.raw_arg op = some ptr → ∀ n, P (some n) ptr) →
      (w.run ops).All P := by
  induction ops with
  | nil =>
    intro w hall _
    exact hall
  | cons op rest ih =>
    intro w hall hraw
    have h1 := World.All.all_step P h0 ha w op (hraw op (List.mem_cons_self _ _)) hall
    have h2 := ih (w.step op) h1 (fun o ho => hraw o (List.mem_cons_of_mem _ ho))
    simpa [World.run] using h2

theorem World.All.all_init (P : Option Nat → RawPtr → Prop) : World.All P {} := by
  constructor <;> intro s hs <;> cases hs

/-! ## The claims -/

/-- C1: after any program that only constructs `SharedPtr`s from raw pointers, copies,
moves, assigns, swaps, resets and destroys them, `use_count()` of every live `SharedPtr`
is the number of live `SharedPtr` variables that reference the same control block
(and 0 for a pointer without a block). -/
theorem C1_use_count_counts_live_owners (ops : List Op)
    (hops : ∀ op ∈ ops, Op.strong_only op = true) (hlen : ops.length < SIZE_T_RANGE)
    (i : Nat) (s : SharedPtr) (hs : (World.run {} ops).strong[i]? = some (some s)) :
    SharedPtr.use_count (World.run {} ops).heap s =
      match s.control_block_ with
      | none => 0
      | some cb => (World.run {} ops).strong_refs cb := by
  have hinv := World.Inv.run_init ops (fun op ho => Op.plain_of_strong_only op (hops op ho)) hlen
  have _hlive := hs
  cases hcb : s.control_block_ with
  | none => simp [SharedPtr.use_count, hcb]
  | some cb =>
    simp only [SharedPtr.use_count, hcb, get_shared_counter]
    exact hinv.shared cb

/-- C1 witness: pointer, copy, reset of the first; the copy reports `use_count() == 1`. -/
theorem C1_use_count_counts_live_owners_witness :
    (World.run {} [Op.sp_raw (some (Addr.obj 5)) false, Op.sp_copy 0, Op.sp_reset 0]).strong[1]?
        = some (some ⟨some 0, some (Addr.obj 5)⟩) ∧
      SharedPtr.use_count
        (World.run {} [Op.sp_raw (some (Addr.obj 5)) false, Op.sp_copy 0, Op.sp_reset 0]).heap
        ⟨some 0, some (Addr.obj 5)⟩ =
      (World.run {} [Op.sp_raw (some (Addr.obj 5)) false, Op.sp_copy 0,
        Op.sp_reset 0]).strong_refs 0 :=
  ⟨by decide,
    C1_use_count_counts_live_owners
      [Op.sp_raw (some (Addr.obj 5)) false, Op.sp_copy 0, Op.sp_reset 0]
      (by decide) (by decide) 1 ⟨some 0, some (Addr.obj 5)⟩ (by decide)⟩

/-- C2: at the `WeakPtr` left by `expired_program` (block alive, shared counter 0, object
already destroyed) the constructor `SharedPtr(const WeakPtr&)` throws nothing: it returns
a pointer to the destroyed object and sets the shared counter to 1. -/
theorem C2_ctor_weak_resurrects_expired :
    (World.run {} expired_program).weak[0]? = some (some expired_weak) ∧
    ((World.run {} expired_program).heap.block 0).shared_counter_ = 0 ∧
    ((World.run {} expired_program).heap.block 0).freed = false ∧
    (World.run {} expired_program).heap.destroy_field_calls 0 = 1 ∧
    (SharedPtr.ctor_weak (World.run {} expired_program).heap expired_weak).2
      = Except.ok ⟨some 0, some (Addr.obj 5)⟩ ∧
    ((SharedPtr.ctor_weak (World.run {} expired_program).heap expired_weak).1.block
      0).shared_counter_ = 1 :=
  ⟨by decide, by decide, by decide, by decide, rfl, by decide⟩

/-- C3: at the `WeakPtr` left by `expired_program`, `lock()` returns a pointer that is not
empty (`get()` is the address of the destroyed object, `use_count()` is 1) and the
shared counter of the block goes from 0 to 1. -/
theorem C3_lock_on_expired_returns_nonempty :
    WeakPtr.expired (World.run {} expired_program).heap expired_weak = true ∧
    (WeakPtr.lock (World.run {} expired_program).heap expired_weak).2
      = Except.ok ⟨some 0, some (Addr.obj 5)⟩ ∧
    SharedPtr.get ⟨some 0, some (Addr.obj 5)⟩ = some (Addr.obj 5) ∧
    SharedPtr.use_count (WeakPtr.lock (World.run {} expired_program).heap expired_weak).1
      ⟨some 0, some (Addr.obj 5)⟩ = 1 ∧
    ((WeakPtr.lock (World.run {} expired_program).heap expired_weak).1.block
      0).shared_counter_ = 1 :=
  ⟨by decide, rfl, by decide, by decide, by decide⟩

/-- C4 counterexample: `lock()` on a default-constructed `WeakPtr`, and on one that was
reset, ends in `bad_weak_ptr`; both are expired. -/
theorem C4_lock_on_empty_raises :
    WeakPtr.expired {} WeakPtr.ctor_default = true ∧
    (WeakPtr.lock {} WeakPtr.ctor_default).2 = Except.error Exception.bad_weak_ptr ∧
    (World.run {} [Op.sp_raw (some (Addr.obj 5)) false, Op.wp_shared 0, Op.wp_reset 0]).weak[0]?
      = some (some ⟨none, none⟩) ∧
    (WeakPtr.lock
      (World.run {} [Op.sp_raw (some (Addr.obj 5)) false, Op.wp_shared 0, Op.wp_reset 0]).heap
      ⟨none, none⟩).2 = Except.error Exception.bad_weak_ptr :=
  ⟨by decide, rfl, by decide, rfl⟩

/-- C4 amended: `lock()` is the constructor `SharedPtr(const WeakPtr&)`; it ends in
`bad_weak_ptr` exactly when the `WeakPtr` has no control block, it ends in no other
exception, and when it throws the heap is left as it was. -/
theorem C4_lock_raises_iff_no_block (h : Heap) (w : WeakPtr) :
    WeakPtr.lock h w = SharedPtr.ctor_weak h w ∧
    ((WeakPtr.lock h w).2 = Except.error Exception.bad_weak_ptr ↔ w.control_block_ = none) ∧
    (∀ e, (WeakPtr.lock h w).2 = Except.error e → e = Exception.bad_weak_ptr) ∧
    (w.control_block_ = none → (WeakPtr.lock h w).1 = h) := by
  refine ⟨rfl, ?_, ?_, ?_⟩
  · cases hcb : w.control_block_ with
    | none => simp [WeakPtr.lock, SharedPtr.ctor_weak, SharedPtr.ctor_block, hcb]
    | some cb => simp [WeakPtr.lock, SharedPtr.ctor_weak, SharedPtr.ctor_block, hcb]
  · intro e he
    cases hcb : w.control_block_ with
    | none =>
      simp [WeakPtr.lock, SharedPtr.ctor_weak, SharedPtr.ctor_block, hcb] at he
      exact he.symm
    | some cb => simp [WeakPtr.lock, SharedPtr.ctor_weak, SharedPtr.ctor_block, hcb] at he
  · intro hcb
    simp [WeakPtr.lock, SharedPtr.ctor_weak, SharedPtr.ctor_block, hcb, SharedPtr.dtor]

/-- C4 witness: on a default-constructed `WeakPtr`, `lock()` throws and leaves the heap
as it was. -/
theorem C4_lock_raises_iff_no_block_witness :
    WeakPtr.ctor_default.control_block_ = none ∧
    (WeakPtr.lock {} WeakPtr.ctor_default).2 = Except.error Exception.bad_weak_ptr ∧
    (WeakPtr.lock {} WeakPtr.ctor_default).1 = {} :=
  ⟨rfl, (C4_lock_raises_iff_no_block {} WeakPtr.ctor_default).2.1.2 rfl,
    (C4_lock_raises_iff_no_block {} WeakPtr.ctor_default).2.2.2 rfl⟩

/-- C5: in `relock_program` the object of block 0 is destroyed when its only `SharedPtr`
dies, `lock()` then hands out a new `SharedPtr`, and when that one dies `destroy_field`
runs on block 0 a second time. -/
theorem C5_destroy_field_runs_twice :
    (World.run {} expired_program).heap.destroy_field_calls 0 = 1 ∧
    (World.run {} relock_program).heap.destroy_field_calls 0 = 2 ∧
    (World.run {} relock_program).heap.trace =
      [Event.allocate 0, Event.destroy_field 0 0 1, Event.deleter (some (Addr.obj 5)),
        Event.destroy_field 0 0 1, Event.deleter none] := by
  decide

/-- C7: an object with the `EnableSharedFromThis` base made by `allocateShared` holds a
seeded `wptr_` (weak counter 1).  When its only `SharedPtr` dies, `destroy_field` runs the
destructor of the object, the destructor of `wptr_` inside it frees the block, and
`~SharedPtr` then reads the freed block and calls `destroy_control_block` once more. -/
theorem C7_self_observing_block_freed_twice :
    ((World.run {} [Op.sp_allocate true none]).heap.block 0).shared_counter_ = 1 ∧
    ((World.run {} [Op.sp_allocate true none]).heap.block 0).weak_counter_ = 1 ∧
    (World.run {} self_observing_program).heap.destroy_field_calls 0 = 1 ∧
    (World.run {} self_observing_program).heap.destroy_control_block_calls 0 = 2 ∧
    (World.run {} self_observing_program).heap.deallocations = 2 ∧
    (World.run {} self_observing_program).heap.trace =
      [Event.allocate 0, Event.destroy_field 0 0 1, Event.destroy (some (Addr.storage 0)),
        Event.destroy_control_block 0 0 0, Event.deallocate 0,
        Event.use_after_free 0, Event.use_after_free 0, Event.use_after_free 0,
        Event.destroy_control_block 0 0 0, Event.deallocate 0] := by
  decide

/-- C8: when the constructor of `T` throws inside `allocateShared`, the exception leaves
the function, one more `allocate` was made than before and no `deallocate`: the storage
of the block stays allocated. -/
theorem C8_throwing_constructor_leaks_block (h : Heap) (m : Bool) (tag : Nat) :
    (allocateShared h m (some tag)).2 = Except.error (Exception.thrown tag) ∧
    (allocateShared h m (some tag)).1.allocations = h.allocations + 1 ∧
    (allocateShared h m (some tag)).1.deallocations = h.deallocations ∧
    ((allocateShared h m (some tag)).1.block h.blocks.length).freed = false := by
  refine ⟨rfl, ?_, ?_, ?_⟩
  · simp [allocateShared, Heap.alloc, Heap.allocations, List.countP_append, List.countP_cons]
  · simp [allocateShared, Heap.alloc, Heap.deallocations, List.countP_append,
      List.countP_cons]
  · simp [allocateShared, Heap.alloc_block]

/-- C9: the deleter copy throws while the member `deleter_` of the block is initialised.
The handler calls `destroy_field`, which applies the deleter to `ptr_` (already set to the
raw pointer), and then calls `deleter(ptr)` again: the deleter runs twice on the same
pointer.  The storage is deallocated once and the exception is rethrown. -/
theorem C9_deleter_runs_twice :
    (SharedPtr.ctor_deleter_alloc {} (some (Addr.obj 5)) false raw_storage
      (some (ThrowPoint.member_deleter, 3))).2 = Except.error (Exception.thrown 3) ∧
    (SharedPtr.ctor_deleter_alloc {} (some (Addr.obj 5)) false raw_storage
      (some (ThrowPoint.member_deleter, 3))).1.deleter_calls (some (Addr.obj 5)) = 2 ∧
    (SharedPtr.ctor_deleter_alloc {} (some (Addr.obj 5)) false raw_storage
      (some (ThrowPoint.member_deleter, 3))).1.deallocations = 1 ∧
    (SharedPtr.ctor_deleter_alloc {} (some (Addr.obj 5)) false raw_storage
      (some (ThrowPoint.member_deleter, 3))).1.trace =
      [Event.allocate 0, Event.destroy_field 0 0 0, Event.deleter (some (Addr.obj 5)),
        Event.destroy_control_block 0 0 0, Event.deallocate 0,
        Event.deleter (some (Addr.obj 5))] :=
  ⟨rfl, by decide, by decide, by decide⟩

/-- C10 counterexample: `SharedPtr(ptr, deleter, alloc)` called with a null `ptr`, and
`SharedPtr(ptr, deleter)` which delegates to it, return a `SharedPtr` that has a control
block (`use_count()` is 1) and a null `ptr_` (`operator bool` is false); so does the
variable of the program made of that one statement. -/
theorem C10_null_raw_pointer_gets_block :
    (SharedPtr.ctor_deleter_alloc {} none false raw_storage none).2
      = Except.ok ⟨some 0, none⟩ ∧
    (SharedPtr.ctor_deleter {} none false raw_storage none).2 = Except.ok ⟨some 0, none⟩ ∧
    SharedPtr.use_count (SharedPtr.ctor_deleter_alloc {} none false raw_storage none).1
      ⟨some 0, none⟩ = 1 ∧
    SharedPtr.toBool ⟨some 0, none⟩ = false ∧
    (World.run {} [Op.sp_deleter none false raw_storage none]).strong[0]?
      = some (some ⟨some 0, none⟩) ∧
    ¬ ((SharedPtr.mk (some 0) none).ptr_ ≠ none ↔
      (SharedPtr.mk (some 0) none).control_block_ ≠ none) := by
  refine ⟨rfl, rfl, by decide, by decide, by decide, ?_⟩
  simp

/-- C10 amended: every live `SharedPtr` of every program has a control block whenever its
raw pointer is not null; and when no statement of the program wraps a null raw pointer,
its raw pointer is not null exactly when it has a control block. -/
theorem C10_raw_pointer_implies_block (ops : List Op) (i : Nat) (s : SharedPtr)
    (hs : (World.run {} ops).strong[i]? = some (some s)) :
    (s.ptr_ ≠ none → s.control_block_ ≠ none) ∧
    ((∀ op ∈ ops, Op.raw_arg op ≠ some none) →
      (s.ptr_ ≠ none ↔ s.control_block_ ≠ none)) := by
  have hmem : some s ∈ (World.run {} ops).strong := List.getElem?_mem hs
  constructor
  · have hall := World.All.all_run (fun cb p => p ≠ none → cb ≠ none) (fun h => absurd rfl h)
      (fun n _ => by simp) ops {} (World.All.all_init _)
      (fun op _ ptr _ n _ => by simp)
    exact hall.1 s hmem
  · intro hraw
    have hall := World.All.all_run (fun cb p => (p ≠ none ↔ cb ≠ none)) (by simp)
      (fun n => by simp) ops {} (World.All.all_init _)
      (fun op ho ptr hp n => by
        have hne : ptr ≠ none := by
          intro hnone
          apply hraw op ho
          rw [hp, hnone]
        simp [hne])
    exact hall.1 s hmem

/-- C10 witness: a pointer made by `SharedPtr(ptr, deleter)` from a non-null raw pointer,
and a copy of it. -/
theorem C10_raw_pointer_implies_block_witness :
    (World.run {} [Op.sp_deleter (some (Addr.obj 5)) false raw_storage none,
      Op.sp_copy 0]).strong[1]? = some (some ⟨some 0, some (Addr.obj 5)⟩) ∧
    ((some (Addr.obj 5) : RawPtr) ≠ none ↔ (some 0 : Option Nat) ≠ none) :=
  ⟨by decide,
    (C10_raw_pointer_implies_block
      [Op.sp_deleter (some (Addr.obj 5)) false raw_storage none, Op.sp_copy 0] 1
      ⟨some 0, some (Addr.obj 5)⟩ (by decide)).2 (by decide)⟩

/-! ## Frame lemmas: what a call leaves alone -/

theorem Heap.update_block_any (h : Heap) (cb b : Nat) (f : ControlBlockBase → ControlBlockBase) :
    (h.update cb f).block b
      = if b = cb ∧ cb < h.blocks.length then f (h.block cb) else h.block b := by
  by_cases hlt : cb < h.blocks.length
  · rw [Heap.update_block h cb b f hlt]
    simp [hlt]
  · have : h.update cb f = h := by
      unfold Heap.update
      rw [List.set_eq_of_length_le (by omega)]
    rw [this]
    simp [hlt]

theorem Heap.update_keeps {α : Type} (g : ControlBlockBase → α) (h : Heap) (cb b : Nat)
    (f : ControlBlockBase → ControlBlockBase) (hf : ∀ x, g (f x) = g x) :
    g ((h.update cb f).block b) = g (h.block b) := by
  rw [Heap.update_block_any]
  split
  · next hb =>
    rw [hf, hb.1]
  · rfl

theorem Heap.deref_block (h : Heap) (cb b : Nat) : (h.deref cb).block b = h.block b := by
  unfold Heap.deref
  split <;> rfl

theorem Heap.deref_length (h : Heap) (cb : Nat) :
    (h.deref cb).blocks.length = h.blocks.length := by
  unfold Heap.deref
  split <;> rfl

theorem Heap.keeps_refl {α : Type} (g : ControlBlockBase → α) (h : Heap) : h.keeps g h :=
  ⟨rfl, fun _ => rfl⟩

theorem Heap.keeps_trans {α : Type} (g : ControlBlockBase → α) (h1 h2 h3 : Heap)
    (h12 : h1.keeps g h2) (h23 : h2.keeps g h3) : h1.keeps g h3 :=
  ⟨h23.1.trans h12.1, fun b => (h23.2 b).trans (h12.2 b)⟩

theorem Heap.keeps_log {α : Type} (g : ControlBlockBase → α) (h h2 : Heap) (e : Event)
    (hk : h.keeps g h2) : h.keeps g (h2.log e) :=
  ⟨hk.1, hk.2⟩

theorem Heap.keeps_deref {α : Type} (g : ControlBlockBase → α) (h h2 : Heap) (cb : Nat)
    (hk : h.keeps g h2) : h.keeps g (h2.deref cb) :=
  ⟨(Heap.deref_length h2 cb).trans hk.1, fun b => by rw [Heap.deref_block]; exact hk.2 b⟩

theorem Heap.keeps_update {α : Type} (g : ControlBlockBase → α) (h h2 : Heap) (cb : Nat)
    (f : ControlBlockBase → ControlBlockBase) (hf : ∀ x, g (f x) = g x)
    (hk : h.keeps g h2) : h.keeps g (h2.update cb f) :=
  ⟨(Heap.update_length h2 cb f).trans hk.1,
    fun b => (Heap.update_keeps g h2 cb b f hf).trans (hk.2 b)⟩

theorem Heap.same_destroy_field_refl (h : Heap) : h.same_destroy_field h := fun _ => rfl

theorem Heap.same_destroy_field_trans (h1 h2 h3 : Heap) (h12 : h1.same_destroy_field h2)
    (h23 : h2.same_destroy_field h3) : h1.same_destroy_field h3 :=
  fun b => (h23 b).trans (h12 b)

theorem Heap.same_destroy_field_log (h h2 : Heap) (e : Event)
    (he : ∀ b, Event.is_destroy_field b e = false) (hk : h.same_destroy_field h2) :
    h.same_destroy_field (h2.log e) := by
  intro b
  rw [← hk b]
  simp [Heap.destroy_field_calls, Heap.log, List.countP_append, List.countP_cons, he b]

theorem Heap.same_destroy_field_deref (h h2 : Heap) (cb : Nat) (hk : h.same_destroy_field h2) :
    h.same_destroy_field (h2.deref cb) := by
  unfold Heap.deref
  split
  · exact Heap.same_destroy_field_log h h2 _ (fun _ => rfl) hk
  · exact hk

theorem Heap.same_destroy_field_update (h h2 : Heap) (cb : Nat)
    (f : ControlBlockBase → ControlBlockBase) (hk : h.same_destroy_field h2) :
    h.same_destroy_field (h2.update cb f) :=
  fun b => hk b

theorem details.increment_weak_counter_keeps {α : Type} (g : ControlBlockBase → α)
    (hw : ∀ (x : ControlBlockBase) (n : Nat), g { x with weak_counter_ := n } = g x)
    (h h2 : Heap) (cb : Nat) (hk : h.keeps g h2) :
    h.keeps g (increment_weak_counter h2 cb) :=
  Heap.keeps_update g h _ cb _ (fun x => hw x _) (Heap.keeps_deref g h h2 cb hk)

theorem details.decrement_weak_counter_keeps {α : Type} (g : ControlBlockBase → α)
    (hw : ∀ (x : ControlBlockBase) (n : Nat), g { x with weak_counter_ := n } = g x)
    (h h2 : Heap) (cb : Nat) (hk : h.keeps g h2) :
    h.keeps g (decrement_weak_counter h2 cb) :=
  Heap.keeps_update g h _ cb _ (fun x => hw x _) (Heap.keeps_deref g h h2 cb hk)

theorem details.increment_shared_counter_keeps {α : Type} (g : ControlBlockBase → α)
    (hs : ∀ (x : ControlBlockBase) (n : Nat), g { x with shared_counter_ := n } = g x)
    (h h2 : Heap) (cb : Nat) (hk : h.keeps g h2) :
    h.keeps g (increment_shared_counter h2 cb) :=
  Heap.keeps_update g h _ cb _ (fun x => hs x _) (Heap.keeps_deref g h h2 cb hk)

theorem details.decrement_shared_counter_keeps {α : Type} (g : ControlBlockBase → α)
    (hs : ∀ (x : ControlBlockBase) (n : Nat), g { x with shared_counter_ := n } = g x)
    (h h2 : Heap) (cb : Nat) (hk : h.keeps g h2) :
    h.keeps g (decrement_shared_counter h2 cb) :=
  Heap.keeps_update g h _ cb _ (fun x => hs x _) (Heap.keeps_deref g h h2 cb hk)

theorem details.destroy_control_block_keeps {α : Type} (g : ControlBlockBase → α)
    (hf : ∀ (x : ControlBlockBase) (v : Bool), g { x with freed := v } = g x)
    (h h2 : Heap) (cb : Nat) (hk : h.keeps g h2) : h.keeps g (destroy_control_block h2 cb) := by
  unfold destroy_control_block
  apply Heap.keeps_log
  apply Heap.keeps_update g h _ cb _ (fun x => hf x _)
  apply Heap.keeps_log
  exact Heap.keeps_deref g h h2 cb hk

theorem WeakPtr.weak_dtor_keeps {α : Type} (g : ControlBlockBase → α)
    (hw : ∀ (x : ControlBlockBase) (n : Nat), g { x with weak_counter_ := n } = g x)
    (hf : ∀ (x : ControlBlockBase) (v : Bool), g { x with freed := v } = g x)
    (h h2 : Heap) (self : WeakPtr) (hk : h.keeps g h2) : h.keeps g (WeakPtr.dtor h2 self) := by
  unfold WeakPtr.dtor
  split
  · exact hk
  · next cb _ =>
    simp only [get_shared_counter, get_weak_counter]
    have h1 := Heap.keeps_deref g h _ cb (decrement_weak_counter_keeps g hw h h2 cb hk)
    split
    · split
      · exact destroy_control_block_keeps g hf h _ cb (Heap.keeps_deref g h _ cb h1)
      · exact Heap.keeps_deref g h _ cb h1
    · exact h1

theorem details.increment_weak_counter_same_destroy_field (h h2 : Heap) (cb : Nat)
    (hk : h.same_destroy_field h2) : h.same_destroy_field (increment_weak_counter h2 cb) :=
  Heap.same_destroy_field_update h _ cb _ (Heap.same_destroy_field_deref h h2 cb hk)

theorem details.decrement_weak_counter_same_destroy_field (h h2 : Heap) (cb : Nat)
    (hk : h.same_destroy_field h2) : h.same_destroy_field (decrement_weak_counter h2 cb) :=
  Heap.same_destroy_field_update h _ cb _ (Heap.same_destroy_field_deref h h2 cb hk)

theorem details.destroy_control_block_same_destroy_field (h h2 : Heap) (cb : Nat)
    (hk : h.same_destroy_field h2) : h.same_destroy_field (destroy_control_block h2 cb) := by
  unfold destroy_control_block
  apply Heap.same_destroy_field_log
  · intro b
    rfl
  · apply Heap.same_destroy_field_update
    apply Heap.same_destroy_field_log
    · intro b
      rfl
    · exact Heap.same_destroy_field_deref h h2 cb hk

theorem WeakPtr.dtor_same_destroy_field (h h2 : Heap) (self : WeakPtr)
    (hk : h.same_destroy_field h2) : h.same_destroy_field (WeakPtr.dtor h2 self) := by
  unfold WeakPtr.dtor
  split
  · exact hk
  · next cb _ =>
    simp only [get_shared_counter, get_weak_counter]
    have h1 := Heap.same_destroy_field_deref h _ cb
      (decrement_weak_counter_same_destroy_field h h2 cb hk)
    split
    · split
      · exact destroy_control_block_same_destroy_field h _ cb
          (Heap.same_destroy_field_deref h _ cb h1)
      · exact Heap.same_destroy_field_deref h _ cb h1
    · exact h1

theorem details.object_destructor_keeps {α : Type} (g : ControlBlockBase → α)
    (hw : ∀ (x : ControlBlockBase) (n : Nat), g { x with weak_counter_ := n } = g x)
    (hf : ∀ (x : ControlBlockBase) (v : Bool), g { x with freed := v } = g x)
    (h h2 : Heap) (cb : Nat) (hk : h.keeps g h2) : h.keeps g (object_destructor h2 cb) := by
  unfold object_destructor
  split
  · exact hk
  · exact WeakPtr.weak_dtor_keeps g hw hf h h2 _ hk

theorem details.destroy_field_keeps {α : Type} (g : ControlBlockBase → α)
    (hw : ∀ (x : ControlBlockBase) (n : Nat), g { x with weak_counter_ := n } = g x)
    (hf : ∀ (x : ControlBlockBase) (v : Bool), g { x with freed := v } = g x)
    (hp : ∀ (x : ControlBlockBase) (p : RawPtr), g { x with ptr_ := p } = g x)
    (h h2 : Heap) (cb : Nat) (hk : h.keeps g h2) : h.keeps g (destroy_field h2 cb) := by
  unfold destroy_field
  have h1 := Heap.keeps_deref g h h2 cb hk
  dsimp only
  split
  · apply Heap.keeps_update g h _ cb _ (fun x => hp x _)
    apply Heap.keeps_deref
    split
    · exact Heap.keeps_log g h _ _ (Heap.keeps_log g h _ _ h1)
    · exact object_destructor_keeps g hw hf h _ cb
        (Heap.keeps_log g h _ _ (Heap.keeps_log g h _ _ h1))
  · exact object_destructor_keeps g hw hf h _ cb
      (Heap.keeps_log g h _ _ (Heap.keeps_log g h _ _ h1))

theorem SharedPtr.dtor_keeps {α : Type} (g : ControlBlockBase → α)
    (hs : ∀ (x : ControlBlockBase) (n : Nat), g { x with shared_counter_ := n } = g x)
    (hw : ∀ (x : ControlBlockBase) (n : Nat), g { x with weak_counter_ := n } = g x)
    (hf : ∀ (x : ControlBlockBase) (v : Bool), g { x with freed := v } = g x)
    (hp : ∀ (x : ControlBlockBase) (p : RawPtr), g { x with ptr_ := p } = g x)
    (h h2 : Heap) (self : SharedPtr) (hk : h.keeps g h2) :
    h.keeps g (SharedPtr.dtor h2 self) := by
  unfold SharedPtr.dtor
  split
  · exact hk
  · next cb _ =>
    dsimp only [get_shared_counter, get_weak_counter]
    repeat' split
    all_goals
      repeat' first
        | with_reducible exact hk
        | with_reducible apply destroy_control_block_keeps g hf
        | with_reducible apply destroy_field_keeps g hw hf hp
        | with_reducible apply decrement_shared_counter_keeps g hs
        | with_reducible apply Heap.keeps_deref

/-! ## Weak-pointer statements leave the strong side alone -/

theorem World.weak_frame_refl (w : World) : w.weak_frame w :=
  ⟨rfl, Heap.keeps_refl _ _, Heap.same_destroy_field_refl _⟩

theorem World.weak_frame_trans (w1 w2 w3 : World) (h12 : w1.weak_frame w2)
    (h23 : w2.weak_frame w3) : w1.weak_frame w3 :=
  ⟨h23.1.trans h12.1, Heap.keeps_trans _ _ _ _ h12.2.1 h23.2.1,
    Heap.same_destroy_field_trans _ _ _ h12.2.2 h23.2.2⟩

theorem World.weak_frame_wp_default (w : World) : w.weak_frame w.wp_default :=
  ⟨rfl, Heap.keeps_refl _ _, Heap.same_destroy_field_refl _⟩

theorem World.weak_frame_increment (w : World) (cb : Nat) (l : List (Option WeakPtr)) :
    w.weak_frame { w with heap := increment_weak_counter w.heap cb, weak := l } :=
  ⟨rfl, increment_weak_counter_keeps (fun b => b.shared_counter_) (fun _ _ => rfl) _ _ cb
      (Heap.keeps_refl _ _),
    increment_weak_counter_same_destroy_field _ _ cb (Heap.same_destroy_field_refl _)⟩

theorem World.weak_frame_wp_copy (w : World) (src : Nat) : w.weak_frame (w.wp_copy src) := by
  unfold World.wp_copy
  split
  · next rhs _ =>
    unfold WeakPtr.ctor_copy
    split
    · exact ⟨rfl, Heap.keeps_refl _ _, Heap.same_destroy_field_refl _⟩
    · exact World.weak_frame_increment w _ _
  · exact World.weak_frame_refl w

theorem World.weak_frame_wp_shared (w : World) (src : Nat) :
    w.weak_frame (w.wp_shared src) := by
  unfold World.wp_shared
  split
  · next rhs _ =>
    unfold WeakPtr.ctor_shared
    split
    · exact ⟨rfl, Heap.keeps_refl _ _, Heap.same_destroy_field_refl _⟩
    · exact World.weak_frame_increment w _ _
  · exact World.weak_frame_refl w

theorem World.weak_frame_wp_move (w : World) (src : Nat) : w.weak_frame (w.wp_move src) := by
  unfold World.wp_move
  split
  · exact ⟨rfl, Heap.keeps_refl _ _, Heap.same_destroy_field_refl _⟩
  · exact World.weak_frame_refl w

theorem World.weak_frame_wp_swap (w : World) (i j : Nat) : w.weak_frame (w.wp_swap i j) := by
  unfold World.wp_swap
  split
  · exact ⟨rfl, Heap.keeps_refl _ _, Heap.same_destroy_field_refl _⟩
  · exact World.weak_frame_refl w

theorem World.weak_frame_wp_dtor (w : World) (i : Nat) : w.weak_frame (w.wp_dtor i) := by
  unfold World.wp_dtor
  split
  · next self _ =>
    exact ⟨rfl, WeakPtr.weak_dtor_keeps (fun b => b.shared_counter_) (fun _ _ => rfl)
      (fun _ _ => rfl) _ _ self (Heap.keeps_refl _ _),
      WeakPtr.dtor_same_destroy_field _ _ self (Heap.same_destroy_field_refl _)⟩
  · exact World.weak_frame_refl w

theorem World.weak_frame_step (w : World) (op : Op) (hop : op.weak_only = true) :
    w.weak_frame (w.step op) := by
  cases op with
  | wp_default => exact World.weak_frame_wp_default w
  | wp_copy src => exact World.weak_frame_wp_copy w src
  | wp_shared src => exact World.weak_frame_wp_shared w src
  | wp_move src => exact World.weak_frame_wp_move w src
  | wp_swap i j => exact World.weak_frame_wp_swap w i j
  | wp_dtor i => exact World.weak_frame_wp_dtor w i
  | wp_assign dst src =>
    exact World.weak_frame_trans _ _ _ (World.weak_frame_wp_copy w src)
      (World.weak_frame_trans _ _ _ (World.weak_frame_wp_swap _ _ _)
        (World.weak_frame_wp_dtor _ _))
  | wp_assign_shared dst src =>
    exact World.weak_frame_trans _ _ _ (World.weak_frame_wp_shared w src)
      (World.weak_frame_trans _ _ _ (World.weak_frame_wp_swap _ _ _)
        (World.weak_frame_wp_dtor _ _))
  | wp_move_assign dst src =>
    exact World.weak_frame_trans _ _ _ (World.weak_frame_wp_move w src)
      (World.weak_frame_trans _ _ _ (World.weak_frame_wp_swap _ _ _)
        (World.weak_frame_wp_dtor _ _))
  | wp_reset i =>
    exact World.weak_frame_trans _ _ _ (World.weak_frame_wp_default w)
      (World.weak_frame_trans _ _ _ (World.weak_frame_wp_swap _ _ _)
        (World.weak_frame_wp_dtor _ _))
  | _ => simp [Op.weak_only] at hop

theorem World.weak_frame_run (ops : List Op) : ∀ (w : World),
    (∀ op ∈ ops, Op.weak_only op = true) → w.weak_frame (w.run ops) := by
  induction ops with
  | nil =>
    intro w _
    exact World.weak_frame_refl w
  | cons op rest ih =>
    intro w hops
    have h1 := World.weak_frame_step w op (hops op (List.mem_cons_self _ _))
    have h2 := ih (w.step op) (fun o ho => hops o (List.mem_cons_of_mem _ ho))
    have h3 := World.weak_frame_trans _ _ _ h1 h2
    simpa [World.run] using h3

/-! ## Assignment and reset, written out -/

theorem list_tmp_slot {α : Type} (l : List α) (x a c d : α) (i : Nat) (hi : i < l.length) :
    (((l ++ [x]).set l.length a).set i c).set l.length d = l.set i c ++ [d] := by
  have hne : l.length ≠ i := by omega
  rw [List.set_comm a c _ hne, List.set_set]
  rw [List.set_append_left _ _ hi, List.set_append_right _ _ (by simp)]
  simp

theorem list_tmp_get_lt {α : Type} (l : List α) (x y : α) (i : Nat) (hi : l[i]? = some y) :
    (l ++ [x])[i]? = some y := by
  have hlt : i < l.length := getElem?_lt l i y hi
  rw [List.getElem?_append_left hlt]
  exact hi

theorem World.sp_tail_eq (h : Heap) (l : List (Option SharedPtr)) (k : List (Option WeakPtr))
    (t a : SharedPtr) (dst : Nat) (ha : l[dst]? = some (some a)) :
    (World.sp_swap ⟨h, l ++ [some t], k⟩ l.length dst).sp_dtor l.length =
      ⟨SharedPtr.dtor h a, l.set dst (some t) ++ [none], k⟩ := by
  have hlt : dst < l.length := getElem?_lt l dst _ ha
  have hne : dst ≠ l.length := by omega
  have h1 : (l ++ [some t])[l.length]? = some (some t) := by simp
  have h2 : (l ++ [some t])[dst]? = some (some a) := list_tmp_get_lt l _ _ dst ha
  have hsw : World.sp_swap ⟨h, l ++ [some t], k⟩ l.length dst =
      ⟨h, ((l ++ [some t]).set l.length (some a)).set dst (some t), k⟩ := by
    simp only [World.sp_swap, h1, h2, SharedPtr.swap]
  rw [hsw]
  have h3 : (((l ++ [some t]).set l.length (some a)).set dst (some t))[l.length]?
      = some (some a) := by
    rw [List.getElem?_set_ne hne]
    simp
  simp only [World.sp_dtor, h3]
  rw [list_tmp_slot l (some t) (some a) (some t) none dst hlt]

theorem World.sp_assign_eq (w : World) (dst src : Nat) (a b : SharedPtr)
    (ha : w.strong[dst]? = some (some a)) (hb : w.strong[src]? = some (some b)) :
    w.sp_assign dst src =
      ⟨SharedPtr.dtor (SharedPtr.ctor_copy w.heap b).1 a,
        w.strong.set dst (some (SharedPtr.ctor_copy w.heap b).2) ++ [none], w.weak⟩ := by
  have hc : w.sp_copy src =
      ⟨(SharedPtr.ctor_copy w.heap b).1, w.strong ++ [some (SharedPtr.ctor_copy w.heap b).2],
        w.weak⟩ := by
    simp only [World.sp_copy, hb]
  unfold World.sp_assign
  rw [hc]
  exact World.sp_tail_eq _ w.strong w.weak _ a dst ha

theorem World.run_length (ops : List Op) : ∀ (w : World),
    (w.run ops).strong.length ≤ w.strong.length + ops.length ∧
      (w.run ops).weak.length ≤ w.weak.length + ops.length := by
  induction ops with
  | nil =>
    intro w
    exact ⟨Nat.le_refl _, Nat.le_refl _⟩
  | cons op rest ih =>
    intro w
    have h1 := World.step_length w op
    have h2 := ih (w.step op)
    simp only [World.run, List.foldl_cons, List.length_cons] at h2 ⊢
    constructor <;> omega

theorem World.run_init_length (ops : List Op) :
    (World.run {} ops).strong.length ≤ ops.length ∧
      (World.run {} ops).weak.length ≤ ops.length := by
  have h := World.run_length ops {}
  simpa using h

theorem SharedPtr.ctor_copy_value (h : Heap) (s : SharedPtr) :
    (SharedPtr.ctor_copy h s).2 = s := by
  unfold SharedPtr.ctor_copy
  cases hcb : s.control_block_ with
  | none =>
    cases s
    simp_all
  | some cb =>
    cases s
    simp_all

theorem SharedPtr.copy_then_dtor (h : Heap) (s : SharedPtr) (cb : Nat)
    (hcb : s.control_block_ = some cb) (hf : (h.block cb).freed = false)
    (hi : (h.block cb).inert) (hs1 : 1 ≤ (h.block cb).shared_counter_)
    (hs2 : (h.block cb).shared_counter_ + 1 < SIZE_T_RANGE) :
    SharedPtr.dtor (SharedPtr.ctor_copy h s).1 s = h := by
  have hlt := Heap.lt_of_not_freed h cb hf
  have hmod : ((h.block cb).shared_counter_ + 1) % SIZE_T_RANGE
      = (h.block cb).shared_counter_ + 1 := Nat.mod_eq_of_lt hs2
  have hself : s = ⟨some cb, s.ptr_⟩ := by
    cases s
    simp_all
  have hc : (SharedPtr.ctor_copy h s).1 = h.put cb
      { h.block cb with shared_counter_ := (h.block cb).shared_counter_ + 1 } [] := by
    simp [SharedPtr.ctor_copy, hcb, increment_shared_counter_eq _ _ hf, hmod]
  rw [hc, hself]
  have hb1 : ∀ (x : ControlBlockBase) (e : List Event), (h.put cb x e).block cb = x := by
    intro x e
    simp [Heap.put_block h cb cb x e hlt]
  rw [SharedPtr.dtor_eq _ cb _ (by rw [hb1]; exact hf) (by rw [hb1]; exact hi)
    (by rw [hb1]; simp) (by rw [hb1]; simp; omega)]
  rw [hb1, Heap.put_put]
  have hne : (h.block cb).shared_counter_ + 1 ≠ 1 := by omega
  have hblk : SharedPtr.dtor_block
      { h.block cb with shared_counter_ := (h.block cb).shared_counter_ + 1 } = h.block cb := by
    simp [SharedPtr.dtor_block, hne]
  have hev : SharedPtr.dtor_events cb
      { h.block cb with shared_counter_ := (h.block cb).shared_counter_ + 1 } = [] := by
    simp [SharedPtr.dtor_events, hne]
  rw [hblk, hev]
  simp [Heap.put, Heap.set_block_self]

theorem WeakPtr.round_trip (h : Heap) (s : SharedPtr) (cb : Nat)
    (hcb : s.control_block_ = some cb) (hf : (h.block cb).freed = false)
    (hs2 : (h.block cb).shared_counter_ + 1 < SIZE_T_RANGE) :
    (WeakPtr.lock (WeakPtr.ctor_shared h s).1 (WeakPtr.ctor_shared h s).2).2 = Except.ok s ∧
    SharedPtr.use_count (WeakPtr.ctor_shared h s).1 s = SharedPtr.use_count h s ∧
    SharedPtr.use_count (WeakPtr.lock (WeakPtr.ctor_shared h s).1
      (WeakPtr.ctor_shared h s).2).1 s = SharedPtr.use_count h s + 1 := by
  have hlt := Heap.lt_of_not_freed h cb hf
  have hmod : ((h.block cb).shared_counter_ + 1) % SIZE_T_RANGE
      = (h.block cb).shared_counter_ + 1 := Nat.mod_eq_of_lt hs2
  have hself : s = ⟨some cb, s.ptr_⟩ := by
    cases s
    simp_all
  have hb1 : ∀ (x : ControlBlockBase) (e : List Event), (h.put cb x e).block cb = x := by
    intro x e
    simp [Heap.put_block h cb cb x e hlt]
  have hw : WeakPtr.ctor_shared h s = (h.put cb
      { h.block cb with weak_counter_ := ((h.block cb).weak_counter_ + 1) % SIZE_T_RANGE } [],
      ⟨some cb, s.ptr_⟩) := by
    simp [WeakPtr.ctor_shared, hcb, increment_weak_counter_eq _ _ hf]
  rw [hw]
  simp only [WeakPtr.lock, SharedPtr.ctor_weak, SharedPtr.ctor_block]
  rw [increment_shared_counter_eq _ _ (by rw [hb1]; exact hf)]
  simp only [hb1, Heap.put_put, SharedPtr.use_count, hcb, get_shared_counter, hmod,
    reduceCtorEq, if_false]
  refine ⟨?_, trivial, trivial⟩
  rw [← hself]

theorem list_set_push_get {α : Type} (l : List α) (x y : α) (i : Nat) (hi : i < l.length) :
    (l.set i x ++ [y])[i]? = some x := by
  rw [List.getElem?_append_left (by simpa using hi)]
  simp [List.getElem?_set_self, hi]

theorem frozen_shared (x : ControlBlockBase) (n : Nat) :
    ControlBlockBase.frozen { x with shared_counter_ := n } = x.frozen := rfl

theorem frozen_weak (x : ControlBlockBase) (n : Nat) :
    ControlBlockBase.frozen { x with weak_counter_ := n } = x.frozen := rfl

theorem frozen_freed (x : ControlBlockBase) (v : Bool) :
    ControlBlockBase.frozen { x with freed := v } = x.frozen := rfl

theorem frozen_ptr (x : ControlBlockBase) (p : RawPtr) :
    ControlBlockBase.frozen { x with ptr_ := p } = x.frozen := rfl

theorem Heap.grows_refl (h : Heap) : h.grows h := ⟨Nat.le_refl _, fun _ _ => rfl⟩

theorem Heap.grows_of_keeps (h h1 h2 : Heap) (hg : h.grows h1)
    (hk : h1.keeps ControlBlockBase.frozen h2) : h.grows h2 :=
  ⟨by rw [hk.1]; exact hg.1, fun b hb => (hk.2 b).trans (hg.2 b hb)⟩

theorem Heap.grows_alloc (h : Heap) (blk : ControlBlockBase) : h.grows (h.alloc blk) := by
  refine ⟨by simp [Heap.alloc], ?_⟩
  intro b hb
  rw [Heap.alloc_block]
  have hne : b ≠ h.blocks.length := by omega
  simp [hne]

theorem Heap.handle_none (h : Heap) (p : RawPtr) : h.handle none p := by
  intro b hb
  cases hb

theorem Heap.handle_mono (h h2 : Heap) (hg : h.grows h2) (cb : Option Nat) (p : RawPtr)
    (hh : h.handle cb p) : h2.handle cb p := by
  intro b hb
  have h1 := hh b hb
  have h2f := hg.2 b h1.1
  simp only [ControlBlockBase.frozen, Prod.mk.injEq] at h2f
  refine ⟨by have := hg.1; omega, ?_⟩
  rw [h2f.1, h2f.2]
  exact h1.2

theorem Heap.shaped_grows (h h2 : Heap) (hs : h.shaped) (hg : h.grows h2)
    (hnew : ∀ b, h.blocks.length ≤ b → (h2.block b).seeded_at b) : h2.shaped := by
  intro b
  by_cases hb : b < h.blocks.length
  · have h2f := hg.2 b hb
    simp only [ControlBlockBase.frozen, Prod.mk.injEq] at h2f
    have h1 := hs b
    unfold ControlBlockBase.seeded_at at h1 ⊢
    rw [h2f.1, h2f.2]
    exact h1
  · exact hnew b (by omega)

theorem Heap.created (h h2 : Heap) (blk : ControlBlockBase)
    (hk : (h.alloc blk).keeps ControlBlockBase.frozen h2) :
    h.grows h2 ∧ h2.blocks.length = h.blocks.length + 1 ∧
      (h2.block h.blocks.length).frozen = blk.frozen ∧
      (∀ b, h.blocks.length < b → (h2.block b).frozen = Heap.wild.frozen) := by
  refine ⟨Heap.grows_of_keeps h _ h2 (Heap.grows_alloc h blk) hk, ?_, ?_, ?_⟩
  · rw [hk.1]
    simp [Heap.alloc]
  · rw [hk.2, Heap.alloc_block]
    simp
  · intro b hb
    rw [hk.2, Heap.alloc_block]
    have hne : b ≠ h.blocks.length := by omega
    simp only [hne, if_false]
    rw [Heap.block_of_ge h b (by omega)]

theorem seeded_at_of_frozen (blk blk2 : ControlBlockBase) (b : Nat)
    (hf : blk2.frozen = blk.frozen) (hs : blk.seeded_at b) : blk2.seeded_at b := by
  simp only [ControlBlockBase.frozen, Prod.mk.injEq] at hf
  unfold ControlBlockBase.seeded_at at hs ⊢
  rw [hf.1, hf.2]
  exact hs

theorem seeded_at_wild (b : Nat) : Heap.wild.seeded_at b := by
  intro x hx
  simp [Heap.wild] at hx

theorem World.All.all_mono (P Q : Option Nat → RawPtr → Prop) (w : World)
    (hpq : ∀ cb p, P cb p → Q cb p) (hall : w.All P) : w.All Q :=
  ⟨fun s hs => hpq _ _ (hall.1 s hs), fun s hs => hpq _ _ (hall.2 s hs)⟩

theorem World.Shaped.of_keeps (w w2 : World) (hw : w.Shaped)
    (hk : w.heap.keeps ControlBlockBase.frozen w2.heap)
    (hall : w.All w2.heap.handle → w2.All w2.heap.handle) : w2.Shaped := by
  have hg : w.heap.grows w2.heap := Heap.grows_of_keeps _ _ _ (Heap.grows_refl _) hk
  constructor
  · apply Heap.shaped_grows _ _ hw.blocks hg
    intro b hb
    rw [Heap.block_of_ge _ b (by rw [hk.1]; exact hb)]
    exact seeded_at_wild b
  · apply hall
    exact World.All.all_mono _ _ w (Heap.handle_mono _ _ hg) hw.handles

theorem World.Shaped.shaped_created (w : World) (hw : w.Shaped) (h2 : Heap) (blk : ControlBlockBase)
    (hk : (w.heap.alloc blk).keeps ControlBlockBase.frozen h2)
    (hblk : blk.seeded_at w.heap.blocks.length) :
    World.Shaped { w with heap := h2 } ∧
    ∀ p : RawPtr, (blk.kind = BlockKind.ControlBlockAllocateShared →
        p = some (Addr.storage w.heap.blocks.length) ∧ blk.obj_wptr_ ≠ some ⟨none, none⟩) →
      World.Shaped { w with heap := h2,
                            strong := w.strong ++ [some ⟨some w.heap.blocks.length, p⟩] } := by
  obtain ⟨hg, hlen, hnew, hwild⟩ := Heap.created w.heap h2 blk hk
  have hsh : h2.shaped := by
    apply Heap.shaped_grows _ _ hw.blocks hg
    intro b hb
    by_cases hbe : b = w.heap.blocks.length
    · subst hbe
      exact seeded_at_of_frozen blk _ _ hnew hblk
    · exact seeded_at_of_frozen Heap.wild _ _ (hwild b (by omega)) (seeded_at_wild b)
  have hall : World.All h2.handle w :=
    World.All.all_mono _ _ w (Heap.handle_mono _ _ hg) hw.handles
  refine ⟨⟨hsh, hall⟩, ?_⟩
  intro p hp
  refine ⟨hsh, ?_, hall.2⟩
  intro s hs
  simp only [List.mem_append, List.mem_singleton, Option.some.injEq] at hs
  rcases hs with h | h
  · exact hall.1 s h
  · subst h
    intro b hb
    simp only [Option.some.injEq] at hb
    subst hb
    simp only [ControlBlockBase.frozen, Prod.mk.injEq] at hnew
    refine ⟨by show w.heap.blocks.length < h2.blocks.length; omega, ?_⟩
    dsimp only
    rw [hnew.1, hnew.2]
    exact hp

theorem SharedPtr.ctor_raw_made (h : Heap) (ptr : RawPtr) (m : Bool) :
    (h.alloc ⟨0, 0, BlockKind.ControlBlockConstructor, ptr,
      if m then some ⟨none, none⟩ else none, false⟩).keeps ControlBlockBase.frozen
      (SharedPtr.ctor_raw h ptr m).1 :=
  increment_shared_counter_keeps _ frozen_shared _ _ _ (Heap.keeps_refl _ _)

theorem seeded_at_constructor (ptr : RawPtr) (m : Bool) (s k b : Nat) (f : Bool) :
    ControlBlockBase.seeded_at ⟨s, k, BlockKind.ControlBlockConstructor, ptr,
      if m then some ⟨none, none⟩ else none, f⟩ b := by
  intro x hx
  cases m <;> simp at hx
  exact Or.inl hx.symm

theorem World.Shaped.shaped_sp_raw (w : World) (hw : w.Shaped) (ptr : RawPtr) (m : Bool) :
    (w.sp_raw ptr m).Shaped :=
  (World.Shaped.shaped_created w hw _ _ (SharedPtr.ctor_raw_made w.heap ptr m)
    (seeded_at_constructor _ _ _ _ _ _)).2 ptr (fun hk => by simp at hk)

theorem SharedPtr.ctor_deleter_alloc_made (h : Heap) (ptr : RawPtr) (m : Bool)
    (raw : ControlBlockBase) (t : Option (ThrowPoint × Nat)) :
    (h.alloc ⟨raw.shared_counter_, raw.weak_counter_, BlockKind.ControlBlockConstructor,
      raw.ptr_, if m then some ⟨none, none⟩ else none, false⟩).keeps ControlBlockBase.frozen
      (SharedPtr.ctor_deleter_alloc h ptr m raw t).1 := by
  unfold SharedPtr.ctor_deleter_alloc
  cases t with
  | none =>
    dsimp only
    apply increment_shared_counter_keeps _ frozen_shared
    refine Heap.keeps_update _ _ _ _ _ ?_ (Heap.keeps_refl _ _)
    intro x
    rfl
  | some x =>
    obtain ⟨a, tag⟩ := x
    dsimp only
    apply Heap.keeps_log
    apply destroy_control_block_keeps _ frozen_freed
    apply destroy_field_keeps _ frozen_weak frozen_freed frozen_ptr
    cases a
    · exact Heap.keeps_refl _ _
    · exact Heap.keeps_refl _ _
    · refine Heap.keeps_update _ _ _ _ _ ?_ (Heap.keeps_refl _ _)
      intro x
      rfl
    · refine Heap.keeps_update _ _ _ _ _ ?_ (Heap.keeps_refl _ _)
      intro x
      rfl

theorem World.Shaped.shaped_sp_deleter (w : World) (hw : w.Shaped) (ptr : RawPtr) (m : Bool)
    (raw : ControlBlockBase) (t : Option (ThrowPoint × Nat)) :
    (w.sp_deleter ptr m raw t).Shaped := by
  have hc := World.Shaped.shaped_created w hw _ _ (SharedPtr.ctor_deleter_alloc_made w.heap ptr m raw t)
    (seeded_at_constructor _ _ _ _ _ _)
  unfold World.sp_deleter
  dsimp only
  split
  · next s hs =>
    rw [SharedPtr.ctor_deleter_alloc_value _ _ _ _ _ s hs]
    exact hc.2 ptr (fun hk => by simp at hk)
  · exact hc.1

theorem allocateShared_mixin (h : Heap) :
    allocateShared h true none =
      ((increment_weak_counter (increment_shared_counter
          (h.alloc ⟨0, 0, BlockKind.ControlBlockAllocateShared,
            some (Addr.storage h.blocks.length), some ⟨none, none⟩, false⟩)
          h.blocks.length) h.blocks.length).update h.blocks.length
        (fun b => { b with
          obj_wptr_ := some ⟨some h.blocks.length, some (Addr.storage h.blocks.length)⟩ }),
        Except.ok ⟨some h.blocks.length, some (Addr.storage h.blocks.length)⟩) := by
  have hb : (h.alloc ⟨0, 0, BlockKind.ControlBlockAllocateShared,
      some (Addr.storage h.blocks.length), some ⟨none, none⟩, false⟩).block h.blocks.length
      = ⟨0, 0, BlockKind.ControlBlockAllocateShared,
        some (Addr.storage h.blocks.length), some ⟨none, none⟩, false⟩ := by
    rw [Heap.alloc_block]
    simp
  have hk := increment_shared_counter_keeps ControlBlockBase.frozen frozen_shared _ _
    h.blocks.length (Heap.keeps_refl ControlBlockBase.frozen
      (h.alloc ⟨0, 0, BlockKind.ControlBlockAllocateShared,
        some (Addr.storage h.blocks.length), some ⟨none, none⟩, false⟩))
  have hobj := hk.2 h.blocks.length
  rw [hb] at hobj
  simp only [ControlBlockBase.frozen, Prod.mk.injEq] at hobj
  unfold allocateShared
  simp only [if_true, SharedPtr.ctor_block, hb, hobj.2]
  simp [WeakPtr.assign_shared, WeakPtr.ctor_shared, WeakPtr.swap, WeakPtr.dtor]

theorem allocateShared_made (h : Heap) (m : Bool) (t : Option Nat) :
    (h.alloc ⟨0, 0, BlockKind.ControlBlockAllocateShared, some (Addr.storage h.blocks.length),
      if m then some (if t = none then ⟨some h.blocks.length, some (Addr.storage h.blocks.length)⟩
        else ⟨none, none⟩) else none, false⟩).keeps ControlBlockBase.frozen
      (allocateShared h m t).1 := by
  cases t with
  | some tag =>
    simp only [allocateShared, reduceCtorEq, if_false]
    exact Heap.keeps_refl _ _
  | none =>
    cases m with
    | false =>
      rw [allocateShared_plain]
      simp only [Bool.false_eq_true, if_false]
      exact increment_shared_counter_keeps _ frozen_shared _ _ _ (Heap.keeps_refl _ _)
    | true =>
      rw [allocateShared_mixin]
      simp only [if_true]
      have hk := increment_weak_counter_keeps ControlBlockBase.frozen frozen_weak _ _
        h.blocks.length
        (increment_shared_counter_keeps ControlBlockBase.frozen frozen_shared _ _
          h.blocks.length (Heap.keeps_refl ControlBlockBase.frozen
            (h.alloc ⟨0, 0, BlockKind.ControlBlockAllocateShared,
              some (Addr.storage h.blocks.length), some ⟨none, none⟩, false⟩)))
      constructor
      · rw [Heap.update_length, hk.1]
        simp [Heap.alloc]
      · intro b
        rw [Heap.update_block_any]
        have hkb := hk.2 b
        rw [Heap.alloc_block] at hkb ⊢
        have hl : h.blocks.length < (increment_weak_counter (increment_shared_counter
            (h.alloc ⟨0, 0, BlockKind.ControlBlockAllocateShared,
              some (Addr.storage h.blocks.length), some ⟨none, none⟩, false⟩)
            h.blocks.length) h.blocks.length).blocks.length := by
          rw [hk.1]
          simp [Heap.alloc]
        by_cases hb : b = h.blocks.length
        · subst hb
          simp only [if_true] at hkb
          simp only [ControlBlockBase.frozen, Prod.mk.injEq] at hkb
          simp [hl, ControlBlockBase.frozen, hkb.1]
        · simp only [hb, if_false, false_and] at hkb ⊢
          exact hkb

theorem seeded_at_allocate (m : Bool) (t : Option Nat) (b : Nat) :
    ControlBlockBase.seeded_at ⟨0, 0, BlockKind.ControlBlockAllocateShared,
      some (Addr.storage b),
      if m then some (if t = none then ⟨some b, some (Addr.storage b)⟩
        else ⟨none, none⟩) else none, false⟩ b := by
  intro x hx
  cases m <;> cases t <;> simp at hx
  · exact Or.inr ⟨rfl, hx.symm⟩
  · exact Or.inl hx.symm

theorem World.Shaped.shaped_sp_allocate (w : World) (hw : w.Shaped) (m : Bool) (t : Option Nat) :
    (w.sp_allocate m t).Shaped := by
  have hc := World.Shaped.shaped_created w hw _ _ (allocateShared_made w.heap m t)
    (seeded_at_allocate _ _ _)
  unfold World.sp_allocate
  dsimp only
  split
  · next s hs =>
    rw [allocateShared_value _ _ _ s hs]
    apply hc.2
    intro _
    refine ⟨rfl, ?_⟩
    cases t with
    | some tag => simp [allocateShared] at hs
    | none => cases m <;> simp
  · exact hc.1

theorem SharedPtr.ctor_weak_frozen (h : Heap) (rhs : WeakPtr) :
    h.keeps ControlBlockBase.frozen (SharedPtr.ctor_weak h rhs).1 := by
  unfold SharedPtr.ctor_weak SharedPtr.ctor_block
  cases rhs.control_block_ with
  | none => exact Heap.keeps_refl _ _
  | some cb =>
    simp only [reduceCtorEq, if_false]
    exact increment_shared_counter_keeps _ frozen_shared _ _ _ (Heap.keeps_refl _ _)

theorem World.frozen_step_strong (w : World) :
    (∀ src, w.heap.keeps ControlBlockBase.frozen (w.sp_copy src).heap) ∧
    (∀ src, w.heap.keeps ControlBlockBase.frozen (w.sp_move src).heap) ∧
    (∀ src, w.heap.keeps ControlBlockBase.frozen (w.sp_weak src).heap) ∧
    (∀ src, w.heap.keeps ControlBlockBase.frozen (w.wp_lock src).heap) ∧
    (∀ i j, w.heap.keeps ControlBlockBase.frozen (w.sp_swap i j).heap) ∧
    (∀ i, w.heap.keeps ControlBlockBase.frozen (w.sp_dtor i).heap) := by
  refine ⟨?_, ?_, ?_, ?_, ?_, ?_⟩
  · intro src
    unfold World.sp_copy SharedPtr.ctor_copy
    split
    · split
      · exact Heap.keeps_refl _ _
      · exact increment_shared_counter_keeps _ frozen_shared _ _ _ (Heap.keeps_refl _ _)
    · exact Heap.keeps_refl _ _
  · intro src
    unfold World.sp_move
    split <;> exact Heap.keeps_refl _ _
  · intro src
    unfold World.sp_weak
    split
    · dsimp only
      split <;> exact SharedPtr.ctor_weak_frozen _ _
    · exact Heap.keeps_refl _ _
  · intro src
    unfold World.wp_lock WeakPtr.lock
    split
    · dsimp only
      split <;> exact SharedPtr.ctor_weak_frozen _ _
    · exact Heap.keeps_refl _ _
  · intro i j
    unfold World.sp_swap
    split <;> exact Heap.keeps_refl _ _
  · intro i
    unfold World.sp_dtor
    split
    · exact SharedPtr.dtor_keeps _ frozen_shared frozen_weak frozen_freed frozen_ptr _ _ _
        (Heap.keeps_refl _ _)
    · exact Heap.keeps_refl _ _

theorem World.frozen_step_weak (w : World) :
    (∀ src, w.heap.keeps ControlBlockBase.frozen (w.wp_copy src).heap) ∧
    (∀ src, w.heap.keeps ControlBlockBase.frozen (w.wp_shared src).heap) ∧
    (∀ src, w.heap.keeps ControlBlockBase.frozen (w.wp_move src).heap) ∧
    (∀ i j, w.heap.keeps ControlBlockBase.frozen (w.wp_swap i j).heap) ∧
    (∀ i, w.heap.keeps ControlBlockBase.frozen (w.wp_dtor i).heap) := by
  refine ⟨?_, ?_, ?_, ?_, ?_⟩
  · intro src
    unfold World.wp_copy WeakPtr.ctor_copy
    split
    · split
      · exact Heap.keeps_refl _ _
      · exact increment_weak_counter_keeps _ frozen_weak _ _ _ (Heap.keeps_refl _ _)
    · exact Heap.keeps_refl _ _
  · intro src
    unfold World.wp_shared WeakPtr.ctor_shared
    split
    · split
      · exact Heap.keeps_refl _ _
      · exact increment_weak_counter_keeps _ frozen_weak _ _ _ (Heap.keeps_refl _ _)
    · exact Heap.keeps_refl _ _
  · intro src
    unfold World.wp_move
    split <;> exact Heap.keeps_refl _ _
  · intro i j
    unfold World.wp_swap
    split <;> exact Heap.keeps_refl _ _
  · intro i
    unfold World.wp_dtor
    split
    · exact WeakPtr.weak_dtor_keeps _ frozen_weak frozen_freed _ _ _ (Heap.keeps_refl _ _)
    · exact Heap.keeps_refl _ _

theorem World.Shaped.shaped_prim (w : World) (hw : w.Shaped) :
    w.sp_default.Shaped ∧ (∀ src, (w.sp_copy src).Shaped) ∧ (∀ src, (w.sp_move src).Shaped) ∧
    (∀ src, (w.sp_weak src).Shaped) ∧ (∀ src, (w.wp_lock src).Shaped) ∧
    (∀ i j, (w.sp_swap i j).Shaped) ∧ (∀ i, (w.sp_dtor i).Shaped) ∧
    w.wp_default.Shaped ∧ (∀ src, (w.wp_copy src).Shaped) ∧ (∀ src, (w.wp_shared src).Shaped) ∧
    (∀ src, (w.wp_move src).Shaped) ∧ (∀ i j, (w.wp_swap i j).Shaped) ∧
    (∀ i, (w.wp_dtor i).Shaped) := by
  obtain ⟨s1, s2, s3, s4, s5, s6⟩ := World.frozen_step_strong w
  obtain ⟨k1, k2, k3, k4, k5⟩ := World.frozen_step_weak w
  refine ⟨?_, ?_, ?_, ?_, ?_, ?_, ?_, ?_, ?_, ?_, ?_, ?_, ?_⟩
  · exact World.Shaped.of_keeps w _ hw (Heap.keeps_refl _ _)
      (World.All.all_sp_default _ (Heap.handle_none _ _) w)
  · intro src
    exact World.Shaped.of_keeps w _ hw (s1 src) (World.All.all_sp_copy _ w src)
  · intro src
    exact World.Shaped.of_keeps w _ hw (s2 src)
      (World.All.all_sp_move _ (Heap.handle_none _ _) w src)
  · intro src
    exact World.Shaped.of_keeps w _ hw (s3 src) (World.All.all_sp_weak _ w src)
  · intro src
    exact World.Shaped.of_keeps w _ hw (s4 src) (World.All.all_wp_lock _ w src)
  · intro i j
    exact World.Shaped.of_keeps w _ hw (s5 i j) (World.All.all_sp_swap _ w i j)
  · intro i
    exact World.Shaped.of_keeps w _ hw (s6 i) (World.All.all_sp_dtor _ w i)
  · exact World.Shaped.of_keeps w _ hw (Heap.keeps_refl _ _)
      (World.All.all_wp_default _ (Heap.handle_none _ _) w)
  · intro src
    exact World.Shaped.of_keeps w _ hw (k1 src) (World.All.all_wp_copy _ w src)
  · intro src
    exact World.Shaped.of_keeps w _ hw (k2 src) (World.All.all_wp_shared _ w src)
  · intro src
    exact World.Shaped.of_keeps w _ hw (k3 src)
      (World.All.all_wp_move _ (Heap.handle_none _ _) w src)
  · intro i j
    exact World.Shaped.of_keeps w _ hw (k4 i j) (World.All.all_wp_swap _ w i j)
  · intro i
    exact World.Shaped.of_keeps w _ hw (k5 i) (World.All.all_wp_dtor _ w i)

theorem World.Shaped.shaped_step (w : World) (hw : w.Shaped) (op : Op) : (w.step op).Shaped := by
  have tail : ∀ (v : World) (i j k : Nat), v.Shaped → ((v.sp_swap i j).sp_dtor k).Shaped :=
    fun v i j k hv =>
      (World.Shaped.shaped_prim _ ((World.Shaped.shaped_prim v hv).2.2.2.2.2.1 i j)).2.2.2.2.2.2.1 k
  have wtail : ∀ (v : World) (i j k : Nat), v.Shaped → ((v.wp_swap i j).wp_dtor k).Shaped :=
    fun v i j k hv =>
      (World.Shaped.shaped_prim _
        ((World.Shaped.shaped_prim v hv).2.2.2.2.2.2.2.2.2.2.2.1 i j)).2.2.2.2.2.2.2.2.2.2.2.2 k
  obtain ⟨p1, p2, p3, p4, p5, p6, p7, p8, p9, p10, p11, p12, p13⟩ :=
    World.Shaped.shaped_prim w hw
  cases op with
  | sp_default => exact p1
  | sp_raw ptr m => exact World.Shaped.shaped_sp_raw w hw ptr m
  | sp_copy src => exact p2 src
  | sp_move src => exact p3 src
  | sp_weak src => exact p4 src
  | sp_allocate m t => exact World.Shaped.shaped_sp_allocate w hw m t
  | sp_swap i j => exact p6 i j
  | sp_dtor i => exact p7 i
  | sp_assign dst src => exact tail _ _ _ _ (p2 src)
  | sp_move_assign dst src => exact tail _ _ _ _ (p3 src)
  | sp_reset i => exact tail _ _ _ _ p1
  | sp_reset_raw i ptr m => exact tail _ _ _ _ (World.Shaped.shaped_sp_raw w hw ptr m)
  | sp_deleter ptr m raw t => exact World.Shaped.shaped_sp_deleter w hw ptr m raw t
  | sp_reset_deleter i ptr m raw t =>
    exact tail _ _ _ _ (World.Shaped.shaped_sp_deleter w hw ptr m raw t)
  | wp_default => exact p8
  | wp_copy src => exact p9 src
  | wp_shared src => exact p10 src
  | wp_move src => exact p11 src
  | wp_lock src => exact p5 src
  | wp_swap i j => exact p12 i j
  | wp_dtor i => exact p13 i
  | wp_assign dst src => exact wtail _ _ _ _ (p9 src)
  | wp_assign_shared dst src => exact wtail _ _ _ _ (p10 src)
  | wp_move_assign dst src => exact wtail _ _ _ _ (p11 src)
  | wp_reset i => exact wtail _ _ _ _ p8

theorem World.Shaped.shaped_run (ops : List Op) : ∀ (w : World), w.Shaped → (w.run ops).Shaped := by
  induction ops with
  | nil =>
    intro w hw
    exact hw
  | cons op rest ih =>
    intro w hw
    exact ih (w.step op) (World.Shaped.shaped_step w hw op)

theorem World.Shaped.shaped_init (ops : List Op) : (World.run {} ops).Shaped := by
  apply World.Shaped.shaped_run
  constructor
  · intro b
    rw [Heap.block_of_ge _ b (Nat.zero_le _)]
    exact seeded_at_wild b
  · exact World.All.all_init _

theorem World.Shaped.owner (w : World) (hw : w.Shaped) (i : Nat) (s : SharedPtr) (b : Nat)
    (obj : EnableSharedFromThis) (hs : w.strong[i]? = some (some s))
    (hcb : s.control_block_ = some b)
    (hkind : (w.heap.block b).kind = BlockKind.ControlBlockAllocateShared)
    (hobj : w.heap.object b = some obj) :
    b < w.heap.blocks.length ∧ s = ⟨some b, some (Addr.storage b)⟩ ∧
      obj = ⟨⟨some b, some (Addr.storage b)⟩⟩ := by
  have hh := hw.handles.1 s (List.getElem?_mem hs) b hcb
  have hp := hh.2 hkind
  have hse : s = ⟨some b, some (Addr.storage b)⟩ := by
    cases s
    simp_all
  refine ⟨hh.1, hse, ?_⟩
  unfold Heap.object at hobj
  cases hx : (w.heap.block b).obj_wptr_ with
  | none => simp [hx] at hobj
  | some x =>
    simp only [hx, Option.map_some', Option.some.injEq] at hobj
    rcases hw.blocks b x hx with h1 | h1
    · exact absurd (hx.trans (congrArg some h1)) hp.2
    · rw [← hobj, h1.2]

theorem World.Shaped.unseeded (w : World) (hw : w.Shaped) (b : Nat) (obj : EnableSharedFromThis)
    (hkind : (w.heap.block b).kind = BlockKind.ControlBlockConstructor)
    (hobj : w.heap.object b = some obj) : obj = ⟨⟨none, none⟩⟩ := by
  unfold Heap.object at hobj
  cases hx : (w.heap.block b).obj_wptr_ with
  | none => simp [hx] at hobj
  | some x =>
    simp only [hx, Option.map_some', Option.some.injEq] at hobj
    rcases hw.blocks b x hx with h1 | h1
    · rw [← hobj, h1]
    · rw [hkind] at h1
      exact absurd h1.1 (by simp)

theorem increment_shared_counter_block (h : Heap) (b : Nat) (hb : b < h.blocks.length) :
    ((increment_shared_counter h b).block b).shared_counter_
      = ((h.block b).shared_counter_ + 1) % SIZE_T_RANGE := by
  unfold increment_shared_counter
  rw [Heap.update_block_any, Heap.deref_block, Heap.deref_length]
  simp [hb]

theorem allocateShared_object (h : Heap) :
    (allocateShared h true none).1.object h.blocks.length
      = some ⟨⟨some h.blocks.length, some (Addr.storage h.blocks.length)⟩⟩ := by
  have hk := increment_weak_counter_keeps ControlBlockBase.frozen frozen_weak _ _
    h.blocks.length
    (increment_shared_counter_keeps ControlBlockBase.frozen frozen_shared _ _
      h.blocks.length (Heap.keeps_refl ControlBlockBase.frozen
        (h.alloc ⟨0, 0, BlockKind.ControlBlockAllocateShared,
          some (Addr.storage h.blocks.length), some ⟨none, none⟩, false⟩)))
  have hl : h.blocks.length < (increment_weak_counter (increment_shared_counter
      (h.alloc ⟨0, 0, BlockKind.ControlBlockAllocateShared,
        some (Addr.storage h.blocks.length), some ⟨none, none⟩, false⟩)
      h.blocks.length) h.blocks.length).blocks.length := by
    rw [hk.1]
    simp [Heap.alloc]
  rw [allocateShared_mixin]
  unfold Heap.object
  rw [Heap.update_block_any]
  simp [hl]

/-! ## The claims C11 to C20 -/

/-- C11: after any program without promotion and without a seeded `wptr_`, a live `WeakPtr`
with a control block reports as `use_count()` the number of live `SharedPtr` variables of
that block: when there is none, `expired()` is true and `use_count()` is 0; when there is
at least one, `expired()` is false. -/
theorem C11_weak_use_count_is_strong_count (ops : List Op)
    (hops : ∀ op ∈ ops, Op.plain op = true) (hlen : ops.length < SIZE_T_RANGE)
    (i : Nat) (x : WeakPtr) (cb : Nat)
    (hx : (World.run {} ops).weak[i]? = some (some x)) (hcb : x.control_block_ = some cb) :
    WeakPtr.use_count (World.run {} ops).heap x = (World.run {} ops).strong_refs cb ∧
    ((World.run {} ops).strong_refs cb = 0 →
      WeakPtr.expired (World.run {} ops).heap x = true ∧
        WeakPtr.use_count (World.run {} ops).heap x = 0) ∧
    (1 ≤ (World.run {} ops).strong_refs cb →
      WeakPtr.expired (World.run {} ops).heap x = false) := by
  have hinv := World.Inv.run_init ops hops hlen
  have _hlive := hx
  have huc : WeakPtr.use_count (World.run {} ops).heap x = (World.run {} ops).strong_refs cb := by
    simp only [WeakPtr.use_count, hcb, get_shared_counter]
    exact hinv.shared cb
  refine ⟨huc, ?_, ?_⟩
  · intro h0
    simp [WeakPtr.expired, huc, h0]
  · intro h1
    simp only [WeakPtr.expired, huc]
    simp
    omega

/-- C11 witness: after `derived_program` the copy of the `WeakPtr` reports `use_count()`
1, the number of `SharedPtr`s, while two `WeakPtr`s observe the block. -/
theorem C11_weak_use_count_is_strong_count_witness :
    (World.run {} derived_program).weak[1]? = some (some ⟨some 0, some (Addr.obj 5)⟩) ∧
    (World.run {} derived_program).strong_refs 0 = 1 ∧
    (World.run {} derived_program).weak_refs 0 = 2 ∧
    WeakPtr.use_count (World.run {} derived_program).heap ⟨some 0, some (Addr.obj 5)⟩
      = (World.run {} derived_program).strong_refs 0 :=
  ⟨by decide, by decide, by decide,
    (C11_weak_use_count_is_strong_count derived_program (by decide) (by decide) 1
      ⟨some 0, some (Addr.obj 5)⟩ 0 (by decide) rfl).1⟩

/-- C12: on any heap, for a `SharedPtr` `s` whose control block is allocated and whose
shared counter is below the maximum of `size_t`, whatever object the block manages:
`weak = s` followed by `weak.lock()` throws nothing and returns a pointer with the raw
pointer and the control block of `s`; the construction of `weak` leaves `use_count()` as
it was and `lock()` raises it by one. -/
theorem C12_lock_round_trip (h : Heap) (s : SharedPtr) (cb : Nat)
    (hcb : s.control_block_ = some cb) (hf : (h.block cb).freed = false)
    (hs2 : (h.block cb).shared_counter_ + 1 < SIZE_T_RANGE) :
    (WeakPtr.lock (WeakPtr.ctor_shared h s).1 (WeakPtr.ctor_shared h s).2).2 = Except.ok s ∧
    SharedPtr.get s = s.ptr_ ∧
    SharedPtr.use_count (WeakPtr.ctor_shared h s).1 s = SharedPtr.use_count h s ∧
    SharedPtr.use_count (WeakPtr.lock (WeakPtr.ctor_shared h s).1
      (WeakPtr.ctor_shared h s).2).1 s = SharedPtr.use_count h s + 1 := by
  obtain ⟨h1, h2, h3⟩ := WeakPtr.round_trip h s cb hcb hf hs2
  exact ⟨h1, rfl, h2, h3⟩

/-- C12 witness: after `seeded_program` two pointers own the self-observing object of
block 0; `weak = s` and `weak.lock()` give the pointer back and `use_count()` goes from 2
to 3. -/
theorem C12_lock_round_trip_witness :
    (World.run {} seeded_program).strong[0]? = some (some ⟨some 0, some (Addr.storage 0)⟩) ∧
    ((World.run {} seeded_program).heap.block 0).freed = false ∧
    SharedPtr.use_count (World.run {} seeded_program).heap ⟨some 0, some (Addr.storage 0)⟩ = 2 ∧
    (WeakPtr.lock
      (WeakPtr.ctor_shared (World.run {} seeded_program).heap ⟨some 0, some (Addr.storage 0)⟩).1
      (WeakPtr.ctor_shared (World.run {} seeded_program).heap
        ⟨some 0, some (Addr.storage 0)⟩).2).2 = Except.ok ⟨some 0, some (Addr.storage 0)⟩ ∧
    SharedPtr.use_count (WeakPtr.lock
      (WeakPtr.ctor_shared (World.run {} seeded_program).heap ⟨some 0, some (Addr.storage 0)⟩).1
      (WeakPtr.ctor_shared (World.run {} seeded_program).heap
        ⟨some 0, some (Addr.storage 0)⟩).2).1 ⟨some 0, some (Addr.storage 0)⟩
      = SharedPtr.use_count (World.run {} seeded_program).heap
        ⟨some 0, some (Addr.storage 0)⟩ + 1 :=
  ⟨by decide, by decide, by decide,
    (C12_lock_round_trip (World.run {} seeded_program).heap ⟨some 0, some (Addr.storage 0)⟩ 0
      rfl (by decide) (by decide)).1,
    (C12_lock_round_trip (World.run {} seeded_program).heap ⟨some 0, some (Addr.storage 0)⟩ 0
      rfl (by decide) (by decide)).2.2.2⟩

/-- C13: after any program, for a live `SharedPtr` `s` whose control block `b` is co-located
(made by `allocateShared` or `makeShared`) and whose object has the `EnableSharedFromThis`
base: `shared_from_this()` of that object throws nothing and returns a pointer equal to
`s`, with the control block `b` and with `get()` the address of the object in the
`storage_` of `b`; unless the counter is at its maximum, `use_count()` is one more than
before. -/
theorem C13_shared_from_this_of_co_located (ops : List Op) (i : Nat) (s : SharedPtr) (b : Nat)
    (obj : EnableSharedFromThis)
    (hs : (World.run {} ops).strong[i]? = some (some s)) (hcb : s.control_block_ = some b)
    (hkind : ((World.run {} ops).heap.block b).kind = BlockKind.ControlBlockAllocateShared)
    (hobj : (World.run {} ops).heap.object b = some obj) :
    (EnableSharedFromThis.shared_from_this (World.run {} ops).heap obj).2 = Except.ok s ∧
    SharedPtr.get s = some (Addr.storage b) ∧
    (((World.run {} ops).heap.block b).shared_counter_ + 1 < SIZE_T_RANGE →
      SharedPtr.use_count
          (EnableSharedFromThis.shared_from_this (World.run {} ops).heap obj).1 s
        = SharedPtr.use_count (World.run {} ops).heap s + 1) := by
  obtain ⟨hb, hse, hoe⟩ :=
    World.Shaped.owner _ (World.Shaped.shaped_init ops) i s b obj hs hcb hkind hobj
  rw [hse, hoe]
  refine ⟨rfl, rfl, ?_⟩
  intro hroom
  simp only [EnableSharedFromThis.shared_from_this, WeakPtr.lock, SharedPtr.ctor_weak,
    SharedPtr.ctor_block, reduceCtorEq, if_false, SharedPtr.use_count, get_shared_counter]
  rw [increment_shared_counter_block _ b hb, Nat.mod_eq_of_lt hroom]

/-- C13 witness: after `allocateShared` of a type with the base, `shared_from_this()`
returns the pointer of block 0 and `use_count()` goes from 1 to 2. -/
theorem C13_shared_from_this_of_co_located_witness :
    (World.run {} [Op.sp_allocate true none]).strong[0]?
      = some (some ⟨some 0, some (Addr.storage 0)⟩) ∧
    (World.run {} [Op.sp_allocate true none]).heap.object 0
      = some ⟨⟨some 0, some (Addr.storage 0)⟩⟩ ∧
    SharedPtr.use_count (World.run {} [Op.sp_allocate true none]).heap
      ⟨some 0, some (Addr.storage 0)⟩ = 1 ∧
    (EnableSharedFromThis.shared_from_this (World.run {} [Op.sp_allocate true none]).heap
      ⟨⟨some 0, some (Addr.storage 0)⟩⟩).2 = Except.ok ⟨some 0, some (Addr.storage 0)⟩ :=
  ⟨by decide, by decide, by decide,
    (C13_shared_from_this_of_co_located [Op.sp_allocate true none] 0
      ⟨some 0, some (Addr.storage 0)⟩ 0 ⟨⟨some 0, some (Addr.storage 0)⟩⟩
      (by decide) rfl (by decide) (by decide)).1⟩

/-- C14: after any program, the object of a control block made by a raw-pointer constructor
(`SharedPtr(U*)`, `SharedPtr(U*, Deleter)`, `SharedPtr(U*, Deleter, Allocator)`), when it
has the `EnableSharedFromThis` base, has an empty `wptr_`, and `shared_from_this()` of it
throws `bad_weak_ptr` and leaves the heap, so every counter, as it was. -/
theorem C14_shared_from_this_of_raw_pointer (ops : List Op) (b : Nat)
    (obj : EnableSharedFromThis)
    (hkind : ((World.run {} ops).heap.block b).kind = BlockKind.ControlBlockConstructor)
    (hobj : (World.run {} ops).heap.object b = some obj) :
    obj = EnableSharedFromThis.ctor_default ∧
    EnableSharedFromThis.shared_from_this (World.run {} ops).heap obj
      = ((World.run {} ops).heap, Except.error Exception.bad_weak_ptr) := by
  have hoe := World.Shaped.unseeded _ (World.Shaped.shaped_init ops) b obj hkind hobj
  rw [hoe]
  exact ⟨rfl, rfl⟩

/-- C14 witness: a pointer made from a raw pointer to an object with the base, and a copy;
`shared_from_this()` of the object throws `bad_weak_ptr`. -/
theorem C14_shared_from_this_of_raw_pointer_witness :
    (World.run {} [Op.sp_raw (some (Addr.obj 5)) true, Op.sp_copy 0]).heap.object 0
      = some ⟨⟨none, none⟩⟩ ∧
    EnableSharedFromThis.shared_from_this
      (World.run {} [Op.sp_raw (some (Addr.obj 5)) true, Op.sp_copy 0]).heap ⟨⟨none, none⟩⟩
      = ((World.run {} [Op.sp_raw (some (Addr.obj 5)) true, Op.sp_copy 0]).heap,
          Except.error Exception.bad_weak_ptr) :=
  ⟨by decide,
    (C14_shared_from_this_of_raw_pointer [Op.sp_raw (some (Addr.obj 5)) true, Op.sp_copy 0] 0
      ⟨⟨none, none⟩⟩ (by decide) (by decide)).2⟩

/-- C15: on any heap, `p = allocateShared<Foo>(alloc, args...)` for a type with the
`EnableSharedFromThis` base throws nothing when the constructor of `Foo` does not, leaves
in the new block an object whose `wptr_` is seeded from `p`, and `weak_from_this()` of
that object followed by `lock()` returns a pointer equal to `p`, so with the same
`get()`; `weak_from_this()` of an object whose `wptr_` was never seeded leaves the heap as
it is and returns an empty `WeakPtr`, which is expired and has `use_count()` 0. -/
theorem C15_weak_from_this_round_trip (h : Heap) :
    (allocateShared h true none).2
      = Except.ok ⟨some h.blocks.length, some (Addr.storage h.blocks.length)⟩ ∧
    (allocateShared h true none).1.object h.blocks.length
      = some ⟨⟨some h.blocks.length, some (Addr.storage h.blocks.length)⟩⟩ ∧
    (WeakPtr.lock
      (EnableSharedFromThis.weak_from_this (allocateShared h true none).1
        ⟨⟨some h.blocks.length, some (Addr.storage h.blocks.length)⟩⟩).1
      (EnableSharedFromThis.weak_from_this (allocateShared h true none).1
        ⟨⟨some h.blocks.length, some (Addr.storage h.blocks.length)⟩⟩).2).2
      = Except.ok ⟨some h.blocks.length, some (Addr.storage h.blocks.length)⟩ ∧
    EnableSharedFromThis.weak_from_this h EnableSharedFromThis.ctor_default
      = (h, ⟨none, none⟩) ∧
    WeakPtr.expired h
      (EnableSharedFromThis.weak_from_this h EnableSharedFromThis.ctor_default).2 = true ∧
    WeakPtr.use_count h
      (EnableSharedFromThis.weak_from_this h EnableSharedFromThis.ctor_default).2 = 0 := by
  refine ⟨?_, allocateShared_object h, rfl, rfl, rfl, rfl⟩
  rw [allocateShared_mixin]

/-- The destructor of a pointer that is not the last owner only lowers the shared counter,
whatever object the block manages. -/
theorem SharedPtr.dtor_not_last (h : Heap) (cb : Nat) (p : RawPtr)
    (hf : (h.block cb).freed = false) (hs1 : 2 ≤ (h.block cb).shared_counter_)
    (hs2 : (h.block cb).shared_counter_ < SIZE_T_RANGE) :
    SharedPtr.dtor h ⟨some cb, p⟩ =
      h.put cb { h.block cb with shared_counter_ := (h.block cb).shared_counter_ - 1 } [] := by
  have hlt := Heap.lt_of_not_freed h cb hf
  have hdec : ((h.block cb).shared_counter_ + SIZE_T_RANGE - 1) % SIZE_T_RANGE
      = (h.block cb).shared_counter_ - 1 := by
    unfold SIZE_T_RANGE at *
    omega
  have hb1 : ∀ (x : ControlBlockBase) (e : List Event), (h.put cb x e).block cb = x := by
    intro x e
    simp [Heap.put_block h cb cb x e hlt]
  unfold SharedPtr.dtor
  simp only [decrement_shared_counter, get_shared_counter, get_weak_counter,
    Heap.deref_eq h cb hf, Heap.update_eq_put, hdec]
  have hf1 : ((h.put cb { h.block cb with shared_counter_ := (h.block cb).shared_counter_ - 1 }
      []).block cb).freed = false := by
    rw [hb1]
    exact hf
  rw [Heap.deref_eq _ cb hf1]
  simp only [hb1]
  have h0 : (h.block cb).shared_counter_ - 1 ≠ 0 := by omega
  simp [h0, Heap.deref, hb1, hf]

/-- A copy followed by the destructor of a pointer to the same block leaves the heap as it
was, whatever object the block manages. -/
theorem SharedPtr.copy_then_dtor_live (h : Heap) (s : SharedPtr) (cb : Nat)
    (hcb : s.control_block_ = some cb) (hf : (h.block cb).freed = false)
    (hs1 : 1 ≤ (h.block cb).shared_counter_)
    (hs2 : (h.block cb).shared_counter_ + 1 < SIZE_T_RANGE) :
    SharedPtr.dtor (SharedPtr.ctor_copy h s).1 s = h := by
  have hlt := Heap.lt_of_not_freed h cb hf
  have hmod : ((h.block cb).shared_counter_ + 1) % SIZE_T_RANGE
      = (h.block cb).shared_counter_ + 1 := Nat.mod_eq_of_lt hs2
  have hself : s = ⟨some cb, s.ptr_⟩ := by
    cases s
    simp_all
  have hc : (SharedPtr.ctor_copy h s).1 = h.put cb
      { h.block cb with shared_counter_ := (h.block cb).shared_counter_ + 1 } [] := by
    simp [SharedPtr.ctor_copy, hcb, increment_shared_counter_eq _ _ hf, hmod]
  rw [hc, hself]
  have hb1 : ∀ (x : ControlBlockBase) (e : List Event), (h.put cb x e).block cb = x := by
    intro x e
    simp [Heap.put_block h cb cb x e hlt]
  rw [SharedPtr.dtor_not_last _ cb _ (by rw [hb1]; exact hf) (by rw [hb1]; simp; omega)
    (by rw [hb1]; simp; omega)]
  rw [hb1, Heap.put_put]
  show h.put cb (h.block cb) [] = h
  simp [Heap.put, Heap.set_block_self]

/-- C16: in any state, for a live `SharedPtr` variable `p` that is empty or whose control
block is allocated with a shared counter of at least 1 and below the maximum of `size_t`,
whatever object the block manages: `p = p` leaves the heap (every counter, the trace of
`destroy_field` and `destroy_control_block` calls) and the variable as they were; and for
any two live variables, `a = b` runs the destructor of the old value of `a` on the heap
in which the count of `b`'s block has already been raised. -/
theorem C16_self_assignment_is_no_op (w : World) (i : Nat) (p : SharedPtr)
    (hp : w.strong[i]? = some (some p))
    (hblk : ∀ cb, p.control_block_ = some cb → (w.heap.block cb).freed = false ∧
      1 ≤ (w.heap.block cb).shared_counter_ ∧
      (w.heap.block cb).shared_counter_ + 1 < SIZE_T_RANGE) :
    (w.sp_assign i i).heap = w.heap ∧
    (w.sp_assign i i).strong[i]? = some (some p) ∧
    SharedPtr.use_count (w.sp_assign i i).heap p = SharedPtr.use_count w.heap p ∧
    (w.sp_assign i i).weak = w.weak ∧
    (∀ b, (w.sp_assign i i).heap.destroy_field_calls b = w.heap.destroy_field_calls b) ∧
    (∀ b, (w.sp_assign i i).heap.destroy_control_block_calls b
      = w.heap.destroy_control_block_calls b) ∧
    (∀ dst src a b, w.strong[dst]? = some (some a) → w.strong[src]? = some (some b) →
      (w.sp_assign dst src).heap = SharedPtr.dtor (SharedPtr.ctor_copy w.heap b).1 a ∧
      (w.sp_assign dst src).strong[dst]? = some (some b)) := by
  have hgen : ∀ dst src a b, w.strong[dst]? = some (some a) → w.strong[src]? = some (some b) →
      (w.sp_assign dst src).heap = SharedPtr.dtor (SharedPtr.ctor_copy w.heap b).1 a ∧
      (w.sp_assign dst src).strong[dst]? = some (some b) := by
    intro dst src a b ha hb
    rw [World.sp_assign_eq _ dst src a b ha hb, SharedPtr.ctor_copy_value]
    exact ⟨rfl, list_set_push_get _ _ _ _ (getElem?_lt _ _ _ ha)⟩
  have hself := hgen i i p p hp hp
  have hheap : (w.sp_assign i i).heap = w.heap := by
    rw [hself.1]
    cases hcb : p.control_block_ with
    | none =>
      have hpe : p = ⟨none, p.ptr_⟩ := by
        cases p
        simp_all
      rw [hpe]
      rfl
    | some cb =>
      obtain ⟨hf, hs1, hs2⟩ := hblk cb hcb
      exact SharedPtr.copy_then_dtor_live _ p cb hcb hf hs1 hs2
  refine ⟨hheap, hself.2, by rw [hheap], ?_, fun b => by rw [hheap], fun b => by rw [hheap],
    hgen⟩
  rw [World.sp_assign_eq _ i i p p hp hp]

/-- C16 witness: after `seeded_program`, `p = p` on variable 0, an owner of the
self-observing object of block 0, leaves the heap as it was. -/
theorem C16_self_assignment_is_no_op_witness :
    (World.run {} seeded_program).strong[0]? = some (some ⟨some 0, some (Addr.storage 0)⟩) ∧
    ((World.run {} seeded_program).heap.block 0).obj_wptr_
      = some ⟨some 0, some (Addr.storage 0)⟩ ∧
    ((World.run {} seeded_program).sp_assign 0 0).heap = (World.run {} seeded_program).heap :=
  ⟨by decide, by decide,
    (C16_self_assignment_is_no_op (World.run {} seeded_program) 0
      ⟨some 0, some (Addr.storage 0)⟩ (by decide)
      (fun cb hcb => by
        have h0 : cb = 0 := (Option.some.inj hcb).symm
        subst h0
        decide)).1⟩

/-- C19: from any state, a program that only constructs a `WeakPtr` from a `SharedPtr` or a
`WeakPtr`, or copies, moves, assigns, swaps, resets or destroys `WeakPtr` variables leaves
every `SharedPtr` variable, the shared counter of every block and the number of
`destroy_field` calls on every block as they were. -/
theorem C19_weak_statements_keep_strong_side (w : World) (ops : List Op)
    (hops : ∀ op ∈ ops, Op.weak_only op = true) (b : Nat) :
    (w.run ops).strong = w.strong ∧
    ((w.run ops).heap.block b).shared_counter_ = (w.heap.block b).shared_counter_ ∧
    (w.run ops).heap.destroy_field_calls b = w.heap.destroy_field_calls b := by
  have h := World.weak_frame_run ops w hops
  exact ⟨h.1, h.2.1.2 b, h.2.2 b⟩

/-- C19 witness: after `observed_program`, copy, reset and destroy `WeakPtr`s; the shared
counter of block 0 stays 2. -/
theorem C19_weak_statements_keep_strong_side_witness :
    ((World.run {} observed_program).heap.block 0).shared_counter_ = 2 ∧
    (((World.run {} observed_program).run
      [Op.wp_copy 0, Op.wp_reset 0, Op.wp_dtor 1, Op.wp_move 2]).heap.block 0).shared_counter_
      = ((World.run {} observed_program).heap.block 0).shared_counter_ :=
  ⟨by decide,
    (C19_weak_statements_keep_strong_side (World.run {} observed_program)
      [Op.wp_copy 0, Op.wp_reset 0, Op.wp_dtor 1, Op.wp_move 2] (by decide) 0).2.1⟩

/-- C20: the copy constructor of `EnableSharedFromThis` leaves the heap as it is and gives
an object with an empty `wptr_`, whatever the source holds: `weak_from_this()` of the copy
is empty and expired, `shared_from_this()` of the copy throws `bad_weak_ptr`; copy
assignment leaves the heap and the destination as they are. -/
theorem C20_copy_never_copies_self_reference (h : Heap) (self rhs : EnableSharedFromThis) :
    EnableSharedFromThis.ctor_copy h rhs = (h, ⟨⟨none, none⟩⟩) ∧
    EnableSharedFromThis.weak_from_this h (EnableSharedFromThis.ctor_copy h rhs).2
      = (h, ⟨none, none⟩) ∧
    WeakPtr.expired h
      (EnableSharedFromThis.weak_from_this h (EnableSharedFromThis.ctor_copy h rhs).2).2 = true ∧
    EnableSharedFromThis.shared_from_this h (EnableSharedFromThis.ctor_copy h rhs).2
      = (h, Except.error Exception.bad_weak_ptr) ∧
    EnableSharedFromThis.assign h self rhs = (h, self) :=
  ⟨rfl, rfl, rfl, rfl, rfl⟩

/-! ## The claim C21 -/

theorem allocateShared_block (h : Heap) (m : Bool) :
    ((allocateShared h m none).1.block h.blocks.length).shared_counter_ = 1 ∧
    ((allocateShared h m none).1.block h.blocks.length).kind
      = BlockKind.ControlBlockAllocateShared ∧
    ((allocateShared h m none).1.block h.blocks.length).ptr_
      = some (Addr.storage h.blocks.length) ∧
    ((allocateShared h m none).1.block h.blocks.length).freed = false := by
  have hone : (0 + 1) % SIZE_T_RANGE = 1 := by decide
  have key : ∀ o : Option WeakPtr,
      (increment_shared_counter (h.alloc ⟨0, 0, BlockKind.ControlBlockAllocateShared,
        some (Addr.storage h.blocks.length), o, false⟩) h.blocks.length).block h.blocks.length
      = ⟨1, 0, BlockKind.ControlBlockAllocateShared, some (Addr.storage h.blocks.length), o,
          false⟩ := by
    intro o
    unfold increment_shared_counter
    rw [Heap.update_block_any, Heap.deref_block, Heap.deref_length, Heap.alloc_block]
    simp [Heap.alloc, hone]
  cases m with
  | false =>
    rw [allocateShared_plain, key]
    exact ⟨rfl, rfl, rfl, rfl⟩
  | true =>
    rw [allocateShared_mixin]
    have hl : (increment_shared_counter (h.alloc ⟨0, 0, BlockKind.ControlBlockAllocateShared,
        some (Addr.storage h.blocks.length), some ⟨none, none⟩, false⟩)
        h.blocks.length).blocks.length = h.blocks.length + 1 := by
      unfold increment_shared_counter
      rw [Heap.update_length, Heap.deref_length]
      simp [Heap.alloc]
    have hw : ∀ x : Heap, (increment_weak_counter x h.blocks.length).block h.blocks.length
        = if h.blocks.length < x.blocks.length then
            { x.block h.blocks.length with
              weak_counter_ := ((x.block h.blocks.length).weak_counter_ + 1) % SIZE_T_RANGE }
          else x.block h.blocks.length := by
      intro x
      unfold increment_weak_counter
      rw [Heap.update_block_any, Heap.deref_block, Heap.deref_length]
      simp
    have hwl : ∀ x : Heap, (increment_weak_counter x h.blocks.length).blocks.length
        = x.blocks.length := by
      intro x
      unfold increment_weak_counter
      rw [Heap.update_length, Heap.deref_length]
    rw [Heap.update_block_any, hw, hwl, hl, key]
    simp

/-- C21: on any heap, when the constructor of `T` does not throw, `allocateShared` and
`makeShared` return a pointer whose `get()` is the address of the `storage_` of the new
co-located block (not null) and whose `use_count()` is 1.  When nothing throws,
`SharedPtr(ptr, deleter, alloc)`, and `SharedPtr(ptr, deleter)` which delegates to it,
return a pointer with `get()` equal to `ptr` and `use_count()` 1, whatever the allocated
storage held, and its block is a new `ControlBlockConstructor` that holds `ptr`; the body
of `SharedPtr(ptr)` gives the same pointer and the same counter. -/
theorem C21_new_pointer_is_sole_owner (h : Heap) (m : Bool) (ptr : RawPtr)
    (raw : ControlBlockBase) :
    (allocateShared h m none).2
      = Except.ok ⟨some h.blocks.length, some (Addr.storage h.blocks.length)⟩ ∧
    makeShared h m none = allocateShared h m none ∧
    SharedPtr.get ⟨some h.blocks.length, some (Addr.storage h.blocks.length)⟩ ≠ none ∧
    ((allocateShared h m none).1.block h.blocks.length).kind
      = BlockKind.ControlBlockAllocateShared ∧
    ((allocateShared h m none).1.block h.blocks.length).ptr_
      = SharedPtr.get ⟨some h.blocks.length, some (Addr.storage h.blocks.length)⟩ ∧
    SharedPtr.use_count (allocateShared h m none).1
      ⟨some h.blocks.length, some (Addr.storage h.blocks.length)⟩ = 1 ∧
    (SharedPtr.ctor_deleter_alloc h ptr m raw none).2
      = Except.ok ⟨some h.blocks.length, ptr⟩ ∧
    SharedPtr.ctor_deleter h ptr m raw none = SharedPtr.ctor_deleter_alloc h ptr m raw none ∧
    SharedPtr.get ⟨some h.blocks.length, ptr⟩ = ptr ∧
    SharedPtr.use_count (SharedPtr.ctor_deleter_alloc h ptr m raw none).1
      ⟨some h.blocks.length, ptr⟩ = 1 ∧
    ((SharedPtr.ctor_deleter_alloc h ptr m raw none).1.block h.blocks.length).kind
      = BlockKind.ControlBlockConstructor ∧
    ((SharedPtr.ctor_deleter_alloc h ptr m raw none).1.block h.blocks.length).ptr_ = ptr ∧
    (SharedPtr.ctor_deleter_alloc h ptr m raw none).1.blocks.length = h.blocks.length + 1 ∧
    SharedPtr.get (SharedPtr.ctor_raw h ptr m).2 = ptr ∧
    SharedPtr.use_count (SharedPtr.ctor_raw h ptr m).1 (SharedPtr.ctor_raw h ptr m).2 = 1 := by
  obtain ⟨h1, h2, h3, _⟩ := allocateShared_block h m
  have hone : (0 + 1) % SIZE_T_RANGE = 1 := by decide
  have hblock : (increment_shared_counter (h.alloc ⟨0, 0, BlockKind.ControlBlockConstructor,
      ptr, if m then some ⟨none, none⟩ else none, false⟩) h.blocks.length).block
        h.blocks.length
      = ⟨1, 0, BlockKind.ControlBlockConstructor, ptr,
        if m then some ⟨none, none⟩ else none, false⟩ := by
    unfold increment_shared_counter
    rw [Heap.update_block_any, Heap.deref_block, Heap.deref_length, Heap.alloc_block]
    simp [Heap.alloc, hone]
  have hlen : (increment_shared_counter (h.alloc ⟨0, 0, BlockKind.ControlBlockConstructor,
      ptr, if m then some ⟨none, none⟩ else none, false⟩) h.blocks.length).blocks.length
      = h.blocks.length + 1 := by
    unfold increment_shared_counter
    rw [Heap.update_length, Heap.deref_length]
    simp [Heap.alloc]
  refine ⟨?_, rfl, by simp [SharedPtr.get], h2, h3, ?_, ?_, rfl, rfl, ?_, ?_, ?_, ?_, rfl, ?_⟩
  · cases m
    · rw [allocateShared_plain]
    · rw [allocateShared_mixin]
  · simp only [SharedPtr.use_count, get_shared_counter]
    exact h1
  · rw [SharedPtr.ctor_deleter_alloc_plain]
  · rw [SharedPtr.ctor_deleter_alloc_plain]
    simp only [SharedPtr.use_count, get_shared_counter]
    rw [hblock]
  · rw [SharedPtr.ctor_deleter_alloc_plain]
    show (Heap.block _ _).kind = _
    rw [hblock]
  · rw [SharedPtr.ctor_deleter_alloc_plain]
    show (Heap.block _ _).ptr_ = _
    rw [hblock]
  · rw [SharedPtr.ctor_deleter_alloc_plain]
    exact hlen
  · simp only [SharedPtr.ctor_raw, SharedPtr.use_count, get_shared_counter]
    rw [hblock]

/-! ## The weak counter counts the `WeakPtr`s and the hidden reference -/

theorem Heap.hidden_le (h : Heap) (b : Nat) : h.hidden b ≤ 1 := by
  unfold Heap.hidden
  split
  · split <;> omega
  · omega

theorem World.Tally.transfer (w w2 : World) (hT : w.Tally)
    (hlen : w2.heap.blocks.length = w.heap.blocks.length)
    (hobj : ∀ b, (w2.heap.block b).obj_wptr_ = (w.heap.block b).obj_wptr_)
    (hbal : ∀ b, b < w.heap.blocks.length →
      (w2.heap.block b).weak_counter_ + w.weak_refs b
        = (w.heap.block b).weak_counter_ + w2.weak_refs b) : w2.Tally := by
  intro b hb
  rw [hlen] at hb
  have h1 := hT b hb
  have h2 := hbal b hb
  have h3 : w2.heap.hidden b = w.heap.hidden b := by
    unfold Heap.hidden
    rw [hobj b]
  omega

theorem World.Tally.tally_of_keeps (w w2 : World) (hT : w.Tally)
    (hk : w.heap.keeps (fun x => (x.weak_counter_, x.obj_wptr_)) w2.heap)
    (hweak : ∀ b, w2.weak_refs b = w.weak_refs b) : w2.Tally := by
  apply World.Tally.transfer w w2 hT hk.1
  · intro b
    exact congrArg Prod.snd (hk.2 b)
  · intro b _
    have h1 : (w2.heap.block b).weak_counter_ = (w.heap.block b).weak_counter_ :=
      congrArg Prod.fst (hk.2 b)
    rw [h1, hweak b]

theorem World.Tally.bound (w : World) (hT : w.Tally) (b : Nat) (hb : b < w.heap.blocks.length) :
    (w.heap.block b).weak_counter_ ≤ w.weak.length + 1 := by
  have h1 := hT b hb
  have h2 := w.weak_refs_le b
  have h3 := w.heap.hidden_le b
  omega

theorem World.Tally.tally_sp_default (w : World) (hT : w.Tally) : w.sp_default.Tally :=
  World.Tally.tally_of_keeps w _ hT (Heap.keeps_refl _ _) (fun _ => rfl)

theorem World.Tally.tally_sp_move (w : World) (hT : w.Tally) (src : Nat) :
    (w.sp_move src).Tally := by
  unfold World.sp_move
  split
  · exact World.Tally.tally_of_keeps w _ hT (Heap.keeps_refl _ _) (fun _ => rfl)
  · exact hT

theorem World.Tally.tally_sp_swap (w : World) (hT : w.Tally) (i j : Nat) :
    (w.sp_swap i j).Tally := by
  unfold World.sp_swap
  split
  · exact World.Tally.tally_of_keeps w _ hT (Heap.keeps_refl _ _) (fun _ => rfl)
  · exact hT

theorem World.Tally.tally_sp_copy (w : World) (hT : w.Tally) (src : Nat) :
    (w.sp_copy src).Tally := by
  unfold World.sp_copy
  split
  · next rhs _ =>
    refine World.Tally.tally_of_keeps w _ hT ?_ (fun _ => rfl)
    show w.heap.keeps _ (SharedPtr.ctor_copy w.heap rhs).1
    unfold SharedPtr.ctor_copy
    split
    · exact Heap.keeps_refl _ _
    · exact increment_shared_counter_keeps (fun x => (x.weak_counter_, x.obj_wptr_))
        (fun _ _ => rfl) _ _ _ (Heap.keeps_refl _ _)
  · exact hT

theorem World.Tally.tally_wp_default (w : World) (hT : w.Tally) : w.wp_default.Tally := by
  refine World.Tally.tally_of_keeps w _ hT (Heap.keeps_refl _ _) ?_
  intro b
  simp [World.wp_default, World.weak_refs, countP_push, WeakPtr.observes,
    WeakPtr.ctor_default]

theorem World.Tally.tally_wp_move (w : World) (hT : w.Tally) (src : Nat) :
    (w.wp_move src).Tally := by
  unfold World.wp_move
  split
  · next rhs hsrc =>
    refine World.Tally.tally_of_keeps w _ hT (Heap.keeps_refl _ _) ?_
    intro b
    have h1 := countP_set_add (WeakPtr.observes b) w.weak src
      (some (WeakPtr.ctor_move rhs).2) (some rhs) hsrc
    simp only [World.weak_refs, countP_push]
    simp only [WeakPtr.ctor_move, WeakPtr.observes] at h1 ⊢
    simp at h1 ⊢
    omega
  · exact hT

theorem World.Tally.tally_wp_swap (w : World) (hT : w.Tally) (i j : Nat) :
    (w.wp_swap i j).Tally := by
  unfold World.wp_swap
  split
  · next a b hi hj =>
    refine World.Tally.tally_of_keeps w _ hT (Heap.keeps_refl _ _) ?_
    intro c
    exact countP_swap (WeakPtr.observes c) w.weak i j (some a) (some b) hi hj
  · exact hT

/-- A new `WeakPtr` variable that references no block. -/
theorem World.Tally.observe_none (w : World) (hT : w.Tally) (p : RawPtr) :
    World.Tally { w with weak := w.weak ++ [some ⟨none, p⟩] } := by
  refine World.Tally.tally_of_keeps w _ hT (Heap.keeps_refl _ _) ?_
  intro b
  simp [World.weak_refs, countP_push, WeakPtr.observes]

/-- A new `WeakPtr` variable that references block `cb`, whose weak counter was incremented. -/
theorem World.Tally.observe (w : World) (hT : w.Tally) (cb : Nat) (p : RawPtr)
    (hcb : cb < w.heap.blocks.length) (hlw : w.weak.length + 2 < SIZE_T_RANGE) :
    World.Tally { w with heap := increment_weak_counter w.heap cb,
                         weak := w.weak ++ [some ⟨some cb, p⟩] } := by
  apply World.Tally.transfer w _ hT
  · show (increment_weak_counter w.heap cb).blocks.length = _
    unfold increment_weak_counter
    rw [Heap.update_length, Heap.deref_length]
  · intro b
    exact (increment_weak_counter_keeps (fun x => x.obj_wptr_) (fun _ _ => rfl) _ _ cb
      (Heap.keeps_refl _ _)).2 b
  · intro b hb
    show ((increment_weak_counter w.heap cb).block b).weak_counter_ + w.weak_refs b
      = (w.heap.block b).weak_counter_
        + (w.weak ++ [some (WeakPtr.mk (some cb) p)]).countP (WeakPtr.observes b)
    rw [observes_push]
    unfold increment_weak_counter
    rw [Heap.update_block_any, Heap.deref_length]
    simp only [Heap.deref_block]
    have hbd := hT.bound w cb hcb
    by_cases hbc : b = cb
    · subst hbc
      simp only [hcb, and_self, if_true]
      rw [Nat.mod_eq_of_lt (by omega)]
      simp only [World.weak_refs]
      omega
    · have hne : ¬ (some cb = some b) := fun h => hbc (Option.some.inj h).symm
      simp only [hbc, false_and, if_false, hne]
      simp only [World.weak_refs]
      omega

theorem World.Tally.tally_wp_copy (w : World) (hT : w.Tally) (hS : w.Shaped) (src : Nat)
    (hlw : w.weak.length + 2 < SIZE_T_RANGE) : (w.wp_copy src).Tally := by
  unfold World.wp_copy
  split
  · next rhs hsrc =>
    unfold WeakPtr.ctor_copy
    cases hcb : rhs.control_block_ with
    | none => exact hT.observe_none w _
    | some cb =>
      have hmem : some rhs ∈ w.weak := List.getElem?_mem hsrc
      exact hT.observe w cb _ (hS.handles.2 rhs hmem cb hcb).1 hlw
  · exact hT

theorem World.Tally.tally_wp_shared (w : World) (hT : w.Tally) (hS : w.Shaped) (src : Nat)
    (hlw : w.weak.length + 2 < SIZE_T_RANGE) : (w.wp_shared src).Tally := by
  unfold World.wp_shared
  split
  · next rhs hsrc =>
    unfold WeakPtr.ctor_shared
    cases hcb : rhs.control_block_ with
    | none => exact hT.observe_none w _
    | some cb =>
      have hmem : some rhs ∈ w.strong := List.getElem?_mem hsrc
      exact hT.observe w cb _ (hS.handles.1 rhs hmem cb hcb).1 hlw
  · exact hT

/-- After the decrement `~WeakPtr` changes nothing but the `freed` flag. -/
theorem WeakPtr.dtor_after_decrement {α : Type} (g : ControlBlockBase → α)
    (hf : ∀ (x : ControlBlockBase) (v : Bool), g { x with freed := v } = g x)
    (h : Heap) (self : WeakPtr) (cb : Nat) (hcb : self.control_block_ = some cb) :
    (decrement_weak_counter h cb).keeps g (WeakPtr.dtor h self) := by
  unfold WeakPtr.dtor
  rw [hcb]
  simp only [get_shared_counter, get_weak_counter]
  have h1 := Heap.keeps_deref g _ _ cb (Heap.keeps_refl g (decrement_weak_counter h cb))
  split
  · split
    · exact destroy_control_block_keeps g hf _ _ cb (Heap.keeps_deref g _ _ cb h1)
    · exact Heap.keeps_deref g _ _ cb h1
  · exact h1

/-- A live `WeakPtr` variable references a block whose weak counter is not 0. -/
theorem World.Tally.tally_live (w : World) (hT : w.Tally) (hS : w.Shaped) (x : WeakPtr)
    (hx : some x ∈ w.weak) (b : Nat) (hcb : x.control_block_ = some b) :
    b < w.heap.blocks.length ∧ 1 ≤ (w.heap.block b).weak_counter_ := by
  have hlt := (hS.handles.2 x hx b hcb).1
  refine ⟨hlt, ?_⟩
  obtain ⟨i, hi⟩ := List.getElem?_of_mem hx
  have h1 : 1 ≤ w.weak_refs b :=
    countP_pos_of_getElem? _ w.weak i (some x) hi (by simp [WeakPtr.observes, hcb])
  have h2 := hT b hlt
  omega

theorem World.Tally.tally_wp_dtor (w : World) (hT : w.Tally) (hS : w.Shaped) (i : Nat)
    (hlw : w.weak.length + 2 < SIZE_T_RANGE) : (w.wp_dtor i).Tally := by
  unfold World.wp_dtor
  split
  · next self hi =>
    have hset : ∀ b, (w.weak.set i none).countP (WeakPtr.observes b)
        + (if self.control_block_ = some b then 1 else 0) = w.weak_refs b := by
      intro b
      have h1 := countP_set_add (WeakPtr.observes b) w.weak i none (some self) hi
      simpa [WeakPtr.observes, World.weak_refs] using h1
    cases hcb : self.control_block_ with
    | none =>
      have hd : WeakPtr.dtor w.heap self = w.heap := by
        simp [WeakPtr.dtor, hcb]
      rw [hd]
      refine World.Tally.tally_of_keeps w _ hT (Heap.keeps_refl _ _) ?_
      intro b
      have h1 := hset b
      simp only [hcb, reduceCtorEq, if_false, Nat.add_zero] at h1
      exact h1
    | some cb =>
      have hmem : some self ∈ w.weak := List.getElem?_mem hi
      obtain ⟨hlt, hpos⟩ := hT.tally_live w hS self hmem cb hcb
      have hbd := hT.bound w cb hlt
      have hk := WeakPtr.dtor_after_decrement (fun x => (x.weak_counter_, x.obj_wptr_))
        (fun _ _ => rfl) w.heap self cb hcb
      apply World.Tally.transfer w _ hT
      · show (WeakPtr.dtor w.heap self).blocks.length = _
        rw [hk.1]
        unfold decrement_weak_counter
        rw [Heap.update_length, Heap.deref_length]
      · intro b
        show ((WeakPtr.dtor w.heap self).block b).obj_wptr_ = _
        rw [show ((WeakPtr.dtor w.heap self).block b).obj_wptr_
          = ((decrement_weak_counter w.heap cb).block b).obj_wptr_ from
            congrArg Prod.snd (hk.2 b)]
        exact (decrement_weak_counter_keeps (fun x => x.obj_wptr_) (fun _ _ => rfl) _ _ cb
          (Heap.keeps_refl _ _)).2 b
      · intro b hb
        show ((WeakPtr.dtor w.heap self).block b).weak_counter_ + w.weak_refs b
          = (w.heap.block b).weak_counter_ + (w.weak.set i none).countP _
        rw [show ((WeakPtr.dtor w.heap self).block b).weak_counter_
          = ((decrement_weak_counter w.heap cb).block b).weak_counter_ from
            congrArg Prod.fst (hk.2 b)]
        have h1 := hset b
        rw [hcb] at h1
        unfold decrement_weak_counter
        rw [Heap.update_block_any, Heap.deref_length]
        simp only [Heap.deref_block]
        by_cases hbc : b = cb
        · subst hbc
          simp only [hlt, and_self, if_true] at h1 ⊢
          have h2 : ((w.heap.block b).weak_counter_ + SIZE_T_RANGE - 1) % SIZE_T_RANGE
              = (w.heap.block b).weak_counter_ - 1 := by
            have : (w.heap.block b).weak_counter_ + SIZE_T_RANGE - 1
                = ((w.heap.block b).weak_counter_ - 1) + SIZE_T_RANGE := by omega
            rw [this, Nat.add_mod_right, Nat.mod_eq_of_lt (by omega)]
          rw [h2]
          omega
        · have hne : ¬ (some cb = some b) := fun h => hbc (Option.some.inj h).symm
          simp only [hbc, false_and, if_false, hne, Nat.add_zero] at h1 ⊢
          omega
  · exact hT

/-- A new block `blk` at the next address, not yet referenced by any `WeakPtr` variable. -/
theorem World.Tally.grow (w : World) (hT : w.Tally) (hS : w.Shaped) (h2 : Heap)
    (strong2 : List (Option SharedPtr)) (blk : ControlBlockBase)
    (hk : (w.heap.alloc blk).keeps (fun x => (x.weak_counter_, x.obj_wptr_)) h2)
    (hnew : blk.weak_counter_ = match blk.obj_wptr_ with
      | some x => if x.control_block_ = some w.heap.blocks.length then 1 else 0
      | none => 0) :
    World.Tally { w with heap := h2, strong := strong2 } := by
  intro b hb
  have hlen : h2.blocks.length = w.heap.blocks.length + 1 := by
    rw [hk.1]
    simp [Heap.alloc]
  have hb2 : b < w.heap.blocks.length + 1 := by
    rw [← hlen]
    exact hb
  have hwc : (h2.block b).weak_counter_ = ((w.heap.alloc blk).block b).weak_counter_ :=
    congrArg Prod.fst (hk.2 b)
  have hob : (h2.block b).obj_wptr_ = ((w.heap.alloc blk).block b).obj_wptr_ :=
    congrArg Prod.snd (hk.2 b)
  show (h2.block b).weak_counter_ = w.weak_refs b + h2.hidden b
  unfold Heap.hidden
  rw [hwc, hob, Heap.alloc_block]
  by_cases hbl : b = w.heap.blocks.length
  · subst hbl
    simp only [if_true]
    have hz : w.weak_refs w.heap.blocks.length = 0 := by
      unfold World.weak_refs
      rw [List.countP_eq_zero]
      intro x hx
      cases x with
      | none => simp [WeakPtr.observes]
      | some s =>
        simp only [WeakPtr.observes, beq_iff_eq]
        intro hcb
        have := (hS.handles.2 s hx _ hcb).1
        omega
    rw [hz, hnew, Nat.zero_add]
  · simp only [hbl, if_false]
    have h1 := hT b (by omega)
    unfold Heap.hidden at h1
    exact h1

theorem World.Tally.tally_sp_raw (w : World) (hT : w.Tally) (hS : w.Shaped) (ptr : RawPtr)
    (m : Bool) : (w.sp_raw ptr m).Tally := by
  unfold World.sp_raw SharedPtr.ctor_raw
  refine hT.grow w hS _ _ ⟨0, 0, BlockKind.ControlBlockConstructor, ptr,
    if m then some ⟨none, none⟩ else none, false⟩ ?_ ?_
  · exact increment_shared_counter_keeps (fun x => (x.weak_counter_, x.obj_wptr_))
      (fun _ _ => rfl) _ _ _ (Heap.keeps_refl _ _)
  · cases m <;> simp

theorem World.Tally.tally_sp_deleter (w : World) (hT : w.Tally) (hS : w.Shaped) (ptr : RawPtr)
    (m : Bool) (raw : ControlBlockBase) : (w.sp_deleter ptr m raw none).Tally := by
  unfold World.sp_deleter
  rw [SharedPtr.ctor_deleter_alloc_plain]
  refine hT.grow w hS _ _ ⟨0, 0, BlockKind.ControlBlockConstructor, ptr,
    if m then some ⟨none, none⟩ else none, false⟩ ?_ ?_
  · exact increment_shared_counter_keeps (fun x => (x.weak_counter_, x.obj_wptr_))
      (fun _ _ => rfl) _ _ _ (Heap.keeps_refl _ _)
  · cases m <;> simp

theorem World.Tally.tally_sp_allocate (w : World) (hT : w.Tally) (hS : w.Shaped) (m : Bool) :
    (w.sp_allocate m none).Tally := by
  unfold World.sp_allocate
  cases m with
  | false =>
    rw [allocateShared_plain]
    refine hT.grow w hS _ _ ⟨0, 0, BlockKind.ControlBlockAllocateShared,
      some (Addr.storage w.heap.blocks.length), none, false⟩ ?_ rfl
    exact increment_shared_counter_keeps (fun x => (x.weak_counter_, x.obj_wptr_))
      (fun _ _ => rfl) _ _ _ (Heap.keeps_refl _ _)
  | true =>
    rw [allocateShared_mixin]
    refine hT.grow w hS _ _ ⟨0, 1, BlockKind.ControlBlockAllocateShared,
      some (Addr.storage w.heap.blocks.length),
      some ⟨some w.heap.blocks.length, some (Addr.storage w.heap.blocks.length)⟩, false⟩ ?_ ?_
    · have hone : (0 + 1) % SIZE_T_RANGE = 1 := by decide
      constructor
      · simp [increment_weak_counter, increment_shared_counter, Heap.update_length,
          Heap.deref_length, Heap.alloc]
      · intro b
        have hl : ∀ blk : ControlBlockBase,
            (w.heap.alloc blk).blocks.length = w.heap.blocks.length + 1 := by
          intro blk
          simp [Heap.alloc]
        simp only [increment_weak_counter, increment_shared_counter, Heap.update_block_any,
          Heap.deref_block, Heap.deref_length, Heap.update_length, Heap.alloc_block, hl]
        by_cases hbl : b = w.heap.blocks.length
        · subst hbl
          simp [hone]
        · simp [hbl]
    · simp

theorem World.Tally.tally_tail (v : World) (i j k : Nat) (hT : v.Tally) (hS : v.Shaped)
    (hlw : v.weak.length + 3 < SIZE_T_RANGE) : ((v.wp_swap i j).wp_dtor k).Tally := by
  have S1 : (v.wp_swap i j).Shaped := World.Shaped.shaped_step v hS (Op.wp_swap i j)
  have L1 : (v.wp_swap i j).weak.length ≤ v.weak.length + 1 :=
    (World.step_length v (Op.wp_swap i j)).2
  exact (hT.tally_wp_swap v i j).tally_wp_dtor _ S1 k (by omega)

theorem World.Tally.tally_step (w : World) (hT : w.Tally) (hS : w.Shaped) (op : Op)
    (hop : op.keeps_owners = true) (hlw : w.weak.length + 4 < SIZE_T_RANGE) :
    (w.step op).Tally := by
  have S : ∀ o : Op, (w.step o).Shaped := World.Shaped.shaped_step w hS
  have L : ∀ o : Op, (w.step o).weak.length ≤ w.weak.length + 1 :=
    fun o => (World.step_length w o).2
  cases op with
  | sp_default => exact hT.tally_sp_default w
  | sp_raw ptr m => exact hT.tally_sp_raw w hS ptr m
  | sp_copy src => exact hT.tally_sp_copy w src
  | sp_move src => exact hT.tally_sp_move w src
  | sp_swap i j => exact hT.tally_sp_swap w i j
  | sp_allocate m t =>
    cases t with
    | none => exact hT.tally_sp_allocate w hS m
    | some x => simp [Op.keeps_owners, Op.weak_only] at hop
  | sp_deleter ptr m raw t =>
    cases t with
    | none => exact hT.tally_sp_deleter w hS ptr m raw
    | some x => simp [Op.keeps_owners, Op.weak_only] at hop
  | wp_default => exact hT.tally_wp_default w
  | wp_copy src => exact hT.tally_wp_copy w hS src (by omega)
  | wp_shared src => exact hT.tally_wp_shared w hS src (by omega)
  | wp_move src => exact hT.tally_wp_move w src
  | wp_swap i j => exact hT.tally_wp_swap w i j
  | wp_dtor i => exact hT.tally_wp_dtor w hS i (by omega)
  | wp_assign dst src =>
    have L1 := L (Op.wp_copy src)
    exact World.Tally.tally_tail _ _ _ _ (hT.tally_wp_copy w hS src (by omega))
      (S (Op.wp_copy src)) (by simp only [World.step] at L1; omega)
  | wp_assign_shared dst src =>
    have L1 := L (Op.wp_shared src)
    exact World.Tally.tally_tail _ _ _ _ (hT.tally_wp_shared w hS src (by omega))
      (S (Op.wp_shared src)) (by simp only [World.step] at L1; omega)
  | wp_move_assign dst src =>
    have L1 := L (Op.wp_move src)
    exact World.Tally.tally_tail _ _ _ _ (hT.tally_wp_move w src)
      (S (Op.wp_move src)) (by simp only [World.step] at L1; omega)
  | wp_reset i =>
    have L1 := L Op.wp_default
    exact World.Tally.tally_tail _ _ _ _ (hT.tally_wp_default w)
      (S Op.wp_default) (by simp only [World.step] at L1; omega)
  | _ => simp [Op.keeps_owners, Op.weak_only] at hop

theorem World.Tally.tally_run (ops : List Op) : ∀ (w : World), w.Tally → w.Shaped →
    (∀ op ∈ ops, Op.keeps_owners op = true) →
    w.weak.length + ops.length + 3 < SIZE_T_RANGE → (w.run ops).Tally := by
  induction ops with
  | nil =>
    intro w hT _ _ _
    exact hT
  | cons op rest ih =>
    intro w hT hS hops hlen
    have L := (World.step_length w op).2
    simp only [List.length_cons] at hlen
    exact ih (w.step op)
      (hT.tally_step w hS op (hops op (List.mem_cons_self _ _)) (by omega))
      (World.Shaped.shaped_step w hS op)
      (fun o ho => hops o (List.mem_cons_of_mem _ ho)) (by omega)

theorem World.Tally.tally_init : World.Tally {} := by
  intro b hb
  simp at hb

theorem World.Tally.of_inv (w : World) (hinv : w.Inv) : w.Tally := by
  intro b _
  have h1 := hinv.weak b
  have h2 : w.heap.hidden b = 0 := by
    unfold Heap.hidden
    cases hobj : (w.heap.block b).obj_wptr_ with
    | none => rfl
    | some x =>
      have h3 := hinv.inert b x hobj
      simp [h3]
  omega

/-! ## The claim C38 -/

/-- C38: after a program that constructs `WeakPtr`s from `SharedPtr`s or `WeakPtr`s and
copies, moves, assigns, swaps, resets and destroys them, next to either any statement on
`SharedPtr`s without a self-observing object (`Op.plain`) or the constructions, copies, moves
and swaps of `SharedPtr`s with one (`Op.keeps_owners`): the weak counter of every allocated
block is the number of live `WeakPtr` variables that reference it plus 1 when the object in
the block observes itself; the block of every live `WeakPtr` has a weak counter of at least
1, so that the decrement in its destructor never meets 0; and `WeakPtr` statements that
follow leave the shared counter of every block as it is. -/
theorem C38_weak_count_is_number_of_weak_pointers (ops : List Op)
    (hops : (∀ op ∈ ops, Op.plain op = true) ∨ (∀ op ∈ ops, Op.keeps_owners op = true))
    (hlen : ops.length + 3 < SIZE_T_RANGE) :
    (∀ b, b < (World.run {} ops).heap.blocks.length →
      ((World.run {} ops).heap.block b).weak_counter_
        = (World.run {} ops).weak_refs b + (World.run {} ops).heap.hidden b) ∧
    (∀ x b, some x ∈ (World.run {} ops).weak → x.control_block_ = some b →
      b < (World.run {} ops).heap.blocks.length ∧
      1 ≤ ((World.run {} ops).heap.block b).weak_counter_) ∧
    (∀ more b, (∀ op ∈ more, Op.weak_only op = true) →
      (((World.run {} ops).run more).heap.block b).shared_counter_
        = ((World.run {} ops).heap.block b).shared_counter_) := by
  have hS := World.Shaped.shaped_init ops
  have hT : (World.run {} ops).Tally := by
    cases hops with
    | inl hp => exact World.Tally.of_inv _ (World.Inv.run_init ops hp (by omega))
    | inr hk =>
      exact World.Tally.tally_run ops {} World.Tally.tally_init
        (World.Shaped.shaped_init []) hk (by simp; omega)
  refine ⟨hT, ?_, ?_⟩
  · intro x b hx hcb
    exact hT.tally_live _ hS x hx b hcb
  · intro more b hmore
    exact (World.weak_frame_run more _ hmore).2.1.2 b

/-- C38 witness: after `tally_program` block 0 holds a self-observing object, one `WeakPtr`
variable references it and its weak counter is 2. -/
theorem C38_weak_count_is_number_of_weak_pointers_witness :
    ((World.run {} tally_program).heap.block 0).weak_counter_ = 2 ∧
    (World.run {} tally_program).weak_refs 0 = 1 ∧
    (World.run {} tally_program).heap.hidden 0 = 1 ∧
    ((World.run {} tally_program).heap.block 0).weak_counter_
      = (World.run {} tally_program).weak_refs 0 + (World.run {} tally_program).heap.hidden 0 :=
  ⟨by decide, by decide, by decide,
    (C38_weak_count_is_number_of_weak_pointers tally_program (Or.inr (by decide))
      (by decide)).1 0 (by decide)⟩

end shared_ptr

/-! # Theorems about Variant -/

namespace variant

open details

theorem VariadicUnion.put_lt (Types : List Ty) : ∀ (base Index : Nat) (made : Except Nat Slot)
    (u : VariadicUnion), Index < Types.length →
    VariadicUnion.put Types base Index made u =
      match made with
      | Except.ok x => Except.ok (x.map fun v => (base + Index, v))
      | Except.error e => Except.error e := by
  induction Types with
  | nil =>
    intro base Index made u h
    simp at h
  | cons Head Tail ih =>
    intro base Index made u h
    cases Index with
    | zero =>
      unfold VariadicUnion.put
      cases made <;> simp
    | succ n =>
      unfold VariadicUnion.put
      rw [ih (base + 1) n made u (by simpa using h)]
      have e : base + 1 + n = base + (n + 1) := by omega
      cases made <;> simp [e]

theorem VariadicUnion.get_lvalue_ref_lt (Types : List Ty) : ∀ (base Index : Nat) (u : VariadicUnion),
    Index < Types.length →
    VariadicUnion.get_lvalue_ref Types base Index u =
      match u with
      | some (i, v) => if i = base + Index then some v else none
      | none => none := by
  induction Types with
  | nil =>
    intro base Index u h
    simp at h
  | cons Head Tail ih =>
    intro base Index u h
    cases Index with
    | zero =>
      unfold VariadicUnion.get_lvalue_ref
      rfl
    | succ n =>
      unfold VariadicUnion.get_lvalue_ref
      rw [ih (base + 1) n u (by simpa using h)]
      have e : base + 1 + n = base + (n + 1) := by omega
      rw [e]

theorem index_by_type_mem (T : Ty) (Types : List Ty) : ∀ (Index : Nat), T ∈ Types →
    Index + Types.length ≤ SIZE_T_RANGE →
    index_by_type Index T Types = Index + Types.indexOf T := by
  induction Types with
  | nil =>
    intro Index h
    simp at h
  | cons Head Tail ih =>
    intro Index hmem hlen
    cases Tail with
    | nil =>
      have hT : T = Head := by simpa using hmem
      simp [index_by_type, hT]
    | cons Next Rest =>
      unfold index_by_type
      by_cases hT : T = Head
      · simp [hT]
      · have hmem2 : T ∈ Next :: Rest := by
          rcases List.mem_cons.1 hmem with h | h
          · exact absurd h hT
          · exact h
        have hl : Index + 1 < SIZE_T_RANGE := by
          simp only [List.length_cons] at hlen
          omega
        rw [if_neg hT, Nat.mod_eq_of_lt hl, ih (Index + 1) hmem2 (by
          simp only [List.length_cons] at hlen ⊢
          omega)]
        have hne : Head ≠ T := fun e => hT e.symm
        rw [List.indexOf_cons_ne _ hne]
        omega

theorem check_is_contain_mem (T : Ty) (Types : List Ty) :
    check_is_contain_v T Types = true ↔ T ∈ Types := by
  simp [check_is_contain_v, List.any_eq_true]

theorem index_by_type_v_eq (T : Ty) (Types : List Ty) (hT : T ∈ Types)
    (hN : Types.length < SIZE_T_RANGE) :
    index_by_type_v T Types = Types.indexOf T ∧ Types.indexOf T < Types.length := by
  refine ⟨?_, List.indexOf_lt_length.2 hT⟩
  unfold index_by_type_v
  rw [index_by_type_mem T Types 0 hT (by omega)]
  omega

theorem index_by_type_v_getElem (Types : List Ty) (hd : Types.Nodup) (k : Nat)
    (hk : k < Types.length) (hN : Types.length < SIZE_T_RANGE) :
    index_by_type_v Types[k] Types = k := by
  rw [(index_by_type_v_eq _ Types (List.getElem_mem hk) hN).1]
  exact List.indexOf_getElem hd k hk

theorem Variant.each_base_skip (f : Variant → Ty → Variant × Option Exception) (L : List Ty) :
    ∀ self, (∀ s, ∀ T ∈ L, f s T = (s, none)) → Variant.each_base f L self = (self, none) := by
  induction L with
  | nil =>
    intro self _
    rfl
  | cons T rest ih =>
    intro self h
    unfold Variant.each_base
    rw [h self T (List.mem_cons_self _ _)]
    exact ih self (fun s U hU => h s U (List.mem_cons_of_mem _ hU))

theorem Variant.each_base_single (f : Variant → Ty → Variant × Option Exception)
    (pre post : List Ty) (Tk : Ty) (hpost : ∀ s, ∀ T ∈ post, f s T = (s, none)) :
    ∀ self, (∀ s, ∀ T ∈ pre, f s T = (s, none)) →
      Variant.each_base f (pre ++ Tk :: post) self = f self Tk := by
  induction pre with
  | nil =>
    intro self _
    simp only [List.nil_append]
    unfold Variant.each_base
    cases h : (f self Tk).2 with
    | some e =>
      simp only
      rw [← h]
    | none =>
      simp only
      rw [Variant.each_base_skip f post _ hpost, ← h]
  | cons T rest ih =>
    intro self h
    simp only [List.cons_append]
    unfold Variant.each_base
    rw [h self T (List.mem_cons_self _ _)]
    exact ih self (fun s U hU => h s U (List.mem_cons_of_mem _ hU))

theorem Variant.each_base_at (Types : List Ty) (hd : Types.Nodup) (k : Nat)
    (hk : k < Types.length) (hN : Types.length < SIZE_T_RANGE)
    (f : Variant → Ty → Variant × Option Exception)
    (hf : ∀ s T, T ∈ Types → index_by_type_v T Types ≠ k → f s T = (s, none))
    (self : Variant) : Variant.each_base f Types self = f self Types[k] := by
  have hsplit : Types.take k ++ Types[k] :: Types.drop (k + 1) = Types := by
    rw [← List.drop_eq_getElem_cons hk]
    exact List.take_append_drop k Types
  have hne : ∀ T ∈ Types, T ≠ Types[k] → index_by_type_v T Types ≠ k := by
    intro T hT hTk hidx
    apply hTk
    have h1 := index_by_type_v_eq T Types hT hN
    have h2 : Types.indexOf T = k := by rw [← h1.1]; exact hidx
    subst h2
    exact (List.getElem_indexOf _).symm
  have hnd : (Types.take k ++ Types[k] :: Types.drop (k + 1)).Nodup := by
    rw [hsplit]
    exact hd
  have hnd2 := List.nodup_append.1 hnd
  have hpre : ∀ s, ∀ T ∈ Types.take k, f s T = (s, none) := by
    intro s T hT
    apply hf s T (List.mem_of_mem_take hT)
    apply hne T (List.mem_of_mem_take hT)
    intro e
    exact hnd2.2.2 hT (by rw [e]; exact List.mem_cons_self _ _)
  have hpost : ∀ s, ∀ T ∈ Types.drop (k + 1), f s T = (s, none) := by
    intro s T hT
    apply hf s T (List.mem_of_mem_drop hT)
    apply hne T (List.mem_of_mem_drop hT)
    intro e
    have := (List.nodup_cons.1 hnd2.2.1).1
    exact this (by rw [← e]; exact hT)
  have key := Variant.each_base_single f (Types.take k) (Types.drop (k + 1)) Types[k] hpost
    self hpre
  rw [hsplit] at key
  exact key

theorem get_holding (Types : List Ty) (I : Nat) (x : Val) (hI : I < Types.length) :
    get Types (Variant.holding I x) I = Except.ok (some x) := by
  simp [get, Variant.holding, VariadicUnion.get_lvalue_ref_lt Types 0 I _ hI]

theorem Variant.safe_put_ok (Types : List Ty) (self : Variant) (I : Nat) (x : Val)
    (hI : I < Types.length) :
    self.safe_put Types I (Except.ok (some x)) = (Variant.holding I x, none) := by
  simp [Variant.safe_put, VariadicUnion.put_lt Types 0 I _ _ hI, Variant.holding]

theorem Variant.safe_assign_ok (Types : List Ty) (A : Alternatives) (self : Variant) (I : Nat)
    (x : Val) (hself : self.current_index_ = I)
    (hassign : ∀ lhs, A.assign I lhs (some x) = (some x, none)) :
    self.safe_assign Types A I (some x) = (Variant.holding I x, none) := by
  simp [Variant.safe_assign, get, hself, hassign, VariadicUnion.write, Variant.holding]

theorem Variant.assign_at (Types : List Ty) (A : Alternatives) (self rhs : Variant) (k : Nat)
    (hd : Types.Nodup) (hN : Types.length < SIZE_T_RANGE) (hk : k < Types.length)
    (hr : rhs.current_index_ = k) :
    Variant.assign Types A self rhs = VariantAlternative.assign Types A rhs self Types[k] := by
  unfold Variant.assign
  apply Variant.each_base_at Types hd k hk hN
  intro s T _ hne
  simp [VariantAlternative.assign, hr, hne]

theorem Variant.ctor_copy_at (Types : List Ty) (A : Alternatives) (rhs : Variant) (k : Nat)
    (hd : Types.Nodup) (hN : Types.length < SIZE_T_RANGE) (hk : k < Types.length)
    (hr : rhs.current_index_ = k) :
    Variant.each_base (VariantAlternative.ctor_copy Types A rhs) Types {}
      = VariantAlternative.ctor_copy Types A rhs {} Types[k] := by
  apply Variant.each_base_at Types hd k hk hN
  intro s T _ hne
  have hne2 : ¬ k = index_by_type_v T Types := fun e => hne e.symm
  simp [VariantAlternative.ctor_copy, hr, hne2]

/-! ## The claims C22 to C26 -/

/-- C22: for an index below the number of alternatives, `get<Index>(v)` returns a reference
to member `Index` of the storage when `current_index_` is `Index`, which reads the stored
value of a variant holding alternative `Index`, and throws `bad_variant_access` when
`current_index_` is anything else, in particular `variant_npos`; for a type `T` of the
pack, `index_by_type_v` is the position of `T` and `get<T>(v)` is `get` at that index. -/
theorem C22_get_checks_current_index (Types : List Ty) (v : Variant) (Index : Nat) (T : Ty)
    (hN : Types.length < SIZE_T_RANGE) (hI : Index < Types.length)
    (hT : check_is_contain_v T Types = true) :
    (v.current_index_ = Index →
      get Types v Index = Except.ok (VariadicUnion.get_lvalue_ref Types 0 Index v.storage_)) ∧
    (∀ x, get Types (Variant.holding Index x) Index = Except.ok (some x)) ∧
    (v.current_index_ ≠ Index → get Types v Index = Except.error Exception.bad_variant_access) ∧
    (v.valueless_by_exception = true →
      get Types v Index = Except.error Exception.bad_variant_access) ∧
    index_by_type_v T Types = Types.indexOf T ∧ Types.indexOf T < Types.length ∧
    get_by_type Types v T = get Types v (index_by_type_v T Types) := by
  have hmem := (check_is_contain_mem T Types).1 hT
  have hidx := index_by_type_v_eq T Types hmem hN
  refine ⟨?_, ?_, ?_, ?_, hidx.1, hidx.2, ?_⟩
  · intro h
    simp [get, h]
  · intro x
    simp [get, Variant.holding, VariadicUnion.get_lvalue_ref_lt Types 0 Index _ hI]
  · intro h
    simp [get, h]
  · intro h
    have hne : v.current_index_ ≠ Index := by
      simp only [Variant.valueless_by_exception, beq_iff_eq] at h
      rw [h]
      unfold variant_npos
      omega
    simp [get, hne]
  · unfold get_by_type holds_alternative
    by_cases h : index_by_type_v T Types = v.current_index_
    · simp [h]
    · have h2 : v.current_index_ ≠ index_by_type_v T Types := fun e => h e.symm
      simp [h, get, h2]

/-- C22 witness: a variant over three types that holds alternative 1 with value 7. -/
theorem C22_get_checks_current_index_witness :
    get [10, 20, 30] (Variant.holding 1 7) 1 = Except.ok (some 7) ∧
    get_by_type [10, 20, 30] (Variant.holding 1 7) 20 = get [10, 20, 30] (Variant.holding 1 7) 1 :=
  ⟨(C22_get_checks_current_index [10, 20, 30] (Variant.holding 1 7) 1 20 (by decide) (by decide)
      (by decide)).2.1 7,
    (C22_get_checks_current_index [10, 20, 30] (Variant.holding 1 7) 1 20 (by decide) (by decide)
      (by decide)).2.2.2.2.2.2⟩

/-- C23: when the constructor of the target alternative throws, `emplace<Index>` and
`emplace<T>` let that exception out and leave the variant with `current_index_` equal to
`variant_npos`: `index()` is `variant_npos` and `valueless_by_exception()` is true,
whatever the variant held. -/
theorem C23_emplace_throw_leaves_valueless (Types : List Ty) (v : Variant) (Index : Nat) (T : Ty)
    (tag : Nat) (hN : Types.length < SIZE_T_RANGE) (hI : Index < Types.length)
    (hT : check_is_contain_v T Types = true) :
    (v.emplace Types Index (Except.error tag)).2 = Except.error (Exception.thrown tag) ∧
    (v.emplace Types Index (Except.error tag)).1.index = variant_npos ∧
    (v.emplace Types Index (Except.error tag)).1.valueless_by_exception = true ∧
    (v.emplace_by_type Types T (Except.error tag)).2 = Except.error (Exception.thrown tag) ∧
    (v.emplace_by_type Types T (Except.error tag)).1.index = variant_npos ∧
    (v.emplace_by_type Types T (Except.error tag)).1.valueless_by_exception = true := by
  have key : ∀ I, I < Types.length →
      (v.emplace Types I (Except.error tag)).2 = Except.error (Exception.thrown tag) ∧
      (v.emplace Types I (Except.error tag)).1.index = variant_npos ∧
      (v.emplace Types I (Except.error tag)).1.valueless_by_exception = true := by
    intro I hI2
    simp [Variant.emplace, Variant.safe_put, VariadicUnion.put_lt Types 0 I _ _ hI2,
      Variant.index, Variant.valueless_by_exception]
  have hmem := (check_is_contain_mem T Types).1 hT
  have hidx := index_by_type_v_eq T Types hmem hN
  refine ⟨(key Index hI).1, (key Index hI).2.1, (key Index hI).2.2, ?_⟩
  unfold Variant.emplace_by_type
  exact key _ (by rw [hidx.1]; exact hidx.2)

/-- C23 witness: the scenario of the unit test, a default-constructed variant over four
types and `emplace` of the last one, whose constructor throws. -/
theorem C23_emplace_throw_leaves_valueless_witness :
    Variant.ctor_default [10, 20, 30, 40] (Except.ok (some 0)) = Except.ok (Variant.holding 0 0) ∧
    ((Variant.holding 0 0).emplace_by_type [10, 20, 30, 40] 40 (Except.error 1)).1.index
      = variant_npos :=
  ⟨rfl,
    (C23_emplace_throw_leaves_valueless [10, 20, 30, 40] (Variant.holding 0 0) 3 40 1 (by decide)
      (by decide) (by decide)).2.2.2.2.1⟩

/-- C24: when two variants over pairwise distinct types have the same `current_index_`
`k` and the copy assignment operator of alternative `k` throws on their stored objects,
`variant2 = variant1` lets that exception out and leaves `variant2` with `index()` equal
to `variant_npos`, so that `get<I>` for every index of the pack and `get<T>` for every
type of the pack throw `bad_variant_access`.  `variant1` is a `const` reference that the
operator only reads. -/
theorem C24_throwing_assignment_leaves_valueless (Types : List Ty) (A : Alternatives)
    (v1 v2 : Variant) (k tag : Nat) (hd : Types.Nodup) (hN : Types.length < SIZE_T_RANGE)
    (hk : k < Types.length) (h1 : v1.current_index_ = k) (h2 : v2.current_index_ = k)
    (hthrow : (A.assign k (VariadicUnion.get_lvalue_ref Types 0 k v2.storage_)
      (VariadicUnion.get_lvalue_ref Types 0 k v1.storage_)).2 = some tag) :
    (Variant.assign Types A v2 v1).2 = some (Exception.thrown tag) ∧
    (Variant.assign Types A v2 v1).1.index = variant_npos ∧
    (Variant.assign Types A v2 v1).1.valueless_by_exception = true ∧
    (∀ I, I < Types.length →
      get Types (Variant.assign Types A v2 v1).1 I = Except.error Exception.bad_variant_access) ∧
    (∀ T, check_is_contain_v T Types = true →
      get_by_type Types (Variant.assign Types A v2 v1).1 T
        = Except.error Exception.bad_variant_access) := by
  have hidx := index_by_type_v_getElem Types hd k hk hN
  have hcur : (Variant.assign Types A v2 v1).1.current_index_ = variant_npos ∧
      (Variant.assign Types A v2 v1).2 = some (Exception.thrown tag) := by
    rw [Variant.assign_at Types A v2 v1 k hd hN hk h1]
    simp [VariantAlternative.assign, hidx, h1, h2, Variant.safe_assign, get, hthrow]
  have hnpos : ∀ I, I < Types.length → variant_npos ≠ I := by
    intro I hI
    unfold variant_npos
    omega
  refine ⟨hcur.2, ?_, ?_, ?_, ?_⟩
  · simp [Variant.index, Variant.valueless_by_exception, hcur.1]
  · simp [Variant.valueless_by_exception, hcur.1]
  · intro I hI
    simp [get, hcur.1, hnpos I hI]
  · intro T hT
    have hmem := (check_is_contain_mem T Types).1 hT
    have hi := index_by_type_v_eq T Types hmem hN
    have hne : index_by_type_v T Types ≠ variant_npos := by
      rw [hi.1]
      exact fun e => hnpos _ hi.2 e.symm
    simp [get_by_type, holds_alternative, hcur.1, hne]

/-- C24 witness: the scenario of the unit test, two variants over four types that both
hold the last alternative, whose copy assignment operator throws. -/
theorem C24_throwing_assignment_leaves_valueless_witness :
    (Variant.assign [10, 20, 30, 40] (Alternatives.throwing_assign 3 1) (Variant.holding 3 42)
      (Variant.holding 3 1)).1.index = variant_npos ∧
    get [10, 20, 30, 40] (Variant.assign [10, 20, 30, 40] (Alternatives.throwing_assign 3 1)
      (Variant.holding 3 42) (Variant.holding 3 1)).1 3
      = Except.error Exception.bad_variant_access :=
  ⟨(C24_throwing_assignment_leaves_valueless [10, 20, 30, 40] (Alternatives.throwing_assign 3 1)
      (Variant.holding 3 1) (Variant.holding 3 42) 3 1 (by decide) (by decide) (by decide)
      rfl rfl (by decide)).2.1,
    (C24_throwing_assignment_leaves_valueless [10, 20, 30, 40] (Alternatives.throwing_assign 3 1)
      (Variant.holding 3 1) (Variant.holding 3 42) 3 1 (by decide) (by decide) (by decide)
      rfl rfl (by decide)).2.2.2.1 3 (by decide)⟩

/-- C25: for a type `T` of the pack and a value `x` that the copy constructor and the copy
assignment operator of `T` copy without exception, a variant constructed from `x`, and
any variant after `x` is assigned to it, holds alternative `indexOf T` with value `x`:
`index()` is the position of `T`, `holds_alternative<T>` is true, `holds_alternative<U>` is
false for every other type `U` of the pack, and `get<T>` reads `x`. -/
theorem C25_value_selects_its_alternative (Types : List Ty) (A : Alternatives) (v0 : Variant)
    (T : Ty) (x : Val) (hN : Types.length < SIZE_T_RANGE)
    (hT : check_is_contain_v T Types = true)
    (hcopy : A.copy (Types.indexOf T) (some x) = Except.ok (some x))
    (hassign : ∀ lhs, A.assign (Types.indexOf T) lhs (some x) = (some x, none)) :
    Variant.ctor_value Types A T (some x) = Except.ok (Variant.holding (Types.indexOf T) x) ∧
    VariantAlternative.assign_value Types A v0 T (some x)
      = (Variant.holding (Types.indexOf T) x, none) ∧
    (Variant.holding (Types.indexOf T) x).index = Types.indexOf T ∧
    holds_alternative Types (Variant.holding (Types.indexOf T) x) T = true ∧
    (∀ U, check_is_contain_v U Types = true → U ≠ T →
      holds_alternative Types (Variant.holding (Types.indexOf T) x) U = false) ∧
    get_by_type Types (Variant.holding (Types.indexOf T) x) T = Except.ok (some x) := by
  have hmem := (check_is_contain_mem T Types).1 hT
  have hidx := index_by_type_v_eq T Types hmem hN
  have hnpos : Types.indexOf T ≠ variant_npos := by
    unfold variant_npos
    omega
  refine ⟨?_, ?_, ?_, ?_, ?_, ?_⟩
  · simp only [Variant.ctor_value, VariantAlternative.ctor_value, hidx.1, hcopy,
      Variant.safe_put_ok Types _ _ x hidx.2]
  · unfold VariantAlternative.assign_value
    rw [hidx.1, hcopy]
    by_cases h : v0.current_index_ = Types.indexOf T
    · rw [if_pos h]
      exact Variant.safe_assign_ok Types A v0 _ x h hassign
    · rw [if_neg h]
      exact Variant.safe_put_ok Types _ _ x hidx.2
  · simp [Variant.index, Variant.valueless_by_exception, Variant.holding, hnpos]
  · simp [holds_alternative, Variant.holding, hidx.1]
  · intro U hU hne
    have hmemU := (check_is_contain_mem U Types).1 hU
    have hidxU := index_by_type_v_eq U Types hmemU hN
    have hdiff : Types.indexOf U ≠ Types.indexOf T := by
      intro e
      apply hne
      have h1 : Types[Types.indexOf U] = U := List.getElem_indexOf hidxU.2
      have h2 : Types[Types.indexOf T] = T := List.getElem_indexOf hidx.2
      rw [← h1, ← h2]
      simp only [e]
    simp [holds_alternative, Variant.holding, hidxU.1, hdiff]
  · have hh : holds_alternative Types (Variant.holding (Types.indexOf T) x) T = true := by
      simp [holds_alternative, Variant.holding, hidx.1]
    simp only [get_by_type, hh, hidx.1]
    exact get_holding Types _ x hidx.2

/-- C25 witness: the scenarios of the unit tests, a variant over three types constructed
from a value of the second type. -/
theorem C25_value_selects_its_alternative_witness :
    Variant.ctor_value [10, 20, 30] Alternatives.regular 20 (some 7)
      = Except.ok (Variant.holding 1 7) ∧
    VariantAlternative.assign_value [10, 20, 30] Alternatives.regular (Variant.holding 0 3) 20
      (some 7) = (Variant.holding 1 7, none) :=
  ⟨(C25_value_selects_its_alternative [10, 20, 30] Alternatives.regular (Variant.holding 0 3) 20
      7 (by decide) (by decide) rfl (fun _ => rfl)).1,
    (C25_value_selects_its_alternative [10, 20, 30] Alternatives.regular (Variant.holding 0 3) 20
      7 (by decide) (by decide) rfl (fun _ => rfl)).2.1⟩

/-- C26: over pairwise distinct types, for a source that holds alternative `I` with a
value `x` that the copy constructor and the copy assignment operator of that alternative
copy without exception: the variant copy-constructed from the source, and any variant
after copy assignment from the source, holds alternative `I` with value `x`, so `index()`
is `I` and `get<I>` reads `x`.  The source is a `const` reference that both only read. -/
theorem C26_copy_preserves_index_and_value (Types : List Ty) (A : Alternatives) (dst : Variant)
    (I : Nat) (x : Val) (hd : Types.Nodup) (hN : Types.length < SIZE_T_RANGE)
    (hI : I < Types.length) (hcopy : A.copy I (some x) = Except.ok (some x))
    (hassign : ∀ lhs, A.assign I lhs (some x) = (some x, none)) :
    Variant.ctor_copy Types A (Variant.holding I x) = Except.ok (Variant.holding I x) ∧
    Variant.assign Types A dst (Variant.holding I x) = (Variant.holding I x, none) ∧
    (Variant.holding I x).index = I ∧
    get Types (Variant.holding I x) I = Except.ok (some x) := by
  have hidx := index_by_type_v_getElem Types hd I hI hN
  have hnpos : I ≠ variant_npos := by
    unfold variant_npos
    omega
  have hget := get_holding Types I x hI
  have hcur : (Variant.holding I x).current_index_ = I := rfl
  refine ⟨?_, ?_, ?_, hget⟩
  · unfold Variant.ctor_copy
    rw [Variant.ctor_copy_at Types A _ I hd hN hI hcur]
    simp only [VariantAlternative.ctor_copy, hidx, hcur, ne_eq, not_true_eq_false, if_false,
      hget, hcopy, Variant.safe_put_ok Types _ I x hI]
  · rw [Variant.assign_at Types A dst _ I hd hN hI hcur]
    unfold VariantAlternative.assign
    simp only [hidx, hcur, ne_eq, not_true_eq_false, if_false, hget, hcopy]
    by_cases h : dst.current_index_ = I
    · rw [if_pos h]
      exact Variant.safe_assign_ok Types A dst I x h hassign
    · rw [if_neg h]
      exact Variant.safe_put_ok Types _ I x hI
  · simp [Variant.index, Variant.valueless_by_exception, Variant.holding, hnpos]

/-- C26 witness: the scenarios of the unit tests, a source over four types that holds the
last alternative; a copy of it, and a default-constructed variant after assignment. -/
theorem C26_copy_preserves_index_and_value_witness :
    Variant.ctor_copy [10, 20, 30, 40] Alternatives.regular (Variant.holding 3 1)
      = Except.ok (Variant.holding 3 1) ∧
    Variant.assign [10, 20, 30, 40] Alternatives.regular (Variant.holding 0 0)
      (Variant.holding 3 1) = (Variant.holding 3 1, none) :=
  ⟨(C26_copy_preserves_index_and_value [10, 20, 30, 40] Alternatives.regular
      (Variant.holding 0 0) 3 1 (by decide) (by decide) (by decide) rfl (fun _ => rfl)).1,
    (C26_copy_preserves_index_and_value [10, 20, 30, 40] Alternatives.regular
      (Variant.holding 0 0) 3 1 (by decide) (by decide) (by decide) rfl (fun _ => rfl)).2.1⟩

open details

/-! ## The claim C40 -/

/-- C40: when the source has `current_index_` equal to `variant_npos`, no base finds its
`kIndex` in it: the copy constructor leaves the default-initialised `VariantStorage`, so
the copy has `index()` 0 and `valueless_by_exception()` false, with nothing constructed
in its storage; and copy assignment leaves the destination as it was. -/
theorem C40_copy_of_valueless_source (Types : List Ty) (A : Alternatives) (src dst : Variant)
    (hN : Types.length < SIZE_T_RANGE) (hsrc : src.valueless_by_exception = true) :
    src.index = variant_npos ∧
    Variant.ctor_copy Types A src = Except.ok {} ∧
    Variant.index {} = 0 ∧ Variant.valueless_by_exception {} = false ∧
    Variant.index {} ≠ src.index ∧
    Variant.assign Types A dst src = (dst, none) := by
  have hcur : src.current_index_ = variant_npos := by
    simpa [Variant.valueless_by_exception] using hsrc
  have hne : ∀ T ∈ Types, index_by_type_v T Types ≠ variant_npos := by
    intro T hT
    have h := index_by_type_v_eq T Types hT hN
    rw [h.1]
    unfold variant_npos
    omega
  have hidx : src.index = variant_npos := by
    simp [Variant.index, hsrc]
  refine ⟨hidx, ?_, by decide, by decide, ?_, ?_⟩
  · unfold Variant.ctor_copy
    rw [Variant.each_base_skip _ Types {} (fun s T hT => by
      have h := hne T hT
      have h2 : ¬ variant_npos = index_by_type_v T Types := fun e => h e.symm
      simp [VariantAlternative.ctor_copy, hcur, h2])]
  · rw [hidx]
    decide
  · unfold Variant.assign
    exact Variant.each_base_skip _ Types dst (fun s T hT => by
      simp [VariantAlternative.assign, hcur, hne T hT])

/-- C40 witness: the variant of the unit test after `emplace` has thrown, then a copy of
it: the copy has `index()` 0. -/
theorem C40_copy_of_valueless_source_witness :
    ((Variant.holding 0 0).emplace_by_type [10, 20, 30, 40] 40 (Except.error 1)).1.index
      = variant_npos ∧
    Variant.ctor_copy [10, 20, 30, 40] Alternatives.regular
      ((Variant.holding 0 0).emplace_by_type [10, 20, 30, 40] 40 (Except.error 1)).1
      = Except.ok {} :=
  ⟨by decide,
    (C40_copy_of_valueless_source [10, 20, 30, 40] Alternatives.regular
      ((Variant.holding 0 0).emplace_by_type [10, 20, 30, 40] 40 (Except.error 1)).1
      (Variant.holding 3 1) (by decide) (by decide)).2.1⟩

end variant

/-! # Theorems about Any -/

namespace any

open details

theorem any_cast_of_rvalue_or_emplace (name v : Nat) (U : Ty) (a : Any) :
    Any.ctor_value (Arg.rvalue name v) none = Except.ok ⟨some ⟨⟨name, false⟩, v⟩⟩ ∧
    (a.emplace ⟨name, false⟩ (Except.ok v)).1 = ⟨some ⟨⟨name, false⟩, v⟩⟩ ∧
    Any.has_value ⟨some ⟨⟨name, false⟩, v⟩⟩ = true ∧
    Any.type ⟨some ⟨⟨name, false⟩, v⟩⟩ = Except.ok (typeid ⟨name, false⟩) ∧
    any_cast ⟨name, false⟩ ⟨some ⟨⟨name, false⟩, v⟩⟩ = Except.ok (Read.object v) ∧
    (typeid U ≠ name →
      any_cast U ⟨some ⟨⟨name, false⟩, v⟩⟩ = Except.error Exception.bad_any_cast) := by
  refine ⟨rfl, rfl, rfl, rfl, ?_, ?_⟩
  · simp [any_cast, AnyImpl.type]
  · intro h
    have h2 : ¬ name = typeid U := fun e => h e.symm
    simp only [any_cast, AnyImpl.type, typeid] at h2 ⊢
    rw [if_neg h2]

/-! ## The claims C27 and C28 -/

/-- C27: an `Any` constructed from an lvalue of type `name` (`int x = 5; Any a(x);`) has
`T` deduced as `name&`: it holds an `AnyImpl<name&>` whose `data_` is a reference to the
argument, `has_value()` is true and `type()` is `typeid(name)`, so `any_cast<name>(a)` passes
the type check and reads `data_` through a pointer to `AnyImpl<name>`: what it returns is
not the value of the argument. -/
theorem C27_any_cast_after_lvalue_construction (name addr v : Nat) (throws : Option Nat) :
    Any.ctor_value (Arg.lvalue name addr v) throws = Except.ok ⟨some ⟨⟨name, true⟩, addr⟩⟩ ∧
    Any.has_value ⟨some ⟨⟨name, true⟩, addr⟩⟩ = true ∧
    Any.type ⟨some ⟨⟨name, true⟩, addr⟩⟩ = Except.ok (typeid ⟨name, false⟩) ∧
    any_cast ⟨name, false⟩ ⟨some ⟨⟨name, true⟩, addr⟩⟩ = Except.ok Read.misread ∧
    any_cast ⟨name, false⟩ ⟨some ⟨⟨name, true⟩, addr⟩⟩ ≠ Except.ok (Read.object v) := by
  refine ⟨rfl, rfl, rfl, ?_, ?_⟩
  · simp [any_cast, AnyImpl.type, typeid]
  · simp [any_cast, AnyImpl.type, typeid]

/-- C28: for an `Any` `a` that holds an object, when the copy constructor of the held type
does not throw: the copy constructed from `a`, and any `b` after `b = a`, hold an `AnyImpl`
equal to that of `a`; after move construction or move assignment from `a` the destination
holds what `a` held, `has_value()` is true for it and false for `a`; `swap(a, b)` gives
each the `storage_` of the other. -/
theorem C28_copy_move_swap (a b : Any) (ha : a.has_value = true) :
    Any.ctor_copy a none = Except.ok a ∧
    Any.assign b a none = (a, none) ∧
    (Any.ctor_move a).1 = a ∧ (Any.ctor_move a).1.has_value = true ∧
    (Any.ctor_move a).2.has_value = false ∧
    (Any.move_assign b a).1 = a ∧ (Any.move_assign b a).1.has_value = true ∧
    (Any.move_assign b a).2.has_value = false ∧
    swap a b = (b, a) := by
  obtain ⟨s⟩ := a
  cases s with
  | none => simp [Any.has_value] at ha
  | some impl =>
    have hc : Any.ctor_copy ⟨some impl⟩ none = Except.ok ⟨some impl⟩ := by
      unfold Any.ctor_copy AnyImpl.clone
      by_cases h : impl.T.reference = true <;> simp [h]
    refine ⟨hc, ?_, rfl, rfl, rfl, rfl, rfl, rfl, rfl⟩
    simp [Any.assign, hc, Any.swap]

/-- C28 witness: the scenarios of the unit tests with `Any any(5)`. -/
theorem C28_copy_move_swap_witness :
    Any.ctor_value (Arg.rvalue 0 5) none = Except.ok ⟨some ⟨⟨0, false⟩, 5⟩⟩ ∧
    Any.ctor_copy ⟨some ⟨⟨0, false⟩, 5⟩⟩ none = Except.ok ⟨some ⟨⟨0, false⟩, 5⟩⟩ ∧
    (Any.move_assign Any.ctor_default ⟨some ⟨⟨0, false⟩, 5⟩⟩).2.has_value = false :=
  ⟨rfl,
    (C28_copy_move_swap ⟨some ⟨⟨0, false⟩, 5⟩⟩ Any.ctor_default (by decide)).1,
    (C28_copy_move_swap ⟨some ⟨⟨0, false⟩, 5⟩⟩ Any.ctor_default (by decide)).2.2.2.2.2.2.2.1⟩

end any

/-! # Theorems about Function -/

namespace function

/-! ## The claim C29 -/

/-- C29: for every callable `f` and argument `x`: the `Function` constructed from `f` holds
a copy of `f` and, called with `x`, returns `f(x)`; the copy constructor applied to it, and
the assignment of it to a default-constructed `Function` (`function = f` converts `f` with
the constructor first), give a `Function` with the same members, which therefore returns
`f(x)` too. -/
theorem C29_call_returns_result_of_callable {α β : Type} (f : Functor α β) (x : α) :
    Function.ctor_functor f = Except.ok (Function.holding f) ∧
    (Function.holding f).call x = Except.ok (f.call x) ∧
    (Function.holding f).toBool = true ∧
    Function.ctor_copy (Function.holding f) = Except.ok (Function.holding f) ∧
    Function.assign Function.ctor_default (Function.holding f)
      = Except.ok (Function.holding f) := by
  refine ⟨?_, ?_, rfl, ?_, ?_⟩
  · simp [Function.ctor_functor, Function.construct, Function.holding]
  · simp [Function.call, Function.holding]
  · simp [Function.ctor_copy, Function.construct, Function.holding]
  · simp [Function.assign, Function.ctor_default, Function.construct, Function.holding]

/-! ## The claim C39 -/

/-- C39: for a `Function` that holds a copy of `f`, `f = f` first destroys the stored object
and resets `storage_`, then finds `rhs.storage_`, which is the same member, null and copies
nothing: afterwards `storage_` is null, `operator bool` is false, and a call passes a null
pointer to `invoke_ptr` instead of returning `f(x)`. -/
theorem C39_self_assignment_empties_function {α β : Type} (f : Functor α β) (x : α) :
    (Function.holding f).toBool = true ∧
    (Function.holding f).call x = Except.ok (f.call x) ∧
    Function.assign_self (Function.holding f) = Except.ok (Function.hollow f) ∧
    (Function.hollow f).toBool = false ∧
    (Function.hollow f).call x = Except.error Undefined.null_object := by
  refine ⟨rfl, ?_, ?_, rfl, ?_⟩
  · simp [Function.call, Function.holding]
  · simp [Function.assign_self, Function.destroy, Function.holding, Function.hollow]
  · simp [Function.call, Function.hollow]

end function

/-! # Theorems about BigInteger -/

namespace big_integer

open details

theorem absCompare_loop_self (l : List Int) : ∀ i, absCompare_loop l l 0 i = 0 := by
  intro i
  induction i with
  | zero => rfl
  | succ n ih =>
    unfold absCompare_loop
    simp [ih]

theorem absCompare_self (l : List Int) : absCompare l l 0 = 0 := by
  unfold absCompare
  simp [absCompare_loop_self]

/-! ## The claim C30 -/

/-- C30: `BigInteger::less` compares `number_` with itself, so for two operands with the same
`sign_` it returns false whatever their digits: with `a = BigInteger(1)` and
`b = BigInteger(2)`, which denote 1 and 2, `a < b` is false, and so are `b > a`, `b < a` and
`a > b`, while `a >= b` and `a <= b` are both true. -/
theorem C30_less_is_false_for_equal_signs (s : Int) (n m : List Int) :
    BigInteger.less ⟨s, n⟩ ⟨s, m⟩ = false ∧
    (BigInteger.ctor_int 1).toInt = 1 ∧ (BigInteger.ctor_int 2).toInt = 2 ∧
    operator_lt (BigInteger.ctor_int 1) (BigInteger.ctor_int 2) = false ∧
    operator_gt (BigInteger.ctor_int 2) (BigInteger.ctor_int 1) = false ∧
    operator_lt (BigInteger.ctor_int 2) (BigInteger.ctor_int 1) = false ∧
    operator_ge (BigInteger.ctor_int 1) (BigInteger.ctor_int 2) = true ∧
    operator_le (BigInteger.ctor_int 1) (BigInteger.ctor_int 2) = true := by
  refine ⟨?_, by decide, by decide, by decide, by decide, by decide, by decide, by decide⟩
  unfold BigInteger.less
  simp [absCompare_self, wrap_int]

open details

/-! ## The claims C31 to C34 -/

/-- C31: `operator-=` chooses between its two subtractions with `tmp < *this` and
`*this < tmp`, which are both false for operands of equal sign: for 5 and 3 no digit is
subtracted and the result is 5; for -5 and -3 the result is 5 as well, the sign having
been set to 1 for the comparison; `--a` for `a` equal to 5 leaves 5. -/
theorem C31_subtraction_of_equal_signs_does_not_subtract :
    (BigInteger.ctor_int 5).toInt = 5 ∧ (BigInteger.ctor_int 3).toInt = 3 ∧
    operator_sub (BigInteger.ctor_int 5) (BigInteger.ctor_int 3) = some (BigInteger.ctor_int 5) ∧
    operator_sub (BigInteger.ctor_int (-5)) (BigInteger.ctor_int (-3))
      = some (BigInteger.ctor_int 5) ∧
    BigInteger.pre_decrement (BigInteger.ctor_int 5) = some (BigInteger.ctor_int 5) := by
  decide

/-- C32: for 100 times 100 the accumulator of `operator*=` has `max(3, 3) + 1 = 4` elements
and the loops reach `accumulator[2 + 2]`: index 4 of a vector of size 4. -/
theorem C32_multiplication_indexes_past_accumulator :
    (BigInteger.ctor_int 100).number_ = [0, 0, 1] ∧
    operator_mul (BigInteger.ctor_int 100) (BigInteger.ctor_int 100)
      = Except.error (Failure.out_of_bounds 4 4) := by
  constructor
  · decide
  · rfl

/-- C33: `operator%=` multiplies the sign of the remainder by the sign of the divisor: for
7 and -2 the quotient is -3 and the remainder is -1, so `b * (a / b) + a % b` is 5, not
7. -/
theorem C33_remainder_has_sign_of_divisor :
    operator_div (BigInteger.ctor_int 7) (BigInteger.ctor_int (-2))
      = Except.ok (BigInteger.ctor_int (-3)) ∧
    operator_mod (BigInteger.ctor_int 7) (BigInteger.ctor_int (-2))
      = Except.ok (BigInteger.ctor_int (-1)) ∧
    (BigInteger.ctor_int (-2)).toInt * (BigInteger.ctor_int (-3)).toInt
      + (BigInteger.ctor_int (-1)).toInt = 5 ∧
    (BigInteger.ctor_int 7).toInt = 7 := by
  refine ⟨rfl, rfl, by decide, by decide⟩

/-- C34: 9 and 1 are canonical, and `9 % 1` leaves `number_` equal to `[0]`: the ninth
subtraction of the last digit ends the loop of `devide` without `removeZeros`.  The result
denotes 0, its most significant digit is 0, `operator bool` is true for it and `==` with
`BigInteger(0)` is false. -/
theorem C34_remainder_zero_keeps_a_digit :
    (BigInteger.ctor_int 9).canonical = true ∧ (BigInteger.ctor_int 1).canonical = true ∧
    operator_mod (BigInteger.ctor_int 9) (BigInteger.ctor_int 1)
      = Except.ok { sign_ := 1, number_ := [0] } ∧
    BigInteger.canonical { sign_ := 1, number_ := [0] } = false ∧
    BigInteger.toInt { sign_ := 1, number_ := [0] } = 0 ∧
    BigInteger.toBool { sign_ := 1, number_ := [0] } = true ∧
    operator_eq { sign_ := 1, number_ := [0] } (BigInteger.ctor_int 0) = false := by
  refine ⟨by decide, by decide, rfl, by decide, by decide, by decide, by decide⟩

/-! ## Digits and their value -/

theorem details.wrap_int_of_range (x : Int) (h1 : -2147483648 ≤ x) (h2 : x < 2147483648) :
    wrap_int x = x := by
  unfold wrap_int
  omega

theorem digits_value_nil : digits_value [] = 0 := rfl

theorem digits_value_cons (d : Int) (rest : List Int) :
    digits_value (d :: rest) = d + 10 * digits_value rest := rfl

theorem digits_value_append (l : List Int) (x : Int) :
    digits_value (l ++ [x]) = digits_value l + 10 ^ l.length * x := by
  induction l with
  | nil => simp [digits_value]
  | cons d rest ih =>
    rw [List.cons_append, digits_value_cons, digits_value_cons, ih, List.length_cons, pow_succ]
    ring

theorem digits_value_replicate (l : List Int) (k : Nat) :
    digits_value (l ++ List.replicate k 0) = digits_value l := by
  induction l with
  | nil =>
    induction k with
    | zero => rfl
    | succ k ih =>
      simp only [List.nil_append] at ih
      simp [List.replicate_succ, digits_value, ih]
  | cons d rest ih => rw [List.cons_append, digits_value_cons, digits_value_cons, ih]

theorem digits_value_nonneg (l : List Int) (hl : ∀ d ∈ l, 0 ≤ d) : 0 ≤ digits_value l := by
  induction l with
  | nil => simp [digits_value]
  | cons d rest ih =>
    have h1 := hl d (List.mem_cons_self _ _)
    have h2 := ih (fun x hx => hl x (List.mem_cons_of_mem _ hx))
    simp only [digits_value]
    omega

/-- Digits without a zero in front denote a positive integer. -/
theorem digits_value_pos (l : List Int) (hl : ∀ d ∈ l, 0 ≤ d) (hne : l ≠ [])
    (hlast : l.getLast? ≠ some 0) : 0 < digits_value l := by
  induction l with
  | nil => exact absurd rfl hne
  | cons d rest ih =>
    have h1 := hl d (List.mem_cons_self _ _)
    have hr : ∀ x ∈ rest, 0 ≤ x := fun x hx => hl x (List.mem_cons_of_mem _ hx)
    simp only [digits_value]
    cases rest with
    | nil =>
      simp only [List.getLast?_singleton, ne_eq, Option.some.injEq] at hlast
      simp only [digits_value]
      omega
    | cons e rest2 =>
      have h2 := ih hr (by simp) (by simpa [List.getLast?_cons_cons] using hlast)
      omega

/-! ## `removeZeros` -/

theorem details.removeZeros_append (l : List Int) (x : Int) :
    removeZeros (l ++ [x]) = if x = 0 then removeZeros l else l ++ [x] := by
  unfold removeZeros
  rw [List.reverse_append, List.reverse_singleton, List.singleton_append, List.dropWhile_cons]
  by_cases hx : x = 0
  · simp [hx]
  · simp [hx]

theorem details.removeZeros_spec (l : List Int) :
    digits_value (removeZeros l) = digits_value l ∧ (∀ d ∈ removeZeros l, d ∈ l) ∧
      (removeZeros l).getLast? ≠ some 0 ∧ (removeZeros l).length ≤ l.length := by
  induction l using List.reverseRecOn with
  | nil => simp [removeZeros, digits_value]
  | append_singleton l x ih =>
    rw [removeZeros_append]
    by_cases hx : x = 0
    · simp only [hx, if_true]
      obtain ⟨h1, h2, h3, h4⟩ := ih
      refine ⟨?_, ?_, h3, ?_⟩
      · rw [h1, digits_value_append]
        simp
      · intro d hd
        exact List.mem_append_left _ (h2 d hd)
      · simp only [List.length_append, List.length_singleton]
        omega
    · rw [if_neg hx]
      refine ⟨rfl, fun d hd => hd, ?_, le_refl _⟩
      simp [hx]

theorem details.removeZeros_of_last (l : List Int) (hlast : l.getLast? ≠ some 0) :
    removeZeros l = l := by
  induction l using List.reverseRecOn with
  | nil => rfl
  | append_singleton l x _ =>
    rw [removeZeros_append]
    have hx : x ≠ 0 := by
      intro hx
      apply hlast
      simp [hx]
    simp [hx]

/-! ## `toBase10` -/

theorem details.carry_tail_spec (fuel : Nat) : ∀ (accumulator : Int), 0 ≤ accumulator →
    accumulator < 10 ^ fuel →
    digits_value (carry_tail fuel accumulator) = accumulator ∧
      ∀ d ∈ carry_tail fuel accumulator, 0 ≤ d ∧ d ≤ 9 := by
  induction fuel with
  | zero =>
    intro a h0 h1
    have : a = 0 := by
      simp only [pow_zero] at h1
      omega
    subst this
    simp [carry_tail, digits_value]
  | succ fuel ih =>
    intro a h0 h1
    unfold carry_tail
    by_cases ha : a = 0
    · subst ha
      simp [digits_value]
    · simp only [ha, if_false]
      rw [Int.tmod_eq_emod h0 (by decide), Int.tdiv_eq_ediv h0 (by decide)]
      have h2 : a / 10 < 10 ^ fuel := by
        rw [pow_succ] at h1
        omega
      obtain ⟨e1, e2⟩ := ih (a / 10) (by omega) h2
      constructor
      · simp only [digits_value_cons, digits_value_nil, e1]
        omega
      · intro d hd
        rcases List.mem_cons.1 hd with h | h
        · subst h
          omega
        · exact e2 d h

theorem details.carry_spec (l : List Int) : ∀ (accumulator : Int), 0 ≤ accumulator →
    accumulator ≤ 1000000 → (∀ d ∈ l, 0 ≤ d ∧ d ≤ 1000000) →
    digits_value (carry accumulator l) = accumulator + digits_value l ∧
      ∀ d ∈ carry accumulator l, 0 ≤ d ∧ d ≤ 9 := by
  induction l with
  | nil =>
    intro a h0 h1 _
    have h2 : a < 10 ^ 10 := by
      have : (1000000 : Int) < 10 ^ 10 := by decide
      omega
    obtain ⟨e1, e2⟩ := carry_tail_spec 10 a h0 h2
    exact ⟨by simp [carry, digits_value, e1], e2⟩
  | cons d rest ih =>
    intro a h0 h1 hl
    have hd := hl d (List.mem_cons_self _ _)
    have hw : wrap_int (a + d) = a + d := wrap_int_of_range _ (by omega) (by omega)
    unfold carry
    rw [hw, Int.tmod_eq_emod (by omega) (by decide), Int.tdiv_eq_ediv (by omega) (by decide)]
    obtain ⟨e1, e2⟩ := ih ((a + d) / 10) (by omega) (by omega)
      (fun x hx => hl x (List.mem_cons_of_mem _ hx))
    constructor
    · simp only [digits_value_cons, digits_value_nil, e1]
      omega
    · intro x hx
      rcases List.mem_cons.1 hx with h | h
      · subst h
        omega
      · exact e2 x h

/-! ## Addition of two numbers of the same sign -/

theorem details.add_columns_nil (rhs : List Int) : add_columns [] rhs = [] := rfl

theorem details.add_columns_cons_nil (x : Int) (xs : List Int) :
    add_columns (x :: xs) [] = x :: add_columns xs [] := by
  unfold add_columns
  simp only [List.length_cons, List.range_succ_eq_map, List.map_cons, List.map_map,
    List.length_nil, Nat.not_lt_zero, if_false, List.getD_cons_zero]
  congr 1

theorem details.add_columns_cons_cons (x y : Int) (xs ys : List Int) :
    add_columns (x :: xs) (y :: ys) = wrap_int (x + y) :: add_columns xs ys := by
  unfold add_columns
  simp only [List.length_cons, List.range_succ_eq_map, List.map_cons, List.map_map,
    Nat.zero_lt_succ, if_true, List.getD_cons_zero]
  congr 1
  apply List.map_congr_left
  intro i _
  simp only [Function.comp, List.getD_cons_succ, Nat.succ_eq_add_one, Nat.add_lt_add_iff_right]

theorem details.add_columns_spec (l1 : List Int) : ∀ (l2 : List Int),
    l2.length ≤ l1.length → (∀ d ∈ l1, 0 ≤ d ∧ d ≤ 9) → (∀ d ∈ l2, 0 ≤ d ∧ d ≤ 9) →
    digits_value (add_columns l1 l2) = digits_value l1 + digits_value l2 ∧
      ∀ d ∈ add_columns l1 l2, 0 ≤ d ∧ d ≤ 1000000 := by
  induction l1 with
  | nil =>
    intro l2 hlen _ _
    have : l2 = [] := List.length_eq_zero.1 (by simpa using hlen)
    subst this
    simp [add_columns_nil, digits_value]
  | cons x xs ih =>
    intro l2 hlen h1 h2
    have hx := h1 x (List.mem_cons_self _ _)
    have hxs : ∀ d ∈ xs, 0 ≤ d ∧ d ≤ 9 := fun d hd => h1 d (List.mem_cons_of_mem _ hd)
    cases l2 with
    | nil =>
      rw [add_columns_cons_nil]
      obtain ⟨e1, e2⟩ := ih [] (by simp) hxs (by simp)
      constructor
      · simp only [digits_value_cons, digits_value_nil, e1]
        omega
      · intro d hd
        rcases List.mem_cons.1 hd with h | h
        · subst h
          omega
        · exact e2 d h
    | cons y ys =>
      rw [add_columns_cons_cons]
      have hy := h2 y (List.mem_cons_self _ _)
      have hys : ∀ d ∈ ys, 0 ≤ d ∧ d ≤ 9 := fun d hd => h2 d (List.mem_cons_of_mem _ hd)
      obtain ⟨e1, e2⟩ := ih ys (by simpa using hlen) hxs hys
      have hw : wrap_int (x + y) = x + y := wrap_int_of_range _ (by omega) (by omega)
      rw [hw]
      constructor
      · simp only [digits_value_cons, digits_value_nil, e1]
        ring
      · intro d hd
        rcases List.mem_cons.1 hd with h | h
        · subst h
          omega
        · exact e2 d h

theorem details.resize_to_spec (l1 l2 : List Int) (h1 : ∀ d ∈ l1, 0 ≤ d ∧ d ≤ 9) :
    l2.length ≤ (resize_to l1 l2).length ∧ digits_value (resize_to l1 l2) = digits_value l1 ∧
      ∀ d ∈ resize_to l1 l2, 0 ≤ d ∧ d ≤ 9 := by
  unfold resize_to
  split
  · refine ⟨?_, digits_value_replicate _ _, ?_⟩
    · simp only [List.length_append, List.length_replicate]
      omega
    · intro d hd
      rcases List.mem_append.1 hd with h | h
      · exact h1 d h
      · have := (List.mem_replicate.1 h).2
        omega
  · exact ⟨by omega, rfl, h1⟩

theorem BigInteger.canonical_iff (a : BigInteger) :
    a.canonical = true ↔ (∀ d ∈ a.number_, 0 ≤ d ∧ d ≤ 9) ∧ a.number_.getLast? ≠ some 0 ∧
      (a.sign_ = 1 ∨ (a.sign_ = -1 ∧ a.number_ ≠ [])) := by
  unfold BigInteger.canonical
  simp only [Bool.and_eq_true, List.all_eq_true, decide_eq_true_eq, bne_iff_ne, ne_eq,
    Bool.or_eq_true, beq_iff_eq, Bool.not_eq_true', List.isEmpty_eq_false, and_assoc]

/-- The digits left by the branch `sign_ == tmp.sign_` of `operator+=`. -/
theorem BigInteger.add_digits_spec (a b : BigInteger) (ha : ∀ d ∈ a.number_, 0 ≤ d ∧ d ≤ 9)
    (hb : ∀ d ∈ b.number_, 0 ≤ d ∧ d ≤ 9) :
    (a.add_digits b).sign_ = a.sign_ ∧
    digits_value (a.add_digits b).number_ = digits_value a.number_ + digits_value b.number_ ∧
    (∀ d ∈ (a.add_digits b).number_, 0 ≤ d ∧ d ≤ 9) ∧
    (a.add_digits b).number_.getLast? ≠ some 0 := by
  obtain ⟨r1, r2, r3⟩ := resize_to_spec a.number_ b.number_ ha
  obtain ⟨c1, c2⟩ := add_columns_spec _ b.number_ r1 r3 hb
  obtain ⟨t1, t2⟩ := carry_spec _ 0 (le_refl _) (by decide) c2
  obtain ⟨z1, z2, z3, _⟩ :=
    removeZeros_spec (toBase10 (add_columns (resize_to a.number_ b.number_) b.number_))
  refine ⟨rfl, ?_, ?_, z3⟩
  · show digits_value (removeZeros _) = _
    rw [z1]
    unfold toBase10
    rw [t1, c1, r2]
    ring
  · intro d hd
    exact t2 d (z2 d hd)

/-! ## The claim C35 -/

/-- C35: for `BigInteger`s `a` and `b` with decimal digits and the same `sign_`, `a + b` and
`a += b` return the value `a.add_digits b`, which denotes the sum of the integers denoted
by `a` and `b`, has the common `sign_`, has digits from 0 to 9 and no zero as most
significant digit, and is in canonical form when `a` is; and for such an `a` with `sign_` 1,
`++a` gives a canonical value that denotes one more than `a`. -/
theorem C35_addition_of_equal_signs (a b : BigInteger) (ha : Valid a.number_)
    (hb : Valid b.number_) (hs : a.sign_ = b.sign_) :
    operator_add a b = some (a.add_digits b) ∧
    (∀ fuel, BigInteger.add_assign (fuel + 1) a b = some (a.add_digits b)) ∧
    (a.add_digits b).toInt = a.toInt + b.toInt ∧
    (a.add_digits b).sign_ = a.sign_ ∧
    Valid (a.add_digits b).number_ ∧
    (a.add_digits b).number_.getLast? ≠ some 0 ∧
    (a.canonical = true → (a.add_digits b).canonical = true) ∧
    (a.sign_ = 1 →
      BigInteger.pre_increment a = some (a.add_digits (BigInteger.ctor_int 1)) ∧
      (a.add_digits (BigInteger.ctor_int 1)).toInt = a.toInt + 1 ∧
      (a.add_digits (BigInteger.ctor_int 1)).canonical = true) := by
  obtain ⟨e1, e2, e3, e4⟩ := BigInteger.add_digits_spec a b ha hb
  have hadd : ∀ fuel, BigInteger.add_assign (fuel + 1) a b = some (a.add_digits b) := by
    intro fuel
    simp only [BigInteger.add_assign, hs, if_true]
  refine ⟨hadd 2, hadd, ?_, e1, e3, e4, ?_, ?_⟩
  · unfold BigInteger.toInt
    rw [e1, e2, ← hs]
    ring
  · intro hc
    rw [BigInteger.canonical_iff] at hc ⊢
    obtain ⟨a1, a2, a3⟩ := hc
    refine ⟨e3, e4, ?_⟩
    rw [e1]
    rcases a3 with h | ⟨h, hne⟩
    · exact Or.inl h
    · refine Or.inr ⟨h, ?_⟩
      intro hnil
      have hpos := digits_value_pos a.number_ (fun d hd => (a1 d hd).1) hne a2
      have hnn := digits_value_nonneg b.number_ (fun d hd => (hb d hd).1)
      rw [hnil] at e2
      simp only [digits_value] at e2
      omega
  · intro h1
    have hone : BigInteger.ctor_int 1 = ⟨1, [1]⟩ := by decide
    have hv1 : Valid (BigInteger.ctor_int 1).number_ := by
      rw [hone]
      intro d hd
      rw [List.mem_singleton.1 hd]
      omega
    obtain ⟨f1, f2, f3, f4⟩ := BigInteger.add_digits_spec a (BigInteger.ctor_int 1) ha hv1
    refine ⟨?_, ?_, ?_⟩
    · unfold BigInteger.pre_increment
      simp only [BigInteger.add_assign, hone, h1, if_true]
    · unfold BigInteger.toInt
      rw [f1, f2, hone, h1]
      simp only [digits_value_cons, digits_value_nil]
      ring
    · rw [BigInteger.canonical_iff]
      exact ⟨f3, f4, Or.inl (f1.trans h1)⟩

/-- C35 witness: 95 + 7, with a carry into a new digit. -/
theorem C35_addition_of_equal_signs_witness :
    Valid (BigInteger.ctor_int 95).number_ ∧ Valid (BigInteger.ctor_int 7).number_ ∧
    operator_add (BigInteger.ctor_int 95) (BigInteger.ctor_int 7)
      = some (BigInteger.ctor_int 102) ∧
    operator_add (BigInteger.ctor_int 95) (BigInteger.ctor_int 7)
      = some ((BigInteger.ctor_int 95).add_digits (BigInteger.ctor_int 7)) ∧
    ((BigInteger.ctor_int 95).add_digits (BigInteger.ctor_int 7)).toInt
      = (BigInteger.ctor_int 95).toInt + (BigInteger.ctor_int 7).toInt :=
  ⟨by decide, by decide, by decide,
    (C35_addition_of_equal_signs (BigInteger.ctor_int 95) (BigInteger.ctor_int 7)
      (by decide) (by decide) (by decide)).1,
    (C35_addition_of_equal_signs (BigInteger.ctor_int 95) (BigInteger.ctor_int 7)
      (by decide) (by decide) (by decide)).2.2.1⟩

/-! ## Conversion from and to strings -/

theorem details.digit_char_of_digit (c : Char) (hc : is_digit c = true) :
    digit_char ((c.toNat : Int) - 48) = c := by
  unfold is_digit at hc
  simp only [decide_eq_true_eq] at hc
  unfold digit_char
  have h : (((c.toNat : Int) - 48 + 48) % 256).toNat = c.toNat := by omega
  rw [h, Char.ofNat_toNat]

theorem details.digit_char_spec (d : Int) (h0 : 0 ≤ d) (h9 : d ≤ 9) :
    ((digit_char d).toNat : Int) - 48 = d ∧ is_digit (digit_char d) = true ∧
      digit_char d ≠ '-' ∧ (d ≠ 0 → digit_char d ≠ '0') := by
  have h : d = 0 ∨ d = 1 ∨ d = 2 ∨ d = 3 ∨ d = 4 ∨ d = 5 ∨ d = 6 ∨ d = 7 ∨ d = 8 ∨ d = 9 := by
    omega
  rcases h with h | h | h | h | h | h | h | h | h | h <;> subst h <;> decide

theorem is_digit_spec (c : Char) (hc : is_digit c = true) :
    0 ≤ (c.toNat : Int) - 48 ∧ (c.toNat : Int) - 48 ≤ 9 ∧ c ≠ '-' ∧
      (c ≠ '0' → (c.toNat : Int) - 48 ≠ 0) := by
  unfold is_digit at hc
  simp only [decide_eq_true_eq] at hc
  refine ⟨by omega, by omega, ?_, ?_⟩
  · intro h
    subst h
    revert hc
    decide
  · intro hne h0
    apply hne
    have h48 : c.toNat = 48 := by omega
    have h := Char.ofNat_toNat c
    rw [h48] at h
    exact h.symm

/-- The digits read from a string of digits without a leading zero. -/
theorem unsigned_digits (t : List Char) (ht : unsigned_decimal t = true) :
    removeZeros (t.reverse.map fun item => (item.toNat : Int) - 48)
      = (t.reverse.map fun item => (item.toNat : Int) - 48) ∧
    (t.reverse.map fun item => (item.toNat : Int) - 48) ≠ [] ∧
    (t.reverse.map fun item => (item.toNat : Int) - 48).map digit_char = t.reverse ∧
    t.head? ≠ some '-' ∧ t ≠ [] := by
  unfold unsigned_decimal at ht
  simp only [Bool.and_eq_true, List.all_eq_true, bne_iff_ne, ne_eq, Bool.not_eq_true',
    List.isEmpty_eq_false] at ht
  obtain ⟨⟨hall, hhead⟩, hne⟩ := ht
  cases t with
  | nil => exact absurd rfl hne
  | cons c cs =>
    have hc := hall c (List.mem_cons_self _ _)
    have hc0 : c ≠ '0' := by
      intro h
      apply hhead
      rw [h]
      rfl
    obtain ⟨_, _, hminus, hz⟩ := is_digit_spec c hc
    refine ⟨?_, ?_, ?_, ?_, hne⟩
    · apply removeZeros_of_last
      simp only [List.reverse_cons, List.map_append, List.map_cons, List.map_nil]
      rw [List.getLast?_append]
      show ¬ (some ((c.toNat : Int) - 48) = some 0)
      simp only [Option.some.injEq]
      exact hz hc0
    · simp
    · rw [List.map_map]
      have h : ∀ x ∈ (c :: cs).reverse,
          (digit_char ∘ fun item : Char => (item.toNat : Int) - 48) x = id x := by
        intro x hx
        exact digit_char_of_digit x (hall x (List.mem_reverse.1 hx))
      rw [List.map_congr_left h, List.map_id]
    · simp only [List.head?_cons, ne_eq, Option.some.injEq]
      exact hminus

theorem BigInteger.ctor_string_unsigned (t : List Char) (ht : unsigned_decimal t = true) :
    BigInteger.ctor_string t
      = Except.ok ⟨1, t.reverse.map fun item => (item.toNat : Int) - 48⟩ := by
  obtain ⟨h1, h2, _, h4, h5⟩ := unsigned_digits t ht
  cases t with
  | nil => exact absurd rfl h5
  | cons c cs =>
    have hc : c ≠ '-' := by
      intro h
      apply h4
      rw [h]
      rfl
    unfold BigInteger.ctor_string
    simp only [List.getLast?_reverse, List.head?_cons, hc, if_false, h1]
    have h3 : (List.map (fun item : Char => (item.toNat : Int) - 48) (c :: cs).reverse).isEmpty
        = false := by
      rw [List.isEmpty_eq_false]
      exact h2
    simp only [h3, Bool.false_eq_true, if_false]

theorem BigInteger.ctor_string_signed (t : List Char) (ht : unsigned_decimal t = true) :
    BigInteger.ctor_string ('-' :: t)
      = Except.ok ⟨-1, t.reverse.map fun item => (item.toNat : Int) - 48⟩ := by
  obtain ⟨h1, h2, _, _, _⟩ := unsigned_digits t ht
  unfold BigInteger.ctor_string
  simp only [List.getLast?_reverse, List.head?_cons, if_true, List.reverse_cons,
    List.dropLast_concat, h1]
  have h3 : (List.map (fun item : Char => (item.toNat : Int) - 48) t.reverse).isEmpty
      = false := by
    rw [List.isEmpty_eq_false]
    exact h2
  have hl : (t.reverse ++ ['-']).getLast? = some '-' := by simp
  simp only [hl, if_true, h1, h3, Bool.false_eq_true, if_false]

theorem BigInteger.toString_digits (sign : Int) (number : List Int) :
    BigInteger.toString ⟨sign, number⟩ =
      if number = [] then ['0']
      else if sign < 0 then '-' :: (number.map digit_char).reverse
      else (number.map digit_char).reverse := by
  unfold BigInteger.toString
  cases number with
  | nil => simp
  | cons d rest =>
    simp only [List.isEmpty_cons, Bool.false_eq_true, if_false, reduceCtorEq]
    split
    · simp
    · rfl

theorem string_round_trip_unsigned (t : List Char) (ht : unsigned_decimal t = true) :
    string_round_trip t = Except.ok t ∧ string_round_trip ('-' :: t) = Except.ok ('-' :: t) := by
  obtain ⟨_, h2, h3, _, _⟩ := unsigned_digits t ht
  unfold string_round_trip
  rw [BigInteger.ctor_string_unsigned t ht, BigInteger.ctor_string_signed t ht]
  simp only [BigInteger.toString_digits, h2, if_false, h3, List.reverse_reverse]
  constructor
  · rfl
  · rfl

/-! ## The digits of an `int` -/

theorem details.push_digits_spec (fuel : Nat) : ∀ (m : Int) (acc : List Int), 0 ≤ m →
    m < 10 ^ fuel →
    ∃ D, push_digits fuel m acc = acc ++ D ∧ (∀ d ∈ D, 0 ≤ d ∧ d ≤ 9) ∧
      digits_value D = m ∧ D.getLast? ≠ some 0 := by
  induction fuel with
  | zero =>
    intro m acc h0 h1
    have : m = 0 := by
      simp only [pow_zero] at h1
      omega
    subst this
    exact ⟨[], by simp [push_digits], by simp, rfl, by simp⟩
  | succ fuel ih =>
    intro m acc h0 h1
    unfold push_digits
    by_cases hm : m = 0
    · subst hm
      exact ⟨[], by simp, by simp, rfl, by simp⟩
    · simp only [hm, if_false]
      rw [Int.tmod_eq_emod h0 (by decide), Int.tdiv_eq_ediv h0 (by decide)]
      have h2 : m / 10 < 10 ^ fuel := by
        rw [pow_succ] at h1
        omega
      obtain ⟨D, e1, e2, e3, e4⟩ := ih (m / 10) (acc ++ [m % 10]) (by omega) h2
      refine ⟨m % 10 :: D, ?_, ?_, ?_, ?_⟩
      · rw [e1]
        simp
      · intro d hd
        rcases List.mem_cons.1 hd with h | h
        · subst h
          omega
        · exact e2 d h
      · rw [digits_value_cons, e3]
        omega
      · cases D with
        | nil =>
          simp only [digits_value_nil] at e3
          simp only [List.getLast?_singleton, ne_eq, Option.some.injEq]
          omega
        | cons x xs =>
          rw [List.getLast?_cons_cons]
          exact e4

/-- The members left by the constructor from an `int` other than `INT_MIN`. -/
theorem BigInteger.ctor_int_spec (n : Int) (h1 : -2147483648 < n) (h2 : n < 2147483648) :
    ∃ D, BigInteger.ctor_int n = ⟨if D = [] then 1 else if n < 0 then -1 else 1, D⟩ ∧
      (∀ d ∈ D, 0 ≤ d ∧ d ≤ 9) ∧ digits_value D = |n| ∧ D.getLast? ≠ some 0 := by
  have hm : (if n < 0 then wrap_int (n * -1) else n) = |n| := by
    split
    · rw [wrap_int_of_range _ (by omega) (by omega)]
      rw [abs_of_neg (by assumption)]
      ring
    · rw [abs_of_nonneg (by omega)]
  have hlt : |n| < 10 ^ 10 := by
    have : (2147483648 : Int) < 10 ^ 10 := by decide
    rcases abs_cases n with ⟨h, _⟩ | ⟨h, _⟩ <;> omega
  obtain ⟨D, e1, e2, e3, e4⟩ := push_digits_spec 10 |n| [] (abs_nonneg n) hlt
  refine ⟨D, ?_, e2, e3, e4⟩
  unfold BigInteger.ctor_int
  simp only [hm, e1, List.nil_append, removeZeros_of_last D e4, List.isEmpty_iff]

theorem decimal_digits_value_spec (D : List Int) (hD : ∀ d ∈ D, 0 ≤ d ∧ d ≤ 9) :
    decimal_digits_value (D.map digit_char).reverse = digits_value D ∧
      ∀ c ∈ (D.map digit_char).reverse, is_digit c = true := by
  induction D with
  | nil => exact ⟨rfl, by simp⟩
  | cons d rest ih =>
    obtain ⟨e1, e2⟩ := ih (fun x hx => hD x (List.mem_cons_of_mem _ hx))
    have hd := hD d (List.mem_cons_self _ _)
    obtain ⟨c1, c2, _, _⟩ := digit_char_spec d hd.1 hd.2
    constructor
    · unfold decimal_digits_value at e1 ⊢
      rw [List.map_cons, List.reverse_cons, List.foldl_append, e1]
      simp only [List.foldl_cons, List.foldl_nil, digits_value_cons]
      omega
    · intro c hc
      rw [List.map_cons, List.reverse_cons, List.mem_append, List.mem_singleton] at hc
      rcases hc with h | h
      · exact e2 c h
      · rw [h]
        exact c2

/-- The string written for digits without a zero in front. -/
theorem unsigned_of_digits (D : List Int) (hD : ∀ d ∈ D, 0 ≤ d ∧ d ≤ 9) (hne : D ≠ [])
    (hlast : D.getLast? ≠ some 0) :
    unsigned_decimal (D.map digit_char).reverse = true ∧
      (D.map digit_char).reverse.head? ≠ some '-' := by
  obtain ⟨_, e2⟩ := decimal_digits_value_spec D hD
  obtain ⟨x, hx⟩ : ∃ x, D.getLast? = some x := by
    cases h : D.getLast? with
    | none => exact absurd (List.getLast?_eq_none_iff.1 h) hne
    | some x => exact ⟨x, rfl⟩
  have hxm : x ∈ D := List.mem_of_getLast?_eq_some hx
  have hx0 : x ≠ 0 := by
    intro h
    apply hlast
    rw [hx, h]
  obtain ⟨_, _, c3, c4⟩ := digit_char_spec x (hD x hxm).1 (hD x hxm).2
  have hhead : (D.map digit_char).reverse.head? = some (digit_char x) := by
    rw [List.head?_reverse, List.getLast?_map, hx]
    rfl
  constructor
  · unfold unsigned_decimal
    simp only [Bool.and_eq_true, List.all_eq_true, bne_iff_ne, ne_eq, Bool.not_eq_true',
      List.isEmpty_eq_false]
    refine ⟨⟨e2, ?_⟩, ?_⟩
    · rw [hhead]
      simp only [Option.some.injEq]
      exact c4 hx0
    · simp [hne]
  · rw [hhead]
    simp only [ne_eq, Option.some.injEq]
    exact c3

/-! ## The claim C36 -/

/-- C36: for a canonical decimal string `s` (`0`, or an optional `-` followed by digits
with no leading zero), `BigInteger(s).toString()` throws nothing and returns `s`; and for
an `int` `n` other than `INT_MIN`, `BigInteger(n).toString()` is a canonical decimal string
that writes `n`. -/
theorem C36_string_round_trip (s : List Char) (n : Int) (hs : canonical_decimal s = true)
    (h1 : -2147483648 < n) (h2 : n < 2147483648) :
    string_round_trip s = Except.ok s ∧
    canonical_decimal (BigInteger.ctor_int n).toString = true ∧
    decimal_value (BigInteger.ctor_int n).toString = n := by
  constructor
  · unfold canonical_decimal at hs
    simp only [Bool.or_eq_true, beq_iff_eq, Bool.and_eq_true] at hs
    rcases hs with (h | h) | ⟨hh, ht⟩
    · subst h
      rfl
    · exact (string_round_trip_unsigned s h).1
    · cases s with
      | nil => simp at hh
      | cons c t =>
        simp only [List.head?_cons, Option.some.injEq] at hh
        subst hh
        exact (string_round_trip_unsigned t ht).2
  · obtain ⟨D, e1, e2, e3, e4⟩ := BigInteger.ctor_int_spec n h1 h2
    rw [e1, BigInteger.toString_digits]
    by_cases hD : D = []
    · subst hD
      simp only [digits_value_nil] at e3
      have hn : n = 0 := abs_eq_zero.1 e3.symm
      subst hn
      simp only [if_true]
      decide
    · simp only [hD, if_false]
      obtain ⟨u1, u2⟩ := unsigned_of_digits D e2 hD e4
      obtain ⟨v1, _⟩ := decimal_digits_value_spec D e2
      by_cases hn : n < 0
      · have hsign : ((if n < 0 then -1 else 1 : Int) < 0) := by
          simp only [hn, if_true]
          decide
        simp only [hsign, if_true]
        constructor
        · unfold canonical_decimal
          simp only [List.head?_cons, List.tail_cons, u1, beq_self_eq_true, Bool.and_self,
            Bool.or_true]
        · unfold decimal_value
          simp only [List.head?_cons, if_true, List.tail_cons, v1, e3]
          rw [abs_of_neg hn]
          ring
      · have hsign : ¬ ((if n < 0 then -1 else 1 : Int) < 0) := by
          simp only [hn, if_false]
          decide
        simp only [hsign, if_false]
        constructor
        · unfold canonical_decimal
          simp only [u1, Bool.or_true, Bool.true_or]
        · unfold decimal_value
          simp only [u2, if_false, v1, e3]
          exact abs_of_nonneg (by omega)

/-- C36 witness: the string `-1203` and the `int` -1203. -/
theorem C36_string_round_trip_witness :
    canonical_decimal ['-', '1', '2', '0', '3'] = true ∧
    string_round_trip ['-', '1', '2', '0', '3'] = Except.ok ['-', '1', '2', '0', '3'] ∧
    decimal_value (BigInteger.ctor_int (-1203)).toString = -1203 :=
  ⟨by decide,
    (C36_string_round_trip ['-', '1', '2', '0', '3'] (-1203) (by decide) (by decide)
      (by decide)).1,
    (C36_string_round_trip ['-', '1', '2', '0', '3'] (-1203) (by decide) (by decide)
      (by decide)).2.2⟩

/-! ## Windows of digits -/

theorem digits_window_zero (f : Nat → Int) : digits_window f 0 = 0 := rfl

theorem digits_window_succ (f : Nat → Int) (n : Nat) :
    digits_window f (n + 1) = digits_window f n + f n * 10 ^ n := rfl

theorem digits_window_shift (f : Nat → Int) (n : Nat) :
    digits_window f (n + 1) = f 0 + 10 * digits_window (fun j => f (j + 1)) n := by
  induction n with
  | zero => simp [digits_window]
  | succ n ih =>
    rw [digits_window_succ, ih, digits_window_succ, pow_succ]
    ring

theorem digits_window_congr (f g : Nat → Int) (n : Nat) (h : ∀ j, j < n → f j = g j) :
    digits_window f n = digits_window g n := by
  induction n with
  | zero => rfl
  | succ n ih =>
    rw [digits_window_succ, digits_window_succ, ih (fun j hj => h j (by omega)), h n (by omega)]

theorem digits_window_bound (f : Nat → Int) (n : Nat) (h : ∀ j, j < n → 0 ≤ f j ∧ f j ≤ 9) :
    0 ≤ digits_window f n ∧ digits_window f n < 10 ^ n := by
  induction n with
  | zero => simp [digits_window]
  | succ n ih =>
    obtain ⟨h1, h2⟩ := ih (fun j hj => h j (by omega))
    obtain ⟨h3, h4⟩ := h n (by omega)
    have hp : (0 : Int) < 10 ^ n := by positivity
    rw [digits_window_succ, pow_succ]
    constructor
    · have := mul_nonneg h3 hp.le
      omega
    · have : f n * 10 ^ n ≤ 9 * 10 ^ n := mul_le_mul_of_nonneg_right h4 hp.le
      omega

theorem digits_window_add (f : Nat → Int) (a b : Nat) :
    digits_window f (a + b)
      = digits_window f a + 10 ^ a * digits_window (fun j => f (j + a)) b := by
  induction b with
  | zero => simp [digits_window]
  | succ b ih =>
    rw [← Nat.add_assoc, digits_window_succ, ih, digits_window_succ, pow_add]
    rw [show b + a = a + b from Nat.add_comm b a]
    ring

theorem digits_window_zeros (f : Nat → Int) (n : Nat) (h : ∀ j, j < n → f j = 0) :
    digits_window f n = 0 := by
  induction n with
  | zero => rfl
  | succ n ih =>
    rw [digits_window_succ, ih (fun j hj => h j (by omega)), h n (by omega)]
    simp

theorem getD_cons_succ_fun (d : Int) (rest : List Int) :
    (fun j => (d :: rest).getD (j + 1) 0) = fun j => rest.getD j 0 := by
  funext j
  simp

theorem digits_value_eq_window (l : List Int) :
    digits_value l = digits_window (fun j => l.getD j 0) l.length := by
  induction l with
  | nil => rfl
  | cons d rest ih =>
    rw [List.length_cons, digits_window_shift, getD_cons_succ_fun, ← ih, digits_value_cons]
    simp

/-- A window that reaches past the end of the list has the value of the list. -/
theorem digits_window_of_le (l : List Int) (n : Nat) (h : l.length ≤ n) :
    digits_window (fun j => l.getD j 0) n = digits_value l := by
  obtain ⟨k, rfl⟩ : ∃ k, n = l.length + k := ⟨n - l.length, by omega⟩
  rw [digits_window_add, ← digits_value_eq_window, digits_window_zeros]
  · simp
  · intro j _
    show l.getD (j + l.length) 0 = 0
    rw [List.getD_eq_default]
    omega

theorem Valid.getD {l : List Int} (h : Valid l) (j : Nat) :
    0 ≤ l.getD j 0 ∧ l.getD j 0 ≤ 9 := by
  by_cases hj : j < l.length
  · rw [List.getD_eq_getElem _ _ hj]
    exact h _ (List.getElem_mem _)
  · rw [List.getD_eq_default _ _ (by omega)]
    omega

theorem Valid.of_getD (l : List Int) (h : ∀ j, j < l.length → 0 ≤ l.getD j 0 ∧ l.getD j 0 ≤ 9) :
    Valid l := by
  intro d hd
  obtain ⟨j, hj, rfl⟩ := List.getElem_of_mem hd
  have := h j hj
  rw [List.getD_eq_getElem _ _ hj] at this
  exact this

theorem Valid.value_bound {l : List Int} (h : Valid l) :
    0 ≤ digits_value l ∧ digits_value l < 10 ^ l.length := by
  rw [digits_value_eq_window]
  exact digits_window_bound _ _ (fun j _ => h.getD j)

theorem Valid.valid_removeZeros {l : List Int} (h : Valid l) : Valid (removeZeros l) :=
  fun d hd => h d ((removeZeros_spec l).2.1 d hd)

/-- The value with the most significant digit split off. -/
theorem digits_value_top (l : List Int) (hne : l ≠ []) :
    digits_value l = digits_window (fun j => l.getD j 0) (l.length - 1)
      + l.getD (l.length - 1) 0 * 10 ^ (l.length - 1) := by
  obtain ⟨n, hn⟩ : ∃ n, l.length = n + 1 :=
    ⟨l.length - 1, by have := List.length_pos.2 hne; omega⟩
  rw [digits_value_eq_window, hn, digits_window_succ]
  simp

theorem getLast?_eq_getD (l : List Int) (hne : l ≠ []) :
    l.getLast? = some (l.getD (l.length - 1) 0) := by
  have hpos := List.length_pos.2 hne
  rw [List.getLast?_eq_getElem?, List.getD_eq_getElem _ _ (by omega),
    List.getElem?_eq_getElem (by omega)]

theorem Tight.of_last {l : List Int} (h : Valid l) (hlast : l.getLast? ≠ some 0) : Tight l := by
  by_cases hne : l = []
  · exact Or.inl hne
  · right
    rw [getLast?_eq_getD l hne] at hlast
    have hd := h.getD (l.length - 1)
    have hd1 : 1 ≤ l.getD (l.length - 1) 0 := by
      have : l.getD (l.length - 1) 0 ≠ 0 := fun h0 => hlast (by rw [h0])
      omega
    have hw := digits_window_bound (fun j => l.getD j 0) (l.length - 1) (fun j _ => h.getD j)
    have hp : (0 : Int) < 10 ^ (l.length - 1) := by positivity
    rw [digits_value_top l hne]
    have := mul_le_mul_of_nonneg_right hd1 hp.le
    omega

theorem Tight.last {l : List Int} (h : Valid l) (ht : Tight l) : l.getLast? ≠ some 0 := by
  rcases ht with hnil | hv
  · rw [hnil]
    simp
  · by_cases hne : l = []
    · rw [hne]
      simp
    · rw [getLast?_eq_getD l hne]
      intro h0
      have h0 : l.getD (l.length - 1) 0 = 0 := (Option.some.inj h0)
      have hw := digits_window_bound (fun j => l.getD j 0) (l.length - 1)
        (fun j _ => h.getD j)
      rw [digits_value_top l hne, h0] at hv
      omega

theorem Tight.tight_removeZeros {l : List Int} (h : Valid l) : Tight (removeZeros l) :=
  Tight.of_last h.valid_removeZeros (removeZeros_spec l).2.2.1

theorem Tight.pos {l : List Int} (ht : Tight l) (hne : l ≠ []) : 1 ≤ digits_value l := by
  rcases ht with h | h
  · exact absurd h hne
  · have hp : (1 : Int) ≤ 10 ^ (l.length - 1) := one_le_pow₀ (by norm_num)
    omega

theorem Tight.eq_nil {l : List Int} (ht : Tight l) (hz : digits_value l = 0) : l = [] := by
  by_contra hne
  have := ht.pos hne
  omega

/-! ## Reading and writing one digit -/

theorem getD_set (l : List Int) (k j : Nat) (v : Int) :
    (l.set k v).getD j 0 = if j = k ∧ k < l.length then v else l.getD j 0 := by
  simp only [List.getD_eq_getElem?_getD, List.getElem?_set]
  by_cases hjk : k = j
  · subst hjk
    by_cases hk : k < l.length
    · simp [hk]
    · simp [hk]
      rw [List.getElem?_eq_none (by omega)]
      rfl
  · have : ¬ (j = k) := fun h => hjk h.symm
    simp [hjk, this]

theorem digits_value_set (l : List Int) (k : Nat) (v : Int) (hk : k < l.length) :
    digits_value (l.set k v) = digits_value l + (v - l.getD k 0) * 10 ^ k := by
  induction l generalizing k with
  | nil => simp at hk
  | cons d rest ih =>
    cases k with
    | zero =>
      simp only [List.set_cons_zero, digits_value_cons, List.getD_cons_zero, pow_zero]
      ring
    | succ k =>
      simp only [List.set_cons_succ, digits_value_cons, List.getD_cons_succ]
      rw [ih k (by simpa using hk), pow_succ]
      ring

/-! ## `absCompare` -/

theorem details.absCompare_loop_spec (lhs rhs : List Int) (pos : Nat) (hl : Valid lhs)
    (hr : Valid rhs) (n : Nat) :
    (absCompare_loop lhs rhs pos n = -1 ∧
      digits_window (fun j => lhs.getD (j + pos) 0) n
        < digits_window (fun j => rhs.getD j 0) n) ∨
    (absCompare_loop lhs rhs pos n = 1 ∧
      digits_window (fun j => rhs.getD j 0) n
        < digits_window (fun j => lhs.getD (j + pos) 0) n) ∨
    (absCompare_loop lhs rhs pos n = 0 ∧
      digits_window (fun j => lhs.getD (j + pos) 0) n
        = digits_window (fun j => rhs.getD j 0) n) := by
  induction n with
  | zero => exact Or.inr (Or.inr ⟨rfl, rfl⟩)
  | succ n ih =>
    have hA := digits_window_bound (fun j => lhs.getD (j + pos) 0) n (fun j _ => hl.getD _)
    have hB := digits_window_bound (fun j => rhs.getD j 0) n (fun j _ => hr.getD _)
    have hp : (0 : Int) < 10 ^ n := by positivity
    unfold absCompare_loop
    rw [digits_window_succ, digits_window_succ]
    by_cases h1 : lhs.getD (n + pos) 0 < rhs.getD n 0
    · left
      simp only [h1, if_true, true_and]
      have : (lhs.getD (n + pos) 0 + 1) * 10 ^ n ≤ rhs.getD n 0 * 10 ^ n :=
        mul_le_mul_of_nonneg_right (by omega) hp.le
      linarith
    · by_cases h2 : lhs.getD (n + pos) 0 > rhs.getD n 0
      · right
        left
        simp only [h1, if_false, h2, if_true, true_and]
        have : (rhs.getD n 0 + 1) * 10 ^ n ≤ lhs.getD (n + pos) 0 * 10 ^ n :=
          mul_le_mul_of_nonneg_right (by omega) hp.le
        linarith
      · have heq : lhs.getD (n + pos) 0 = rhs.getD n 0 := by omega
        simp only [h1, if_false, h2]
        rw [heq]
        rcases ih with ⟨e, h⟩ | ⟨e, h⟩ | ⟨e, h⟩
        · exact Or.inl ⟨e, by linarith⟩
        · exact Or.inr (Or.inl ⟨e, by linarith⟩)
        · exact Or.inr (Or.inr ⟨e, by linarith⟩)

/-- The value of a list whose length is `rhs.length + i`, split at digit `i`. -/
theorem digits_value_split (lhs : List Int) (m i : Nat) (hlen : lhs.length = m + i) :
    digits_value lhs = digits_window (fun j => lhs.getD j 0) i
      + 10 ^ i * digits_window (fun j => lhs.getD (j + i) 0) m := by
  rw [digits_value_eq_window, hlen, Nat.add_comm m i, digits_window_add]

theorem Tight.lower {l : List Int} (ht : Tight l) (n : Nat) (hn : n + 1 ≤ l.length) :
    (10 : Int) ^ n ≤ digits_value l := by
  rcases ht with h | h
  · rw [h] at hn
    simp at hn
  · have : (10 : Int) ^ n ≤ 10 ^ (l.length - 1) :=
      pow_le_pow_right₀ (by norm_num) (by omega)
    omega

theorem details.absCompare_ge (lhs rhs : List Int) (i : Nat) (hl : Valid lhs) (hr : Valid rhs)
    (ht : Tight lhs) (h : 0 ≤ absCompare lhs rhs i) :
    rhs.length + i ≤ lhs.length ∧ digits_value rhs * 10 ^ i ≤ digits_value lhs ∧
      (rhs ≠ [] → ¬ Tight rhs → digits_value rhs * 10 ^ i < digits_value lhs) := by
  have hrb := hr.value_bound
  have hpi : (0 : Int) < 10 ^ i := by positivity
  unfold absCompare at h
  by_cases h1 : lhs.length < rhs.length + i
  · simp only [h1, if_true] at h
    omega
  · have hlen : rhs.length + i ≤ lhs.length := by omega
    refine ⟨hlen, ?_, ?_⟩
    · by_cases h2 : lhs.length > rhs.length + i
      · have h3 := ht.lower (rhs.length + i) (by omega)
        rw [pow_add] at h3
        have : digits_value rhs * 10 ^ i ≤ 10 ^ rhs.length * 10 ^ i :=
          mul_le_mul_of_nonneg_right hrb.2.le hpi.le
        linarith
      · have heq : lhs.length = rhs.length + i := by omega
        simp only [h1, if_false, h2] at h
        have hw := digits_window_bound (fun j => lhs.getD j 0) i (fun j _ => hl.getD _)
        rw [digits_value_split lhs rhs.length i heq, digits_value_eq_window rhs]
        rcases absCompare_loop_spec lhs rhs i hl hr rhs.length with ⟨e, _⟩ | ⟨_, c⟩ | ⟨_, c⟩
        · rw [e] at h
          omega
        · have := mul_le_mul_of_nonneg_left c.le hpi.le
          linarith
        · rw [c]
          linarith
    · intro hne hnt
      have hm : 1 ≤ rhs.length := List.length_pos.2 hne
      have hlt : digits_value rhs < 10 ^ (rhs.length - 1) := by
        by_contra hc
        exact hnt (Or.inr (by omega))
      have h3 := ht.lower (rhs.length - 1 + i) (by omega)
      rw [pow_add] at h3
      have : digits_value rhs * 10 ^ i < 10 ^ (rhs.length - 1) * 10 ^ i :=
        mul_lt_mul_of_pos_right hlt hpi
      linarith

theorem details.absCompare_lt (lhs rhs : List Int) (i : Nat) (hl : Valid lhs) (hr : Valid rhs)
    (hne : rhs ≠ []) (ht : Tight rhs) (h : absCompare lhs rhs i < 0) :
    digits_value lhs < digits_value rhs * 10 ^ i := by
  have hlb := hl.value_bound
  have hpi : (0 : Int) < 10 ^ i := by positivity
  have hm : 1 ≤ rhs.length := List.length_pos.2 hne
  unfold absCompare at h
  by_cases h1 : lhs.length < rhs.length + i
  · have h3 := ht.lower (rhs.length - 1) (by omega)
    have h4 : (10 : Int) ^ lhs.length ≤ 10 ^ (rhs.length - 1 + i) :=
      pow_le_pow_right₀ (by norm_num) (by omega)
    rw [pow_add] at h4
    have := mul_le_mul_of_nonneg_right h3 hpi.le
    linarith
  · by_cases h2 : lhs.length > rhs.length + i
    · simp only [h1, if_false, h2, if_true] at h
      omega
    · have heq : lhs.length = rhs.length + i := by omega
      simp only [h1, if_false, h2] at h
      have hw := digits_window_bound (fun j => lhs.getD j 0) i (fun j _ => hl.getD _)
      rw [digits_value_split lhs rhs.length i heq, digits_value_eq_window rhs]
      rcases absCompare_loop_spec lhs rhs i hl hr rhs.length with ⟨_, c⟩ | ⟨e, _⟩ | ⟨e, _⟩
      · have : 10 ^ i * (digits_window (fun j => lhs.getD (j + i) 0) rhs.length + 1)
            ≤ 10 ^ i * digits_window (fun j => rhs.getD j 0) rhs.length :=
          mul_le_mul_of_nonneg_left (by omega) hpi.le
        linarith
      · rw [e] at h
        omega
      · rw [e] at h
        omega

/-! ## `absSubstraction` -/

theorem set_facts (l : List Int) (k : Nat) (v : Int) (hk : k < l.length) :
    (l.set k v).length = l.length ∧ (l.set k v).getD k 0 = v ∧
      (∀ j, j ≠ k → (l.set k v).getD j 0 = l.getD j 0) ∧
      digits_value (l.set k v) = digits_value l + (v - l.getD k 0) * 10 ^ k := by
  refine ⟨List.length_set _ _ _, ?_, ?_, digits_value_set l k v hk⟩
  · rw [getD_set]
    simp [hk]
  · intro j hj
    rw [getD_set]
    simp [hj]

/-- The subtraction of one digit of `rhs`, before the borrow is looked at. -/
theorem details.absSubstraction_digit (rhs l : List Int) (i k : Nat) (hk : k < l.length)
    (hr : Valid rhs) (hd1 : -1 ≤ l.getD k 0) (hd2 : l.getD k 0 ≤ 9) :
    ∃ l1, (if i < rhs.length then l.set k (wrap_int (l.getD k 0 - rhs.getD i 0)) else l) = l1 ∧
      l1.length = l.length ∧ l1.getD k 0 = l.getD k 0 - rhs.getD i 0 ∧
      (∀ j, j ≠ k → l1.getD j 0 = l.getD j 0) ∧
      digits_value l1 = digits_value l - rhs.getD i 0 * 10 ^ k := by
  have hb := hr.getD i
  by_cases hi : i < rhs.length
  · obtain ⟨f1, f2, f3, f4⟩ := set_facts l k (l.getD k 0 - rhs.getD i 0) hk
    refine ⟨_, ?_, f1, f2, f3, ?_⟩
    · rw [if_pos hi, wrap_int_of_range _ (by omega) (by omega)]
    · rw [f4]
      ring
  · have hz : rhs.getD i 0 = 0 := List.getD_eq_default _ _ (by omega)
    refine ⟨l, ?_, rfl, ?_, fun _ _ => rfl, ?_⟩
    · rw [if_neg hi]
    · rw [hz]
      ring
    · rw [hz]
      ring

/-- The borrow: when the digit at `k` is negative, 10 is added to it and 1 is taken from
the next digit, which exists. -/
theorem details.absSubstraction_borrow (l1 : List Int) (k : Nat) (hk : k + 1 < l1.length)
    (hd1 : -10 ≤ l1.getD k 0) (hd2 : l1.getD k 0 < 0) (hn1 : 0 ≤ l1.getD (k + 1) 0)
    (hn2 : l1.getD (k + 1) 0 ≤ 9) :
    ∃ l2, (l1.set k (wrap_int (l1.getD k 0 + 10))).set (k + 1)
        (wrap_int (l1.getD (k + 1) 0 - 1)) = l2 ∧
      l2.length = l1.length ∧ l2.getD k 0 = l1.getD k 0 + 10 ∧
      l2.getD (k + 1) 0 = l1.getD (k + 1) 0 - 1 ∧
      (∀ j, j ≠ k → j ≠ k + 1 → l2.getD j 0 = l1.getD j 0) ∧
      digits_value l2 = digits_value l1 := by
  obtain ⟨f1, f2, f3, f4⟩ := set_facts l1 k (l1.getD k 0 + 10) (by omega)
  obtain ⟨g1, g2, g3, g4⟩ := set_facts (l1.set k (l1.getD k 0 + 10)) (k + 1)
    (l1.getD (k + 1) 0 - 1) (by omega)
  refine ⟨_, ?_, ?_, ?_, g2, ?_, ?_⟩
  · rw [wrap_int_of_range _ (by omega) (by omega), wrap_int_of_range _ (by omega) (by omega)]
  · rw [g1, f1]
  · rw [g3 k (by omega), f2]
  · intro j hj1 hj2
    rw [g3 j hj2, f3 j hj1]
  · rw [g4, f4, f3 (k + 1) (by omega), pow_succ]
    ring

theorem digits_window_shift_add (rhs : List Int) (i n : Nat) :
    digits_window (fun j => rhs.getD (j + i) 0) (n + 1)
      = rhs.getD i 0 + 10 * digits_window (fun j => rhs.getD (j + (i + 1)) 0) n := by
  rw [digits_window_shift]
  simp only [Nat.zero_add]
  rw [digits_window_congr (fun j => rhs.getD (j + 1 + i) 0)
    (fun j => rhs.getD (j + (i + 1)) 0) n
    (fun j _ => by
      show rhs.getD (j + 1 + i) 0 = rhs.getD (j + (i + 1)) 0
      rw [show j + 1 + i = j + (i + 1) by omega])]

theorem details.absSubstraction_loop_spec (rhs : List Int) (pos : Nat) (hr : Valid rhs) :
    ∀ (n i : Nat) (l : List Int), i + pos + n = l.length →
      (∀ j, j ≠ i + pos → 0 ≤ l.getD j 0 ∧ l.getD j 0 ≤ 9) →
      -1 ≤ l.getD (i + pos) 0 → l.getD (i + pos) 0 ≤ 9 →
      0 ≤ digits_value l - digits_window (fun j => rhs.getD (j + i) 0) n * 10 ^ (i + pos) →
      (absSubstraction_loop rhs pos n i l).length = l.length ∧
      Valid (absSubstraction_loop rhs pos n i l) ∧
      digits_value (absSubstraction_loop rhs pos n i l)
        = digits_value l - digits_window (fun j => rhs.getD (j + i) 0) n * 10 ^ (i + pos) := by
  intro n
  induction n with
  | zero =>
    intro i l hlen hv _ _ _
    refine ⟨rfl, ?_, ?_⟩
    · show Valid l
      apply Valid.of_getD
      intro j hj
      exact hv j (by omega)
    · simp [absSubstraction_loop, digits_window]
  | succ n ih =>
    intro i l hlen hv hd1 hd2 hval
    have hk : i + pos < l.length := by omega
    have hb := hr.getD i
    have hp : (0 : Int) < 10 ^ (i + pos) := by positivity
    obtain ⟨l1, e1, a1, a2, a3, a4⟩ := absSubstraction_digit rhs l i (i + pos) hk hr hd1 hd2
    have hw := digits_window_shift_add rhs i n
    have hwn := digits_window_bound (fun j => rhs.getD (j + (i + 1)) 0) n
      (fun j _ => hr.getD _)
    have hidx : i + 1 + pos = i + pos + 1 := by omega
    unfold absSubstraction_loop
    simp only [e1]
    by_cases hneg : l1.getD (i + pos) 0 < 0
    · simp only [hneg, if_true]
      have hk1 : i + pos + 1 < l1.length := by
        by_contra hc
        have hn0 : n = 0 := by omega
        have hlast : l.length - 1 = i + pos := by omega
        have hne : l ≠ [] := by
          intro h
          rw [h] at hk
          simp at hk
        have htop := digits_value_top l hne
        rw [hlast] at htop
        have hwl := digits_window_bound (fun j => l.getD j 0) (i + pos)
          (fun j hj => hv j (by omega))
        rw [hn0] at hval
        simp only [digits_window, Nat.zero_add, zero_add] at hval
        rw [a2] at hneg
        have : (l.getD (i + pos) 0 - rhs.getD i 0 + 1) * 10 ^ (i + pos) ≤ 0 :=
          mul_nonpos_of_nonpos_of_nonneg (by omega) hp.le
        linarith
      have hnext := hv (i + pos + 1) (by omega)
      obtain ⟨l2, e2, b1, b2, b3, b4, b5⟩ := absSubstraction_borrow l1 (i + pos) hk1
        (by rw [a2]; omega) hneg (by rw [a3 _ (by omega)]; exact hnext.1)
        (by rw [a3 _ (by omega)]; exact hnext.2)
      simp only [e2]
      have hrec := ih (i + 1) l2 (by omega)
        (by
          intro j hj
          by_cases hjk : j = i + pos
          · subst hjk
            rw [b2, a2]
            rw [a2] at hneg
            omega
          · rw [b4 j hjk (by omega), a3 j hjk]
            exact hv j hjk)
        (by rw [hidx, b3, a3 _ (by omega)]; omega)
        (by rw [hidx, b3, a3 _ (by omega)]; omega)
        (by
          rw [b5, a4, hidx, pow_succ]
          rw [hw] at hval
          linarith)
      refine ⟨by rw [hrec.1, b1, a1], hrec.2.1, ?_⟩
      rw [hrec.2.2, b5, a4, hidx, pow_succ, hw]
      ring
    · simp only [hneg, if_false]
      have hrec := ih (i + 1) l1 (by omega)
        (by
          intro j hj
          by_cases hjk : j = i + pos
          · subst hjk
            rw [a2]
            rw [a2] at hneg
            omega
          · rw [a3 j hjk]
            exact hv j hjk)
        (by rw [hidx, a3 _ (by omega)]; exact le_trans (by norm_num) (hv _ (by omega)).1)
        (by rw [hidx, a3 _ (by omega)]; exact (hv _ (by omega)).2)
        (by
          rw [a4, hidx, pow_succ]
          rw [hw] at hval
          linarith)
      refine ⟨by rw [hrec.1, a1], hrec.2.1, ?_⟩
      rw [hrec.2.2, a4, hidx, pow_succ, hw]
      ring

/-- What `absSubstraction` does when `rhs` shifted by `pos` digits is not more than `lhs`. -/
theorem details.absSubstraction_spec (lhs rhs : List Int) (pos : Nat) (hl : Valid lhs)
    (hr : Valid rhs) (hlen : rhs.length + pos ≤ lhs.length)
    (hle : digits_value rhs * 10 ^ pos ≤ digits_value lhs) :
    (absSubstraction lhs rhs pos).length = lhs.length ∧ Valid (absSubstraction lhs rhs pos) ∧
      digits_value (absSubstraction lhs rhs pos)
        = digits_value lhs - digits_value rhs * 10 ^ pos := by
  have hw : digits_window (fun j => rhs.getD (j + 0) 0) (lhs.length - pos)
      = digits_value rhs := digits_window_of_le rhs _ (by omega)
  have h := absSubstraction_loop_spec rhs pos hr (lhs.length - pos) 0 lhs (by omega)
    (fun j _ => hl.getD j) (le_trans (by norm_num) (hl.getD _).1) (hl.getD _).2
    (by rw [hw, Nat.zero_add]; linarith)
  rw [hw, Nat.zero_add] at h
  exact h

/-! ## `devide` -/

/-- One digit of the quotient: at most `n` subtractions of `rhs` shifted by `i` digits.
Either the loop was left by `break`, on a list without zeros in front, or all `n`
subtractions were made and the list is as the last subtraction left it. -/
theorem details.devide_digit_spec (rhs : List Int) (i : Nat) (hr : Valid rhs)
    (hne : rhs ≠ []) :
    ∀ (n : Nat) (lhs : List Int) (count : Int), Valid lhs → 0 ≤ count → count + n ≤ 9 →
      (n = 0 → rhs.length + i ≤ lhs.length ∧
        10 ^ (lhs.length - 1) ≤ digits_value lhs + digits_value rhs * 10 ^ i) →
      ∃ l c, devide_digit rhs i n lhs count = (l, c) ∧ Valid l ∧ count ≤ c ∧ c ≤ count + n ∧
        l.length ≤ lhs.length ∧
        digits_value l + (c - count) * (digits_value rhs * 10 ^ i) = digits_value lhs ∧
        ((Tight l ∧ (Tight rhs → digits_value l < digits_value rhs * 10 ^ i)) ∨
          (c = count + n ∧ rhs.length + i ≤ l.length ∧
            10 ^ (l.length - 1) ≤ digits_value l + digits_value rhs * 10 ^ i)) ∧
        (¬ Tight rhs → 1 ≤ digits_value lhs → 1 ≤ digits_value l) := by
  intro n
  induction n with
  | zero =>
    intro lhs count hl _ _ h0
    obtain ⟨p1, p2⟩ := h0 rfl
    refine ⟨lhs, count, rfl, hl, le_refl _, by simp, le_refl _, by simp, ?_, fun _ h => h⟩
    exact Or.inr ⟨by simp, p1, p2⟩
  | succ n ih =>
    intro lhs count hl hc0 hc9 _
    obtain ⟨z1, _, _, z4⟩ := removeZeros_spec lhs
    have hz : Valid (removeZeros lhs) := hl.valid_removeZeros
    have htz : Tight (removeZeros lhs) := Tight.tight_removeZeros hl
    unfold devide_digit
    by_cases hc : absCompare (removeZeros lhs) rhs i ≥ 0
    · simp only [hc, if_true]
      obtain ⟨g1, g2, g3⟩ := absCompare_ge (removeZeros lhs) rhs i hz hr htz hc
      obtain ⟨s1, s2, s3⟩ := absSubstraction_spec (removeZeros lhs) rhs i hz hr g1 g2
      have hw : wrap_int (count + 1) = count + 1 := wrap_int_of_range _ (by omega) (by omega)
      rw [hw]
      have hcast : ((n + 1 : Nat) : Int) = (n : Int) + 1 := by push_cast; ring
      rw [hcast] at hc9
      obtain ⟨l, c, e, r1, r2, r3, r4, r5, r6, r7⟩ :=
        ih (absSubstraction (removeZeros lhs) rhs i) (count + 1) s2 (by omega) (by omega)
          (by
            intro _
            refine ⟨by omega, ?_⟩
            rw [s3, s1]
            have hm : 1 ≤ rhs.length := List.length_pos.2 hne
            have := htz.lower ((removeZeros lhs).length - 1) (by omega)
            linarith)
      refine ⟨l, c, e, r1, by omega, by rw [hcast]; omega, by omega, ?_, ?_, ?_⟩
      · rw [s3, z1] at r5
        linarith
      · rcases r6 with h | ⟨h1, h2, h3⟩
        · exact Or.inl h
        · exact Or.inr ⟨by rw [h1, hcast]; ring, h2, h3⟩
      · intro hnt _
        apply r7 hnt
        have := g3 hne hnt
        rw [s3]
        omega
    · simp only [hc, if_false]
      refine ⟨removeZeros lhs, count, rfl, hz, le_refl _, by omega, z4, ?_, ?_, ?_⟩
      · rw [z1]
        ring
      · left
        exact ⟨htz, fun ht => absCompare_lt _ rhs i hz hr hne ht (by omega)⟩
      · intro _ h
        rw [z1]
        exact h

theorem details.devide_loop_spec (rhs : List Int) (hr : Valid rhs) (hne : rhs ≠ []) :
    ∀ (n : Nat) (lhs tmp : List Int), Valid lhs → n ≤ tmp.length →
      (n = 0 → Tight lhs ∨ (rhs.length ≤ lhs.length ∧
        10 ^ (lhs.length - 1) ≤ digits_value lhs + digits_value rhs ∧ tmp.getD 0 0 = 9)) →
      ∃ q l, devide_loop rhs n lhs tmp = (q, l) ∧ Valid l ∧ q.length = tmp.length ∧
        (∀ j, n ≤ j → q.getD j 0 = tmp.getD j 0) ∧
        (∀ j, j < n → 0 ≤ q.getD j 0 ∧ q.getD j 0 ≤ 9) ∧
        digits_value l + digits_window (fun j => q.getD j 0) n * digits_value rhs
          = digits_value lhs ∧
        (Tight l ∨ (rhs.length ≤ l.length ∧
          10 ^ (l.length - 1) ≤ digits_value l + digits_value rhs ∧ q.getD 0 0 = 9)) ∧
        (Tight rhs → digits_value lhs < digits_value rhs * 10 ^ n →
          digits_value l < digits_value rhs) ∧
        (¬ Tight rhs → 1 ≤ digits_value lhs → 1 ≤ digits_value l) := by
  intro n
  induction n with
  | zero =>
    intro lhs tmp hl _ h0
    refine ⟨tmp, lhs, rfl, hl, rfl, fun _ _ => rfl, fun j hj => by omega, ?_, h0 rfl, ?_,
      fun _ h => h⟩
    · simp [digits_window]
    · intro _ h
      simpa using h
  | succ n ih =>
    intro lhs tmp hl hn _
    obtain ⟨l1, c1, e1, d1, d2, d3, _, d5, d6, d7⟩ :=
      devide_digit_spec rhs n hr hne 9 lhs 0 hl (le_refl _) (by norm_num) (by omega)
    have hset := set_facts tmp n c1 (by omega)
    obtain ⟨q, l, e, r1, r2, r3, r4, r5, r6, r7, r8⟩ := ih l1 (tmp.set n c1) d1
      (by rw [hset.1]; omega)
      (by
        intro hn0
        subst hn0
        rcases d6 with ⟨h, _⟩ | ⟨h1, h2, h3⟩
        · exact Or.inl h
        · right
          refine ⟨by omega, by simpa using h3, ?_⟩
          rw [hset.2.1, h1]
          norm_num)
    have hqn : q.getD n 0 = c1 := by rw [r3 n (le_refl _), hset.2.1]
    refine ⟨q, l, ?_, r1, by rw [r2, hset.1], ?_, ?_, ?_, r6, ?_, ?_⟩
    · unfold devide_loop
      rw [e1]
      exact e
    · intro j hj
      rw [r3 j (by omega), hset.2.2.1 j (by omega)]
    · intro j hj
      by_cases hjn : j = n
      · subst hjn
        rw [hqn]
        omega
      · exact r4 j (by omega)
    · rw [digits_window_succ, hqn]
      simp only [sub_zero] at d5
      linarith
    · intro ht hlt
      apply r7 ht
      simp only [sub_zero] at d5
      rcases d6 with ⟨_, h⟩ | ⟨h1, _, _⟩
      · exact h ht
      · rw [h1] at d5
        rw [pow_succ] at hlt
        push_cast at d5
        linarith
    · intro hnt h1
      exact r8 hnt (d7 hnt h1)

theorem digits_value_ge_head (q : List Int) (hq : Valid q) : q.getD 0 0 ≤ digits_value q := by
  cases q with
  | nil => simp [digits_value]
  | cons d rest =>
    have hr : Valid rest := fun x hx => hq x (List.mem_cons_of_mem _ hx)
    have := hr.value_bound
    simp only [List.getD_cons_zero, digits_value_cons]
    omega

/-- What `devide` returns and what it leaves in `lhs`: the quotient digits `q` and the
remainder `r`. -/
theorem details.devide_spec (lhs rhs : List Int) (hl : Valid lhs) (hr : Valid rhs)
    (hne : rhs ≠ []) :
    ∃ q r, devide lhs rhs = (q, r) ∧ Valid q ∧ Valid r ∧
      digits_value r + digits_value q * digits_value rhs = digits_value lhs ∧
      (digits_value r = digits_value lhs → Tight r) ∧
      (Tight rhs → digits_value r < digits_value rhs) ∧
      (¬ Tight rhs → 1 ≤ digits_value lhs → 1 ≤ digits_value r) := by
  obtain ⟨q, r, e, r1, r2, _, r4, r5, r6, r7, r8⟩ :=
    devide_loop_spec rhs hr hne lhs.length lhs (List.replicate lhs.length 0) hl (by simp)
      (by
        intro h0
        exact Or.inl (Or.inl (List.length_eq_zero.1 h0)))
  have hqlen : q.length = lhs.length := by simpa using r2
  have hq : Valid q := by
    apply Valid.of_getD
    intro j hj
    exact r4 j (by omega)
  have hqv : digits_window (fun j => q.getD j 0) lhs.length = digits_value q := by
    rw [digits_value_eq_window, hqlen]
  rw [hqv] at r5
  refine ⟨q, r, e, hq, r1, r5, ?_, ?_, r8⟩
  · intro hsame
    rcases r6 with h | ⟨_, h2, h3⟩
    · exact h
    · right
      have h9 := digits_value_ge_head q hq
      rw [h3] at h9
      have hy := hr.value_bound.1
      have hz : digits_value q * digits_value rhs = 0 := by linarith
      rcases mul_eq_zero.1 hz with h | h
      · omega
      · rw [h] at h2
        simpa using h2
  · intro ht
    apply r7 ht
    have h1 := ht.pos hne
    have h2 := hl.value_bound.2
    have hp : (0 : Int) < 10 ^ lhs.length := by positivity
    have := mul_le_mul_of_nonneg_right h1 hp.le
    linarith

/-! ## `operator%=` and `gcd` -/

theorem int_gcd_step (x y r k : Int) (hx : r + k * y = x) : Int.gcd y r = Int.gcd x y := by
  apply Nat.dvd_antisymm
  · apply Int.natCast_dvd_natCast.1
    apply Int.dvd_gcd
    · rw [← hx]
      exact dvd_add (Int.gcd_dvd_right) (Dvd.dvd.mul_left (Int.gcd_dvd_left) k)
    · exact Int.gcd_dvd_left
  · apply Int.natCast_dvd_natCast.1
    apply Int.dvd_gcd
    · exact Int.gcd_dvd_right
    · have hr : r = x - k * y := by linarith
      rw [hr]
      exact dvd_sub (Int.gcd_dvd_left) (Dvd.dvd.mul_left (Int.gcd_dvd_right) k)

/-- What `tmp_lhs %= tmp_rhs` leaves in `tmp_lhs` inside the loop of `gcd`, where both
`sign_` are 1. -/
theorem BigInteger.mod_assign_spec (X Y : List Int) (hX : Valid X) (hY : Valid Y)
    (hne : Y ≠ []) :
    ∃ R q, BigInteger.mod_assign ⟨1, X⟩ ⟨1, Y⟩ = Except.ok ⟨1, R⟩ ∧ Valid R ∧ 0 ≤ q ∧
      digits_value R + q * digits_value Y = digits_value X ∧
      (digits_value R = digits_value X → Tight R) ∧
      (Tight Y → digits_value R < digits_value Y) ∧
      (¬ Tight Y → 1 ≤ digits_value X → 1 ≤ digits_value R) := by
  obtain ⟨q, r, e, hq, hr, h1, h2, h3, h4⟩ := devide_spec X Y hX hY hne
  refine ⟨r, digits_value q, ?_, hr, hq.value_bound.1, h1, h2, h3, h4⟩
  unfold BigInteger.mod_assign BigInteger.toBool
  have hemp : Y.isEmpty = false := by
    cases Y with
    | nil => exact absurd rfl hne
    | cons _ _ => rfl
  simp only [hemp, Bool.not_false, Bool.not_true, Bool.false_eq_true, if_false, e]
  have hw : wrap_int (1 * 1) = 1 := by decide
  simp only [hw, ite_self]

theorem gcd_loop_spec : ∀ (fuel : Nat) (X Y : List Int) (c : Int), Valid X → Valid Y →
    (1 ≤ digits_value X ∨ Tight Y) → (Y = [] → Tight X) → 0 ≤ c → (¬ Tight Y → 2 ≤ c) →
    (digits_value X < digits_value Y → 1 ≤ c) →
    3 * (digits_value X + digits_value Y) + c < fuel →
    ∃ G, gcd_loop fuel ⟨1, X⟩ ⟨1, Y⟩ = Except.ok ⟨1, G⟩ ∧ Valid G ∧ Tight G ∧
      digits_value G = Int.gcd (digits_value X) (digits_value Y) := by
  intro fuel
  induction fuel with
  | zero =>
    intro X Y c hX hY _ _ hc _ _ hfuel
    have := hX.value_bound.1
    have := hY.value_bound.1
    simp only [Nat.cast_zero] at hfuel
    omega
  | succ fuel ih =>
    intro X Y c hX hY hJ1 hJ2 hc hc2 hc1 hfuel
    have hx0 := hX.value_bound.1
    have hy0 := hY.value_bound.1
    by_cases hne : Y = []
    · subst hne
      refine ⟨X, ?_, hX, hJ2 rfl, ?_⟩
      · simp [gcd_loop, BigInteger.toBool]
      · rw [digits_value_nil, Int.gcd_zero_right]
        omega
    · obtain ⟨R, q, e, hR, hq, h1, h2, h3, h4⟩ := BigInteger.mod_assign_spec X Y hX hY hne
      have hr0 := hR.value_bound.1
      have hemp : Y.isEmpty = false := by
        cases Y with
        | nil => exact absurd rfl hne
        | cons _ _ => rfl
      have hstep : gcd_loop (fuel + 1) ⟨1, X⟩ ⟨1, Y⟩ = gcd_loop fuel ⟨1, Y⟩ ⟨1, R⟩ := by
        rw [gcd_loop]
        simp only [BigInteger.toBool, hemp, Bool.not_false, if_true, e]
      have hqy : 0 ≤ q * digits_value Y := mul_nonneg hq hy0
      have hgcd : Int.gcd (digits_value Y) (digits_value R)
          = Int.gcd (digits_value X) (digits_value Y) :=
        int_gcd_step _ _ _ q h1
      have hJ1n : 1 ≤ digits_value Y ∨ Tight R := by
        by_cases hy : digits_value Y = 0
        · right
          apply h2
          rw [hy] at h1
          linarith
        · left
          omega
      have hJ2n : R = [] → Tight Y := by
        intro hRnil
        by_contra hnt
        rcases hJ1 with hx1 | ht
        · have := h4 hnt hx1
          rw [hRnil, digits_value_nil] at this
          omega
        · exact hnt ht
      have hcast : ((fuel + 1 : Nat) : Int) = (fuel : Int) + 1 := by push_cast; ring
      rw [hcast] at hfuel
      rw [hstep, ← hgcd]
      by_cases hprog : q * digits_value Y = 0
      · have hrx : digits_value R = digits_value X := by linarith
        have hTR : Tight R := h2 hrx
        by_cases hTY : Tight Y
        · have hlt := h3 hTY
          have hc1' := hc1 (by omega)
          exact ih Y R 0 hY hR hJ1n hJ2n (le_refl _) (fun h => absurd hTR h)
            (fun h => by omega) (by omega)
        · have hc2' := hc2 hTY
          exact ih Y R 1 hY hR hJ1n hJ2n (by norm_num) (fun h => absurd hTR h)
            (fun _ => le_refl _) (by omega)
      · have hpos : 1 ≤ q * digits_value Y := by omega
        exact ih Y R 2 hY hR hJ1n hJ2n (by norm_num) (fun _ => le_refl _)
          (fun _ => by norm_num) (by omega)

/-! ## `abs`, `gcd`, `operator/=` by a positive divisor, and multiplication by -1 -/

theorem BigInteger.canonical_cases (a : BigInteger) (ha : a.canonical = true) :
    Valid a.number_ ∧ Tight a.number_ ∧ a.number_.getLast? ≠ some 0 ∧
      ((a.sign_ = 1 ∧ a.toInt = digits_value a.number_) ∨
        (a.sign_ = -1 ∧ a.number_ ≠ [] ∧ a.toInt = -digits_value a.number_)) := by
  rw [BigInteger.canonical_iff] at ha
  obtain ⟨h1, h2, h3⟩ := ha
  refine ⟨h1, Tight.of_last h1 h2, h2, ?_⟩
  unfold BigInteger.toInt
  rcases h3 with h | ⟨h, hne⟩
  · left
    rw [h]
    exact ⟨rfl, by ring⟩
  · right
    rw [h]
    exact ⟨rfl, hne, by ring⟩

theorem BigInteger.lt_zero_canonical (a : BigInteger) (ha : a.canonical = true) :
    operator_lt a (BigInteger.ctor_int 0) = decide (a.sign_ = -1) := by
  obtain ⟨_, _, _, h⟩ := a.canonical_cases ha
  have hzero : BigInteger.ctor_int 0 = ⟨1, []⟩ := by decide
  have hw : wrap_int 0 = 0 := by decide
  rw [hzero]
  cases a with
  | mk sign number =>
    rcases h with ⟨hs, _⟩ | ⟨hs, hne, _⟩
    · simp only at hs
      subst hs
      cases number with
      | nil => simp [operator_lt, BigInteger.less, operator_eq, BigInteger.compare]
      | cons d rest =>
        simp [operator_lt, BigInteger.less, operator_eq, BigInteger.compare, absCompare_self, hw]
    · simp only at hs hne
      subst hs
      cases number with
      | nil => exact absurd rfl hne
      | cons d rest =>
        simp [operator_lt, BigInteger.less, operator_eq, BigInteger.compare]

theorem abs_canonical (a : BigInteger) (ha : a.canonical = true) :
    abs a = ⟨1, a.number_⟩ ∧ digits_value a.number_ = |a.toInt| ∧
      Int.gcd (digits_value a.number_) = Int.gcd a.toInt := by
  obtain ⟨hv, _, _, h⟩ := a.canonical_cases ha
  have hnn := hv.value_bound.1
  unfold abs
  rw [a.lt_zero_canonical ha]
  cases a with
  | mk sign number =>
    rcases h with ⟨hs, ht⟩ | ⟨hs, hne, ht⟩
    · simp only at hs ht hnn
      subst hs
      refine ⟨by simp, ?_, ?_⟩
      · rw [ht, abs_of_nonneg hnn]
      · rw [ht]
    · simp only at hs hne ht hnn
      subst hs
      have hemp : number.isEmpty = false := by
        cases number with
        | nil => exact absurd rfl hne
        | cons _ _ => rfl
      have hw : wrap_int 1 = 1 := by decide
      refine ⟨?_, ?_, ?_⟩
      · simp [BigInteger.neg, BigInteger.toBool, hemp, hw]
      · rw [ht, abs_neg, abs_of_nonneg hnn]
      · rw [ht]
        funext y
        simp

/-- The loop of `gcd` returns within `3 * (|a| + |b|) + 3` iterations. -/
theorem gcd_spec (a b : BigInteger) (ha : a.canonical = true) (hb : b.canonical = true)
    (fuel : Nat) (hfuel : 3 * (a.toInt.natAbs + b.toInt.natAbs) + 3 ≤ fuel) :
    ∃ G, gcd fuel a b = Except.ok ⟨1, G⟩ ∧ Valid G ∧ Tight G ∧
      digits_value G = Int.gcd a.toInt b.toInt := by
  obtain ⟨a1, a2, a3⟩ := abs_canonical a ha
  obtain ⟨b1, b2, b3⟩ := abs_canonical b hb
  obtain ⟨hva, hta, _, _⟩ := a.canonical_cases ha
  obtain ⟨hvb, htb, _, _⟩ := b.canonical_cases hb
  have hfuel2 : 3 * (digits_value a.number_ + digits_value b.number_) + 2 < fuel := by
    rw [a2, b2]
    have h1 : (a.toInt.natAbs : Int) = |a.toInt| := Int.natCast_natAbs _
    have h2 : (b.toInt.natAbs : Int) = |b.toInt| := Int.natCast_natAbs _
    rw [← h1, ← h2]
    have : ((3 * (a.toInt.natAbs + b.toInt.natAbs) + 3 : Nat) : Int) ≤ fuel := by
      exact_mod_cast hfuel
    push_cast at this
    omega
  obtain ⟨G, e, g1, g2, g3⟩ := gcd_loop_spec fuel a.number_ b.number_ 2 hva hvb
    (Or.inr htb) (fun _ => hta) (by norm_num) (fun _ => le_refl _) (fun _ => by norm_num) hfuel2
  refine ⟨G, ?_, g1, g2, ?_⟩
  · unfold gcd
    rw [a1, b1]
    exact e
  · rw [g3, a3, Int.gcd_comm a.toInt, b3, Int.gcd_comm b.toInt]

/-- Division by a positive divisor that divides the dividend exactly. -/
theorem BigInteger.div_assign_spec (a : BigInteger) (ha : a.canonical = true) (G : List Int)
    (hG : Valid G) (hne : G ≠ []) (ht : Tight G) (hdvd : digits_value G ∣ a.toInt) :
    ∃ n, a.div_assign ⟨1, G⟩ = Except.ok n ∧ n.canonical = true ∧
      n.toInt * digits_value G = a.toInt := by
  obtain ⟨hv, _, _, h⟩ := a.canonical_cases ha
  obtain ⟨q, r, e, hq, hr, h1, _, h3, _⟩ := devide_spec a.number_ G hv hG hne
  have hlt := h3 ht
  have hr0 := hr.value_bound.1
  have hg1 := ht.pos hne
  obtain ⟨z1, _, z3, _⟩ := removeZeros_spec q
  have hdvdx : digits_value G ∣ digits_value a.number_ := by
    rcases h with ⟨_, e⟩ | ⟨_, _, e⟩
    · rw [← e]
      exact hdvd
    · have := (Int.dvd_neg).2 hdvd
      rw [e, neg_neg] at this
      exact this
  have hrz : digits_value r = 0 := by
    have hd : digits_value G ∣ digits_value r := by
      have : digits_value r = digits_value a.number_ - digits_value q * digits_value G := by
        linarith
      rw [this]
      exact dvd_sub hdvdx (Dvd.intro_left _ rfl)
    exact Int.eq_zero_of_dvd_of_nonneg_of_lt hr0 hlt hd
  have hqx : digits_value q * digits_value G = digits_value a.number_ := by linarith
  have hemp : G.isEmpty = false := by
    cases G with
    | nil => exact absurd rfl hne
    | cons _ _ => rfl
  have heq : a.div_assign ⟨1, G⟩ = Except.ok
      ⟨if (removeZeros q).isEmpty then 1 else wrap_int (a.sign_ * 1), removeZeros q⟩ := by
    unfold BigInteger.div_assign BigInteger.toBool
    simp only [hemp, Bool.not_false, Bool.not_true, Bool.false_eq_true, if_false, e]
  refine ⟨_, heq, ?_, ?_⟩
  · rw [BigInteger.canonical_iff]
    refine ⟨hq.valid_removeZeros, z3, ?_⟩
    by_cases hz : (removeZeros q).isEmpty = true
    · left
      simp only [hz, if_true]
    · simp only [hz, if_false]
      have hne2 : removeZeros q ≠ [] := by
        intro h0
        apply hz
        rw [h0]
        rfl
      rcases h with ⟨hs, _⟩ | ⟨hs, _, _⟩
      · left
        rw [hs]
        decide
      · right
        rw [hs]
        exact ⟨by decide, hne2⟩
  · unfold BigInteger.toInt
    simp only []
    rw [z1]
    by_cases hz : (removeZeros q).isEmpty = true
    · have hq0 : digits_value q = 0 := by
        rw [← z1, List.isEmpty_iff.1 hz]
        rfl
      rw [hq0] at hqx
      rw [hq0, ← hqx]
      ring
    · rw [if_neg hz]
      rcases h with ⟨hs, _⟩ | ⟨hs, _, _⟩
      · rw [hs, show wrap_int (1 * 1) = 1 by decide, ← hqx]
        ring
      · rw [hs, show wrap_int (-1 * 1) = -1 by decide, ← hqx]
        ring

theorem details.carry_zero_valid (l : List Int) (hl : Valid l) : carry 0 l = l := by
  induction l with
  | nil => simp [carry, carry_tail]
  | cons d rest ih =>
    have hd := hl d (List.mem_cons_self _ _)
    have hw : wrap_int (0 + d) = d := by
      rw [Int.zero_add]
      exact wrap_int_of_range _ (by omega) (by omega)
    unfold carry
    rw [hw, Int.tmod_eq_emod hd.1 (by decide), Int.tdiv_eq_ediv hd.1 (by decide)]
    have h1 : d % 10 = d := by omega
    have h2 : d / 10 = 0 := by omega
    rw [h1, h2, ih (fun x hx => hl x (List.mem_cons_of_mem _ hx))]

theorem details.multiply_row_one (xs : List Int) (hx : Valid xs) : ∀ (pre : List Int),
    multiply_row 0 1 xs pre.length (pre ++ List.replicate (xs.length + 1) 0)
      = Except.ok (pre ++ xs ++ [0]) := by
  induction xs with
  | nil =>
    intro pre
    simp [multiply_row]
  | cons x rest ih =>
    intro pre
    have hd := hx x (List.mem_cons_self _ _)
    have hw1 : wrap_int (x * 1) = x := by
      rw [Int.mul_one]
      exact wrap_int_of_range _ (by omega) (by omega)
    have hw2 : wrap_int (0 + x) = x := by
      rw [Int.zero_add]
      exact wrap_int_of_range _ (by omega) (by omega)
    have hget : (pre ++ List.replicate (rest.length + 1 + 1) 0).getD (pre.length + 0) 0 = 0 := by
      rw [List.getD_append_right _ _ _ _ (Nat.le_add_right _ _)]
      simp [List.replicate_succ]
    have hset : (pre ++ List.replicate (rest.length + 1 + 1) (0 : Int)).set (pre.length + 0) x
        = (pre ++ [x]) ++ List.replicate (rest.length + 1) 0 := by
      rw [List.set_append_right _ _ (Nat.le_add_right _ _)]
      simp [List.replicate_succ]
    have hlen : pre.length + 0 < (pre ++ List.replicate (rest.length + 1 + 1) (0 : Int)).length := by
      simp
    unfold multiply_row
    simp only [List.length_cons]
    rw [if_pos hlen, hget, hw1, hw2, hset]
    have := ih (fun d hd => hx d (List.mem_cons_of_mem _ hd)) (pre ++ [x])
    simp only [List.length_append, List.length_singleton] at this
    rw [this]
    simp

/-- Multiplication by -1, as `reduction` uses it. -/
theorem BigInteger.mul_neg_one (a : BigInteger) (ha : a.canonical = true) :
    ∃ m, a.mul_assign (BigInteger.ctor_int (-1)) = Except.ok m ∧ m.canonical = true ∧
      m.toInt = -a.toInt := by
  obtain ⟨hv, _, hlast, h⟩ := a.canonical_cases ha
  have hzero : BigInteger.ctor_int 0 = ⟨1, []⟩ := by decide
  have hminus : BigInteger.ctor_int (-1) = ⟨-1, [1]⟩ := by decide
  cases a with
  | mk sign number =>
    simp only at hv hlast h
    cases number with
    | nil =>
      refine ⟨⟨sign, []⟩, ?_, ha, ?_⟩
      · simp [BigInteger.mul_assign, operator_eq, BigInteger.compare, hzero]
      · simp [BigInteger.toInt, digits_value]
    | cons d rest =>
      have hrow := multiply_row_one (d :: rest) hv []
      simp only [List.length_nil, List.nil_append, List.length_cons] at hrow
      have hmax : max (rest.length + 1) 1 = rest.length + 1 := by omega
      have heq : BigInteger.mul_assign ⟨sign, d :: rest⟩ (BigInteger.ctor_int (-1))
          = Except.ok ⟨wrap_int (sign * -1), d :: rest⟩ := by
        have hv2 : Valid ((d :: rest) ++ [0]) := by
          intro x hx2
          rcases List.mem_append.1 hx2 with h | h
          · exact hv x h
          · rw [List.mem_singleton.1 h]
            omega
        have hbase : removeZeros (toBase10 ((d :: rest) ++ [0])) = d :: rest := by
          unfold toBase10
          rw [carry_zero_valid _ hv2, removeZeros_append]
          simp only [if_true]
          exact removeZeros_of_last _ hlast
        have he1 : operator_eq ⟨sign, d :: rest⟩ ⟨1, []⟩ = false := by
          simp [operator_eq, BigInteger.compare]
        have he2 : operator_eq ⟨-1, [1]⟩ ⟨1, []⟩ = false := by decide
        unfold BigInteger.mul_assign
        rw [hzero, hminus, he1, he2]
        simp only [Bool.false_eq_true, if_false, List.length_cons, List.length_nil,
          Nat.zero_add, hmax, multiply_rows, hrow]
        rw [hbase]
      refine ⟨_, heq, ?_, ?_⟩
      · rw [BigInteger.canonical_iff]
        refine ⟨hv, hlast, ?_⟩
        rcases h with ⟨hs, _⟩ | ⟨hs, _, _⟩
        · right
          rw [hs]
          exact ⟨show wrap_int (1 * -1) = -1 by decide, by simp⟩
        · left
          rw [hs]
          show wrap_int (-1 * -1) = 1
          decide
      · unfold BigInteger.toInt
        rcases h with ⟨hs, _⟩ | ⟨hs, _, _⟩
        · rw [hs, show wrap_int (1 * -1) = -1 by decide]
          ring
        · rw [hs, show wrap_int (-1 * -1) = 1 by decide]
          ring

/-! ## `reduction` and the constructor of `Rational` -/

theorem details.reduction_spec (num denom : BigInteger) (hn : num.canonical = true)
    (hd : denom.canonical = true) (hz : denom.toInt ≠ 0) (fuel : Nat)
    (hfuel : 3 * (num.toInt.natAbs + denom.toInt.natAbs) + 3 ≤ fuel) :
    ∃ n d, reduction fuel num denom = Except.ok (n, d) ∧ n.canonical = true ∧
      d.canonical = true ∧ 0 < d.toInt ∧ Int.gcd n.toInt d.toInt = 1 ∧
      n.toInt * denom.toInt = num.toInt * d.toInt := by
  obtain ⟨G, eg, g1, g2, g3⟩ := gcd_spec num denom hn hd fuel hfuel
  have hgpos : 0 < Int.gcd num.toInt denom.toInt := Int.gcd_pos_of_ne_zero_right _ hz
  have hg1 : 1 ≤ digits_value G := by
    rw [g3]
    exact_mod_cast hgpos
  have hne : G ≠ [] := by
    intro h
    rw [h, digits_value_nil] at hg1
    omega
  obtain ⟨n, en, n1, n2⟩ := num.div_assign_spec hn G g1 hne g2
    (by rw [g3]; exact Int.gcd_dvd_left)
  obtain ⟨d, ed, d1, d2⟩ := denom.div_assign_spec hd G g1 hne g2
    (by rw [g3]; exact Int.gcd_dvd_right)
  have hd0 : d.toInt ≠ 0 := by
    intro h
    rw [h, zero_mul] at d2
    exact hz d2.symm
  have hcross : n.toInt * denom.toInt = num.toInt * d.toInt := by
    rw [← n2, ← d2]
    ring
  have hcop : Int.gcd n.toInt d.toInt = 1 := by
    have h1 : Int.gcd num.toInt denom.toInt
        = Int.gcd n.toInt d.toInt * (digits_value G).natAbs := by
      rw [← Int.gcd_mul_right, n2, d2]
    have h2 : (digits_value G).natAbs = Int.gcd num.toInt denom.toInt := by
      rw [g3]
      exact Int.natAbs_ofNat _
    rw [h2] at h1
    have h3 : Int.gcd n.toInt d.toInt * Int.gcd num.toInt denom.toInt
        = 1 * Int.gcd num.toInt denom.toInt := by
      rw [Nat.one_mul]
      exact h1.symm
    exact Nat.eq_of_mul_eq_mul_right hgpos h3
  obtain ⟨_, _, _, hdc⟩ := d.canonical_cases d1
  have hdv := (d.canonical_cases d1).1.value_bound.1
  have hlt := d.lt_zero_canonical d1
  by_cases hsd : d.sign_ = -1
  · obtain ⟨n3, en3, n4, n5⟩ := n.mul_neg_one n1
    obtain ⟨d3, ed3, d4, d5⟩ := d.mul_neg_one d1
    refine ⟨n3, d3, ?_, n4, d4, ?_, ?_, ?_⟩
    · unfold reduction
      simp only [eg, en, ed, hlt, hsd, decide_True, if_true, en3, ed3]
    · rw [d5]
      rcases hdc with ⟨hs, _⟩ | ⟨_, _, ht⟩
      · rw [hs] at hsd
        exact absurd hsd (by decide)
      · omega
    · rw [n5, d5, Int.neg_gcd, Int.gcd_neg]
      exact hcop
    · rw [n5, d5]
      linarith
  · refine ⟨n, d, ?_, n1, d1, ?_, hcop, hcross⟩
    · unfold reduction
      simp only [eg, en, ed, hlt, hsd, decide_False, Bool.false_eq_true, if_false]
    · rcases hdc with ⟨_, ht⟩ | ⟨hs, _, _⟩
      · omega
      · exact absurd hs hsd

/-- For `BigInteger`s `num` and `denom` in canonical form, the loop of `gcd` returns
within `3 * (|num| + |denom|) + 3` iterations a canonical `BigInteger` that denotes the
greatest common divisor of `|num|` and `|denom|`; and when `denom` is not zero the
constructor `Rational(num, denom)` throws nothing and stores a canonical numerator and
denominator whose greatest common divisor is 1, with a denominator above 0, denoting the
same rational number as `num / denom`. -/
theorem Rational.ctor_canonical (num denom : BigInteger) (hn : num.canonical = true)
    (hd : denom.canonical = true) (fuel : Nat)
    (hfuel : 3 * (num.toInt.natAbs + denom.toInt.natAbs) + 3 ≤ fuel) :
    (∃ g, gcd fuel num denom = Except.ok g ∧ g.canonical = true ∧
      g.toInt = Nat.gcd num.toInt.natAbs denom.toInt.natAbs) ∧
    (denom.toInt ≠ 0 →
      ∃ r, Rational.ctor fuel num denom = Except.ok r ∧ r.num_.canonical = true ∧
        r.demon_.canonical = true ∧ 0 < r.demon_.toInt ∧
        Nat.gcd r.num_.toInt.natAbs r.demon_.toInt.natAbs = 1 ∧
        r.num_.toInt * denom.toInt = num.toInt * r.demon_.toInt) := by
  constructor
  · obtain ⟨G, eg, g1, g2, g3⟩ := gcd_spec num denom hn hd fuel hfuel
    refine ⟨⟨1, G⟩, eg, ?_, ?_⟩
    · rw [BigInteger.canonical_iff]
      exact ⟨g1, Tight.last g1 g2, Or.inl rfl⟩
    · show (1 : Int) * digits_value G = _
      rw [g3, one_mul]
      rfl
  · intro hz
    obtain ⟨n, d, e, n1, d1, h1, h2, h3⟩ := reduction_spec num denom hn hd hz fuel hfuel
    refine ⟨⟨n, d⟩, ?_, n1, d1, h1, h2, h3⟩
    unfold Rational.ctor
    rw [e]

/-! ## The claim C37 -/

/-- C37: `82 % 9` is computed from canonical operands and leaves the digits `[1, 0]`: it
denotes 1, with a zero as most significant digit.  With it as denominator and 0 as
numerator, `gcd` returns the denominator as it is, `denom /= tmp_gcd` compares the cleaned
dividend `[1]` with the two digits of the divisor, finds it shorter and returns 0: the
constructor of `Rational` stores the denominator 0, whatever the number of iterations
allowed. -/
theorem C37_remainder_as_denominator_gives_zero_denominator :
    (BigInteger.ctor_int 82).canonical = true ∧ (BigInteger.ctor_int 9).canonical = true ∧
    operator_mod (BigInteger.ctor_int 82) (BigInteger.ctor_int 9)
      = Except.ok { sign_ := 1, number_ := [1, 0] } ∧
    BigInteger.toInt { sign_ := 1, number_ := [1, 0] } = 1 ∧
    (∀ fuel, gcd (fuel + 2) (BigInteger.ctor_int 0) { sign_ := 1, number_ := [1, 0] }
      = Except.ok { sign_ := 1, number_ := [1, 0] }) ∧
    (∀ fuel, Rational.ctor (fuel + 2) (BigInteger.ctor_int 0) { sign_ := 1, number_ := [1, 0] }
      = Except.ok { num_ := BigInteger.ctor_int 0, demon_ := BigInteger.ctor_int 0 }) ∧
    (BigInteger.ctor_int 0).toInt = 0 := by
  refine ⟨by decide, by decide, rfl, by decide, fun fuel => rfl, fun fuel => rfl, by decide⟩

end big_integer
